import Mathlib

/-!
# dYdX v4 protocol: matching pipeline and price engine

A shallow embedding of
* `x/clob/keeper/process_single_match.go`: `ProcessSingleMatch`,
  `persistMatchedOrders`, `setOrderFillAmountsAndPruning` and
  `getUpdatedOrderFillAmount` (namespace `Clob`);
* `x/clob/types/price_to_subticks.go`: `PriceToSubticks` (namespace `Clob`);
* `x/prices/keeper/util.go`: the predicates of the price update rule
  (namespace `Prices`).

Conventions:
* `*big.Int` values are `Int`, `*big.Rat` values are `ℚ`; `uint32` / `uint64`
  values are `Nat` and `int32` values are `Int`, with an explicit wraparound
  wherever the Go code performs machine arithmetic or a narrowing conversion.
* The keeper's collaborators that live outside the embedded sources (state
  reads, the subaccounts keeper, the indexer) are fields of `Keeper`; every
  theorem quantifies over all of them.
* Calls that may write state are recorded, in program order, in the `calls`
  trace of a `Run`; a Go panic is `Outcome.panic`.
-/

namespace Clob

/-! ## Data model -/

/-- Mirror of `satypes.SubaccountId`. -/
structure SubaccountId where
  Owner : String
  Number : Nat
deriving DecidableEq, Repr

/-- Mirror of `types.OrderId`. -/
structure OrderId where
  SubaccountId : SubaccountId
  ClientId : Nat
  OrderFlags : Nat
  ClobPairId : Nat
deriving DecidableEq, Repr

/-- Mirror of the `GoodTilOneof` field of `types.Order`: a short-term order
carries a block height, a stateful order a unix time. -/
inductive GoodTilOneof where
  | GoodTilBlock (height : Nat)
  | GoodTilBlockTime (time : Nat)
deriving DecidableEq, Repr

/-- Mirror of `types.Order_Side`. -/
inductive Side where
  | BUY
  | SELL
deriving DecidableEq, Repr

/-- Mirror of `types.Order` (the fields the matching pipeline reads). -/
structure Order where
  OrderId : OrderId
  Side : Side
  Quantums : Nat
  Subticks : Nat
  GoodTilOneof : GoodTilOneof
deriving DecidableEq, Repr

/-- Mirror of `types.LiquidationOrder`, the synthesized taker of a liquidation. -/
structure LiquidationOrder where
  Liquidated : SubaccountId
  PerpetualId : Nat
  ClobPairId : Nat
  IsBuy : Bool
  Quantums : Nat
  Subticks : Nat
deriving DecidableEq, Repr

/-- Mirror of the `types.MatchableOrder` interface: a standing order or a
liquidation order. -/
inductive MatchableOrder where
  | order (o : Order)
  | liquidation (l : LiquidationOrder)
deriving DecidableEq, Repr

/-- Mirror of `types.MatchWithOrders`. -/
structure MatchWithOrders where
  TakerOrder : MatchableOrder
  MakerOrder : MatchableOrder
  FillAmount : Nat
deriving DecidableEq, Repr

/-- Mirror of the `Metadata` oneof of `types.ClobPair`. -/
inductive ClobPairMetadata where
  | PerpetualClobMetadata (PerpetualId : Nat)
  | SpotClobMetadata
deriving DecidableEq, Repr

/-- Mirror of `types.ClobPair`. -/
structure ClobPair where
  Id : Nat
  Metadata : ClobPairMetadata
  StepBaseQuantums : Nat
  MinOrderBaseQuantums : Nat
  SubticksPerTick : Nat
  QuantumConversionExponent : Int
  MakerFeePpm : Nat
  TakerFeePpm : Nat
deriving DecidableEq, Repr

/-- Mirror of `satypes.UpdateResult`. -/
inductive UpdateResult where
  | Success
  | NewlyUndercollateralized
  | StillUndercollateralized
  | WithdrawalsAndTransfersBlocked
  | UpdateCausedError
deriving DecidableEq, Repr

/-- The zero value of `satypes.UpdateResult`, which is what an unassigned named
return value holds. -/
instance : Inhabited UpdateResult := ⟨UpdateResult.Success⟩

/-- Errors returned by the pipeline. `Wrapf` keeps the registered error and
only adds a message, so a wrapped error is represented by its root;
`collaborator` is an error produced outside the embedded sources. -/
inductive Error where
  | ErrInvalidClob
  | ErrFillAmountNotDivisibleByStepSize
  | ErrInvalidMsgProposedOperations
  | ErrSubaccountFeeTransferFailed
  | ErrFailedToUpdateSubaccounts
  | ErrAssetOrdersNotImplemented
  | ErrInvalidPerpetualPositionSizeDelta
  /-- The status `LiquidationRequiresDeleveraging`, as the error that aborts a match. -/
  | LiquidationRequiresDeleveraging
  | collaborator (code : Nat)
deriving DecidableEq, Repr

/-- Mirror of `satypes.AssetUpdate`. -/
structure AssetUpdate where
  AssetId : Nat
  BigQuantumsDelta : Int
deriving DecidableEq, Repr

/-- Mirror of `satypes.PerpetualUpdate`. -/
structure PerpetualUpdate where
  PerpetualId : Nat
  BigQuantumsDelta : Int
deriving DecidableEq, Repr

/-- Mirror of `satypes.Update`. -/
structure Update where
  AssetUpdates : List AssetUpdate
  PerpetualUpdates : List PerpetualUpdate
  SubaccountId : SubaccountId
deriving DecidableEq, Repr

/-- Mirror of `msgsender.Message`. -/
structure Message where
  Key : List Nat
  Value : List Nat
deriving DecidableEq, Repr

/-- Mirror of `types.OffchainUpdates`: three maps from order id to message,
kept as association lists. -/
structure OffchainUpdates where
  PlaceMessages : List (OrderId × Message)
  UpdateMessages : List (OrderId × Message)
  RemoveMessages : List (OrderId × Message)
deriving DecidableEq, Repr

/-- A call made by the pipeline that may write state, with its arguments.
Logging (`ctx.Logger().Info`) touches no state and is not recorded. -/
inductive Call where
  | UpdateSubaccounts (updates : List Update)
  | TransferInsuranceFundPayments (insuranceFundDelta : Int)
  | TransferFeesToFeeCollectorModule (assetId : Nat) (quantums : Int)
  | UpdateSubaccountLiquidationInfo (subaccountId : SubaccountId)
      (notionalLiquidated : Int) (insuranceFundDelta : Int)
  | AddOrdersForPruning (orderIds : List OrderId) (prunableBlockHeight : Nat)
  | SetOrderFillAmount (orderId : OrderId) (fillAmount : Nat) (prunableBlockHeight : Nat)
deriving DecidableEq, Repr

/-- The panics that the embedded functions can raise. -/
inductive Panic where
  /-- The run-time panic of `x % 0`. -/
  | IntegerDivideByZero
  /-- The run-time panic of `s[i]` past the end of a slice. -/
  | IndexOutOfRange
  /-- `MustGetOrder` called on a liquidation order. -/
  | MustGetOrderOnLiquidation
  /-- "Taker order is liquidation and should never pay taker fees." -/
  | LiquidationPaysTakerFees
  /-- "persistMatchedOrders did not return success but error was nil" -/
  | NoSuccessButNilError
  /-- "getMinPriceChangeAmountForMarket: min price change amount is greater than
  max uint64 value" -/
  | MinPriceChangeAmountExceedsUint64
  /-- "square root of negative number", the panic of `big.Int.Sqrt`. -/
  | SquareRootOfNegativeNumber
  /-- The panic of `ConvertFillablePriceToSubticks` on a negative fillable price. -/
  | NegativeFillablePrice
  /-- The panic of `lib.MustConvertIntegerToUint32` on a value that is not a `uint32`. -/
  | IntegerNotUint32
  /-- The panic of `Order.MustGetUnixGoodTilBlockTime` on an order without a
  good-til-block-time. -/
  | MustGetUnixGoodTilBlockTime
deriving DecidableEq, Repr

/-- How a Go call ends: it returns a value or it panics. -/
inductive Outcome (α : Type) where
  | ret (a : α)
  | panic (reason : Panic)
deriving DecidableEq, Repr

/-- A finished execution: the state-writing calls made, in order, and how the
function ended. -/
structure Run (α : Type) where
  calls : List Call
  result : Outcome α
deriving DecidableEq, Repr

/-- The collaborators of the clob keeper that are not part of the embedded
sources, as seen during one `ProcessSingleMatch`: state reads, the outcome of
each subaccounts-keeper call, the indexer, and two package constants. -/
structure Keeper where
  /-- The value of `k.GetClobPair(ctx, id)`; `none` is `found = false`. -/
  GetClobPair : Nat → Option ClobPair
  /-- The value of `getFillQuoteQuantums(clobPair, makerSubticks, fillAmount)`. -/
  getFillQuoteQuantums : ClobPair → Nat → Nat → Except Error Int
  /-- The value of `k.validateMatchedLiquidation(ctx, order, perpetualId, fillAmount,
  makerSubticks, bigFillQuoteQuantums)`: the insurance fund delta or an error. -/
  validateMatchedLiquidation : MatchableOrder → Nat → Nat → Nat → Int → Except Error Int
  /-- The value of `k.GetOrderFillAmount(ctx, orderId)`: `(exists, fillAmount,
  prunableBlockHeight)`. -/
  GetOrderFillAmount : OrderId → Bool × Nat × Nat
  /-- The value of `k.subaccountsKeeper.UpdateSubaccounts(ctx, updates)`:
  `(success, successPerUpdate, err)`. -/
  UpdateSubaccounts : List Update → Bool × List UpdateResult × Option Error
  /-- The error of `k.subaccountsKeeper.TransferInsuranceFundPayments(ctx, delta)`. -/
  TransferInsuranceFundPayments : Int → Option Error
  /-- The error of `k.subaccountsKeeper.TransferFeesToFeeCollectorModule(ctx, assetId,
  quantums)`. -/
  TransferFeesToFeeCollectorModule : Nat → Int → Option Error
  /-- The value of `k.GetIndexerEventManager().Enabled()`. -/
  IndexerEnabled : Bool
  /-- The `exists` result of `k.MemClob.GetOrder(ctx, orderId)`. -/
  MemClobHasOrder : OrderId → Bool
  /-- The value of `off_chain_updates.CreateOrderUpdateMessage(logger, orderId,
  totalFilled)`; `none` is `success = false`. -/
  CreateOrderUpdateMessage : OrderId → Nat → Option Message
  /-- The constant `types.ShortBlockWindow` (a `uint32`). -/
  ShortBlockWindow : Nat
  /-- The constant `lib.UsdcAssetId`. -/
  UsdcAssetId : Nat

/-! ## Library helpers -/

/-- Modelled from the spec: `lib.BigIntMulPpm` is not among the embedded sources;
the spec's `big_int_mul_ppm` "multiplies by `ppm/1_000_000`, rounding toward
zero". -/
def BigIntMulPpm (input : Int) (ppm : Nat) : Int :=
  Int.tdiv (input * (ppm : Int)) 1000000

/-- Mirror of `lib.MaxUint32`: the larger of two `uint32` values. -/
def MaxUint32 (a b : Nat) : Nat :=
  if a < b then b else a

/-- The constant `math.MaxUint32`. -/
def mathMaxUint32 : Nat := 4294967295

/-! ## Accessors of the order types -/

/-- Mirror of the generated getter `Order.GetGoodTilBlock`: the block height of
a short-term order, `0` when the oneof holds a time. -/
def Order.GetGoodTilBlock (o : Order) : Nat :=
  match o.GoodTilOneof with
  | GoodTilOneof.GoodTilBlock h => h
  | GoodTilOneof.GoodTilBlockTime _ => 0

/-- Modelled from the spec: `Order.IsStatefulOrder` is not among the embedded
sources; the spec's stateful order is the "order with a `good_til_time`
persisted in the store", a short-term order the one using `good_til_block`. -/
def Order.IsStatefulOrder (o : Order) : Bool :=
  match o.GoodTilOneof with
  | GoodTilOneof.GoodTilBlock _ => false
  | GoodTilOneof.GoodTilBlockTime _ => true

/-- Mirror of `MatchableOrder.IsLiquidation`. -/
def MatchableOrder.IsLiquidation : MatchableOrder → Bool
  | MatchableOrder.order _ => false
  | MatchableOrder.liquidation _ => true

/-- Mirror of `MatchableOrder.IsBuy`. -/
def MatchableOrder.IsBuy : MatchableOrder → Bool
  | MatchableOrder.order o => decide (o.Side = Side.BUY)
  | MatchableOrder.liquidation l => l.IsBuy

/-- Mirror of `MatchableOrder.GetClobPairId`. -/
def MatchableOrder.GetClobPairId : MatchableOrder → Nat
  | MatchableOrder.order o => o.OrderId.ClobPairId
  | MatchableOrder.liquidation l => l.ClobPairId

/-- Mirror of `MatchableOrder.GetOrderSubticks`. -/
def MatchableOrder.GetOrderSubticks : MatchableOrder → Nat
  | MatchableOrder.order o => o.Subticks
  | MatchableOrder.liquidation l => l.Subticks

/-- Mirror of `MatchableOrder.GetBaseQuantums`. -/
def MatchableOrder.GetBaseQuantums : MatchableOrder → Nat
  | MatchableOrder.order o => o.Quantums
  | MatchableOrder.liquidation l => l.Quantums

/-- Mirror of `MatchableOrder.GetSubaccountId`. -/
def MatchableOrder.GetSubaccountId : MatchableOrder → SubaccountId
  | MatchableOrder.order o => o.OrderId.SubaccountId
  | MatchableOrder.liquidation l => l.Liquidated

/-- Mirror of `MatchableOrder.MustGetOrder`: the standing order; `none` stands
for the panic raised on a liquidation order. -/
def MatchableOrder.MustGetOrder : MatchableOrder → Option Order
  | MatchableOrder.order o => some o
  | MatchableOrder.liquidation _ => none

/-- Mirror of `ClobPair.GetPerpetualId`: the perpetual of a perpetual CLOB, an
error for any other metadata. -/
def ClobPair.GetPerpetualId (c : ClobPair) : Except Error Nat :=
  match c.Metadata with
  | ClobPairMetadata.PerpetualClobMetadata id => Except.ok id
  | ClobPairMetadata.SpotClobMetadata => Except.error Error.ErrAssetOrdersNotImplemented

/-- Mirror of `ClobPair.GetFeePpm`: the taker fee when `isTaker`, else the maker fee. -/
def ClobPair.GetFeePpm (c : ClobPair) (isTaker : Bool) : Nat :=
  if isTaker then c.TakerFeePpm else c.MakerFeePpm

/-! ## Off-chain updates -/

/-- Mirror of `types.NewOffchainUpdates`: three empty maps. -/
def NewOffchainUpdates : OffchainUpdates := ⟨[], [], []⟩

/-- Map assignment `m[id] = msg` on an association list. -/
def setMessage (m : List (OrderId × Message)) (id : OrderId) (msg : Message) :
    List (OrderId × Message) :=
  (m.filter (fun p => decide (p.1 ≠ id))) ++ [(id, msg)]

/-- Mirror of `OffchainUpdates.AddUpdateMessage`. -/
def OffchainUpdates.AddUpdateMessage (u : OffchainUpdates) (id : OrderId) (msg : Message) :
    OffchainUpdates :=
  { u with UpdateMessages := setMessage u.UpdateMessages id msg }

/-- Mirror of `OffchainUpdates.BulkUpdate`: every entry of `other` is assigned
into the corresponding map of `u`. -/
def OffchainUpdates.BulkUpdate (u other : OffchainUpdates) : OffchainUpdates :=
  { PlaceMessages := other.PlaceMessages.foldl (fun m p => setMessage m p.1 p.2) u.PlaceMessages
    UpdateMessages := other.UpdateMessages.foldl (fun m p => setMessage m p.1 p.2) u.UpdateMessages
    RemoveMessages := other.RemoveMessages.foldl (fun m p => setMessage m p.1 p.2) u.RemoveMessages }

/-! ## `getUpdatedOrderFillAmount` -/

/-- Embedding of `getUpdatedOrderFillAmount` (lines 468-488). The sum is formed
as a big integer; on success it is narrowed with `Uint64()`, which keeps the
low 64 bits. The pair is the Go result `(BaseQuantums, error)`. -/
def getUpdatedOrderFillAmount (_orderId : OrderId)
    (orderBaseQuantums currentFillAmount fillQuantums : Nat) : Nat × Option Error :=
  let bigCurrentFillAmount : Int := (currentFillAmount : Int)
  let bigNewFillAmount : Int := bigCurrentFillAmount + (fillQuantums : Int)
  if bigNewFillAmount > (orderBaseQuantums : Int) then
    (0, some Error.ErrInvalidMsgProposedOperations)
  else
    (bigNewFillAmount.toNat % 2 ^ 64, none)

/-! ## `setOrderFillAmountsAndPruning` -/

/-- Embedding of `setOrderFillAmountsAndPruning` (lines 405-463): the calls made
and the off-chain updates returned. `GoodTilBlock + ShortBlockWindow` is a
`uint32` addition. -/
def setOrderFillAmountsAndPruning (k : Keeper) (order : Order)
    (newTotalFillAmount curPruneableBlockHeight : Nat) : List Call × OffchainUpdates :=
  let offchainUpdates := NewOffchainUpdates
  let pruneableBlockHeight : Nat :=
    if !order.IsStatefulOrder then
      MaxUint32 ((order.GetGoodTilBlock + k.ShortBlockWindow) % 2 ^ 32) curPruneableBlockHeight
    else
      mathMaxUint32
  let pruningCalls : List Call :=
    if !order.IsStatefulOrder then
      [Call.AddOrdersForPruning [order.OrderId] pruneableBlockHeight]
    else
      []
  let calls : List Call :=
    pruningCalls ++ [Call.SetOrderFillAmount order.OrderId newTotalFillAmount pruneableBlockHeight]
  let offchainUpdates :=
    if k.IndexerEnabled then
      if k.MemClobHasOrder order.OrderId then
        match k.CreateOrderUpdateMessage order.OrderId newTotalFillAmount with
        | some message => offchainUpdates.AddUpdateMessage order.OrderId message
        | none => offchainUpdates
      else offchainUpdates
    else offchainUpdates
  (calls, offchainUpdates)

/-! ## `persistMatchedOrders` -/

/-- The results of `persistMatchedOrders`. -/
structure PersistMatchedOrdersResult where
  success : Bool
  takerUpdateResult : UpdateResult
  makerUpdateResult : UpdateResult
  err : Option Error
deriving DecidableEq, Repr

/-- Modelled from the spec: `satypes.GetErrorFromUpdateResults` is not among the
embedded sources; by the spec, "If overall fails, propagate
`takerUpdateResult/makerUpdateResult` and return `success=false`", and the call
site says "If not successful, return error indicating why": no error when the
update succeeded, an error otherwise. -/
def GetErrorFromUpdateResults (success : Bool) (_successPerUpdate : List UpdateResult)
    (_updates : List Update) : Option Error :=
  if success then none else some Error.ErrFailedToUpdateSubaccounts

/-- The two subaccount updates built by `persistMatchedOrders` (lines 305-362):
taker first, maker second. -/
def matchedOrdersUpdates (k : Keeper) (matchWithOrders : MatchWithOrders) (perpetualId : Nat)
    (bigTakerFeeQuoteQuantums bigMakerFeeQuoteQuantums bigFillQuoteQuantums
      insuranceFundDelta : Int) : List Update :=
  let bigTakerQuoteBalanceDelta : Int := bigFillQuoteQuantums
  let bigMakerQuoteBalanceDelta : Int := bigFillQuoteQuantums
  let bigTakerPerpetualQuantumsDelta : Int := (matchWithOrders.FillAmount : Int)
  let bigMakerPerpetualQuantumsDelta : Int := (matchWithOrders.FillAmount : Int)
  let isBuy := matchWithOrders.TakerOrder.IsBuy
  let bigTakerQuoteBalanceDelta :=
    if isBuy then -bigTakerQuoteBalanceDelta else bigTakerQuoteBalanceDelta
  let bigMakerPerpetualQuantumsDelta :=
    if isBuy then -bigMakerPerpetualQuantumsDelta else bigMakerPerpetualQuantumsDelta
  let bigMakerQuoteBalanceDelta :=
    if isBuy then bigMakerQuoteBalanceDelta else -bigMakerQuoteBalanceDelta
  let bigTakerPerpetualQuantumsDelta :=
    if isBuy then bigTakerPerpetualQuantumsDelta else -bigTakerPerpetualQuantumsDelta
  let bigTakerQuoteBalanceDelta := bigTakerQuoteBalanceDelta - bigTakerFeeQuoteQuantums
  let bigMakerQuoteBalanceDelta := bigMakerQuoteBalanceDelta - bigMakerFeeQuoteQuantums
  let bigTakerQuoteBalanceDelta :=
    if matchWithOrders.TakerOrder.IsLiquidation then
      bigTakerQuoteBalanceDelta - insuranceFundDelta
    else bigTakerQuoteBalanceDelta
  [ { AssetUpdates := [⟨k.UsdcAssetId, bigTakerQuoteBalanceDelta⟩]
      PerpetualUpdates := [⟨perpetualId, bigTakerPerpetualQuantumsDelta⟩]
      SubaccountId := matchWithOrders.TakerOrder.GetSubaccountId },
    { AssetUpdates := [⟨k.UsdcAssetId, bigMakerQuoteBalanceDelta⟩]
      PerpetualUpdates := [⟨perpetualId, bigMakerPerpetualQuantumsDelta⟩]
      SubaccountId := matchWithOrders.MakerOrder.GetSubaccountId } ]

/-- Embedding of `persistMatchedOrders` (lines 276-403). -/
def persistMatchedOrders (k : Keeper) (matchWithOrders : MatchWithOrders)
    (perpetualId takerFeePpm makerFeePpm : Nat)
    (bigFillQuoteQuantums insuranceFundDelta : Int) : Run PersistMatchedOrdersResult :=
  let isTakerLiquidation := matchWithOrders.TakerOrder.IsLiquidation
  let bigTakerFeeQuoteQuantums := BigIntMulPpm bigFillQuoteQuantums takerFeePpm
  let bigMakerFeeQuoteQuantums := BigIntMulPpm bigFillQuoteQuantums makerFeePpm
  if isTakerLiquidation && decide (bigTakerFeeQuoteQuantums ≠ 0) then
    ⟨[], Outcome.panic Panic.LiquidationPaysTakerFees⟩
  else
    let updates := matchedOrdersUpdates k matchWithOrders perpetualId bigTakerFeeQuoteQuantums
      bigMakerFeeQuoteQuantums bigFillQuoteQuantums insuranceFundDelta
    let applied := k.UpdateSubaccounts updates
    let success := applied.1
    let successPerUpdate := applied.2.1
    match applied.2.2 with
    | some err =>
      ⟨[Call.UpdateSubaccounts updates],
        Outcome.ret ⟨false, UpdateResult.UpdateCausedError, UpdateResult.UpdateCausedError, some err⟩⟩
    | none =>
      match successPerUpdate with
      | takerUpdateResult :: makerUpdateResult :: _ =>
        match GetErrorFromUpdateResults success successPerUpdate updates with
        | some err =>
          ⟨[Call.UpdateSubaccounts updates],
            Outcome.ret ⟨success, takerUpdateResult, makerUpdateResult, some err⟩⟩
        | none =>
          match k.TransferInsuranceFundPayments insuranceFundDelta with
          | some err =>
            ⟨[Call.UpdateSubaccounts updates,
                Call.TransferInsuranceFundPayments insuranceFundDelta],
              Outcome.ret ⟨success, takerUpdateResult, makerUpdateResult, some err⟩⟩
          | none =>
            let bigTotalFeeQuoteQuantums := bigTakerFeeQuoteQuantums + bigMakerFeeQuoteQuantums
            match k.TransferFeesToFeeCollectorModule k.UsdcAssetId bigTotalFeeQuoteQuantums with
            | some _ =>
              ⟨[Call.UpdateSubaccounts updates,
                  Call.TransferInsuranceFundPayments insuranceFundDelta,
                  Call.TransferFeesToFeeCollectorModule k.UsdcAssetId bigTotalFeeQuoteQuantums],
                Outcome.ret ⟨false, takerUpdateResult, makerUpdateResult,
                  some Error.ErrSubaccountFeeTransferFailed⟩⟩
            | none =>
              ⟨[Call.UpdateSubaccounts updates,
                  Call.TransferInsuranceFundPayments insuranceFundDelta,
                  Call.TransferFeesToFeeCollectorModule k.UsdcAssetId bigTotalFeeQuoteQuantums],
                Outcome.ret ⟨success, takerUpdateResult, makerUpdateResult, none⟩⟩
      | _ => ⟨[Call.UpdateSubaccounts updates], Outcome.panic Panic.IndexOutOfRange⟩

/-! ## `ProcessSingleMatch` -/

/-- The results of `ProcessSingleMatch`; `offchainUpdates = none` is the nil pointer. -/
structure ProcessSingleMatchResult where
  success : Bool
  takerUpdateResult : UpdateResult
  makerUpdateResult : UpdateResult
  offchainUpdates : Option OffchainUpdates
  err : Option Error
deriving DecidableEq, Repr

/-- An error return of `ProcessSingleMatch` made before `persistMatchedOrders`
runs: `return false, takerUpdateResult, makerUpdateResult, nil, err` with both
named results still at their zero value and no call made. -/
def earlyReturn (err : Error) : Run ProcessSingleMatchResult :=
  ⟨[], Outcome.ret ⟨false, default, default, none, some err⟩⟩

/-- Embedding of the second half of `ProcessSingleMatch` (lines 219-269), entered
once every validation has passed: persist the subaccount updates, then record
the liquidation and write the fill amounts. The arguments are the local
variables of `ProcessSingleMatch` that are live at line 219. -/
def ProcessSingleMatch.persist (k : Keeper) (matchWithOrders : MatchWithOrders)
    (perpetualId takerFeePpm makerFeePpm : Nat) (bigFillQuoteQuantums takerInsuranceFundDelta : Int)
    (curTakerPruneableBlockHeight newTakerTotalFillAmount : Nat)
    (curMakerPruneableBlockHeight newMakerTotalFillAmount : Nat) :
    Run ProcessSingleMatchResult :=
  let offchainUpdates := NewOffchainUpdates
  -- Update both subaccounts in the matched order atomically.
  let persisted := persistMatchedOrders k matchWithOrders perpetualId takerFeePpm makerFeePpm
    bigFillQuoteQuantums takerInsuranceFundDelta
  match persisted.result with
  | Outcome.panic reason => ⟨persisted.calls, Outcome.panic reason⟩
  | Outcome.ret r =>
  match r.err with
  | some err =>
    ⟨persisted.calls, Outcome.ret ⟨false, r.takerUpdateResult, r.makerUpdateResult, none, some err⟩⟩
  | none =>
  if !r.success then
    ⟨persisted.calls,
      Outcome.panic Panic.NoSuccessButNilError⟩
  else
  -- Update the liquidation info of the subaccount for liquidation orders.
  let liquidationCalls : List Call :=
    if matchWithOrders.TakerOrder.IsLiquidation then
      [Call.UpdateSubaccountLiquidationInfo matchWithOrders.TakerOrder.GetSubaccountId
        bigFillQuoteQuantums takerInsuranceFundDelta]
    else []
  -- The fill amount of a liquidation order is not tracked in state.
  let takerWrite : Outcome (List Call × OffchainUpdates) :=
    if !matchWithOrders.TakerOrder.IsLiquidation then
      match matchWithOrders.TakerOrder.MustGetOrder with
      | none => Outcome.panic Panic.MustGetOrderOnLiquidation
      | some takerOrder =>
        let w := setOrderFillAmountsAndPruning k takerOrder newTakerTotalFillAmount
          curTakerPruneableBlockHeight
        Outcome.ret (w.1, offchainUpdates.BulkUpdate w.2)
    else
      Outcome.ret ([], offchainUpdates)
  match takerWrite with
  | Outcome.panic reason => ⟨persisted.calls ++ liquidationCalls, Outcome.panic reason⟩
  | Outcome.ret (takerCalls, offchainUpdates) =>
  match matchWithOrders.MakerOrder.MustGetOrder with
  | none =>
    ⟨persisted.calls ++ liquidationCalls ++ takerCalls,
      Outcome.panic Panic.MustGetOrderOnLiquidation⟩
  | some makerOrder =>
  let makerWrite := setOrderFillAmountsAndPruning k makerOrder newMakerTotalFillAmount
    curMakerPruneableBlockHeight
  let offchainUpdates := offchainUpdates.BulkUpdate makerWrite.2
  ⟨persisted.calls ++ liquidationCalls ++ takerCalls ++ makerWrite.1,
    Outcome.ret ⟨true, r.takerUpdateResult, r.makerUpdateResult, some offchainUpdates, none⟩⟩

/-- Embedding of `ProcessSingleMatch` (lines 97-269); lines 219-269 are
`ProcessSingleMatch.persist`. `x % 0` is the Go run-time panic on a zero
divisor; `MustGetOrder` panics on a liquidation order. -/
def ProcessSingleMatch (k : Keeper) (matchWithOrders : MatchWithOrders) :
    Run ProcessSingleMatchResult :=
  let makerMatchableOrder := matchWithOrders.MakerOrder
  let takerMatchableOrder := matchWithOrders.TakerOrder
  let fillAmount := matchWithOrders.FillAmount
  -- Retrieve the ClobPair from state.
  match k.GetClobPair makerMatchableOrder.GetClobPairId with
  | none => earlyReturn Error.ErrInvalidClob
  | some clobPair =>
  -- Verify that the fill amount is divisible by the step size.
  if clobPair.StepBaseQuantums = 0 then
    ⟨[], Outcome.panic Panic.IntegerDivideByZero⟩
  else
  if fillAmount % clobPair.StepBaseQuantums ≠ 0 then
    earlyReturn Error.ErrFillAmountNotDivisibleByStepSize
  else
  let makerSubticks := makerMatchableOrder.GetOrderSubticks
  -- The quote quantums of the match, at the maker's price.
  match k.getFillQuoteQuantums clobPair makerSubticks fillAmount with
  | Except.error err => earlyReturn err
  | Except.ok bigFillQuoteQuantums =>
  match clobPair.GetPerpetualId with
  | Except.error err => earlyReturn err
  | Except.ok perpetualId =>
  -- Calculate taker and maker fee ppms; a liquidation pays no taker fee.
  let makerFeePpm := clobPair.GetFeePpm false
  let liquidationStep : Except Error (Nat × Int) :=
    if takerMatchableOrder.IsLiquidation then
      match k.validateMatchedLiquidation takerMatchableOrder perpetualId fillAmount
          makerMatchableOrder.GetOrderSubticks bigFillQuoteQuantums with
      | Except.error err => Except.error err
      | Except.ok delta => Except.ok (0, delta)
    else
      Except.ok (clobPair.GetFeePpm true, 0)
  match liquidationStep with
  | Except.error err => earlyReturn err
  | Except.ok (takerFeePpm, takerInsuranceFundDelta) =>
  -- The current and new fill amount of the taker, unless it is a liquidation.
  let takerStep : Outcome (Except Error (Nat × Nat)) :=
    if !takerMatchableOrder.IsLiquidation then
      match takerMatchableOrder.MustGetOrder with
      | none => Outcome.panic Panic.MustGetOrderOnLiquidation
      | some takerOrder =>
        let cur := k.GetOrderFillAmount takerOrder.OrderId
        let updated := getUpdatedOrderFillAmount takerOrder.OrderId
          takerMatchableOrder.GetBaseQuantums cur.2.1 fillAmount
        match updated.2 with
        | some err => Outcome.ret (Except.error err)
        | none => Outcome.ret (Except.ok (cur.2.2, updated.1))
    else
      Outcome.ret (Except.ok (0, 0))
  match takerStep with
  | Outcome.panic reason => ⟨[], Outcome.panic reason⟩
  | Outcome.ret (Except.error err) => earlyReturn err
  | Outcome.ret (Except.ok (curTakerPruneableBlockHeight, newTakerTotalFillAmount)) =>
  -- The current and new fill amount of the maker.
  match makerMatchableOrder.MustGetOrder with
  | none => ⟨[], Outcome.panic Panic.MustGetOrderOnLiquidation⟩
  | some makerOrder =>
  let curMaker := k.GetOrderFillAmount makerOrder.OrderId
  let curMakerPruneableBlockHeight := curMaker.2.2
  let updatedMaker := getUpdatedOrderFillAmount makerOrder.OrderId
    makerMatchableOrder.GetBaseQuantums curMaker.2.1 fillAmount
  match updatedMaker.2 with
  | some err => earlyReturn err
  | none =>
  let newMakerTotalFillAmount := updatedMaker.1
  ProcessSingleMatch.persist k matchWithOrders perpetualId takerFeePpm makerFeePpm
    bigFillQuoteQuantums takerInsuranceFundDelta
    curTakerPruneableBlockHeight newTakerTotalFillAmount
    curMakerPruneableBlockHeight newMakerTotalFillAmount

/-! ## Concrete inputs -/

/-- A perpetual CLOB pair with step size 5, maker fee 200 ppm, taker fee 500 ppm. -/
def btcClobPair : ClobPair :=
  { Id := 0, Metadata := ClobPairMetadata.PerpetualClobMetadata 0, StepBaseQuantums := 5,
    MinOrderBaseQuantums := 10, SubticksPerTick := 100, QuantumConversionExponent := -8,
    MakerFeePpm := 200, TakerFeePpm := 500 }

/-- A resting short-term sell order of 100 quantums, good til block 10. -/
def bobSell : Order :=
  { OrderId := ⟨⟨"bob", 0⟩, 0, 0, 0⟩, Side := Side.SELL, Quantums := 100,
    Subticks := 50000000000, GoodTilOneof := GoodTilOneof.GoodTilBlock 10 }

/-- A short-term buy order of 50 quantums, good til block 12. -/
def aliceBuy : Order :=
  { OrderId := ⟨⟨"alice", 0⟩, 7, 0, 0⟩, Side := Side.BUY, Quantums := 50,
    Subticks := 50000000000, GoodTilOneof := GoodTilOneof.GoodTilBlock 12 }

/-- A stateful buy order of 50 quantums, good til a unix time. -/
def carlStatefulBuy : Order :=
  { OrderId := ⟨⟨"carl", 0⟩, 1, 64, 0⟩, Side := Side.BUY, Quantums := 50,
    Subticks := 50000000000, GoodTilOneof := GoodTilOneof.GoodTilBlockTime 1700000000 }

/-- A short-term order whose good-til-block is the largest `uint32`. -/
def lateOrder : Order :=
  { OrderId := ⟨⟨"erin", 0⟩, 3, 0, 0⟩, Side := Side.BUY, Quantums := 50,
    Subticks := 50000000000, GoodTilOneof := GoodTilOneof.GoodTilBlock 4294967295 }

/-- A liquidation of dave's short position: a buy of 50 quantums. -/
def daveLiquidation : LiquidationOrder :=
  { Liquidated := ⟨"dave", 0⟩, PerpetualId := 0, ClobPairId := 0, IsBuy := true,
    Quantums := 50, Subticks := 50000000000 }

/-- A keeper state in which `btcClobPair` is the only pair, no order has been
filled yet, every subaccounts-keeper call succeeds, the insurance fund earns
1000 quote quantums on a liquidation, and the indexer is off. -/
def goodKeeper : Keeper :=
  { GetClobPair := fun id => if id = 0 then some btcClobPair else none
    getFillQuoteQuantums := fun _ subticks fill => Except.ok (((subticks * fill / 100000000 : Nat) : Int))
    validateMatchedLiquidation := fun _ _ _ _ _ => Except.ok 1000
    GetOrderFillAmount := fun _ => (false, 0, 0)
    UpdateSubaccounts := fun us => (true, us.map (fun _ => UpdateResult.Success), none)
    TransferInsuranceFundPayments := fun _ => none
    TransferFeesToFeeCollectorModule := fun _ _ => none
    IndexerEnabled := false
    MemClobHasOrder := fun _ => false
    CreateOrderUpdateMessage := fun _ _ => none
    ShortBlockWindow := 20
    UsdcAssetId := 0 }

/-- The keeper `goodKeeper`, except that the maker is undercollateralized after
the update, so `UpdateSubaccounts` fails without an error. -/
def makerFailsKeeper : Keeper :=
  { goodKeeper with
    UpdateSubaccounts := fun _ =>
      (false, [UpdateResult.Success, UpdateResult.NewlyUndercollateralized], none) }

/-- The keeper `goodKeeper`, except that `UpdateSubaccounts` returns an error. -/
def updateErrorKeeper : Keeper :=
  { goodKeeper with
    UpdateSubaccounts := fun _ => (false, [], some (Error.collaborator 1)) }

/-- The keeper `goodKeeper`, except that a liquidation fill needs deleveraging. -/
def deleveragingKeeper : Keeper :=
  { goodKeeper with
    validateMatchedLiquidation := fun _ _ _ _ _ => Except.error (Error.collaborator 2) }

/-- Alice buys 50 quantums from Bob. -/
def aliceBobMatch : MatchWithOrders :=
  { TakerOrder := MatchableOrder.order aliceBuy, MakerOrder := MatchableOrder.order bobSell,
    FillAmount := 50 }

/-- Dave is liquidated against Bob's resting order for 50 quantums. -/
def liquidationMatch : MatchWithOrders :=
  { TakerOrder := MatchableOrder.liquidation daveLiquidation,
    MakerOrder := MatchableOrder.order bobSell, FillAmount := 50 }

/-- A match between Alice and Bob with fill amount 0. -/
def zeroFillMatch : MatchWithOrders :=
  { TakerOrder := MatchableOrder.order aliceBuy, MakerOrder := MatchableOrder.order bobSell,
    FillAmount := 0 }

/-- A match between Alice and Bob whose fill amount 7 is not a multiple of the step 5. -/
def oddFillMatch : MatchWithOrders :=
  { TakerOrder := MatchableOrder.order aliceBuy, MakerOrder := MatchableOrder.order bobSell,
    FillAmount := 7 }

/-! ## Path condition of `ProcessSingleMatch` -/

/-- The validations of `ProcessSingleMatch` (lines 112-217) all pass, and these
are the values it then hands to `persistMatchedOrders`: the perpetual id, the
taker fee ppm, the fill's quote quantums `Q` and the insurance fund delta `D`,
for the pair `clobPair` and the maker order `makerOrder`. -/
structure Validated (k : Keeper) (m : MatchWithOrders) (clobPair : ClobPair)
    (perpetualId takerFeePpm : Nat) (Q D : Int) (makerOrder : Order) : Prop where
  clobPair_found : k.GetClobPair m.MakerOrder.GetClobPairId = some clobPair
  step_ne_zero : clobPair.StepBaseQuantums ≠ 0
  step_divides : m.FillAmount % clobPair.StepBaseQuantums = 0
  quote : k.getFillQuoteQuantums clobPair m.MakerOrder.GetOrderSubticks m.FillAmount
    = Except.ok Q
  perpetual : clobPair.GetPerpetualId = Except.ok perpetualId
  liquidation : m.TakerOrder.IsLiquidation = true →
    takerFeePpm = 0 ∧
    k.validateMatchedLiquidation m.TakerOrder perpetualId m.FillAmount
      m.MakerOrder.GetOrderSubticks Q = Except.ok D
  regular : m.TakerOrder.IsLiquidation = false →
    takerFeePpm = clobPair.TakerFeePpm ∧ D = 0
  taker_fits : ∀ o, m.TakerOrder = MatchableOrder.order o →
    (k.GetOrderFillAmount o.OrderId).2.1 + m.FillAmount ≤ o.Quantums
  maker_order : m.MakerOrder = MatchableOrder.order makerOrder
  maker_fits : (k.GetOrderFillAmount makerOrder.OrderId).2.1 + m.FillAmount ≤ makerOrder.Quantums

/-- The current prunable block height of the taker that `ProcessSingleMatch`
reads (line 180): the stored one, or the zero value for a liquidation. -/
def curTakerPruneableBlockHeight (k : Keeper) (m : MatchWithOrders) : Nat :=
  match m.TakerOrder with
  | MatchableOrder.order o => (k.GetOrderFillAmount o.OrderId).2.2
  | MatchableOrder.liquidation _ => 0

/-- The new total fill amount of the taker that `ProcessSingleMatch` computes
(line 186), or the zero value for a liquidation. -/
def newTakerTotalFillAmount (k : Keeper) (m : MatchWithOrders) : Nat :=
  match m.TakerOrder with
  | MatchableOrder.order o =>
    (getUpdatedOrderFillAmount o.OrderId o.Quantums
      (k.GetOrderFillAmount o.OrderId).2.1 m.FillAmount).1
  | MatchableOrder.liquidation _ => 0

/-- The two updates of `liquidationMatch` under `goodKeeper`: Dave buys 50
quantums for 25000 quote quantums and pays 1000 to the insurance fund, Bob
sells them and pays the maker fee of 5. -/
def liquidationUpdates : List Update :=
  [ { AssetUpdates := [⟨0, -26000⟩], PerpetualUpdates := [⟨0, 50⟩],
      SubaccountId := ⟨"dave", 0⟩ },
    { AssetUpdates := [⟨0, 24995⟩], PerpetualUpdates := [⟨0, -50⟩],
      SubaccountId := ⟨"bob", 0⟩ } ]

/-- The two updates of `aliceBobMatch` under `goodKeeper`: Alice buys 50 quantums
for 25000 quote quantums and pays the taker fee of 12, Bob sells them and pays
the maker fee of 5. -/
def aliceBobUpdates : List Update :=
  [ { AssetUpdates := [⟨0, -25012⟩], PerpetualUpdates := [⟨0, 50⟩],
      SubaccountId := ⟨"alice", 0⟩ },
    { AssetUpdates := [⟨0, 24995⟩], PerpetualUpdates := [⟨0, -50⟩],
      SubaccountId := ⟨"bob", 0⟩ } ]

/-! ## Fill quote quantums and the insurance fund delta -/

/-- Modelled from the spec: `getFillQuoteQuantums` is not among the embedded
sources; by step 3 of the spec's `ProcessSingleMatch`, `fill_quote_quantums =
round_half_up(maker.subticks * fill_amount * 10^(quantum_conversion_exponent))`,
the half-up rounding of a rational `x` being `⌊x + 1/2⌋`. -/
def getFillQuoteQuantums (clobPair : ClobPair) (makerSubticks fillAmount : Nat) : Int :=
  ⌊((makerSubticks : ℚ) * (fillAmount : ℚ)) * (10 : ℚ) ^ clobPair.QuantumConversionExponent
    + 1 / 2⌋

/-- Modelled from the spec: `GetLiquidationInsuranceFundDelta` is not among the
embedded sources (only its test is); by the spec, with `L` the fill's quote
quantums, `B` the bankruptcy quote quantums of the fill and `fee_cap = |L| ×
max_liquidation_fee_ppm / 1_000_000`: `min(fee_cap, |L − B|)` when the fill is
better than bankruptcy, `0` at bankruptcy, `L − B` when worse. The fill is
better than bankruptcy when `L − B > 0`, and the spec's `sign` is then `+1`
(the fund gains), as in the test's long and short cases alike. -/
def GetLiquidationInsuranceFundDelta (L B : Int) (maxLiquidationFeePpm : Nat) : Int :=
  let feeCap := BigIntMulPpm |L| maxLiquidationFeePpm
  if L - B > 0 then
    min feeCap |L - B|
  else if L = B then
    0
  else
    L - B

end Clob

namespace Prices

open Clob (Outcome Panic BigIntMulPpm)

/-! ## Price engine (`x/prices/keeper/util.go`) -/

/-- Mirror of `types.Market` (`x/prices/types/market.pb.go`). -/
structure Market where
  Id : Nat
  Pair : String
  Exponent : Int
  Exchanges : List Nat
  MinExchanges : Nat
  MinPriceChangePpm : Nat
  Price : Nat
deriving DecidableEq, Repr

/-- Modelled from the spec: `constants.OneMillion` is declared outside the
embedded sources; it is the spec's `one_million` constant. -/
def OneMillion : Nat := 1000000

/-- Modelled from the spec: `lib.AbsDiffUint64` is not among the embedded
sources; it is the spec's `abs_diff(a: u64, b: u64) -> u64`. -/
def AbsDiffUint64 (x y : Nat) : Nat :=
  if x > y then x - y else y - x

/-- Modelled from the spec: `lib.Max` is not among the embedded sources; the
larger of two values, as the spec's `max_u32`. -/
def Max (x y : Nat) : Nat :=
  if x < y then y else x

/-- Modelled from the spec: `lib.Min` is not among the embedded sources; the
smaller of two values, as the spec's `min_u32`. -/
def Min (x y : Nat) : Nat :=
  if x > y then y else x

/-- Embedding of `getMinPriceChangeAmountForMarket` (lines 21-35): the panic is
raised when the big integer is not a `uint64`, that is, when it is negative or
its magnitude does not fit in 64 bits. -/
def getMinPriceChangeAmountForMarket (market : Market) : Outcome Nat :=
  let bigPrice : Int := (market.Price : Int)
  let bigMinChangeAmt := BigIntMulPpm bigPrice market.MinPriceChangePpm
  if ¬ (0 ≤ bigMinChangeAmt ∧ bigMinChangeAmt.toNat < 2 ^ 64) then
    Outcome.panic Panic.MinPriceChangeAmountExceedsUint64
  else
    Outcome.ret bigMinChangeAmt.toNat

/-- Embedding of `isAboveRequiredMinPriceChange` (lines 14-17). -/
def isAboveRequiredMinPriceChange (market : Market) (newPrice : Nat) : Outcome Bool :=
  match getMinPriceChangeAmountForMarket market with
  | Outcome.panic reason => Outcome.panic reason
  | Outcome.ret minChangeAmt =>
    Outcome.ret (decide (AbsDiffUint64 market.Price newPrice ≥ minChangeAmt))

/-- Embedding of `isTowardsIndexPrice` (lines 39-45). -/
def isTowardsIndexPrice (oldPrice newPrice indexPrice : Nat) : Bool :=
  decide (newPrice ≤ Max oldPrice indexPrice) && decide (newPrice ≥ Min oldPrice indexPrice)

/-- Embedding of `isCrossingIndexPrice` (lines 49-55). -/
def isCrossingIndexPrice (oldPrice newPrice indexPrice : Nat) : Bool :=
  decide (indexPrice < Max oldPrice newPrice) && decide (indexPrice > Min oldPrice newPrice)

/-- Embedding of `computeTickSizePpm` (lines 59-65): a big-integer product. -/
def computeTickSizePpm (oldPrice minPriceChangePpm : Nat) : Int :=
  (oldPrice : Int) * (minPriceChangePpm : Int)

/-- Embedding of `priceDeltaIsWithinOneTick` (lines 68-73). -/
def priceDeltaIsWithinOneTick (priceDelta tickSizePpm : Int) : Bool :=
  let priceDeltaPpm := priceDelta * (OneMillion : Int)
  decide (priceDeltaPpm ≤ tickSizePpm)

/-- Embedding of `newPriceMeetsSqrtCondition` (lines 81-93). -/
def newPriceMeetsSqrtCondition (oldDelta newDelta tickSizePpm : Int) : Bool :=
  let newDeltaSquaredPpm := newDelta * newDelta
  let newDeltaSquaredPpm := newDeltaSquaredPpm * (OneMillion : Int)
  let oldDeltaTimesTickSizePpm := oldDelta * tickSizePpm
  decide (newDeltaSquaredPpm ≤ oldDeltaTimesTickSizePpm)

/-- Embedding of `maximumAllowedPriceDelta` (lines 98-106): `big.Int.Div` is
Euclidean division and `big.Int.Sqrt` is the floor of the square root, which
panics on a negative argument. -/
def maximumAllowedPriceDelta (oldDelta tickSizePpm : Int) : Outcome Int :=
  let maxAllowed := oldDelta * tickSizePpm
  let maxAllowed := maxAllowed / (OneMillion : Int)
  if maxAllowed < 0 then
    Outcome.panic Panic.SquareRootOfNegativeNumber
  else
    Outcome.ret ((Nat.sqrt maxAllowed.toNat : Nat) : Int)

/-- Modelled from the spec: the update rule itself is not among the embedded
sources, only its predicates are; by the spec a proposed price is accepted iff
it passes the min-change gate and either moves toward (or onto) the index
price, or crosses it with the old delta within one tick or the square-root rule
holding; a price moving away from the index is rejected. -/
def priceUpdateAccepted (market : Market) (indexPrice newPrice : Nat) : Outcome Bool :=
  match isAboveRequiredMinPriceChange market newPrice with
  | Outcome.panic reason => Outcome.panic reason
  | Outcome.ret false => Outcome.ret false
  | Outcome.ret true =>
    if isTowardsIndexPrice market.Price newPrice indexPrice then
      Outcome.ret true
    else if isCrossingIndexPrice market.Price newPrice indexPrice then
      let oldDelta : Int := (AbsDiffUint64 market.Price indexPrice : Int)
      let newDelta : Int := (AbsDiffUint64 newPrice indexPrice : Int)
      let tickSizePpm := computeTickSizePpm market.Price market.MinPriceChangePpm
      Outcome.ret (priceDeltaIsWithinOneTick oldDelta tickSizePpm ||
        newPriceMeetsSqrtCondition oldDelta newDelta tickSizePpm)
    else
      Outcome.ret false

/-- The market of the spec's scenario 5: price 100, minimum change 10%. -/
def scenarioMarket : Market :=
  { Id := 0, Pair := "BTC-USD", Exponent := -5, Exchanges := [0, 1], MinExchanges := 1,
    MinPriceChangePpm := 100000, Price := 100 }

/-- A market at price 15 with minimum change 10%, so that the minimum change
amount 1.5 is not an integer. -/
def fractionalMarket : Market :=
  { Id := 1, Pair := "ETH-USD", Exponent := -5, Exchanges := [0, 1], MinExchanges := 1,
    MinPriceChangePpm := 100000, Price := 15 }

end Prices

namespace Clob

/-! ## `PriceToSubticks` (`x/clob/types/price_to_subticks.go`) -/

/-- Modelled from the spec: `lib.BigMulPow10` is not among the embedded sources;
the spec's `big_mul_pow10(x: big_int, exp: i32) -> big_rat` is "exact; negative
exp divides". -/
def BigMulPow10 (val : Int) (exponent : Int) : ℚ :=
  (val : ℚ) * (10 : ℚ) ^ exponent

/-- The `int32` that an integer wraps to. -/
def toInt32 (z : Int) : Int :=
  (z + 2 ^ 31) % 2 ^ 32 - 2 ^ 31

/-- Embedding of `PriceToSubticks` (lines 26-40): the exponent is formed in
`int32` arithmetic, each operation wrapping. -/
def PriceToSubticks (market : Prices.Market) (clobPair : ClobPair)
    (baseAtomicResolution quoteAtomicResolution : Int) : ℚ :=
  let exponent := toInt32 (toInt32 (toInt32 (market.Exponent - clobPair.QuantumConversionExponent)
    + baseAtomicResolution) - quoteAtomicResolution)
  BigMulPow10 (market.Price : Int) exponent

/-- The keeper `goodKeeper`, except that the fee transfer to the fee collector fails. -/
def feeTransferFailsKeeper : Keeper :=
  { goodKeeper with
    TransferFeesToFeeCollectorModule := fun _ _ => some (Error.collaborator 3) }

/-! ## Liquidation helpers (`x/clob/keeper/liquidations.go`, known by its tests) -/

/-- Mirror of `satypes.PerpetualPosition`, as the test builds it. -/
structure PerpetualPosition where
  PerpetualId : Nat
  Quantums : Int
deriving DecidableEq, Repr

/-- The part of a `satypes.Subaccount` that margin evaluation reads: the quote
(USDC) balance and the perpetual positions. -/
structure Subaccount where
  Id : SubaccountId
  QuoteBalance : Int
  PerpetualPositions : List PerpetualPosition
deriving DecidableEq, Repr

/-- What the perpetuals keeper, which is outside the embedded sources, says of a
position: its notional at the oracle price and its maintenance margin
requirement, which is never negative. -/
structure MarginOracle where
  NetNotional : PerpetualPosition → Int
  MaintenanceMargin : PerpetualPosition → Nat

/-- Modelled from the spec: `net_collateral` is the "quote-asset value + Σ
position notional at oracle price" (§4.3). -/
def netCollateral (o : MarginOracle) (s : Subaccount) : Int :=
  s.QuoteBalance + (s.PerpetualPositions.map o.NetNotional).sum

/-- Modelled from the spec: the `maintenance_margin_requirement` of a
subaccount, the sum of the requirements of its positions. -/
def maintenanceMarginRequirement (o : MarginOracle) (s : Subaccount) : Int :=
  (((s.PerpetualPositions.map o.MaintenanceMargin).sum : Nat) : Int)

/-- Modelled from the spec: `TNC_required`, the "quote quantums needed to close"
a position of the subaccount "to bankruptcy". The spec's `TNC_required =
net_collateral_quote` does not give the values that
`TestGetBankruptcyPriceInQuoteQuantums` (liquidations_test.go lines 1196-1566)
expects: a quote balance of -13,000,000 with a long of 1 BTC has a net
collateral of 49,987,000,000, and the test expects 2,776 for a delta of
-21,347, which is 13,000,000 pro rata. The rows of the test are those of the
notional of the position less the part of the net collateral of the subaccount
that falls to the position by its maintenance margin requirement: with one
position this is the negated quote balance (rows 1213-1372 and 1439-1503), and
with the positions of 200 and 300 dollars at a net collateral of 10 dollars it
is 294 dollars for the long of 300 and -306 dollars for the short (rows
1373-1438). The rows do not tell a share by maintenance margin from a share by
notional, both perpetuals having the same margin ratio. -/
def tncRequired (o : MarginOracle) (s : Subaccount) (position : PerpetualPosition) : ℚ :=
  (o.NetNotional position : ℚ) -
    (netCollateral o s : ℚ) * ((o.MaintenanceMargin position : Nat) : ℚ) /
      (maintenanceMarginRequirement o s : ℚ)

/-- Modelled from the spec: `GetBankruptcyPriceInQuoteQuantums` is not among the
embedded sources (only its test is). By the spec, for the position of size `P`
that the subaccount has in the perpetual and a delta `Δ` of the opposite sign
with `|Δ| ≤ |P|`, `bankruptcy_quote(Δ) = ceil(TNC_required × |Δ| / |P|)`, and
the error is `InvalidPerpetualPositionSizeDelta` "when `Δ = 0`, same sign as
`P`, no position, or `|Δ| > |P|`". -/
def GetBankruptcyPriceInQuoteQuantums (o : MarginOracle) (s : Subaccount) (perpetualId : Nat)
    (deltaQuantums : Int) : Except Error Int :=
  match s.PerpetualPositions.find? (fun p => decide (p.PerpetualId = perpetualId)) with
  | none => Except.error Error.ErrInvalidPerpetualPositionSizeDelta
  | some position =>
    if deltaQuantums = 0 ∨ position.Quantums = 0 ∨
        deltaQuantums.sign = position.Quantums.sign ∨
        |position.Quantums| < |deltaQuantums| then
      Except.error Error.ErrInvalidPerpetualPositionSizeDelta
    else
      Except.ok
        ⌈tncRequired o s position * (|deltaQuantums| : ℚ) / (|position.Quantums| : ℚ)⌉

/-- Modelled from the spec: `IsLiquidatable` is not among the embedded sources
(only its test is). By the spec it is "true iff `net_collateral <
maintenance_margin_requirement`", and "a subaccount with no positions is never
liquidatable (even with negative quote balance)". -/
def IsLiquidatable (o : MarginOracle) (s : Subaccount) : Bool :=
  if s.PerpetualPositions.isEmpty then
    false
  else
    decide (netCollateral o s < maintenanceMarginRequirement o s)

/-- The oracle of `TestIsLiquidatable`: BTC at $50,000, which is 500 quote
quantums per base quantum, with a 10% maintenance margin. -/
def btcMarginOracle : MarginOracle :=
  { NetNotional := fun p => p.Quantums * 500
    MaintenanceMargin := fun p => p.Quantums.natAbs * 500 / 10 }

/-- A subaccount with the quote balance `quote` and a long position of 0.1 BTC. -/
def oneTenthBtcLong (quote : Int) : Subaccount :=
  { Id := ⟨"Alice", 0⟩, QuoteBalance := quote, PerpetualPositions := [⟨0, 10000000⟩] }

/-- A subaccount with the quote balance `quote` and no perpetual position. -/
def noPositions (quote : Int) : Subaccount :=
  { Id := ⟨"Alice", 0⟩, QuoteBalance := quote, PerpetualPositions := [] }

/-- The oracle of `TestGetBankruptcyPriceInQuoteQuantums`: perpetual 0 is BTC at
$50,000, which is 500 quote quantums per base quantum, perpetual 1 is ETH at
$3,000, which is 3 quote quantums per base quantum (1 ETH is 1,000,000,000
base quantums), both with a 10% maintenance margin. -/
def btcEthMarginOracle : MarginOracle :=
  { NetNotional := fun p => if p.PerpetualId = 0 then p.Quantums * 500 else p.Quantums * 3
    MaintenanceMargin := fun p =>
      if p.PerpetualId = 0 then p.Quantums.natAbs * 500 / 10 else p.Quantums.natAbs * 3 / 10 }

/-- The subaccount of the test with the quote balance `quote` and the
perpetual positions `positions`. -/
def liquidationsTestSubaccount (quote : Int) (positions : List PerpetualPosition) : Subaccount :=
  { Id := ⟨"liquidations_test", 0⟩, QuoteBalance := quote, PerpetualPositions := positions }

/-- The constant `math.MaxUint64`. -/
def mathMaxUint64 : Nat := 18446744073709551615

/-- Modelled from the spec: `ConvertFillablePriceToSubticks` is not among the
embedded sources (only its test is). By the spec the fillable price, in quote
quantums per base quantum, is converted "to a `Subticks` value that aligns to
`subticks_per_tick` (round down for sells so buyers can fill, round up for
buys). Floor at `subticks_per_tick`, cap at the largest multiple of
`subticks_per_tick` ≤ `u64::MAX`. Panic on negative fillable price." A long
position is liquidated by a sell. The price in subticks is the price divided by
`10^QuantumConversionExponent`, as in the test (5,000,000,000 at exponent -8 is
500,000,000,000,000,000 subticks). `SubticksPerTick` is positive in every
ClobPair. -/
def ConvertFillablePriceToSubticks (fillablePrice : ℚ) (isLiquidatingLong : Bool)
    (clobPair : ClobPair) : Outcome Nat :=
  if fillablePrice < 0 then
    Outcome.panic Panic.NegativeFillablePrice
  else
    let subticksRat := fillablePrice / (10 : ℚ) ^ clobPair.QuantumConversionExponent
    let ticks : Int :=
      if isLiquidatingLong then
        ⌊subticksRat / (clobPair.SubticksPerTick : ℚ)⌋
      else
        ⌈subticksRat / (clobPair.SubticksPerTick : ℚ)⌉
    let aligned : Nat := ticks.toNat * clobPair.SubticksPerTick
    let minSubticks : Nat := clobPair.SubticksPerTick
    let maxSubticks : Nat := mathMaxUint64 - mathMaxUint64 % clobPair.SubticksPerTick
    if aligned < minSubticks then
      Outcome.ret minSubticks
    else if maxSubticks < aligned then
      Outcome.ret maxSubticks
    else
      Outcome.ret aligned

/-- The ClobPair of `TestConvertFillablePriceToSubticks`: 100 subticks per tick,
quantum conversion exponent 1. -/
def hundredSubticksClobPair : ClobPair :=
  { Id := 0, Metadata := ClobPairMetadata.PerpetualClobMetadata 0, StepBaseQuantums := 0,
    MinOrderBaseQuantums := 0, SubticksPerTick := 100, QuantumConversionExponent := 1,
    MakerFeePpm := 0, TakerFeePpm := 0 }

/-- Modelled from the spec: the deleveraging trigger is not among the embedded
sources (only the test of `PlacePerpetualLiquidation` is). By the spec: "if
`delta ≥ 0` (fund gains), proceed"; "if `delta < 0` and `insurance_fund_balance
+ delta < 0`, return `LiquidationRequiresDeleveraging`"; otherwise the balance
is compared with `max_insurance_fund_quantums_for_deleveraging`. The balance
compared is the one before the fill: in the test a fund of 1,000,000 with the
threshold at 750,001 covers a loss of 250,000, and the next fill, met by a fund
of 750,000 that could still cover it, requires deleveraging "since insurance
fund balance is $0.75 which is lower than
`MaxInsuranceFundQuantumsForDeleveraging`". -/
def requiresDeleveraging (insuranceFundBalance insuranceFundDelta : Int)
    (maxInsuranceFundQuantumsForDeleveraging : Nat) : Bool :=
  if insuranceFundDelta ≥ 0 then
    false
  else if insuranceFundBalance + insuranceFundDelta < 0 then
    true
  else
    decide (insuranceFundBalance < (maxInsuranceFundQuantumsForDeleveraging : Int))

/-- Modelled from the spec: the last step of `validate_matched_liquidation`
(§4.5 step 5), which hands the insurance fund delta to `ProcessSingleMatch` or
aborts the match with `LiquidationRequiresDeleveraging`. -/
def checkInsuranceFund (insuranceFundBalance : Int)
    (maxInsuranceFundQuantumsForDeleveraging : Nat) (insuranceFundDelta : Int) :
    Except Error Int :=
  if requiresDeleveraging insuranceFundBalance insuranceFundDelta
      maxInsuranceFundQuantumsForDeleveraging then
    Except.error Error.LiquidationRequiresDeleveraging
  else
    Except.ok insuranceFundDelta

/-- The keeper `k` with the insurance fund at `insuranceFundBalance` and the
threshold `maxInsuranceFundQuantumsForDeleveraging`: the insurance fund delta
that `k` computes for a liquidation goes through `checkInsuranceFund`. -/
def Keeper.withInsuranceFund (k : Keeper) (insuranceFundBalance : Int)
    (maxInsuranceFundQuantumsForDeleveraging : Nat) : Keeper :=
  { k with
    validateMatchedLiquidation := fun order perpetualId fillAmount makerSubticks quote =>
      match k.validateMatchedLiquidation order perpetualId fillAmount makerSubticks quote with
      | Except.error err => Except.error err
      | Except.ok delta =>
        checkInsuranceFund insuranceFundBalance maxInsuranceFundQuantumsForDeleveraging delta }

/-- Mirror of `types.SubaccountLiquidationInfo`. -/
structure SubaccountLiquidationInfo where
  PerpetualsLiquidated : List Nat
  NotionalLiquidated : Nat
  QuantumsInsuranceLost : Nat
deriving DecidableEq, Repr

/-- The per-block store of liquidation info; a subaccount without an entry
reads as the zero value. -/
abbrev LiquidationInfoStore := SubaccountId → SubaccountLiquidationInfo

/-- Modelled from the spec: `UpdateSubaccountLiquidationInfo` is not among the
embedded sources (only its call is, lines 238-246). By the spec it records
"`notional_liquidated += fill_notional` and `quantums_insurance_lost += max(0,
−insurance_fund_delta)` per fill" for the liquidated subaccount; the sums are
taken on the naturals as written. -/
def UpdateSubaccountLiquidationInfo (store : LiquidationInfoStore)
    (subaccountId : SubaccountId) (notionalLiquidated insuranceFundDelta : Int) :
    LiquidationInfoStore :=
  fun id =>
    if id = subaccountId then
      { store id with
        NotionalLiquidated := (store id).NotionalLiquidated + notionalLiquidated.toNat
        QuantumsInsuranceLost :=
          (store id).QuantumsInsuranceLost + (max 0 (-insuranceFundDelta)).toNat }
    else
      store id

/-- The liquidation info that a list of calls leaves behind: each
`UpdateSubaccountLiquidationInfo` call is applied in order, and no other call
of the pipeline writes liquidation info. -/
def liquidationInfoAfter (store : LiquidationInfoStore) (calls : List Call) :
    LiquidationInfoStore :=
  calls.foldl (fun s c =>
    match c with
    | Call.UpdateSubaccountLiquidationInfo id notional delta =>
      UpdateSubaccountLiquidationInfo s id notional delta
    | _ => s) store

/-- The store in which no subaccount has been liquidated in the block. -/
def emptyLiquidationInfo : LiquidationInfoStore := fun _ => ⟨[], 0, 0⟩

/-! ## Sorting subaccount ids (`x/subaccounts/types`, known by its test) -/

/-- Modelled from the spec: `SortedSubaccountIds.Less` is not among the embedded
sources (only its test is). By the spec the order is "lexicographic by `(owner
descending, number ascending)`". -/
def SortedSubaccountIds.Less (a b : SubaccountId) : Bool :=
  if a.Owner ≠ b.Owner then
    decide (b.Owner < a.Owner)
  else
    decide (a.Number < b.Number)

/-- The result of `sort.Sort(types.SortedSubaccountIds(ids))`. No two distinct
ids compare as equal under `Less`, so every sorting algorithm yields the same
list; insertion sort is the one that `sort.Sort` runs on short slices. An id is
placed before the first id that is not less than it. -/
def SortSubaccountIds (ids : List SubaccountId) : List SubaccountId :=
  ids.insertionSort (fun a b => SortedSubaccountIds.Less b a = false)

/-- The ids of the test, named by their owners; the addresses behind the test's
constants are outside the embedded sources. -/
def Alice_Num0 : SubaccountId := ⟨"Alice", 0⟩

def Alice_Num1 : SubaccountId := ⟨"Alice", 1⟩

def Bob_Num0 : SubaccountId := ⟨"Bob", 0⟩

/-- The keeper `goodKeeper`, except that a liquidation fill costs the insurance
fund 750,000 quote quantums. -/
def shortfallKeeper : Keeper :=
  { goodKeeper with
    validateMatchedLiquidation := fun _ _ _ _ _ => Except.ok (-750000) }

end Clob

namespace Pricefeed

open Clob (Outcome Panic toInt32)

/-! ## Wire format of the price feed messages (`daemons/pricefeed/api/price_feed.pb.go`)

A byte is a natural number below 256 and a byte slice is a list of bytes. -/

/-- The errors that the generated marshalling code returns: the three error
variables of the file, `io.ErrUnexpectedEOF`, the `fmt.Errorf` errors by their
message, and an error of the `StdTime` helpers of gogoproto. -/
inductive WireError where
  | ErrInvalidLengthPriceFeed
  | ErrIntOverflowPriceFeed
  | ErrUnexpectedEndOfGroupPriceFeed
  | ErrUnexpectedEOF
  /-- The error "proto: ...: wiretype end group for non-group". -/
  | WiretypeEndGroupForNonGroup
  /-- The error "proto: ...: illegal tag %d (wire type %d)". -/
  | IllegalTag
  /-- The error "proto: wrong wireType = %d for field ...". -/
  | WrongWireType
  /-- The error "proto: illegal wireType %d". -/
  | IllegalWireType
  | stdTime (code : Nat)
deriving DecidableEq, Repr

/-- A `time.Time`, as the nanoseconds elapsed since the zero time. -/
structure Time where
  Nanoseconds : Int
deriving DecidableEq, Repr

/-- Mirror of `ExchangePrice` (lines 118-122): a `uint32`, a `uint64` and a
pointer that may be nil. -/
structure ExchangePrice where
  ExchangeFeedId : Nat
  Price : Nat
  LastUpdateTime : Option Time
deriving DecidableEq, Repr

/-- Mirror of `MarketPriceUpdate` (lines 179-182); the pointers in
`ExchangePrices` are taken to be non-nil. -/
structure MarketPriceUpdate where
  MarketId : Nat
  ExchangePrices : List ExchangePrice
deriving DecidableEq, Repr

/-- The `StdTime` helpers of `github.com/cosmos/gogoproto/types`, which are
outside the embedded sources: `SizeOfStdTime(t)`, the bytes that
`StdTimeMarshalTo(t, buf)` writes at the start of `buf` (it returns their
number; they are taken to be `SizeOfStdTime(t)` many) or its error, and the
time that `StdTimeUnmarshal(t, buf)` leaves in `*t` or its error. -/
structure StdTimeCodec where
  SizeOfStdTime : Time → Nat
  StdTimeMarshalTo : Time → Except WireError (List Nat)
  StdTimeUnmarshal : Time → List Nat → Except WireError Time

/-- The loop behind `Len64`: the number of shifts to the right that bring `x`
to zero, which are at most `x`. -/
def Len64.loop : Nat → Nat → Nat
  | 0, _ => 0
  | fuel + 1, x => if x = 0 then 0 else Len64.loop fuel (x >>> 1) + 1

/-- Mirror of `math/bits.Len64`: the number of bits needed to represent `x`,
`0` for `x = 0`. -/
def Len64 (x : Nat) : Nat :=
  Len64.loop x x

/-- Embedding of `sovPriceFeed` (lines 571-573). -/
def sovPriceFeed (x : Nat) : Nat :=
  (Len64 (x ||| 1) + 6) / 7

/-- The loop of `encodeVarintPriceFeed` (lines 505-510) and the write that
follows it: `dAtA[offset] = uint8(v&0x7f | 0x80); v >>= 7; offset++` while `v >=
1<<7`, then `dAtA[offset] = uint8(v)`. Every shift makes `v` smaller, so the
body runs at most `v` times. -/
def encodeVarintPriceFeed.loop : Nat → List Nat → Nat → Nat → List Nat
  | 0, dAtA, offset, v => dAtA.set offset (v % 256)
  | fuel + 1, dAtA, offset, v =>
    if v ≥ 128 then
      encodeVarintPriceFeed.loop fuel (dAtA.set offset ((v &&& 0x7f ||| 0x80) % 256))
        (offset + 1) (v >>> 7)
    else
      dAtA.set offset (v % 256)

/-- Embedding of `encodeVarintPriceFeed` (lines 502-512), `v` being a `uint64`.
The marshalling code fills its buffer from the end towards the start: the
argument `dAtA` is the part of the buffer from `offset` on, which has been
written, and the result is the part from the returned `base = offset -
sovPriceFeed(v)` on. The bytes in front of `offset` are still zero, as `make`
left them. -/
def encodeVarintPriceFeed (dAtA : List Nat) (v : Nat) : List Nat :=
  encodeVarintPriceFeed.loop v (List.replicate (sovPriceFeed v) 0 ++ dAtA) 0 v

/-- Embedding of `ExchangePrice.MarshalToSizedBuffer` (lines 430-459), called
on a buffer of which nothing has been written (`i = len(dAtA)`): the result is
the part `dAtA[i:]` of the buffer at the return, whose length is the `int`
returned. -/
def ExchangePrice.MarshalToSizedBuffer (codec : StdTimeCodec) (m : ExchangePrice) :
    Except WireError (List Nat) :=
  let dAtA : List Nat := []
  let timeStep : Except WireError (List Nat) :=
    match m.LastUpdateTime with
    | some t =>
      match codec.StdTimeMarshalTo t with
      | Except.error err1 => Except.error err1
      | Except.ok bytes =>
        Except.ok (0x1a :: encodeVarintPriceFeed (bytes ++ dAtA) bytes.length)
    | none => Except.ok dAtA
  match timeStep with
  | Except.error err1 => Except.error err1
  | Except.ok dAtA =>
    let dAtA := if m.Price ≠ 0 then 0x10 :: encodeVarintPriceFeed dAtA m.Price else dAtA
    let dAtA :=
      if m.ExchangeFeedId ≠ 0 then 0x8 :: encodeVarintPriceFeed dAtA m.ExchangeFeedId
      else dAtA
    Except.ok dAtA

/-- Embedding of `MarketPriceUpdate.MarshalToSizedBuffer` (lines 476-500), in
the same way: the exchange prices are written from the last to the first, each
in front of what has been written, then the market id. -/
def MarketPriceUpdate.MarshalToSizedBuffer (codec : StdTimeCodec) (m : MarketPriceUpdate) :
    Except WireError (List Nat) :=
  let pricesStep : Except WireError (List Nat) :=
    m.ExchangePrices.foldr (fun e acc =>
      match acc with
      | Except.error err => Except.error err
      | Except.ok dAtA =>
        match e.MarshalToSizedBuffer codec with
        | Except.error err => Except.error err
        | Except.ok sub =>
          Except.ok (0x12 :: encodeVarintPriceFeed (sub ++ dAtA) sub.length))
      (Except.ok [])
  match pricesStep with
  | Except.error err => Except.error err
  | Except.ok dAtA =>
    Except.ok (if m.MarketId ≠ 0 then 0x8 :: encodeVarintPriceFeed dAtA m.MarketId else dAtA)

/-- Embedding of `ExchangePrice.Size` (lines 537-554). -/
def ExchangePrice.Size (codec : StdTimeCodec) (m : ExchangePrice) : Nat :=
  let n := 0
  let n := if m.ExchangeFeedId ≠ 0 then n + (1 + sovPriceFeed m.ExchangeFeedId) else n
  let n := if m.Price ≠ 0 then n + (1 + sovPriceFeed m.Price) else n
  match m.LastUpdateTime with
  | some t =>
    let l := codec.SizeOfStdTime t
    n + (1 + l + sovPriceFeed l)
  | none => n

/-- Embedding of `MarketPriceUpdate.Size` (lines 556-569). -/
def MarketPriceUpdate.Size (codec : StdTimeCodec) (m : MarketPriceUpdate) : Nat :=
  let n := 0
  let n := if m.MarketId ≠ 0 then n + (1 + sovPriceFeed m.MarketId) else n
  m.ExchangePrices.foldl (fun n e =>
    let l := e.Size codec
    n + (1 + l + sovPriceFeed l)) n

/-- Embedding of `MarketPriceUpdate.Marshal` (lines 461-469): a buffer of
`Size()` zero bytes is filled from its end by `MarshalToSizedBuffer`, which
returns the number `n` of bytes written, and the first `n` bytes of the buffer
are returned. Writing in front of the buffer is an index out of range. -/
def MarketPriceUpdate.Marshal (codec : StdTimeCodec) (m : MarketPriceUpdate) :
    Outcome (Except WireError (List Nat)) :=
  let size := m.Size codec
  match m.MarshalToSizedBuffer codec with
  | Except.error err => Outcome.ret (Except.error err)
  | Except.ok written =>
    let n := written.length
    if size < n then
      Outcome.panic Panic.IndexOutOfRange
    else
      Outcome.ret (Except.ok ((List.replicate (size - n) 0 ++ written).take n))

/-- The varint loop that the unmarshalling code repeats inline (as in lines
716-730): `for shift := uint(0); ; shift += 7`, failing with
`ErrIntOverflowPriceFeed` once `shift >= 64` and with `io.ErrUnexpectedEOF` at
the end of the data, else `acc |= T(b&0x7F) << shift`, until a byte below
`0x80`. `width` is the number of bits of the type `T` of the accumulator: 64
for `uint64` and for `int`, whose bit pattern is returned, 32 for `uint32`.
`dAtA` is the data from `iNdEx` on; the result is the accumulator, the index
after the varint and the data from there on. -/
def readVarint (width : Nat) :
    Nat → Nat → Nat → List Nat → Except WireError (Nat × Nat × List Nat)
  | shift, acc, iNdEx, dAtA =>
    if shift ≥ 64 then
      Except.error WireError.ErrIntOverflowPriceFeed
    else
      match dAtA with
      | [] => Except.error WireError.ErrUnexpectedEOF
      | b :: rest =>
        let acc := acc ||| ((b &&& 0x7F) <<< shift) % 2 ^ width
        if b < 0x80 then
          Except.ok (acc, iNdEx + 1, rest)
        else
          readVarint width (shift + 7) acc (iNdEx + 1) rest

/-- The loop of `skipPriceFeed` (lines 943-1014) on the data `dAtA`, at the
index `iNdEx` and the group depth `depth`. Every round reads at least one
byte, so `len(dAtA)` rounds are enough; an `int` that has wrapped to a
negative value is one whose bit pattern is `2^63` or more. -/
def skipPriceFeed.loop (dAtA : List Nat) : Nat → Nat → Nat → Except WireError Nat
  | 0, _, _ => Except.error WireError.ErrUnexpectedEOF
  | fuel + 1, iNdEx, depth =>
    if ¬ (iNdEx < dAtA.length) then
      Except.error WireError.ErrUnexpectedEOF
    else
      match readVarint 64 0 0 iNdEx (dAtA.drop iNdEx) with
      | Except.error err => Except.error err
      | Except.ok (wire, iNdEx, rest) =>
        let wireType := wire &&& 0x7
        let step : Except WireError (Nat × Nat) :=
          if wireType = 0 then
            match readVarint 64 0 0 iNdEx rest with
            | Except.error err => Except.error err
            | Except.ok (_, iNdEx, _) => Except.ok (iNdEx, depth)
          else if wireType = 1 then
            Except.ok (iNdEx + 8, depth)
          else if wireType = 2 then
            match readVarint 64 0 0 iNdEx rest with
            | Except.error err => Except.error err
            | Except.ok (length, iNdEx, _) =>
              if length ≥ 2 ^ 63 then
                Except.error WireError.ErrInvalidLengthPriceFeed
              else
                Except.ok (iNdEx + length, depth)
          else if wireType = 3 then
            Except.ok (iNdEx, depth + 1)
          else if wireType = 4 then
            if depth = 0 then
              Except.error WireError.ErrUnexpectedEndOfGroupPriceFeed
            else
              Except.ok (iNdEx, depth - 1)
          else if wireType = 5 then
            Except.ok (iNdEx + 4, depth)
          else
            Except.error WireError.IllegalWireType
        match step with
        | Except.error err => Except.error err
        | Except.ok (iNdEx, depth) =>
          if iNdEx ≥ 2 ^ 63 then
            Except.error WireError.ErrInvalidLengthPriceFeed
          else if depth = 0 then
            Except.ok iNdEx
          else
            skipPriceFeed.loop dAtA fuel iNdEx depth

/-- Embedding of `skipPriceFeed` (lines 939-1015): the number of bytes that the
first field of `dAtA` takes. -/
def skipPriceFeed (dAtA : List Nat) : Except WireError Nat :=
  skipPriceFeed.loop dAtA dAtA.length 0 0

/-- The loop of `ExchangePrice.Unmarshal` (lines 714-830) on data of length
`l`: `dAtA` is the data from `iNdEx` on and `m` the message as filled so far.
Every round reads at least one byte, so `l` rounds are enough. -/
def ExchangePrice.Unmarshal.loop (codec : StdTimeCodec) (l : Nat) :
    Nat → ExchangePrice → Nat → List Nat → Except WireError ExchangePrice
  | _, m, iNdEx, [] =>
    if iNdEx > l then Except.error WireError.ErrUnexpectedEOF else Except.ok m
  | 0, _, _, _ :: _ => Except.error WireError.ErrUnexpectedEOF
  | fuel + 1, m, iNdEx, b :: bs =>
    let preIndex := iNdEx
    match readVarint 64 0 0 iNdEx (b :: bs) with
    | Except.error err => Except.error err
    | Except.ok (wire, iNdEx, rest) =>
      let fieldNum := toInt32 ((wire >>> 3 : Nat) : Int)
      let wireType := wire &&& 0x7
      if wireType = 4 then
        Except.error WireError.WiretypeEndGroupForNonGroup
      else if fieldNum ≤ 0 then
        Except.error WireError.IllegalTag
      else if fieldNum = 1 then
        if wireType ≠ 0 then
          Except.error WireError.WrongWireType
        else
          match readVarint 32 0 0 iNdEx rest with
          | Except.error err => Except.error err
          | Except.ok (v, iNdEx, rest) =>
            ExchangePrice.Unmarshal.loop codec l fuel { m with ExchangeFeedId := v } iNdEx rest
      else if fieldNum = 2 then
        if wireType ≠ 0 then
          Except.error WireError.WrongWireType
        else
          match readVarint 64 0 0 iNdEx rest with
          | Except.error err => Except.error err
          | Except.ok (v, iNdEx, rest) =>
            ExchangePrice.Unmarshal.loop codec l fuel { m with Price := v } iNdEx rest
      else if fieldNum = 3 then
        if wireType ≠ 2 then
          Except.error WireError.WrongWireType
        else
          match readVarint 64 0 0 iNdEx rest with
          | Except.error err => Except.error err
          | Except.ok (msglen, iNdEx, rest) =>
            if msglen ≥ 2 ^ 63 then
              Except.error WireError.ErrInvalidLengthPriceFeed
            else
              let postIndex := iNdEx + msglen
              if postIndex ≥ 2 ^ 63 then
                Except.error WireError.ErrInvalidLengthPriceFeed
              else if postIndex > l then
                Except.error WireError.ErrUnexpectedEOF
              else
                match codec.StdTimeUnmarshal (m.LastUpdateTime.getD ⟨0⟩)
                    (rest.take msglen) with
                | Except.error err => Except.error err
                | Except.ok t =>
                  ExchangePrice.Unmarshal.loop codec l fuel { m with LastUpdateTime := some t }
                    postIndex (rest.drop msglen)
      else
        match skipPriceFeed (b :: bs) with
        | Except.error err => Except.error err
        | Except.ok skippy =>
          if preIndex + skippy ≥ 2 ^ 63 then
            Except.error WireError.ErrInvalidLengthPriceFeed
          else if preIndex + skippy > l then
            Except.error WireError.ErrUnexpectedEOF
          else
            ExchangePrice.Unmarshal.loop codec l fuel m (preIndex + skippy)
              ((b :: bs).drop skippy)

/-- Embedding of `ExchangePrice.Unmarshal` (lines 712-836): `m` is the message
that the data is unmarshalled into. -/
def ExchangePrice.Unmarshal (codec : StdTimeCodec) (m : ExchangePrice) (dAtA : List Nat) :
    Except WireError ExchangePrice :=
  ExchangePrice.Unmarshal.loop codec dAtA.length dAtA.length m 0 dAtA

/-- The loop of `MarketPriceUpdate.Unmarshal` (lines 839-932), in the same way. -/
def MarketPriceUpdate.Unmarshal.loop (codec : StdTimeCodec) (l : Nat) :
    Nat → MarketPriceUpdate → Nat → List Nat → Except WireError MarketPriceUpdate
  | _, m, iNdEx, [] =>
    if iNdEx > l then Except.error WireError.ErrUnexpectedEOF else Except.ok m
  | 0, _, _, _ :: _ => Except.error WireError.ErrUnexpectedEOF
  | fuel + 1, m, iNdEx, b :: bs =>
    let preIndex := iNdEx
    match readVarint 64 0 0 iNdEx (b :: bs) with
    | Except.error err => Except.error err
    | Except.ok (wire, iNdEx, rest) =>
      let fieldNum := toInt32 ((wire >>> 3 : Nat) : Int)
      let wireType := wire &&& 0x7
      if wireType = 4 then
        Except.error WireError.WiretypeEndGroupForNonGroup
      else if fieldNum ≤ 0 then
        Except.error WireError.IllegalTag
      else if fieldNum = 1 then
        if wireType ≠ 0 then
          Except.error WireError.WrongWireType
        else
          match readVarint 32 0 0 iNdEx rest with
          | Except.error err => Except.error err
          | Except.ok (v, iNdEx, rest) =>
            MarketPriceUpdate.Unmarshal.loop codec l fuel { m with MarketId := v } iNdEx rest
      else if fieldNum = 2 then
        if wireType ≠ 2 then
          Except.error WireError.WrongWireType
        else
          match readVarint 64 0 0 iNdEx rest with
          | Except.error err => Except.error err
          | Except.ok (msglen, iNdEx, rest) =>
            if msglen ≥ 2 ^ 63 then
              Except.error WireError.ErrInvalidLengthPriceFeed
            else
              let postIndex := iNdEx + msglen
              if postIndex ≥ 2 ^ 63 then
                Except.error WireError.ErrInvalidLengthPriceFeed
              else if postIndex > l then
                Except.error WireError.ErrUnexpectedEOF
              else
                match ExchangePrice.Unmarshal codec ⟨0, 0, none⟩ (rest.take msglen) with
                | Except.error err => Except.error err
                | Except.ok e =>
                  MarketPriceUpdate.Unmarshal.loop codec l fuel
                    { m with ExchangePrices := m.ExchangePrices ++ [e] }
                    postIndex (rest.drop msglen)
      else
        match skipPriceFeed (b :: bs) with
        | Except.error err => Except.error err
        | Except.ok skippy =>
          if preIndex + skippy ≥ 2 ^ 63 then
            Except.error WireError.ErrInvalidLengthPriceFeed
          else if preIndex + skippy > l then
            Except.error WireError.ErrUnexpectedEOF
          else
            MarketPriceUpdate.Unmarshal.loop codec l fuel m (preIndex + skippy)
              ((b :: bs).drop skippy)

/-- Embedding of `MarketPriceUpdate.Unmarshal` (lines 837-938): `m` is the
message that the data is unmarshalled into. -/
def MarketPriceUpdate.Unmarshal (codec : StdTimeCodec) (m : MarketPriceUpdate)
    (dAtA : List Nat) : Except WireError MarketPriceUpdate :=
  MarketPriceUpdate.Unmarshal.loop codec dAtA.length dAtA.length m 0 dAtA

/-- The groups of `varintBytes`, of which there are at most `v`. -/
def varintBytes.go : Nat → Nat → List Nat
  | 0, v => [v]
  | fuel + 1, v => if v < 128 then [v] else (v % 128 + 128) :: varintBytes.go fuel (v / 128)

/-- The base-128 varint of `v`, as the protobuf wire format defines it: the
groups of seven bits from the least significant on, each byte but the last
with its high bit set. -/
def varintBytes (v : Nat) : List Nat :=
  varintBytes.go v v

/-- The wire format of an `ExchangePrice` without a last-update time: field 1
(tag `0x08`) is the exchange feed id and field 2 (tag `0x10`) the price, both
varints, a zero value being left out. -/
def ExchangePrice.wire (e : ExchangePrice) : List Nat :=
  (if e.ExchangeFeedId ≠ 0 then 0x08 :: varintBytes e.ExchangeFeedId else []) ++
  (if e.Price ≠ 0 then 0x10 :: varintBytes e.Price else [])

/-- The wire format of a `MarketPriceUpdate` whose exchange prices have no
last-update time: field 1 (tag `0x08`) is the market id, a varint left out when
zero, and every exchange price is a field 2 (tag `0x12`), the length of its
wire format as a varint and then the wire format itself, in list order. -/
def MarketPriceUpdate.wire (m : MarketPriceUpdate) : List Nat :=
  (if m.MarketId ≠ 0 then 0x08 :: varintBytes m.MarketId else []) ++
  (m.ExchangePrices.map (fun e =>
    0x12 :: (varintBytes e.wire.length ++ e.wire))).flatten

/-- A codec for which every time takes no bytes. -/
def noTimeCodec : StdTimeCodec :=
  { SizeOfStdTime := fun _ => 0
    StdTimeMarshalTo := fun _ => Except.ok []
    StdTimeUnmarshal := fun t _ => Except.ok t }

/-- An update of market 1 with the prices 300 from exchange 2 and
20,000,000,000 from exchange 0. -/
def sampleUpdate : MarketPriceUpdate :=
  { MarketId := 1
    ExchangePrices := [⟨2, 300, none⟩, ⟨0, 20000000000, none⟩] }

end Pricefeed

namespace Clob

/-- The keeper `goodKeeper`, except that the transfer to or from the insurance
fund fails. -/
def insuranceTransferFailsKeeper : Keeper :=
  { goodKeeper with
    TransferInsuranceFundPayments := fun _ => some (Error.collaborator 4) }

/-! ## `PerformOrderPreprocessing` (`process_single_match.go`, lines 27-76) -/

/-- Mirror of `types.MsgPlaceOrder`. -/
structure MsgPlaceOrder where
  Order : Order
deriving DecidableEq, Repr

/-- Mirror of the generated getter `MsgPlaceOrder.GetOrder`. -/
def MsgPlaceOrder.GetOrder (msg : MsgPlaceOrder) : Clob.Order :=
  msg.Order

/-- Modelled from the spec: `Order.IsShortTermOrder` is not among the embedded
sources; the spec's short-term order is the one whose `good_til` is a block
height ("short-term orders live until their good-til-block expires; stateful
until good-til-time"). -/
def Order.IsShortTermOrder (o : Order) : Bool :=
  match o.GoodTilOneof with
  | GoodTilOneof.GoodTilBlock _ => true
  | GoodTilOneof.GoodTilBlockTime _ => false

/-- Mirror of the generated getter `Order.GetGoodTilBlockTime`: the unix time
of a stateful order, `0` when the oneof holds a block height. -/
def Order.GetGoodTilBlockTime (o : Order) : Nat :=
  match o.GoodTilOneof with
  | GoodTilOneof.GoodTilBlock _ => 0
  | GoodTilOneof.GoodTilBlockTime t => t

/-- Modelled from the spec: `Order.MustGetUnixGoodTilBlockTime` is not among
the embedded sources; it is the `unix_time` of the spec's `good_til` of a
stateful order, and as a `Must` function it panics on an order that has none. -/
def Order.MustGetUnixGoodTilBlockTime (o : Order) : Outcome Nat :=
  match o.GoodTilOneof with
  | GoodTilOneof.GoodTilBlock _ => Outcome.panic Panic.MustGetUnixGoodTilBlockTime
  | GoodTilOneof.GoodTilBlockTime t => Outcome.ret t

/-- Modelled from the spec: `lib.MustConvertIntegerToUint32` is not among the
embedded sources; block heights are `u32` in the spec, and as a `Must` function
the conversion panics on a value that is not one. -/
def MustConvertIntegerToUint32 (value : Int) : Outcome Nat :=
  if 0 ≤ value ∧ value.toNat ≤ mathMaxUint32 then
    Outcome.ret value.toNat
  else
    Outcome.panic Panic.IntegerNotUint32

/-- Mirror of `types.ProcessProposerMatchesEvents` (the fields that
`PerformOrderPreprocessing` sets). -/
structure ProcessProposerMatchesEvents where
  PlacedStatefulOrders : List Order
  ExpiredStatefulOrderIds : List OrderId
  BlockHeight : Nat
deriving DecidableEq, Repr

/-- A state-writing call of `PerformOrderPreprocessing`, with its arguments.
The three keeper methods are outside the embedded sources and are taken to
return. -/
inductive PreprocessingCall where
  | SetStatefulOrderPlacement (order : Order) (blockHeight : Nat)
  | MustAddOrderToStatefulOrdersTimeSlice (goodTilBlockTime : Nat) (orderId : OrderId)
  | MustSetProcessProposerMatchesEvents (events : ProcessProposerMatchesEvents)
deriving DecidableEq, Repr

/-- A finished execution of `PerformOrderPreprocessing`: the state-writing
calls made, in order, and the error returned (`none` is nil) or the panic. -/
structure PreprocessingRun where
  calls : List PreprocessingCall
  result : Outcome (Option Error)
deriving DecidableEq, Repr

/-- What `PerformOrderPreprocessing` reads from outside the embedded sources. -/
structure PreprocessingKeeper where
  /-- The value of `ctx.BlockHeight()`, an `int64`. -/
  BlockHeight : Int
  /-- The error of `k.PerformStatefulOrderValidation(ctx, &order, blockHeight,
  false)` in the state that the calls made so far have left; `none` is nil. -/
  PerformStatefulOrderValidation : List PreprocessingCall → Order → Nat → Option Error

/-- The loop of `PerformOrderPreprocessing` (lines 35-62) over the messages
still to be handled; `calls` are the state-writing calls made so far and
`placedStatefulOrders` is the slice of that name. After the loop the events
are recorded and nil is returned (lines 66-75). -/
def PerformOrderPreprocessing.loop (k : PreprocessingKeeper) (blockHeight : Nat) :
    List MsgPlaceOrder → List PreprocessingCall → List Order → PreprocessingRun
  | [], calls, placedStatefulOrders =>
    ⟨calls ++ [PreprocessingCall.MustSetProcessProposerMatchesEvents
        { PlacedStatefulOrders := placedStatefulOrders
          ExpiredStatefulOrderIds := []
          BlockHeight := blockHeight }],
      Outcome.ret none⟩
  | msg :: rest, calls, placedStatefulOrders =>
    let newOrder := msg.GetOrder
    match k.PerformStatefulOrderValidation calls newOrder blockHeight with
    | some err => ⟨calls, Outcome.ret (some err)⟩
    | none =>
      if newOrder.IsShortTermOrder then
        PerformOrderPreprocessing.loop k blockHeight rest calls placedStatefulOrders
      else
        let calls := calls ++ [PreprocessingCall.SetStatefulOrderPlacement newOrder blockHeight]
        match newOrder.MustGetUnixGoodTilBlockTime with
        | Outcome.panic reason => ⟨calls, Outcome.panic reason⟩
        | Outcome.ret goodTilBlockTime =>
          PerformOrderPreprocessing.loop k blockHeight rest
            (calls ++ [PreprocessingCall.MustAddOrderToStatefulOrdersTimeSlice goodTilBlockTime
              newOrder.OrderId])
            (placedStatefulOrders ++ [newOrder])

/-- Embedding of `PerformOrderPreprocessing` (lines 27-76). -/
def PerformOrderPreprocessing (k : PreprocessingKeeper) (placeOrders : List MsgPlaceOrder) :
    PreprocessingRun :=
  match MustConvertIntegerToUint32 k.BlockHeight with
  | Outcome.panic reason => ⟨[], Outcome.panic reason⟩
  | Outcome.ret blockHeight => PerformOrderPreprocessing.loop k blockHeight placeOrders [] []

/-- The orders of the messages that are not short-term, in the order of the
messages. -/
def statefulOrdersOf (placeOrders : List MsgPlaceOrder) : List Order :=
  (placeOrders.map MsgPlaceOrder.GetOrder).filter (fun o => !o.IsShortTermOrder)

/-- The calls that persist the stateful orders of the messages at the block
height `blockHeight`: for each one, in the order of the messages, its placement
and then its entry in the time slice of its good-til-block-time. -/
def statefulWrites (blockHeight : Nat) (placeOrders : List MsgPlaceOrder) :
    List PreprocessingCall :=
  ((statefulOrdersOf placeOrders).map (fun o =>
    [PreprocessingCall.SetStatefulOrderPlacement o blockHeight,
      PreprocessingCall.MustAddOrderToStatefulOrdersTimeSlice o.GetGoodTilBlockTime
        o.OrderId])).flatten

/-- A stateful sell order of Bob, good til the unix time 1700000000. -/
def bobStatefulSell : Order :=
  { OrderId := ⟨⟨"bob", 0⟩, 7, 64, 0⟩, Side := Side.SELL, Quantums := 100,
    Subticks := 50000000000, GoodTilOneof := GoodTilOneof.GoodTilBlockTime 1700000000 }

/-- A keeper at block height 5 whose validation rejects an order whose id has
already been placed in the block and accepts every other order. -/
def preprocessingKeeper : PreprocessingKeeper :=
  { BlockHeight := 5
    PerformStatefulOrderValidation := fun calls order _ =>
      if calls.any (fun c =>
          match c with
          | PreprocessingCall.SetStatefulOrderPlacement o _ => decide (o.OrderId = order.OrderId)
          | _ => false) then
        some (Error.collaborator 5)
      else none }

end Clob

namespace PricesTypes

open Clob (Outcome Panic toInt32)
open Pricefeed (Len64 varintBytes)

/-! ## Wire format of `Market` (`x/prices/types/market.pb.go`)

A byte is a natural number below 256, a byte slice is a list of bytes, and a Go
string is the list of its bytes. -/

/-- The errors that the generated marshalling code of `Market` returns: the
three error variables of the file, `io.ErrUnexpectedEOF` and the `fmt.Errorf`
errors by their message. -/
inductive WireError where
  | ErrInvalidLengthMarket
  | ErrIntOverflowMarket
  | ErrUnexpectedEndOfGroupMarket
  | ErrUnexpectedEOF
  /-- The error "proto: Market: wiretype end group for non-group". -/
  | WiretypeEndGroupForNonGroup
  /-- The error "proto: Market: illegal tag %d (wire type %d)". -/
  | IllegalTag
  /-- The error "proto: wrong wireType = %d for field ...". -/
  | WrongWireType
  /-- The error "proto: illegal wireType %d". -/
  | IllegalWireType
deriving DecidableEq, Repr

/-- How an execution of the unmarshalling code ends: it returns a value with a
nil error, it returns an error, it panics, or, in this embedding, a loop has
not finished within the rounds it was given. -/
inductive Result (α : Type) where
  | ok (a : α)
  | error (err : WireError)
  | panic (reason : Panic)
  | outOfFuel
deriving DecidableEq, Repr

/-- Whether an execution has returned: with a value or with an error, and
neither with a panic nor without an end. -/
def Result.returns {α : Type} : Result α → Bool
  | Result.ok _ => true
  | Result.error _ => true
  | Result.panic _ => false
  | Result.outOfFuel => false

/-- Mirror of `Market` (lines 27-48) as the marshalling code sees it: `Pair` is
the list of the bytes of the string, and `Exchanges` is `none` for the nil
slice, which `Prices.Market` does not tell from the empty one. -/
structure Market where
  Id : Nat
  Pair : List Nat
  Exponent : Int
  Exchanges : Option (List Nat)
  MinExchanges : Nat
  MinPriceChangePpm : Nat
  Price : Nat
deriving DecidableEq, Repr

/-- The conversion `uint32(z)` of a signed integer: its two's complement bit
pattern. -/
def toUint32 (z : Int) : Nat :=
  (z % 2 ^ 32).toNat

/-- The conversion `uint64(z)` of a signed integer: its two's complement bit
pattern. -/
def toUint64 (z : Int) : Nat :=
  (z % 2 ^ 64).toNat

/-- The conversion `int64(x)` of a `uint64`. -/
def toInt64 (x : Nat) : Int :=
  ((x : Int) + 2 ^ 63) % 2 ^ 64 - 2 ^ 63

/-- The value that `MarshalToSizedBuffer` writes for the exponent (line 213):
`(uint32(e) << 1) ^ uint32(e >> 31)`, the shift to the left in `uint32` and
the shift to the right arithmetic. -/
def zigzag32Encode (e : Int) : Nat :=
  ((toUint32 e <<< 1) % 2 ^ 32) ^^^ toUint32 (e >>> (31 : Nat))

/-- The value that `Unmarshal` stores for the exponent (line 383): `int32((uint32(v)
>> 1) ^ uint32(((v&1)<<31)>>31))`. The `int32` variable `v` is given by its bit
pattern `uint32(v)`; `(v&1)<<31` is formed in `int32` and shifted back
arithmetically. -/
def zigzag32Decode (v : Nat) : Int :=
  toInt32 (((v >>> 1) ^^^
    toUint32 (toInt32 ((((v &&& 1) <<< 31) % 2 ^ 32 : Nat) : Int) >>> (31 : Nat)) : Nat) : Int)

/-- Embedding of `sovMarket` (lines 279-281). -/
def sovMarket (x : Nat) : Nat :=
  (Len64 (x ||| 1) + 6) / 7

/-- Embedding of `sozMarket` (lines 282-284), `x` being a `uint64`: the shift to
the left is in `uint64` and the shift to the right arithmetic, in `int64`. -/
def sozMarket (x : Nat) : Nat :=
  sovMarket (((x <<< 1) % 2 ^ 64) ^^^ toUint64 (toInt64 x >>> (63 : Nat)))

/-- The loop of `encodeVarintMarket` (lines 242-246) and the write that follows
it. Every shift makes `v` smaller, so the body runs at most `v` times. -/
def encodeVarintMarket.loop : Nat → List Nat → Nat → Nat → List Nat
  | 0, dAtA, offset, v => dAtA.set offset (v % 256)
  | fuel + 1, dAtA, offset, v =>
    if v ≥ 128 then
      encodeVarintMarket.loop fuel (dAtA.set offset ((v &&& 0x7f ||| 0x80) % 256))
        (offset + 1) (v >>> 7)
    else
      dAtA.set offset (v % 256)

/-- Embedding of `encodeVarintMarket` (lines 239-249), `v` being a `uint64`.
The marshalling code fills its buffer from the end towards the start: the
argument `dAtA` is the part of the buffer from `offset` on, which has been
written, and the result is the part from the returned `base = offset -
sovMarket(v)` on. The bytes in front of `offset` are still zero. -/
def encodeVarintMarket (dAtA : List Nat) (v : Nat) : List Nat :=
  encodeVarintMarket.loop v (List.replicate (sovMarket v) 0 ++ dAtA) 0 v

/-- The inner loop of lines 198-204 for one exchange `num`, a `uint32`: its
varint is written into `dAtA2`, a buffer of `cap` bytes of which the first `j1`
are `written`; a write at an index that is not below `cap` panics. -/
def packVarint (cap : Nat) : Nat → List Nat → Nat → Outcome (List Nat)
  | 0, written, num =>
    if written.length < cap then Outcome.ret (written ++ [num % 256])
    else Outcome.panic Panic.IndexOutOfRange
  | fuel + 1, written, num =>
    if num ≥ 128 then
      if written.length < cap then
        packVarint cap fuel (written ++ [(num &&& 0x7f ||| 0x80) % 256]) (num >>> 7)
      else Outcome.panic Panic.IndexOutOfRange
    else
      if written.length < cap then Outcome.ret (written ++ [num % 256])
      else Outcome.panic Panic.IndexOutOfRange

/-- The loop of lines 197-205 over the exchanges: the bytes `dAtA2[:j1]`. -/
def packExchanges (cap : Nat) : List Nat → List Nat → Outcome (List Nat)
  | [], written => Outcome.ret written
  | num :: rest, written =>
    match packVarint cap num written num with
    | Outcome.panic reason => Outcome.panic reason
    | Outcome.ret written => packExchanges cap rest written

/-- Embedding of `Market.MarshalToSizedBuffer` (lines 174-237), called on a
buffer of which nothing has been written (`i = len(dAtA)`): the result is the
part `dAtA[i:]` of the buffer at the return, whose length is the `int`
returned; the error returned is always nil. -/
def Market.MarshalToSizedBuffer (m : Market) : Outcome (List Nat) :=
  let dAtA : List Nat := []
  let dAtA := if m.Price ≠ 0 then 0x38 :: encodeVarintMarket dAtA m.Price else dAtA
  let dAtA :=
    if m.MinPriceChangePpm ≠ 0 then 0x30 :: encodeVarintMarket dAtA m.MinPriceChangePpm
    else dAtA
  let dAtA :=
    if m.MinExchanges ≠ 0 then 0x28 :: encodeVarintMarket dAtA m.MinExchanges else dAtA
  let exchanges := m.Exchanges.getD []
  let exchangesStep : Outcome (List Nat) :=
    if exchanges.length > 0 then
      match packExchanges (exchanges.length * 10) exchanges [] with
      | Outcome.panic reason => Outcome.panic reason
      | Outcome.ret dAtA2 =>
        Outcome.ret (0x22 :: encodeVarintMarket (dAtA2 ++ dAtA) dAtA2.length)
    else Outcome.ret dAtA
  match exchangesStep with
  | Outcome.panic reason => Outcome.panic reason
  | Outcome.ret dAtA =>
    let dAtA :=
      if m.Exponent ≠ 0 then 0x18 :: encodeVarintMarket dAtA (zigzag32Encode m.Exponent)
      else dAtA
    let dAtA :=
      if m.Pair.length > 0 then 0x12 :: encodeVarintMarket (m.Pair ++ dAtA) m.Pair.length
      else dAtA
    let dAtA := if m.Id ≠ 0 then 0x8 :: encodeVarintMarket dAtA m.Id else dAtA
    Outcome.ret dAtA

/-- Embedding of `Market.Size` (lines 250-278). -/
def Market.Size (m : Market) : Nat :=
  let n := 0
  let n := if m.Id ≠ 0 then n + (1 + sovMarket m.Id) else n
  let l := m.Pair.length
  let n := if l > 0 then n + (1 + l + sovMarket l) else n
  let n := if m.Exponent ≠ 0 then n + (1 + sozMarket (toUint64 m.Exponent)) else n
  let exchanges := m.Exchanges.getD []
  let n :=
    if exchanges.length > 0 then
      let l := exchanges.foldl (fun l e => l + sovMarket e) 0
      n + (1 + sovMarket l + l)
    else n
  let n := if m.MinExchanges ≠ 0 then n + (1 + sovMarket m.MinExchanges) else n
  let n := if m.MinPriceChangePpm ≠ 0 then n + (1 + sovMarket m.MinPriceChangePpm) else n
  let n := if m.Price ≠ 0 then n + (1 + sovMarket m.Price) else n
  n

/-- Embedding of `Market.Marshal` (lines 159-167): a buffer of `Size()` zero
bytes is filled from its end by `MarshalToSizedBuffer`, which returns the
number `n` of bytes written, and the first `n` bytes of the buffer are
returned. Writing in front of the buffer is an index out of range. -/
def Market.Marshal (m : Market) : Outcome (List Nat) :=
  let size := m.Size
  match m.MarshalToSizedBuffer with
  | Outcome.panic reason => Outcome.panic reason
  | Outcome.ret written =>
    let n := written.length
    if size < n then
      Outcome.panic Panic.IndexOutOfRange
    else
      Outcome.ret ((List.replicate (size - n) 0 ++ written).take n)

/-- The varint loop that the unmarshalling code repeats inline (as in lines
290-303) on data of length `l`: `for shift := uint(0); ; shift += 7`, failing
with `ErrIntOverflowMarket` once `shift >= 64` and with `io.ErrUnexpectedEOF`
once `iNdEx >= l`, else `b := dAtA[iNdEx]; iNdEx++; acc |= T(b&0x7F) << shift`,
until a byte below `0x80`. `width` is the number of bits of the type `T` of the
accumulator: 64 for `uint64` and for `int`, 32 for `uint32` and for `int32`,
whose bit pattern is returned. The argument `dAtA` is the data from `iNdEx` on,
and reading past its end is an index out of range. The result is the
accumulator, the index after the varint and the data from there on. -/
def readVarint (width l : Nat) : Nat → Nat → Nat → List Nat → Result (Nat × Nat × List Nat)
  | shift, acc, iNdEx, dAtA =>
    if shift ≥ 64 then
      Result.error WireError.ErrIntOverflowMarket
    else if iNdEx ≥ l then
      Result.error WireError.ErrUnexpectedEOF
    else
      match dAtA with
      | [] => Result.panic Panic.IndexOutOfRange
      | b :: rest =>
        let acc := acc ||| ((b &&& 0x7F) <<< shift) % 2 ^ width
        if b < 0x80 then
          Result.ok (acc, iNdEx + 1, rest)
        else
          readVarint width l (shift + 7) acc (iNdEx + 1) rest

/-- The slice `dAtA[iNdEx:postIndex]` of `n = postIndex - iNdEx` bytes, given
the data from `iNdEx` on; a slice that runs past the end of the data is out of
range. -/
def sliceFrom (dAtA : List Nat) (n : Nat) : Option (List Nat) :=
  if n ≤ dAtA.length then some (dAtA.take n) else none

/-- The loop of `skipMarket` (lines 543-614) on the data `dAtA` of length `l`,
at the index `iNdEx` and the group depth `depth`, for `fuel` rounds. An `int`
that has wrapped to a negative value is one whose bit pattern is `2^63` or
more. -/
def skipMarket.loop (dAtA : List Nat) (l : Nat) : Nat → Nat → Nat → Result Nat
  | 0, iNdEx, _ =>
    if iNdEx < l then Result.outOfFuel else Result.error WireError.ErrUnexpectedEOF
  | fuel + 1, iNdEx, depth =>
    if ¬ (iNdEx < l) then
      Result.error WireError.ErrUnexpectedEOF
    else
      match readVarint 64 l 0 0 iNdEx (dAtA.drop iNdEx) with
      | Result.error err => Result.error err
      | Result.panic reason => Result.panic reason
      | Result.outOfFuel => Result.outOfFuel
      | Result.ok (wire, iNdEx, rest) =>
        let wireType := wire &&& 0x7
        let step : Result (Nat × Nat) :=
          if wireType = 0 then
            match readVarint 64 l 0 0 iNdEx rest with
            | Result.error err => Result.error err
            | Result.panic reason => Result.panic reason
            | Result.outOfFuel => Result.outOfFuel
            | Result.ok (_, iNdEx, _) => Result.ok (iNdEx, depth)
          else if wireType = 1 then
            Result.ok (iNdEx + 8, depth)
          else if wireType = 2 then
            match readVarint 64 l 0 0 iNdEx rest with
            | Result.error err => Result.error err
            | Result.panic reason => Result.panic reason
            | Result.outOfFuel => Result.outOfFuel
            | Result.ok (length, iNdEx, _) =>
              if length ≥ 2 ^ 63 then
                Result.error WireError.ErrInvalidLengthMarket
              else
                Result.ok (iNdEx + length, depth)
          else if wireType = 3 then
            Result.ok (iNdEx, depth + 1)
          else if wireType = 4 then
            if depth = 0 then
              Result.error WireError.ErrUnexpectedEndOfGroupMarket
            else
              Result.ok (iNdEx, depth - 1)
          else if wireType = 5 then
            Result.ok (iNdEx + 4, depth)
          else
            Result.error WireError.IllegalWireType
        match step with
        | Result.error err => Result.error err
        | Result.panic reason => Result.panic reason
        | Result.outOfFuel => Result.outOfFuel
        | Result.ok (iNdEx, depth) =>
          if iNdEx ≥ 2 ^ 63 then
            Result.error WireError.ErrInvalidLengthMarket
          else if depth = 0 then
            Result.ok iNdEx
          else
            skipMarket.loop dAtA l fuel iNdEx depth

/-- Embedding of `skipMarket` (lines 539-616): the number of bytes that the
first field of `dAtA` takes. Every round of its loop reads at least one byte,
so it is given `len(dAtA)` rounds. -/
def skipMarket (dAtA : List Nat) : Result Nat :=
  skipMarket.loop dAtA dAtA.length dAtA.length 0 0

/-- The result of `append(s, v)` on a slice that may be nil. -/
def appendExchange (s : Option (List Nat)) (v : Nat) : Option (List Nat) :=
  some (s.getD [] ++ [v])

/-- The loop of lines 440-457 over the packed exchanges, `for iNdEx <
postIndex`, for `fuel` rounds: every round reads a varint, checking the index
against the length `l` of the data, and appends it. -/
def unpackExchanges (l postIndex : Nat) :
    Nat → Option (List Nat) → Nat → List Nat → Result (Option (List Nat) × Nat × List Nat)
  | 0, exchanges, iNdEx, dAtA =>
    if iNdEx < postIndex then Result.outOfFuel else Result.ok (exchanges, iNdEx, dAtA)
  | fuel + 1, exchanges, iNdEx, dAtA =>
    if ¬ (iNdEx < postIndex) then
      Result.ok (exchanges, iNdEx, dAtA)
    else
      match readVarint 32 l 0 0 iNdEx dAtA with
      | Result.error err => Result.error err
      | Result.panic reason => Result.panic reason
      | Result.outOfFuel => Result.outOfFuel
      | Result.ok (v, iNdEx, rest) =>
        unpackExchanges l postIndex fuel (appendExchange exchanges v) iNdEx rest

/-- The loop of `Market.Unmarshal` (lines 287-532) on data of length `l`, for
`fuel` rounds, and the check that follows it (lines 534-537): `dAtA` is the
data from `iNdEx` on and `m` the message as filled so far. -/
def Market.Unmarshal.loop (l : Nat) : Nat → Market → Nat → List Nat → Result Market
  | 0, m, iNdEx, _ =>
    if iNdEx < l then Result.outOfFuel
    else if iNdEx > l then Result.error WireError.ErrUnexpectedEOF
    else Result.ok m
  | fuel + 1, m, iNdEx, dAtA =>
    if ¬ (iNdEx < l) then
      if iNdEx > l then Result.error WireError.ErrUnexpectedEOF else Result.ok m
    else
      let preIndex := iNdEx
      match readVarint 64 l 0 0 iNdEx dAtA with
      | Result.error err => Result.error err
      | Result.panic reason => Result.panic reason
      | Result.outOfFuel => Result.outOfFuel
      | Result.ok (wire, iNdEx, rest) =>
        let fieldNum := toInt32 ((wire >>> 3 : Nat) : Int)
        let wireType := wire &&& 0x7
        if wireType = 4 then
          Result.error WireError.WiretypeEndGroupForNonGroup
        else if fieldNum ≤ 0 then
          Result.error WireError.IllegalTag
        else if fieldNum = 1 then
          if wireType ≠ 0 then
            Result.error WireError.WrongWireType
          else
            match readVarint 32 l 0 0 iNdEx rest with
            | Result.error err => Result.error err
            | Result.panic reason => Result.panic reason
            | Result.outOfFuel => Result.outOfFuel
            | Result.ok (v, iNdEx, rest) =>
              Market.Unmarshal.loop l fuel { m with Id := v } iNdEx rest
        else if fieldNum = 2 then
          if wireType ≠ 2 then
            Result.error WireError.WrongWireType
          else
            match readVarint 64 l 0 0 iNdEx rest with
            | Result.error err => Result.error err
            | Result.panic reason => Result.panic reason
            | Result.outOfFuel => Result.outOfFuel
            | Result.ok (stringLen, iNdEx, rest) =>
              if stringLen ≥ 2 ^ 63 then
                Result.error WireError.ErrInvalidLengthMarket
              else
                let postIndex := iNdEx + stringLen
                if postIndex ≥ 2 ^ 63 then
                  Result.error WireError.ErrInvalidLengthMarket
                else if postIndex > l then
                  Result.error WireError.ErrUnexpectedEOF
                else
                  match sliceFrom rest stringLen with
                  | none => Result.panic Panic.IndexOutOfRange
                  | some pair =>
                    Market.Unmarshal.loop l fuel { m with Pair := pair } postIndex
                      (rest.drop stringLen)
        else if fieldNum = 3 then
          if wireType ≠ 0 then
            Result.error WireError.WrongWireType
          else
            match readVarint 32 l 0 0 iNdEx rest with
            | Result.error err => Result.error err
            | Result.panic reason => Result.panic reason
            | Result.outOfFuel => Result.outOfFuel
            | Result.ok (v, iNdEx, rest) =>
              Market.Unmarshal.loop l fuel { m with Exponent := zigzag32Decode v } iNdEx rest
        else if fieldNum = 4 then
          if wireType = 0 then
            match readVarint 32 l 0 0 iNdEx rest with
            | Result.error err => Result.error err
            | Result.panic reason => Result.panic reason
            | Result.outOfFuel => Result.outOfFuel
            | Result.ok (v, iNdEx, rest) =>
              Market.Unmarshal.loop l fuel
                { m with Exchanges := appendExchange m.Exchanges v } iNdEx rest
          else if wireType = 2 then
            match readVarint 64 l 0 0 iNdEx rest with
            | Result.error err => Result.error err
            | Result.panic reason => Result.panic reason
            | Result.outOfFuel => Result.outOfFuel
            | Result.ok (packedLen, iNdEx, rest) =>
              if packedLen ≥ 2 ^ 63 then
                Result.error WireError.ErrInvalidLengthMarket
              else
                let postIndex := iNdEx + packedLen
                if postIndex ≥ 2 ^ 63 then
                  Result.error WireError.ErrInvalidLengthMarket
                else if postIndex > l then
                  Result.error WireError.ErrUnexpectedEOF
                else
                  match sliceFrom rest packedLen with
                  | none => Result.panic Panic.IndexOutOfRange
                  | some packed =>
                    let elementCount := (packed.filter (fun integer => integer < 128)).length
                    let exchanges :=
                      if elementCount ≠ 0 ∧ (m.Exchanges.getD []).length = 0 then some []
                      else m.Exchanges
                    match unpackExchanges l postIndex packedLen exchanges iNdEx rest with
                    | Result.error err => Result.error err
                    | Result.panic reason => Result.panic reason
                    | Result.outOfFuel => Result.outOfFuel
                    | Result.ok (exchanges, iNdEx, rest) =>
                      Market.Unmarshal.loop l fuel { m with Exchanges := exchanges } iNdEx rest
          else
            Result.error WireError.WrongWireType
        else if fieldNum = 5 then
          if wireType ≠ 0 then
            Result.error WireError.WrongWireType
          else
            match readVarint 32 l 0 0 iNdEx rest with
            | Result.error err => Result.error err
            | Result.panic reason => Result.panic reason
            | Result.outOfFuel => Result.outOfFuel
            | Result.ok (v, iNdEx, rest) =>
              Market.Unmarshal.loop l fuel { m with MinExchanges := v } iNdEx rest
        else if fieldNum = 6 then
          if wireType ≠ 0 then
            Result.error WireError.WrongWireType
          else
            match readVarint 32 l 0 0 iNdEx rest with
            | Result.error err => Result.error err
            | Result.panic reason => Result.panic reason
            | Result.outOfFuel => Result.outOfFuel
            | Result.ok (v, iNdEx, rest) =>
              Market.Unmarshal.loop l fuel { m with MinPriceChangePpm := v } iNdEx rest
        else if fieldNum = 7 then
          if wireType ≠ 0 then
            Result.error WireError.WrongWireType
          else
            match readVarint 64 l 0 0 iNdEx rest with
            | Result.error err => Result.error err
            | Result.panic reason => Result.panic reason
            | Result.outOfFuel => Result.outOfFuel
            | Result.ok (v, iNdEx, rest) =>
              Market.Unmarshal.loop l fuel { m with Price := v } iNdEx rest
        else
          match skipMarket dAtA with
          | Result.error err => Result.error err
          | Result.panic reason => Result.panic reason
          | Result.outOfFuel => Result.outOfFuel
          | Result.ok skippy =>
            if preIndex + skippy ≥ 2 ^ 63 then
              Result.error WireError.ErrInvalidLengthMarket
            else if preIndex + skippy > l then
              Result.error WireError.ErrUnexpectedEOF
            else
              Market.Unmarshal.loop l fuel m (preIndex + skippy) (dAtA.drop skippy)

/-- Embedding of `Market.Unmarshal` (lines 285-538): `m` is the message that
the data is unmarshalled into. Every round of the loop reads at least one
byte, so it is given `len(dAtA)` rounds. -/
def Market.Unmarshal (m : Market) (dAtA : List Nat) : Result Market :=
  Market.Unmarshal.loop dAtA.length dAtA.length m 0 dAtA

/-- The empty message `Market{}`. -/
def Market.empty : Market :=
  { Id := 0, Pair := [], Exponent := 0, Exchanges := none, MinExchanges := 0,
    MinPriceChangePpm := 0, Price := 0 }

/-- The wire format of a `Market`: the fields in ascending field-number order,
each left out when it has its zero value. Field 1 (tag `0x08`) is the id,
field 2 (tag `0x12`) the length of the pair and its bytes, field 3 (tag `0x18`)
the zigzag value of the exponent, field 4 (tag `0x22`) the length of the packed
exchanges and their varints, field 5 (tag `0x28`) the minimum number of
exchanges, field 6 (tag `0x30`) the minimum price change and field 7 (tag
`0x38`) the price. -/
def Market.wire (m : Market) : List Nat :=
  (if m.Id ≠ 0 then 0x08 :: varintBytes m.Id else []) ++
  (if m.Pair ≠ [] then 0x12 :: (varintBytes m.Pair.length ++ m.Pair) else []) ++
  (if m.Exponent ≠ 0 then
    0x18 :: varintBytes (if 0 ≤ m.Exponent then 2 * m.Exponent else -2 * m.Exponent - 1).toNat
    else []) ++
  (if m.Exchanges.getD [] ≠ [] then
    0x22 :: (varintBytes ((m.Exchanges.getD []).map varintBytes).flatten.length ++
      ((m.Exchanges.getD []).map varintBytes).flatten)
    else []) ++
  (if m.MinExchanges ≠ 0 then 0x28 :: varintBytes m.MinExchanges else []) ++
  (if m.MinPriceChangePpm ≠ 0 then 0x30 :: varintBytes m.MinPriceChangePpm else []) ++
  (if m.Price ≠ 0 then 0x38 :: varintBytes m.Price else [])

/-- The BTC-USD market of the tests: exponent -5, three exchanges, price
5,000,000,000. -/
def btcUsdMarket : Market :=
  { Id := 0, Pair := [66, 84, 67, 45, 85, 83, 68], Exponent := -5,
    Exchanges := some [0, 1, 300], MinExchanges := 2, MinPriceChangePpm := 50,
    Price := 5000000000 }

end PricesTypes

namespace Clob

/-! ## Lemmas on `getUpdatedOrderFillAmount` -/

theorem getUpdatedOrderFillAmount_exceeds (id : OrderId) (base cur fill : Nat)
    (h : base < cur + fill) :
    getUpdatedOrderFillAmount id base cur fill =
      (0, some Error.ErrInvalidMsgProposedOperations) := by
  unfold getUpdatedOrderFillAmount
  have : ((base : Int) < (cur : Int) + (fill : Int)) := by exact_mod_cast h
  simp [this]

theorem getUpdatedOrderFillAmount_fits (id : OrderId) (base cur fill : Nat)
    (hbase : base < 2 ^ 64) (h : cur + fill ≤ base) :
    getUpdatedOrderFillAmount id base cur fill = (cur + fill, none) := by
  unfold getUpdatedOrderFillAmount
  have h1 : ¬ ((base : Int) < (cur : Int) + (fill : Int)) := by
    have : ((cur : Int) + (fill : Int) ≤ (base : Int)) := by exact_mod_cast h
    omega
  have h2 : ((cur : Int) + (fill : Int)).toNat = cur + fill := by omega
  simp [h1, h2]
  omega

theorem getUpdatedOrderFillAmount_none_iff (id : OrderId) (base cur fill : Nat) :
    (getUpdatedOrderFillAmount id base cur fill).2 = none ↔ cur + fill ≤ base := by
  by_cases h : base < cur + fill
  · rw [getUpdatedOrderFillAmount_exceeds id base cur fill h]
    simp
    omega
  · unfold getUpdatedOrderFillAmount
    have h1 : ¬ ((base : Int) < (cur : Int) + (fill : Int)) := by
      have : ((cur : Int) + (fill : Int) ≤ (base : Int)) := by
        have h' : cur + fill ≤ base := by omega
        exact_mod_cast h'
      omega
    simp [h1]
    omega

/-! ## Lemmas on `ProcessSingleMatch` -/

/-- Either `ProcessSingleMatch` stops during validation, having made no call and
returning `success = false` with an error or panicking, or every validation
passed and it continues with `ProcessSingleMatch.persist`. -/
theorem ProcessSingleMatch_cases (k : Keeper) (m : MatchWithOrders) :
    ((ProcessSingleMatch k m).calls = [] ∧
      ((∃ err, ProcessSingleMatch k m = earlyReturn err) ∨
        ProcessSingleMatch k m = ⟨[], Outcome.panic Panic.IntegerDivideByZero⟩ ∨
        ProcessSingleMatch k m = ⟨[], Outcome.panic Panic.MustGetOrderOnLiquidation⟩)) ∨
    ∃ clobPair perpetualId takerFeePpm Q D makerOrder,
      Validated k m clobPair perpetualId takerFeePpm Q D makerOrder ∧
      ProcessSingleMatch k m =
        ProcessSingleMatch.persist k m perpetualId takerFeePpm clobPair.MakerFeePpm Q D
          (curTakerPruneableBlockHeight k m) (newTakerTotalFillAmount k m)
          (k.GetOrderFillAmount makerOrder.OrderId).2.2
          (getUpdatedOrderFillAmount makerOrder.OrderId makerOrder.Quantums
            (k.GetOrderFillAmount makerOrder.OrderId).2.1 m.FillAmount).1 := by
  unfold ProcessSingleMatch
  simp only
  split
  · left; exact ⟨rfl, Or.inl ⟨_, rfl⟩⟩
  rename_i clobPair hclob
  split
  · left; exact ⟨rfl, Or.inr (Or.inl rfl)⟩
  rename_i hstep
  split
  · left; exact ⟨rfl, Or.inl ⟨_, rfl⟩⟩
  rename_i hdiv
  split
  · left; exact ⟨rfl, Or.inl ⟨_, rfl⟩⟩
  rename_i Q hQ
  split
  · left; exact ⟨rfl, Or.inl ⟨_, rfl⟩⟩
  rename_i pid hpid
  split
  · left; exact ⟨rfl, Or.inl ⟨_, rfl⟩⟩
  rename_i tf D hliq
  split
  · rename_i reason htaker
    left
    refine ⟨rfl, Or.inr (Or.inr ?_)⟩
    have : reason = Panic.MustGetOrderOnLiquidation := by
      split at htaker
      · split at htaker
        · simp only [Outcome.panic.injEq] at htaker
          exact htaker.symm
        · split at htaker <;> simp at htaker
      · simp at htaker
    rw [this]
  · left; exact ⟨rfl, Or.inl ⟨_, rfl⟩⟩
  rename_i ctp ntt htaker
  split
  · left; exact ⟨rfl, Or.inr (Or.inr rfl)⟩
  rename_i makerOrder hmaker
  split
  · left; exact ⟨rfl, Or.inl ⟨_, rfl⟩⟩
  rename_i hmfill
  right
  have hmk : m.MakerOrder = MatchableOrder.order makerOrder := by
    cases hm : m.MakerOrder with
    | order o => simp [hm, MatchableOrder.MustGetOrder] at hmaker; rw [hmaker]
    | liquidation l => simp [hm, MatchableOrder.MustGetOrder] at hmaker
  have hbase : m.MakerOrder.GetBaseQuantums = makerOrder.Quantums := by
    rw [hmk]; rfl
  rw [hbase] at hmfill ⊢
  have htk : ctp = curTakerPruneableBlockHeight k m ∧ ntt = newTakerTotalFillAmount k m ∧
      ∀ o, m.TakerOrder = MatchableOrder.order o →
        (k.GetOrderFillAmount o.OrderId).2.1 + m.FillAmount ≤ o.Quantums := by
    unfold curTakerPruneableBlockHeight newTakerTotalFillAmount
    cases ht : m.TakerOrder with
    | order o =>
      simp only [ht, MatchableOrder.IsLiquidation, MatchableOrder.MustGetOrder,
        MatchableOrder.GetBaseQuantums, Bool.not_false, if_true] at htaker
      split at htaker
      · simp at htaker
      · rename_i hnone
        simp only [Outcome.ret.injEq, Except.ok.injEq, Prod.mk.injEq] at htaker
        refine ⟨htaker.1.symm, htaker.2.symm, ?_⟩
        intro o' ho'
        cases ho'
        exact (getUpdatedOrderFillAmount_none_iff _ _ _ _).1 hnone
    | liquidation l =>
      simp only [ht, MatchableOrder.IsLiquidation, Bool.not_true, Bool.false_eq_true, if_false,
        Outcome.ret.injEq, Except.ok.injEq, Prod.mk.injEq] at htaker
      exact ⟨htaker.1.symm, htaker.2.symm, by intro o ho; cases ho⟩
  obtain ⟨h1, h2, h3⟩ := htk
  subst h1 h2
  have hfee : clobPair.GetFeePpm false = clobPair.MakerFeePpm := by
    simp [ClobPair.GetFeePpm]
  rw [hfee]
  refine ⟨clobPair, pid, tf, Q, D, makerOrder, ?_, rfl⟩
  refine ⟨hclob, hstep, by simpa using hdiv, hQ, hpid, ?_, ?_, h3, hmk,
    (getUpdatedOrderFillAmount_none_iff _ _ _ _).1 hmfill⟩
  · intro hl
    rw [if_pos hl] at hliq
    split at hliq
    · simp at hliq
    · rename_i delta hd
      simp only [Except.ok.injEq, Prod.mk.injEq] at hliq
      rw [← hliq.1, ← hliq.2]
      exact ⟨rfl, hd⟩
  · intro hl
    rw [if_neg (by simp [hl])] at hliq
    simp only [Except.ok.injEq, Prod.mk.injEq] at hliq
    rw [← hliq.1, ← hliq.2]
    exact ⟨by simp [ClobPair.GetFeePpm], rfl⟩

/-! ## Lemmas on `persistMatchedOrders` -/

/-- Every way `persistMatchedOrders` can end, with the calls made on the way. -/
theorem persistMatchedOrders_cases (k : Keeper) (m : MatchWithOrders)
    (perpetualId takerFeePpm makerFeePpm : Nat) (Q D : Int) :
    let us := matchedOrdersUpdates k m perpetualId (BigIntMulPpm Q takerFeePpm)
      (BigIntMulPpm Q makerFeePpm) Q D
    let fee := BigIntMulPpm Q takerFeePpm + BigIntMulPpm Q makerFeePpm
    let R := persistMatchedOrders k m perpetualId takerFeePpm makerFeePpm Q D
    (m.TakerOrder.IsLiquidation = true ∧ BigIntMulPpm Q takerFeePpm ≠ 0 ∧
      R = ⟨[], Outcome.panic Panic.LiquidationPaysTakerFees⟩) ∨
    ((m.TakerOrder.IsLiquidation = true → BigIntMulPpm Q takerFeePpm = 0) ∧
      ((∃ e, (k.UpdateSubaccounts us).2.2 = some e ∧
          R = ⟨[Call.UpdateSubaccounts us], Outcome.ret
            ⟨false, UpdateResult.UpdateCausedError, UpdateResult.UpdateCausedError, some e⟩⟩) ∨
        ((k.UpdateSubaccounts us).2.2 = none ∧ (k.UpdateSubaccounts us).2.1.length < 2 ∧
          R = ⟨[Call.UpdateSubaccounts us], Outcome.panic Panic.IndexOutOfRange⟩) ∨
        (∃ t mk rest, k.UpdateSubaccounts us = (false, t :: mk :: rest, none) ∧
          R = ⟨[Call.UpdateSubaccounts us], Outcome.ret
            ⟨false, t, mk, some Error.ErrFailedToUpdateSubaccounts⟩⟩) ∨
        (∃ t mk rest, k.UpdateSubaccounts us = (true, t :: mk :: rest, none) ∧
          ((∃ e, k.TransferInsuranceFundPayments D = some e ∧
              R = ⟨[Call.UpdateSubaccounts us, Call.TransferInsuranceFundPayments D],
                Outcome.ret ⟨true, t, mk, some e⟩⟩) ∨
            (k.TransferInsuranceFundPayments D = none ∧
              (∃ e, k.TransferFeesToFeeCollectorModule k.UsdcAssetId fee = some e) ∧
              R = ⟨[Call.UpdateSubaccounts us, Call.TransferInsuranceFundPayments D,
                  Call.TransferFeesToFeeCollectorModule k.UsdcAssetId fee],
                Outcome.ret ⟨false, t, mk, some Error.ErrSubaccountFeeTransferFailed⟩⟩) ∨
            (k.TransferInsuranceFundPayments D = none ∧
              k.TransferFeesToFeeCollectorModule k.UsdcAssetId fee = none ∧
              R = ⟨[Call.UpdateSubaccounts us, Call.TransferInsuranceFundPayments D,
                  Call.TransferFeesToFeeCollectorModule k.UsdcAssetId fee],
                Outcome.ret ⟨true, t, mk, none⟩⟩))))) := by
  intro us fee R
  show _ ∨ _
  by_cases hp : m.TakerOrder.IsLiquidation = true ∧ BigIntMulPpm Q takerFeePpm ≠ 0
  · left
    refine ⟨hp.1, hp.2, ?_⟩
    show persistMatchedOrders k m perpetualId takerFeePpm makerFeePpm Q D = _
    unfold persistMatchedOrders
    simp [hp.1, hp.2]
  · right
    have hp' : m.TakerOrder.IsLiquidation = true → BigIntMulPpm Q takerFeePpm = 0 := by
      intro h
      by_contra h'
      exact hp ⟨h, h'⟩
    refine ⟨hp', ?_⟩
    have hguard : (m.TakerOrder.IsLiquidation && decide (BigIntMulPpm Q takerFeePpm ≠ 0)) = false := by
      cases hl : m.TakerOrder.IsLiquidation
      · rfl
      · simp [hp' hl]
    have hR : R = persistMatchedOrders k m perpetualId takerFeePpm makerFeePpm Q D := rfl
    clear_value R
    unfold persistMatchedOrders at hR
    simp only [hguard, Bool.false_eq_true, if_false] at hR
    have hus : matchedOrdersUpdates k m perpetualId (BigIntMulPpm Q takerFeePpm)
      (BigIntMulPpm Q makerFeePpm) Q D = us := rfl
    have hfee : BigIntMulPpm Q takerFeePpm + BigIntMulPpm Q makerFeePpm = fee := rfl
    rw [hus] at hR
    clear_value us fee
    rcases hu : k.UpdateSubaccounts us with ⟨s, rs, e⟩
    rw [hu] at hR
    cases e with
    | some err =>
      left
      exact ⟨err, rfl, hR⟩
    | none =>
      right
      match rs, hu, hR with
      | [], hu, hR => left; exact ⟨rfl, by simp, hR⟩
      | [_], hu, hR => left; exact ⟨rfl, by simp, hR⟩
      | t :: mk :: rest, hu, hR =>
        right
        cases s with
        | false =>
          left
          refine ⟨t, mk, rest, rfl, ?_⟩
          simpa [GetErrorFromUpdateResults] using hR
        | true =>
          right
          refine ⟨t, mk, rest, rfl, ?_⟩
          simp only [GetErrorFromUpdateResults, if_true] at hR
          cases hti : k.TransferInsuranceFundPayments D with
          | some e =>
            left
            rw [hti] at hR
            exact ⟨e, rfl, hR⟩
          | none =>
            right
            rw [hti] at hR
            simp only [hfee] at hR
            cases htf : k.TransferFeesToFeeCollectorModule k.UsdcAssetId fee with
            | some e =>
              left
              rw [htf] at hR
              exact ⟨rfl, ⟨e, rfl⟩, hR⟩
            | none =>
              right
              rw [htf] at hR
              exact ⟨rfl, rfl, hR⟩

/-! ## Lemmas on the second half of `ProcessSingleMatch` -/

theorem persist_of_panic (k : Keeper) (m : MatchWithOrders)
    (perpetualId takerFeePpm makerFeePpm : Nat) (Q D : Int) (ctp ntt cmp nmt : Nat)
    (cs : List Call) (reason : Panic)
    (h : persistMatchedOrders k m perpetualId takerFeePpm makerFeePpm Q D
      = ⟨cs, Outcome.panic reason⟩) :
    ProcessSingleMatch.persist k m perpetualId takerFeePpm makerFeePpm Q D ctp ntt cmp nmt
      = ⟨cs, Outcome.panic reason⟩ := by
  unfold ProcessSingleMatch.persist
  simp only [h]

theorem persist_of_error (k : Keeper) (m : MatchWithOrders)
    (perpetualId takerFeePpm makerFeePpm : Nat) (Q D : Int) (ctp ntt cmp nmt : Nat)
    (cs : List Call) (s : Bool) (t mk : UpdateResult) (e : Error)
    (h : persistMatchedOrders k m perpetualId takerFeePpm makerFeePpm Q D
      = ⟨cs, Outcome.ret ⟨s, t, mk, some e⟩⟩) :
    ProcessSingleMatch.persist k m perpetualId takerFeePpm makerFeePpm Q D ctp ntt cmp nmt
      = ⟨cs, Outcome.ret ⟨false, t, mk, none, some e⟩⟩ := by
  unfold ProcessSingleMatch.persist
  simp only [h]

/-- The calls `ProcessSingleMatch` makes after a successful `persistMatchedOrders`:
the liquidation info update for a liquidation, the taker's fill amount write
for a regular taker, then the maker's fill amount write. -/
theorem persist_of_success (k : Keeper) (m : MatchWithOrders)
    (perpetualId takerFeePpm makerFeePpm : Nat) (Q D : Int) (ctp ntt cmp nmt : Nat)
    (cs : List Call) (t mk : UpdateResult) (makerOrder : Order)
    (h : persistMatchedOrders k m perpetualId takerFeePpm makerFeePpm Q D
      = ⟨cs, Outcome.ret ⟨true, t, mk, none⟩⟩)
    (hmaker : m.MakerOrder = MatchableOrder.order makerOrder) :
    ∃ off, ProcessSingleMatch.persist k m perpetualId takerFeePpm makerFeePpm Q D ctp ntt cmp nmt
      = ⟨cs ++
          (if m.TakerOrder.IsLiquidation then
            [Call.UpdateSubaccountLiquidationInfo m.TakerOrder.GetSubaccountId Q D] else []) ++
          (match m.TakerOrder with
            | MatchableOrder.order o => (setOrderFillAmountsAndPruning k o ntt ctp).1
            | MatchableOrder.liquidation _ => []) ++
          (setOrderFillAmountsAndPruning k makerOrder nmt cmp).1,
        Outcome.ret ⟨true, t, mk, some off, none⟩⟩ := by
  unfold ProcessSingleMatch.persist
  simp only [h, hmaker, MatchableOrder.MustGetOrder]
  cases ht : m.TakerOrder with
  | order o =>
    simp [MatchableOrder.IsLiquidation, MatchableOrder.MustGetOrder]
  | liquidation l =>
    simp [MatchableOrder.IsLiquidation, MatchableOrder.MustGetOrder]

theorem BigIntMulPpm_zero (Q : Int) : BigIntMulPpm Q 0 = 0 := by
  simp [BigIntMulPpm]

/-- Every run of `ProcessSingleMatch`: it stops during validation without a
call, or the validations pass and the run is one of the six ways through
`persistMatchedOrders` and the writes that follow it. -/
theorem ProcessSingleMatch_runs (k : Keeper) (m : MatchWithOrders) :
    ((ProcessSingleMatch k m).calls = [] ∧
      ((∃ err, ProcessSingleMatch k m = earlyReturn err) ∨
        ProcessSingleMatch k m = ⟨[], Outcome.panic Panic.IntegerDivideByZero⟩ ∨
        ProcessSingleMatch k m = ⟨[], Outcome.panic Panic.MustGetOrderOnLiquidation⟩)) ∨
    ∃ clobPair perpetualId takerFeePpm Q D makerOrder,
      Validated k m clobPair perpetualId takerFeePpm Q D makerOrder ∧
      ProcessSingleMatch k m =
        ProcessSingleMatch.persist k m perpetualId takerFeePpm clobPair.MakerFeePpm Q D
          (curTakerPruneableBlockHeight k m) (newTakerTotalFillAmount k m)
          (k.GetOrderFillAmount makerOrder.OrderId).2.2
          (getUpdatedOrderFillAmount makerOrder.OrderId makerOrder.Quantums
            (k.GetOrderFillAmount makerOrder.OrderId).2.1 m.FillAmount).1 ∧
      ∃ us fee,
      us = matchedOrdersUpdates k m perpetualId (BigIntMulPpm Q takerFeePpm)
        (BigIntMulPpm Q clobPair.MakerFeePpm) Q D ∧
      fee = BigIntMulPpm Q takerFeePpm + BigIntMulPpm Q clobPair.MakerFeePpm ∧
      ((∃ e, (k.UpdateSubaccounts us).2.2 = some e ∧
          ProcessSingleMatch k m = ⟨[Call.UpdateSubaccounts us], Outcome.ret
            ⟨false, UpdateResult.UpdateCausedError, UpdateResult.UpdateCausedError, none,
              some e⟩⟩) ∨
        ((k.UpdateSubaccounts us).2.2 = none ∧ (k.UpdateSubaccounts us).2.1.length < 2 ∧
          ProcessSingleMatch k m =
            ⟨[Call.UpdateSubaccounts us], Outcome.panic Panic.IndexOutOfRange⟩) ∨
        (∃ t mk rest, k.UpdateSubaccounts us = (false, t :: mk :: rest, none) ∧
          ProcessSingleMatch k m = ⟨[Call.UpdateSubaccounts us], Outcome.ret
            ⟨false, t, mk, none, some Error.ErrFailedToUpdateSubaccounts⟩⟩) ∨
        (∃ t mk rest, k.UpdateSubaccounts us = (true, t :: mk :: rest, none) ∧
          ((∃ e, k.TransferInsuranceFundPayments D = some e ∧
              ProcessSingleMatch k m =
                ⟨[Call.UpdateSubaccounts us, Call.TransferInsuranceFundPayments D],
                  Outcome.ret ⟨false, t, mk, none, some e⟩⟩) ∨
            (k.TransferInsuranceFundPayments D = none ∧
              (∃ e, k.TransferFeesToFeeCollectorModule k.UsdcAssetId fee = some e) ∧
              ProcessSingleMatch k m =
                ⟨[Call.UpdateSubaccounts us, Call.TransferInsuranceFundPayments D,
                    Call.TransferFeesToFeeCollectorModule k.UsdcAssetId fee],
                  Outcome.ret ⟨false, t, mk, none,
                    some Error.ErrSubaccountFeeTransferFailed⟩⟩) ∨
            (k.TransferInsuranceFundPayments D = none ∧
              k.TransferFeesToFeeCollectorModule k.UsdcAssetId fee = none ∧
              ∃ off, ProcessSingleMatch k m =
                ⟨[Call.UpdateSubaccounts us, Call.TransferInsuranceFundPayments D,
                    Call.TransferFeesToFeeCollectorModule k.UsdcAssetId fee] ++
                  (if m.TakerOrder.IsLiquidation then
                    [Call.UpdateSubaccountLiquidationInfo m.TakerOrder.GetSubaccountId Q D]
                    else []) ++
                  (match m.TakerOrder with
                    | MatchableOrder.order o =>
                      (setOrderFillAmountsAndPruning k o (newTakerTotalFillAmount k m)
                        (curTakerPruneableBlockHeight k m)).1
                    | MatchableOrder.liquidation _ => []) ++
                  (setOrderFillAmountsAndPruning k makerOrder
                    (getUpdatedOrderFillAmount makerOrder.OrderId makerOrder.Quantums
                      (k.GetOrderFillAmount makerOrder.OrderId).2.1 m.FillAmount).1
                    (k.GetOrderFillAmount makerOrder.OrderId).2.2).1,
                  Outcome.ret ⟨true, t, mk, some off, none⟩⟩)))) := by
  rcases ProcessSingleMatch_cases k m with h | ⟨c, pid, tf, Q, D, mo, hv, heq⟩
  · exact Or.inl h
  · right
    refine ⟨c, pid, tf, Q, D, mo, hv, heq, _, _, rfl, rfl, ?_⟩
    rw [heq]
    have hfee0 : m.TakerOrder.IsLiquidation = true → BigIntMulPpm Q tf = 0 := by
      intro hl
      rw [(hv.liquidation hl).1]
      exact BigIntMulPpm_zero Q
    rcases persistMatchedOrders_cases k m pid tf c.MakerFeePpm Q D with
      ⟨hl, hne, _⟩ | ⟨_, hB | hC | hD | hE⟩
    · exact absurd (hfee0 hl) hne
    · obtain ⟨e, he, hR⟩ := hB
      exact Or.inl ⟨e, he, persist_of_error _ _ _ _ _ _ _ _ _ _ _ _ _ _ _ _ hR⟩
    · obtain ⟨he, hlen, hR⟩ := hC
      exact Or.inr (Or.inl ⟨he, hlen, persist_of_panic _ _ _ _ _ _ _ _ _ _ _ _ _ hR⟩)
    · obtain ⟨t, mk, rest, hu, hR⟩ := hD
      exact Or.inr (Or.inr (Or.inl ⟨t, mk, rest, hu,
        persist_of_error _ _ _ _ _ _ _ _ _ _ _ _ _ _ _ _ hR⟩))
    · obtain ⟨t, mk, rest, hu, hE1 | hE2 | hE3⟩ := hE
      · obtain ⟨e, he, hR⟩ := hE1
        exact Or.inr (Or.inr (Or.inr ⟨t, mk, rest, hu,
          Or.inl ⟨e, he, persist_of_error _ _ _ _ _ _ _ _ _ _ _ _ _ _ _ _ hR⟩⟩))
      · obtain ⟨hti, he, hR⟩ := hE2
        exact Or.inr (Or.inr (Or.inr ⟨t, mk, rest, hu,
          Or.inr (Or.inl ⟨hti, he, persist_of_error _ _ _ _ _ _ _ _ _ _ _ _ _ _ _ _ hR⟩)⟩))
      · obtain ⟨hti, htf, hR⟩ := hE3
        obtain ⟨off, hoff⟩ := persist_of_success k m pid tf c.MakerFeePpm Q D
          (curTakerPruneableBlockHeight k m) (newTakerTotalFillAmount k m)
          (k.GetOrderFillAmount mo.OrderId).2.2
          (getUpdatedOrderFillAmount mo.OrderId mo.Quantums
            (k.GetOrderFillAmount mo.OrderId).2.1 m.FillAmount).1 _ t mk mo hR hv.maker_order
        exact Or.inr (Or.inr (Or.inr ⟨t, mk, rest, hu,
          Or.inr (Or.inr ⟨hti, htf, off, hoff⟩)⟩))

/-! ## Lemmas on `setOrderFillAmountsAndPruning` and the updates -/

theorem setOrderFillAmountsAndPruning_calls (k : Keeper) (o : Order) (newTotal cur : Nat) :
    (setOrderFillAmountsAndPruning k o newTotal cur).1 =
      if o.IsStatefulOrder then
        [Call.SetOrderFillAmount o.OrderId newTotal mathMaxUint32]
      else
        [Call.AddOrdersForPruning [o.OrderId]
            (MaxUint32 ((o.GetGoodTilBlock + k.ShortBlockWindow) % 2 ^ 32) cur),
          Call.SetOrderFillAmount o.OrderId newTotal
            (MaxUint32 ((o.GetGoodTilBlock + k.ShortBlockWindow) % 2 ^ 32) cur)] := by
  unfold setOrderFillAmountsAndPruning
  cases o.IsStatefulOrder <;> simp

theorem mem_setOrderFillAmountsAndPruning (k : Keeper) (o : Order) (newTotal cur : Nat)
    (c : Call) (h : c ∈ (setOrderFillAmountsAndPruning k o newTotal cur).1) :
    (∃ height, c = Call.AddOrdersForPruning [o.OrderId] height) ∨
      ∃ height, c = Call.SetOrderFillAmount o.OrderId newTotal height := by
  rw [setOrderFillAmountsAndPruning_calls] at h
  split at h
  · simp only [List.mem_singleton] at h
    exact Or.inr ⟨_, h⟩
  · simp only [List.mem_cons, List.mem_singleton, List.not_mem_nil, or_false] at h
    rcases h with h | h
    · exact Or.inl ⟨_, h⟩
    · exact Or.inr ⟨_, h⟩

/-- The quote deltas of the two updates, the two fees and the part of the
insurance fund delta charged to the taker add up to zero. -/
theorem matchedOrdersUpdates_quote_sum (k : Keeper) (m : MatchWithOrders) (perpetualId : Nat)
    (takerFee makerFee Q D : Int) :
    ∃ takerUpdate makerUpdate takerQuoteDelta makerQuoteDelta,
      matchedOrdersUpdates k m perpetualId takerFee makerFee Q D = [takerUpdate, makerUpdate] ∧
      takerUpdate.AssetUpdates = [⟨k.UsdcAssetId, takerQuoteDelta⟩] ∧
      makerUpdate.AssetUpdates = [⟨k.UsdcAssetId, makerQuoteDelta⟩] ∧
      takerQuoteDelta + makerQuoteDelta + (takerFee + makerFee) +
        (if m.TakerOrder.IsLiquidation then D else 0) = 0 := by
  refine ⟨_, _, _, _, rfl, rfl, rfl, ?_⟩
  cases m.TakerOrder.IsBuy <;> cases m.TakerOrder.IsLiquidation <;> simp <;> ring

/-- The calls made after a successful `persistMatchedOrders` are liquidation
info updates, pruning entries and fill amount writes only. -/
theorem mem_writes (k : Keeper) (m : MatchWithOrders) (Q D : Int) (ntt ctp nmt cmp : Nat)
    (makerOrder : Order) (c : Call)
    (h : c ∈ (if m.TakerOrder.IsLiquidation then
          [Call.UpdateSubaccountLiquidationInfo m.TakerOrder.GetSubaccountId Q D] else []) ++
        (match m.TakerOrder with
          | MatchableOrder.order o => (setOrderFillAmountsAndPruning k o ntt ctp).1
          | MatchableOrder.liquidation _ => []) ++
        (setOrderFillAmountsAndPruning k makerOrder nmt cmp).1) :
    (m.TakerOrder.IsLiquidation = true ∧
        c = Call.UpdateSubaccountLiquidationInfo m.TakerOrder.GetSubaccountId Q D) ∨
      (∃ o, m.TakerOrder = MatchableOrder.order o ∧
        c ∈ (setOrderFillAmountsAndPruning k o ntt ctp).1) ∨
      c ∈ (setOrderFillAmountsAndPruning k makerOrder nmt cmp).1 := by
  simp only [List.mem_append] at h
  rcases h with (h | h) | h
  · split at h
    · rename_i hl
      simp only [List.mem_singleton] at h
      exact Or.inl ⟨hl, h⟩
    · simp at h
  · split at h
    · rename_i o ho
      exact Or.inr (Or.inl ⟨o, ho, h⟩)
    · simp at h
  · exact Or.inr (Or.inr h)

/-! ## Claims -/

/-- C1. Conservation of quote quantums. Whenever `ProcessSingleMatch` hands a
match to `persistMatchedOrders` (it then calls `UpdateSubaccounts` on `us`), the
validations have passed with fill quote quantums `Q`, a taker fee ppm that is
`0` for a liquidation and the pair's otherwise, and an insurance fund delta `D`
that is `0` unless the taker is a liquidation; `us` is the taker's and the
maker's update, and taker quote delta + maker quote delta + (taker fee + maker
fee) + `D` = 0 with the fees `BigIntMulPpm Q ppm`. Every insurance fund transfer
of the run moves exactly `D`, every fee transfer exactly the two fees, and a
successful run makes exactly one of each. -/
theorem ProcessSingleMatch_quote_conservation (k : Keeper) (m : MatchWithOrders)
    (us : List Update) (h : Call.UpdateSubaccounts us ∈ (ProcessSingleMatch k m).calls) :
    ∃ clobPair perpetualId takerFeePpm Q D makerOrder takerUpdate makerUpdate
        takerQuoteDelta makerQuoteDelta,
      Validated k m clobPair perpetualId takerFeePpm Q D makerOrder ∧
      us = [takerUpdate, makerUpdate] ∧
      takerUpdate.AssetUpdates = [⟨k.UsdcAssetId, takerQuoteDelta⟩] ∧
      makerUpdate.AssetUpdates = [⟨k.UsdcAssetId, makerQuoteDelta⟩] ∧
      takerQuoteDelta + makerQuoteDelta +
          (BigIntMulPpm Q takerFeePpm + BigIntMulPpm Q clobPair.MakerFeePpm) + D = 0 ∧
      (∀ d, Call.TransferInsuranceFundPayments d ∈ (ProcessSingleMatch k m).calls → d = D) ∧
      (∀ a f, Call.TransferFeesToFeeCollectorModule a f ∈ (ProcessSingleMatch k m).calls →
        a = k.UsdcAssetId ∧
        f = BigIntMulPpm Q takerFeePpm + BigIntMulPpm Q clobPair.MakerFeePpm) ∧
      (∀ r, (ProcessSingleMatch k m).result = Outcome.ret r → r.success = true →
        ∃ writes, (ProcessSingleMatch k m).calls =
          [Call.UpdateSubaccounts us, Call.TransferInsuranceFundPayments D,
            Call.TransferFeesToFeeCollectorModule k.UsdcAssetId
              (BigIntMulPpm Q takerFeePpm + BigIntMulPpm Q clobPair.MakerFeePpm)] ++ writes ∧
          ∀ c ∈ writes, (∀ us', c ≠ Call.UpdateSubaccounts us') ∧
            (∀ d, c ≠ Call.TransferInsuranceFundPayments d) ∧
            ∀ a f, c ≠ Call.TransferFeesToFeeCollectorModule a f) := by
  rcases ProcessSingleMatch_runs k m with ⟨hnil, _⟩ |
    ⟨c, pid, tf, Q, D, mo, hv, _, us0, fee, hus, hfee, hrun⟩
  · rw [hnil] at h
    simp at h
  · obtain ⟨tu, mu, tq, mq, hlist, htu, hmu, hsum⟩ :=
      matchedOrdersUpdates_quote_sum k m pid (BigIntMulPpm Q tf) (BigIntMulPpm Q c.MakerFeePpm) Q D
    have hD : (if m.TakerOrder.IsLiquidation then D else 0) = D := by
      cases hl : m.TakerOrder.IsLiquidation
      · simp [(hv.regular hl).2]
      · simp
    rw [hD] at hsum
    rw [← hus] at hlist
    refine ⟨c, pid, tf, Q, D, mo, tu, mu, tq, mq, hv, ?_⟩
    rw [← hfee] at hsum ⊢
    rcases hrun with ⟨e, _, hR⟩ | ⟨_, _, hR⟩ | ⟨t, mk, rest, _, hR⟩ |
      ⟨t, mk, rest, _, ⟨e, _, hR⟩ | ⟨_, _, hR⟩ | ⟨_, _, off, hR⟩⟩
    · rw [hR] at h ⊢
      simp only [List.mem_singleton, Call.UpdateSubaccounts.injEq] at h
      subst h
      refine ⟨hlist, htu, hmu, hsum, ?_, ?_, ?_⟩ <;> simp
    · rw [hR] at h ⊢
      simp only [List.mem_singleton, Call.UpdateSubaccounts.injEq] at h
      subst h
      refine ⟨hlist, htu, hmu, hsum, ?_, ?_, ?_⟩ <;> simp
    · rw [hR] at h ⊢
      simp only [List.mem_singleton, Call.UpdateSubaccounts.injEq] at h
      subst h
      refine ⟨hlist, htu, hmu, hsum, ?_, ?_, ?_⟩ <;> simp
    · rw [hR] at h ⊢
      simp only [List.mem_cons, List.mem_singleton, Call.UpdateSubaccounts.injEq,
        List.not_mem_nil, or_false, reduceCtorEq] at h
      subst h
      refine ⟨hlist, htu, hmu, hsum, ?_, ?_, ?_⟩ <;> simp
    · rw [hR] at h ⊢
      simp only [List.mem_cons, List.mem_singleton, Call.UpdateSubaccounts.injEq,
        List.not_mem_nil, or_false, reduceCtorEq] at h
      subst h
      refine ⟨hlist, htu, hmu, hsum, ?_, ?_, ?_⟩ <;> simp
    · rw [hR] at h ⊢
      simp only [List.append_assoc] at h ⊢
      have hW := mem_writes k m Q D (newTakerTotalFillAmount k m)
        (curTakerPruneableBlockHeight k m)
        (getUpdatedOrderFillAmount mo.OrderId mo.Quantums
          (k.GetOrderFillAmount mo.OrderId).2.1 m.FillAmount).1
        (k.GetOrderFillAmount mo.OrderId).2.2 mo
      simp only [List.append_assoc] at hW
      generalize ((if m.TakerOrder.IsLiquidation = true then
          [Call.UpdateSubaccountLiquidationInfo m.TakerOrder.GetSubaccountId Q D] else []) ++
        ((match m.TakerOrder with
          | MatchableOrder.order o =>
            (setOrderFillAmountsAndPruning k o (newTakerTotalFillAmount k m)
              (curTakerPruneableBlockHeight k m)).1
          | MatchableOrder.liquidation _ => []) ++
          (setOrderFillAmountsAndPruning k mo
            (getUpdatedOrderFillAmount mo.OrderId mo.Quantums
              (k.GetOrderFillAmount mo.OrderId).2.1 m.FillAmount).1
            (k.GetOrderFillAmount mo.OrderId).2.2).1)) = W at h hW ⊢
      have hW' : ∀ c ∈ W, (∀ us', c ≠ Call.UpdateSubaccounts us') ∧
          (∀ d, c ≠ Call.TransferInsuranceFundPayments d) ∧
          ∀ a f, c ≠ Call.TransferFeesToFeeCollectorModule a f := by
        intro c hc
        rcases hW c hc with ⟨_, h1⟩ | ⟨o, _, h2⟩ | h3
        · subst h1
          simp
        · rcases mem_setOrderFillAmountsAndPruning _ _ _ _ _ h2 with ⟨_, h'⟩ | ⟨_, h'⟩ <;>
            subst h' <;> simp
        · rcases mem_setOrderFillAmountsAndPruning _ _ _ _ _ h3 with ⟨_, h'⟩ | ⟨_, h'⟩ <;>
            subst h' <;> simp
      have hus' : us = us0 := by
        simp only [List.cons_append, List.nil_append, List.mem_cons,
          Call.UpdateSubaccounts.injEq, reduceCtorEq, false_or] at h
        rcases h with h | h
        · exact h
        · exact absurd rfl ((hW' _ h).1 us)
      subst hus'
      refine ⟨hlist, htu, hmu, hsum, ?_, ?_, ?_⟩
      · intro d hd
        simp only [List.cons_append, List.nil_append, List.mem_cons,
          Call.TransferInsuranceFundPayments.injEq, reduceCtorEq, false_or] at hd
        rcases hd with hd | hd
        · exact hd
        · exact absurd rfl ((hW' _ hd).2.1 d)
      · intro a f hf
        simp only [List.cons_append, List.nil_append, List.mem_cons,
          Call.TransferFeesToFeeCollectorModule.injEq, reduceCtorEq, false_or] at hf
        rcases hf with hf | hf
        · exact hf
        · exact absurd rfl ((hW' _ hf).2.2 a f)
      · intro r _ _
        exact ⟨W, rfl, hW'⟩
/-- Unless the liquidation taker fee panic fires, `persistMatchedOrders` calls
`UpdateSubaccounts` first, once, on `matchedOrdersUpdates`. -/
theorem persistMatchedOrders_calls_head (k : Keeper) (m : MatchWithOrders)
    (perpetualId takerFeePpm makerFeePpm : Nat) (Q D : Int) :
    (m.TakerOrder.IsLiquidation = true ∧ BigIntMulPpm Q takerFeePpm ≠ 0 ∧
      persistMatchedOrders k m perpetualId takerFeePpm makerFeePpm Q D =
        ⟨[], Outcome.panic Panic.LiquidationPaysTakerFees⟩) ∨
    ∃ rest, (persistMatchedOrders k m perpetualId takerFeePpm makerFeePpm Q D).calls =
        Call.UpdateSubaccounts (matchedOrdersUpdates k m perpetualId (BigIntMulPpm Q takerFeePpm)
          (BigIntMulPpm Q makerFeePpm) Q D) :: rest ∧
      ∀ us, Call.UpdateSubaccounts us ∉ rest := by
  rcases persistMatchedOrders_cases k m perpetualId takerFeePpm makerFeePpm Q D with
    h | ⟨_, ⟨e, _, hR⟩ | ⟨_, _, hR⟩ | ⟨t, mk, rest, _, hR⟩ |
      ⟨t, mk, rest, _, ⟨e, _, hR⟩ | ⟨_, _, hR⟩ | ⟨_, _, hR⟩⟩⟩
  · exact Or.inl h
  all_goals
    right
    rw [hR]
    exact ⟨_, rfl, by simp⟩

/-- C2. Quote deltas of a match. Unless `persistMatchedOrders` panics on a
liquidation with a non-zero taker fee (making no call), its first call is
`UpdateSubaccounts` on exactly two updates, taker first: the taker's USDC delta
is `-Q` when the taker buys and `+Q` when it sells, minus the taker fee
`BigIntMulPpm Q takerFeePpm`, minus the insurance fund delta when the taker is
a liquidation; the maker, on the other side of the trade, gets `+Q` when the
taker buys and `-Q` when it sells, minus the maker fee, and the insurance fund
delta is never subtracted from it. -/
theorem persistMatchedOrders_quote_deltas (k : Keeper) (m : MatchWithOrders)
    (perpetualId takerFeePpm makerFeePpm : Nat) (Q D : Int) :
    (m.TakerOrder.IsLiquidation = true ∧ BigIntMulPpm Q takerFeePpm ≠ 0 ∧
      persistMatchedOrders k m perpetualId takerFeePpm makerFeePpm Q D =
        ⟨[], Outcome.panic Panic.LiquidationPaysTakerFees⟩) ∨
    ∃ takerUpdate makerUpdate rest,
      (persistMatchedOrders k m perpetualId takerFeePpm makerFeePpm Q D).calls =
        Call.UpdateSubaccounts [takerUpdate, makerUpdate] :: rest ∧
      (∀ us, Call.UpdateSubaccounts us ∉ rest) ∧
      takerUpdate.SubaccountId = m.TakerOrder.GetSubaccountId ∧
      makerUpdate.SubaccountId = m.MakerOrder.GetSubaccountId ∧
      takerUpdate.AssetUpdates =
        [⟨k.UsdcAssetId,
          (if m.TakerOrder.IsBuy then -Q else Q) - BigIntMulPpm Q takerFeePpm -
            (if m.TakerOrder.IsLiquidation then D else 0)⟩] ∧
      makerUpdate.AssetUpdates =
        [⟨k.UsdcAssetId,
          (if m.TakerOrder.IsBuy then Q else -Q) - BigIntMulPpm Q makerFeePpm⟩] := by
  rcases persistMatchedOrders_calls_head k m perpetualId takerFeePpm makerFeePpm Q D with
    h | ⟨rest, hcalls, hrest⟩
  · exact Or.inl h
  · right
    refine ⟨_, _, rest, hcalls, hrest, rfl, rfl, ?_, ?_⟩
    · cases m.TakerOrder.IsBuy <;> cases m.TakerOrder.IsLiquidation <;> simp
    · cases m.TakerOrder.IsBuy <;> simp

/-- C3. Perpetual deltas of a match. Unless `persistMatchedOrders` panics on a
liquidation with a non-zero taker fee, its first call is `UpdateSubaccounts`
on the taker's and the maker's update, each with one perpetual update for the
perpetual id passed in: the taker's delta is `+FillAmount` when the taker
order is a buy and `-FillAmount` otherwise, the maker's delta is the negation
of the taker's, and the two deltas sum to zero. -/
theorem persistMatchedOrders_perpetual_deltas (k : Keeper) (m : MatchWithOrders)
    (perpetualId takerFeePpm makerFeePpm : Nat) (Q D : Int) :
    (m.TakerOrder.IsLiquidation = true ∧ BigIntMulPpm Q takerFeePpm ≠ 0 ∧
      persistMatchedOrders k m perpetualId takerFeePpm makerFeePpm Q D =
        ⟨[], Outcome.panic Panic.LiquidationPaysTakerFees⟩) ∨
    ∃ takerUpdate makerUpdate takerDelta makerDelta rest,
      (persistMatchedOrders k m perpetualId takerFeePpm makerFeePpm Q D).calls =
        Call.UpdateSubaccounts [takerUpdate, makerUpdate] :: rest ∧
      (∀ us, Call.UpdateSubaccounts us ∉ rest) ∧
      takerUpdate.PerpetualUpdates = [⟨perpetualId, takerDelta⟩] ∧
      makerUpdate.PerpetualUpdates = [⟨perpetualId, makerDelta⟩] ∧
      (takerDelta = (m.FillAmount : Int) ↔ (m.TakerOrder.IsBuy = true ∨ m.FillAmount = 0)) ∧
      takerDelta = (if m.TakerOrder.IsBuy then (m.FillAmount : Int) else -(m.FillAmount : Int)) ∧
      makerDelta = -takerDelta ∧
      takerDelta + makerDelta = 0 := by
  rcases persistMatchedOrders_calls_head k m perpetualId takerFeePpm makerFeePpm Q D with
    h | ⟨rest, hcalls, hrest⟩
  · exact Or.inl h
  · right
    refine ⟨_, _, _, _, rest, hcalls, hrest, rfl, rfl, ?_, ?_, ?_, ?_⟩
    · cases m.TakerOrder.IsBuy
      · simp; omega
      · simp
    · cases m.TakerOrder.IsBuy <;> simp
    · cases m.TakerOrder.IsBuy <;> simp
    · cases m.TakerOrder.IsBuy <;> simp
theorem setOrderFillAmountsAndPruning_writes (k : Keeper) (o : Order) (newTotal cur : Nat) :
    ∃ height, Call.SetOrderFillAmount o.OrderId newTotal height
      ∈ (setOrderFillAmountsAndPruning k o newTotal cur).1 := by
  rw [setOrderFillAmountsAndPruning_calls]
  cases o.IsStatefulOrder
  · exact ⟨MaxUint32 ((o.GetGoodTilBlock + k.ShortBlockWindow) % 2 ^ 32) cur, by simp⟩
  · exact ⟨mathMaxUint32, by simp⟩

/-- C4. Fill monotonicity. With the order sizes in `uint64` range, every fill
amount `ProcessSingleMatch` writes is for a standing order of the match (the
maker, or the taker when it is not a liquidation) and the amount stored is
`currentFill + FillAmount`, computed without wraparound, at least the current
fill and at most the order's base quantums; a successful run writes it for the
maker, and for the taker when the taker is a standing order. -/
theorem ProcessSingleMatch_fill_monotone (k : Keeper) (m : MatchWithOrders)
    (htaker : m.TakerOrder.GetBaseQuantums < 2 ^ 64)
    (hmaker : m.MakerOrder.GetBaseQuantums < 2 ^ 64) :
    (∀ orderId amount height,
      Call.SetOrderFillAmount orderId amount height ∈ (ProcessSingleMatch k m).calls →
      ∃ o, (m.MakerOrder = MatchableOrder.order o ∨ m.TakerOrder = MatchableOrder.order o) ∧
        orderId = o.OrderId ∧
        (k.GetOrderFillAmount orderId).2.1 ≤ amount ∧
        amount = (k.GetOrderFillAmount orderId).2.1 + m.FillAmount ∧
        amount ≤ o.Quantums) ∧
    (∀ r, (ProcessSingleMatch k m).result = Outcome.ret r → r.success = true →
      (∃ o height, m.MakerOrder = MatchableOrder.order o ∧
        Call.SetOrderFillAmount o.OrderId
          ((k.GetOrderFillAmount o.OrderId).2.1 + m.FillAmount) height
          ∈ (ProcessSingleMatch k m).calls) ∧
      ∀ o, m.TakerOrder = MatchableOrder.order o →
        ∃ height, Call.SetOrderFillAmount o.OrderId
          ((k.GetOrderFillAmount o.OrderId).2.1 + m.FillAmount) height
          ∈ (ProcessSingleMatch k m).calls) := by
  rcases ProcessSingleMatch_runs k m with ⟨hnil, h | h | h⟩ |
    ⟨c, pid, tf, Q, D, mo, hv, _, us0, fee, hus, hfee, hrun⟩
  · obtain ⟨e, he⟩ := h
    rw [he]
    simp [earlyReturn]
  · rw [h]
    simp
  · rw [h]
    simp
  · have hmq : mo.Quantums < 2 ^ 64 := by
      have := hmaker
      rw [hv.maker_order] at this
      exact this
    have hmval : (getUpdatedOrderFillAmount mo.OrderId mo.Quantums
        (k.GetOrderFillAmount mo.OrderId).2.1 m.FillAmount).1
        = (k.GetOrderFillAmount mo.OrderId).2.1 + m.FillAmount := by
      rw [getUpdatedOrderFillAmount_fits _ _ _ _ hmq hv.maker_fits]
    have htval : ∀ o, m.TakerOrder = MatchableOrder.order o →
        newTakerTotalFillAmount k m = (k.GetOrderFillAmount o.OrderId).2.1 + m.FillAmount := by
      intro o ho
      have hq : o.Quantums < 2 ^ 64 := by
        have := htaker
        rw [ho] at this
        exact this
      unfold newTakerTotalFillAmount
      rw [ho]
      simp only
      rw [getUpdatedOrderFillAmount_fits _ _ _ _ hq (hv.taker_fits o ho)]
    rcases hrun with ⟨e, _, hR⟩ | ⟨_, _, hR⟩ | ⟨t, mk, rest, _, hR⟩ |
      ⟨t, mk, rest, _, ⟨e, _, hR⟩ | ⟨_, _, hR⟩ | ⟨_, _, off, hR⟩⟩
    · rw [hR]; simp
    · rw [hR]; simp
    · rw [hR]; simp
    · rw [hR]; simp
    · rw [hR]; simp
    · rw [hR]
      simp only [List.append_assoc]
      have hW := mem_writes k m Q D (newTakerTotalFillAmount k m)
        (curTakerPruneableBlockHeight k m)
        (getUpdatedOrderFillAmount mo.OrderId mo.Quantums
          (k.GetOrderFillAmount mo.OrderId).2.1 m.FillAmount).1
        (k.GetOrderFillAmount mo.OrderId).2.2 mo
      simp only [List.append_assoc] at hW
      constructor
      · intro orderId amount height hmem
        simp only [List.cons_append, List.nil_append, List.mem_cons, reduceCtorEq,
          false_or] at hmem
        rcases hW _ hmem with ⟨_, h1⟩ | ⟨o, ho, h2⟩ | h3
        · simp at h1
        · rcases mem_setOrderFillAmountsAndPruning _ _ _ _ _ h2 with ⟨_, h'⟩ | ⟨_, h'⟩
          · simp at h'
          · simp only [Call.SetOrderFillAmount.injEq] at h'
            obtain ⟨hid, hamt, _⟩ := h'
            subst hid
            rw [htval o ho] at hamt
            refine ⟨o, Or.inr ho, rfl, by omega, hamt, ?_⟩
            rw [hamt]
            exact hv.taker_fits o ho
        · rcases mem_setOrderFillAmountsAndPruning _ _ _ _ _ h3 with ⟨_, h'⟩ | ⟨_, h'⟩
          · simp at h'
          · simp only [Call.SetOrderFillAmount.injEq] at h'
            obtain ⟨hid, hamt, _⟩ := h'
            subst hid
            rw [hmval] at hamt
            refine ⟨mo, Or.inl hv.maker_order, rfl, by omega, hamt, ?_⟩
            rw [hamt]
            exact hv.maker_fits
      · intro r _ _
        constructor
        · obtain ⟨height, hh⟩ := setOrderFillAmountsAndPruning_writes k mo
            (getUpdatedOrderFillAmount mo.OrderId mo.Quantums
              (k.GetOrderFillAmount mo.OrderId).2.1 m.FillAmount).1
            (k.GetOrderFillAmount mo.OrderId).2.2
          rw [hmval] at hh
          refine ⟨mo, height, hv.maker_order, ?_⟩
          rw [hmval]
          exact List.mem_append_right _ (List.mem_append_right _ (List.mem_append_right _ hh))
        · intro o ho
          obtain ⟨height, hh⟩ := setOrderFillAmountsAndPruning_writes k o
            (newTakerTotalFillAmount k m) (curTakerPruneableBlockHeight k m)
          have hmatch : (match m.TakerOrder with
              | MatchableOrder.order o =>
                (setOrderFillAmountsAndPruning k o (newTakerTotalFillAmount k m)
                  (curTakerPruneableBlockHeight k m)).1
              | MatchableOrder.liquidation _ => []) =
              (setOrderFillAmountsAndPruning k o (newTakerTotalFillAmount k m)
                (curTakerPruneableBlockHeight k m)).1 := by
            rw [ho]
          refine ⟨height, ?_⟩
          apply List.mem_append_right
          apply List.mem_append_right
          apply List.mem_append_left
          rw [hmatch, ← htval o ho]
          exact hh
/-- C5. For a `uint64` order size, `getUpdatedOrderFillAmount` returns an error
exactly when `currentFillAmount + fillQuantums > orderBaseQuantums` as
unbounded integers, and then the result is `0` with
`ErrInvalidMsgProposedOperations`; otherwise it returns exactly the sum and no
error. A sum of `2 ^ 64` or more is an error and never wraps around. -/
theorem getUpdatedOrderFillAmount_error_iff (orderId : OrderId)
    (orderBaseQuantums currentFillAmount fillQuantums : Nat)
    (hbase : orderBaseQuantums < 2 ^ 64) :
    ((getUpdatedOrderFillAmount orderId orderBaseQuantums currentFillAmount fillQuantums).2 ≠ none
        ↔ orderBaseQuantums < currentFillAmount + fillQuantums) ∧
    (orderBaseQuantums < currentFillAmount + fillQuantums →
      getUpdatedOrderFillAmount orderId orderBaseQuantums currentFillAmount fillQuantums
        = (0, some Error.ErrInvalidMsgProposedOperations)) ∧
    (currentFillAmount + fillQuantums ≤ orderBaseQuantums →
      getUpdatedOrderFillAmount orderId orderBaseQuantums currentFillAmount fillQuantums
        = (currentFillAmount + fillQuantums, none)) ∧
    (2 ^ 64 ≤ currentFillAmount + fillQuantums →
      getUpdatedOrderFillAmount orderId orderBaseQuantums currentFillAmount fillQuantums
        = (0, some Error.ErrInvalidMsgProposedOperations)) := by
  refine ⟨?_, getUpdatedOrderFillAmount_exceeds _ _ _ _,
    getUpdatedOrderFillAmount_fits _ _ _ _ hbase, ?_⟩
  · rw [Ne, getUpdatedOrderFillAmount_none_iff]
    omega
  · intro h
    exact getUpdatedOrderFillAmount_exceeds _ _ _ _ (by omega)

/-- C6, as the code has it. For a match whose ClobPair exists with a non-zero
step, `ProcessSingleMatch` returns `ErrFillAmountNotDivisibleByStepSize`, with
`success = false`, nil off-chain updates and no call made, whenever the fill
amount is not a multiple of `StepBaseQuantums`; a zero step is the run-time
panic of `%`. -/
theorem ProcessSingleMatch_fill_not_divisible (k : Keeper) (m : MatchWithOrders)
    (clobPair : ClobPair)
    (hfound : k.GetClobPair m.MakerOrder.GetClobPairId = some clobPair) :
    (clobPair.StepBaseQuantums ≠ 0 → m.FillAmount % clobPair.StepBaseQuantums ≠ 0 →
      ProcessSingleMatch k m = ⟨[], Outcome.ret ⟨false, UpdateResult.Success,
        UpdateResult.Success, none, some Error.ErrFillAmountNotDivisibleByStepSize⟩⟩) ∧
    (clobPair.StepBaseQuantums = 0 →
      ProcessSingleMatch k m = ⟨[], Outcome.panic Panic.IntegerDivideByZero⟩) := by
  constructor
  · intro hstep hdiv
    unfold ProcessSingleMatch
    simp only [hfound, hstep, if_false, hdiv, ne_eq, not_false_eq_true, if_true]
    rfl
  · intro hstep
    unfold ProcessSingleMatch
    simp only [hfound, hstep, if_true]
/-- C7. When the taker is a liquidation, `ProcessSingleMatch` never ends in the
panic "Taker order is liquidation and should never pay taker fees", and
whenever it gets past validation it hands `persistMatchedOrders` the taker fee
ppm `0` (whatever the pair's taker fee) and the pair's maker fee ppm: the taker
fee `BigIntMulPpm Q 0` is `0`, the taker's quote delta carries no fee, the
maker's quote delta is charged `BigIntMulPpm Q MakerFeePpm`, and that maker fee
is all a fee transfer of the run moves. -/
theorem ProcessSingleMatch_liquidation_taker_fee (k : Keeper) (m : MatchWithOrders)
    (hliq : m.TakerOrder.IsLiquidation = true) :
    (ProcessSingleMatch k m).result ≠ Outcome.panic Panic.LiquidationPaysTakerFees ∧
    ((ProcessSingleMatch k m).calls = [] ∨
      ∃ clobPair perpetualId Q D makerOrder takerUpdate makerUpdate rest,
        Validated k m clobPair perpetualId 0 Q D makerOrder ∧
        ProcessSingleMatch k m =
          ProcessSingleMatch.persist k m perpetualId 0 clobPair.MakerFeePpm Q D
            (curTakerPruneableBlockHeight k m) (newTakerTotalFillAmount k m)
            (k.GetOrderFillAmount makerOrder.OrderId).2.2
            (getUpdatedOrderFillAmount makerOrder.OrderId makerOrder.Quantums
              (k.GetOrderFillAmount makerOrder.OrderId).2.1 m.FillAmount).1 ∧
        BigIntMulPpm Q 0 = 0 ∧
        (persistMatchedOrders k m perpetualId 0 clobPair.MakerFeePpm Q D).result
          ≠ Outcome.panic Panic.LiquidationPaysTakerFees ∧
        (ProcessSingleMatch k m).calls =
          Call.UpdateSubaccounts [takerUpdate, makerUpdate] :: rest ∧
        takerUpdate.AssetUpdates =
          [⟨k.UsdcAssetId, (if m.TakerOrder.IsBuy then -Q else Q) - D⟩] ∧
        makerUpdate.AssetUpdates =
          [⟨k.UsdcAssetId,
            (if m.TakerOrder.IsBuy then Q else -Q) - BigIntMulPpm Q clobPair.MakerFeePpm⟩] ∧
        ∀ a f, Call.TransferFeesToFeeCollectorModule a f ∈ (ProcessSingleMatch k m).calls →
          f = BigIntMulPpm Q clobPair.MakerFeePpm) := by
  rcases ProcessSingleMatch_runs k m with ⟨hnil, h | h | h⟩ |
    ⟨c, pid, tf, Q, D, mo, hv, heq, us0, fee, hus, hfee, hrun⟩
  · obtain ⟨e, he⟩ := h
    exact ⟨by rw [he]; simp [earlyReturn], Or.inl hnil⟩
  · exact ⟨by rw [h]; simp, Or.inl hnil⟩
  · exact ⟨by rw [h]; simp, Or.inl hnil⟩
  · have htf : tf = 0 := (hv.liquidation hliq).1
    subst htf
    have hfee' : fee = BigIntMulPpm Q c.MakerFeePpm := by
      rw [hfee, BigIntMulPpm_zero, zero_add]
    have hnp : (persistMatchedOrders k m pid 0 c.MakerFeePpm Q D).result
        ≠ Outcome.panic Panic.LiquidationPaysTakerFees := by
      rcases persistMatchedOrders_cases k m pid 0 c.MakerFeePpm Q D with
        ⟨_, hne, _⟩ | ⟨_, ⟨e, _, hR⟩ | ⟨_, _, hR⟩ | ⟨t, mk, rest, _, hR⟩ |
          ⟨t, mk, rest, _, ⟨e, _, hR⟩ | ⟨_, _, hR⟩ | ⟨_, _, hR⟩⟩⟩
      · exact absurd (BigIntMulPpm_zero Q) hne
      all_goals rw [hR]; simp
    have htu : ∃ tu mu, us0 = [tu, mu] ∧
        tu.AssetUpdates = [⟨k.UsdcAssetId, (if m.TakerOrder.IsBuy then -Q else Q) - D⟩] ∧
        mu.AssetUpdates = [⟨k.UsdcAssetId,
          (if m.TakerOrder.IsBuy then Q else -Q) - BigIntMulPpm Q c.MakerFeePpm⟩] := by
      refine ⟨_, _, hus, ?_, ?_⟩
      · simp [hliq, BigIntMulPpm_zero]
      · cases m.TakerOrder.IsBuy <;> simp
    obtain ⟨tu, mu, hlist, htq, hmq⟩ := htu
    subst hlist
    rcases hrun with ⟨e, _, hR⟩ | ⟨_, _, hR⟩ | ⟨t, mk, rest, _, hR⟩ |
      ⟨t, mk, rest, _, ⟨e, _, hR⟩ | ⟨_, _, hR⟩ | ⟨_, _, off, hR⟩⟩
    · refine ⟨by rw [hR]; simp, Or.inr ⟨c, pid, Q, D, mo, tu, mu, _, hv, heq,
        BigIntMulPpm_zero Q, hnp, by rw [hR], htq, hmq, ?_⟩⟩
      rw [hR]; simp
    · refine ⟨by rw [hR]; simp, Or.inr ⟨c, pid, Q, D, mo, tu, mu, _, hv, heq,
        BigIntMulPpm_zero Q, hnp, by rw [hR], htq, hmq, ?_⟩⟩
      rw [hR]; simp
    · refine ⟨by rw [hR]; simp, Or.inr ⟨c, pid, Q, D, mo, tu, mu, _, hv, heq,
        BigIntMulPpm_zero Q, hnp, by rw [hR], htq, hmq, ?_⟩⟩
      rw [hR]; simp
    · refine ⟨by rw [hR]; simp, Or.inr ⟨c, pid, Q, D, mo, tu, mu, _, hv, heq,
        BigIntMulPpm_zero Q, hnp, by rw [hR], htq, hmq, ?_⟩⟩
      rw [hR]; simp
    · refine ⟨by rw [hR]; simp, Or.inr ⟨c, pid, Q, D, mo, tu, mu, _, hv, heq,
        BigIntMulPpm_zero Q, hnp, by rw [hR], htq, hmq, ?_⟩⟩
      rw [hR]
      intro a f hf
      simp only [List.mem_cons, List.mem_singleton, reduceCtorEq, false_or,
        Call.TransferFeesToFeeCollectorModule.injEq, List.not_mem_nil, or_false] at hf
      rw [hf.2, hfee']
    · refine ⟨by rw [hR]; simp, Or.inr ⟨c, pid, Q, D, mo, tu, mu, _, hv, heq,
        BigIntMulPpm_zero Q, hnp, by rw [hR]; simp only [List.append_assoc]; rfl, htq, hmq, ?_⟩⟩
      rw [hR]
      intro a f hf
      simp only [List.append_assoc, List.cons_append, List.nil_append, List.mem_cons,
        reduceCtorEq, false_or, Call.TransferFeesToFeeCollectorModule.injEq] at hf
      rcases hf with hf | hf
      · rw [hf.2, hfee']
      · have hW := mem_writes k m Q D (newTakerTotalFillAmount k m)
          (curTakerPruneableBlockHeight k m)
          (getUpdatedOrderFillAmount mo.OrderId mo.Quantums
            (k.GetOrderFillAmount mo.OrderId).2.1 m.FillAmount).1
          (k.GetOrderFillAmount mo.OrderId).2.2 mo
        simp only [List.append_assoc] at hW
        rcases hW _ hf with ⟨_, h1⟩ | ⟨o, _, h2⟩ | h3
        · simp at h1
        · rcases mem_setOrderFillAmountsAndPruning _ _ _ _ _ h2 with ⟨_, h'⟩ | ⟨_, h'⟩ <;>
            simp at h'
        · rcases mem_setOrderFillAmountsAndPruning _ _ _ _ _ h3 with ⟨_, h'⟩ | ⟨_, h'⟩ <;>
            simp at h'
/-- C8. If the ClobPair exists, the fill amount is a multiple of its non-zero
step, the quote quantums and the perpetual id are found, the taker is a
liquidation and `validateMatchedLiquidation` returns an error (such as
`LiquidationRequiresDeleveraging`), then `ProcessSingleMatch` returns
`success = false` with that very error, zero-valued update results and nil
off-chain updates, and makes no call at all: no subaccount update, no insurance
fund or fee transfer, no fill amount or pruning entry and no liquidation info
update. -/
theorem ProcessSingleMatch_liquidation_validation_fails (k : Keeper) (m : MatchWithOrders)
    (clobPair : ClobPair) (perpetualId : Nat) (Q : Int) (err : Error)
    (hfound : k.GetClobPair m.MakerOrder.GetClobPairId = some clobPair)
    (hstep : clobPair.StepBaseQuantums ≠ 0)
    (hdiv : m.FillAmount % clobPair.StepBaseQuantums = 0)
    (hquote : k.getFillQuoteQuantums clobPair m.MakerOrder.GetOrderSubticks m.FillAmount
      = Except.ok Q)
    (hperp : clobPair.GetPerpetualId = Except.ok perpetualId)
    (hliq : m.TakerOrder.IsLiquidation = true)
    (hval : k.validateMatchedLiquidation m.TakerOrder perpetualId m.FillAmount
      m.MakerOrder.GetOrderSubticks Q = Except.error err) :
    ProcessSingleMatch k m = ⟨[], Outcome.ret ⟨false, UpdateResult.Success,
      UpdateResult.Success, none, some err⟩⟩ := by
  unfold ProcessSingleMatch
  simp only [hfound, hstep, if_false, hdiv, ne_eq, not_true_eq_false, hquote, hperp, hliq,
    if_true, hval]
  rfl

/-- C9. Whenever `ProcessSingleMatch` calls `UpdateSubaccounts` on `us`: if the
call reports failure without an error and per-update results starting `t`,
`mk`, then `ProcessSingleMatch` returns `success = false`, `takerUpdateResult =
t`, `makerUpdateResult = mk`, nil off-chain updates and a non-nil error, and
that call is the only one made (no insurance fund transfer, no fee transfer,
no fill amount write); if the call itself returns an error, both update
results are `UpdateCausedError` and that error is returned. -/
theorem ProcessSingleMatch_update_fails (k : Keeper) (m : MatchWithOrders) (us : List Update)
    (h : Call.UpdateSubaccounts us ∈ (ProcessSingleMatch k m).calls) :
    (∀ t mk rest, k.UpdateSubaccounts us = (false, t :: mk :: rest, none) →
      ∃ err, ProcessSingleMatch k m =
        ⟨[Call.UpdateSubaccounts us], Outcome.ret ⟨false, t, mk, none, some err⟩⟩) ∧
    (∀ s rs err, k.UpdateSubaccounts us = (s, rs, some err) →
      ProcessSingleMatch k m =
        ⟨[Call.UpdateSubaccounts us], Outcome.ret ⟨false, UpdateResult.UpdateCausedError,
          UpdateResult.UpdateCausedError, none, some err⟩⟩) := by
  rcases ProcessSingleMatch_runs k m with ⟨hnil, _⟩ |
    ⟨c, pid, tf, Q, D, mo, hv, _, us0, fee, hus, hfee, hrun⟩
  · rw [hnil] at h
    simp at h
  · have hus0 : us = us0 := by
      rcases hrun with ⟨e, _, hR⟩ | ⟨_, _, hR⟩ | ⟨t, mk, rest, _, hR⟩ |
        ⟨t, mk, rest, _, ⟨e, _, hR⟩ | ⟨_, _, hR⟩ | ⟨_, _, off, hR⟩⟩
      · rw [hR] at h; simpa using h
      · rw [hR] at h; simpa using h
      · rw [hR] at h; simpa using h
      · rw [hR] at h; simpa using h
      · rw [hR] at h; simpa using h
      · rw [hR] at h
        simp only [List.append_assoc, List.cons_append, List.nil_append, List.mem_cons,
          Call.UpdateSubaccounts.injEq, reduceCtorEq, false_or] at h
        rcases h with h | h
        · exact h
        · have hW := mem_writes k m Q D (newTakerTotalFillAmount k m)
            (curTakerPruneableBlockHeight k m)
            (getUpdatedOrderFillAmount mo.OrderId mo.Quantums
              (k.GetOrderFillAmount mo.OrderId).2.1 m.FillAmount).1
            (k.GetOrderFillAmount mo.OrderId).2.2 mo
          simp only [List.append_assoc] at hW
          rcases hW _ h with ⟨_, h1⟩ | ⟨o, _, h2⟩ | h3
          · simp at h1
          · rcases mem_setOrderFillAmountsAndPruning _ _ _ _ _ h2 with ⟨_, h'⟩ | ⟨_, h'⟩ <;>
              simp at h'
          · rcases mem_setOrderFillAmountsAndPruning _ _ _ _ _ h3 with ⟨_, h'⟩ | ⟨_, h'⟩ <;>
              simp at h'
    subst hus0
    constructor
    · intro t mk rest hu
      rcases hrun with ⟨e, he, hR⟩ | ⟨_, hlen, hR⟩ | ⟨t', mk', rest', hu', hR⟩ |
        ⟨t', mk', rest', hu', _⟩
      · rw [hu] at he; simp at he
      · rw [hu] at hlen
        simp only [List.length_cons] at hlen
        omega
      · rw [hu] at hu'
        simp only [Prod.mk.injEq, List.cons.injEq, true_and, and_true] at hu'
        obtain ⟨ht, hmk, _⟩ := hu'
        subst ht hmk
        exact ⟨_, hR⟩
      · rw [hu] at hu'; simp at hu'
    · intro s rs err hu
      rcases hrun with ⟨e, he, hR⟩ | ⟨he, _, _⟩ | ⟨t', mk', rest', hu', _⟩ |
        ⟨t', mk', rest', hu', _⟩
      · rw [hu] at he
        simp only [Option.some.injEq] at he
        subst he
        exact hR
      · rw [hu] at he; simp at he
      · rw [hu] at hu'; simp at hu'
      · rw [hu] at hu'; simp at hu'

/-- C10, as the code has it. For a `uint32` current prune height,
`setOrderFillAmountsAndPruning` on a stateful order only stores the new fill
amount with prune height `MaxUint32`, scheduling no pruning; on a short-term
order it schedules the order for pruning at, and stores the fill amount with,
the prune height `max((GoodTilBlock + ShortBlockWindow) mod 2^32, current)`,
the sum being a `uint32` addition, which is `max(GoodTilBlock +
ShortBlockWindow, current)` whenever the sum fits in a `uint32`. In every case
the stored prune height is at least the current one. -/
theorem setOrderFillAmountsAndPruning_prune_height (k : Keeper) (order : Order)
    (newTotalFillAmount curPruneableBlockHeight : Nat)
    (hcur : curPruneableBlockHeight < 2 ^ 32) :
    (order.IsStatefulOrder = true →
      (setOrderFillAmountsAndPruning k order newTotalFillAmount curPruneableBlockHeight).1 =
        [Call.SetOrderFillAmount order.OrderId newTotalFillAmount 4294967295]) ∧
    (order.IsStatefulOrder = false →
      (setOrderFillAmountsAndPruning k order newTotalFillAmount curPruneableBlockHeight).1 =
        [Call.AddOrdersForPruning [order.OrderId]
            (max ((order.GetGoodTilBlock + k.ShortBlockWindow) % 2 ^ 32)
              curPruneableBlockHeight),
          Call.SetOrderFillAmount order.OrderId newTotalFillAmount
            (max ((order.GetGoodTilBlock + k.ShortBlockWindow) % 2 ^ 32)
              curPruneableBlockHeight)]) ∧
    (order.GetGoodTilBlock + k.ShortBlockWindow < 2 ^ 32 →
      max ((order.GetGoodTilBlock + k.ShortBlockWindow) % 2 ^ 32) curPruneableBlockHeight =
        max (order.GetGoodTilBlock + k.ShortBlockWindow) curPruneableBlockHeight) ∧
    (∀ orderId amount height,
      Call.SetOrderFillAmount orderId amount height ∈
        (setOrderFillAmountsAndPruning k order newTotalFillAmount curPruneableBlockHeight).1 →
      curPruneableBlockHeight ≤ height) := by
  have hmax : ∀ a b : Nat, MaxUint32 a b = max a b := by
    intro a b
    unfold MaxUint32
    split <;> omega
  refine ⟨?_, ?_, ?_, ?_⟩
  · intro hs
    rw [setOrderFillAmountsAndPruning_calls, hs]
    rfl
  · intro hs
    rw [setOrderFillAmountsAndPruning_calls, hs, hmax]
    rfl
  · intro hfit
    rw [Nat.mod_eq_of_lt hfit]
  · intro orderId amount height hmem
    rw [setOrderFillAmountsAndPruning_calls] at hmem
    split at hmem
    · simp only [List.mem_singleton, Call.SetOrderFillAmount.injEq] at hmem
      rw [hmem.2.2]
      unfold mathMaxUint32
      omega
    · simp only [List.mem_cons, reduceCtorEq, List.mem_singleton,
        Call.SetOrderFillAmount.injEq, false_or, List.not_mem_nil, or_false] at hmem
      rw [hmem.2.2, hmax]
      omega
/-- C1 at a concrete input: the liquidation of Dave against Bob's order. -/
theorem ProcessSingleMatch_quote_conservation_witness :
    Call.UpdateSubaccounts liquidationUpdates
      ∈ (ProcessSingleMatch goodKeeper liquidationMatch).calls ∧
    ∃ clobPair perpetualId takerFeePpm Q D makerOrder takerUpdate makerUpdate
        takerQuoteDelta makerQuoteDelta,
      Validated goodKeeper liquidationMatch clobPair perpetualId takerFeePpm Q D makerOrder ∧
      liquidationUpdates = [takerUpdate, makerUpdate] ∧
      takerUpdate.AssetUpdates = [⟨goodKeeper.UsdcAssetId, takerQuoteDelta⟩] ∧
      makerUpdate.AssetUpdates = [⟨goodKeeper.UsdcAssetId, makerQuoteDelta⟩] ∧
      takerQuoteDelta + makerQuoteDelta +
          (BigIntMulPpm Q takerFeePpm + BigIntMulPpm Q clobPair.MakerFeePpm) + D = 0 := by
  refine ⟨by decide, ?_⟩
  obtain ⟨c, pid, tf, Q, D, mo, tu, mu, tq, mq, hv, h1, h2, h3, h4, _⟩ :=
    ProcessSingleMatch_quote_conservation goodKeeper liquidationMatch liquidationUpdates
      (by decide)
  exact ⟨c, pid, tf, Q, D, mo, tu, mu, tq, mq, hv, h1, h2, h3, h4⟩

/-- C2 at a concrete input: Alice buys from Bob, so she is debited the quote
quantums and her fee, and Bob is credited the quote quantums less his fee. -/
theorem persistMatchedOrders_quote_deltas_witness :
    ∃ takerUpdate makerUpdate rest,
      (persistMatchedOrders goodKeeper aliceBobMatch 0 500 200 25000 0).calls =
        Call.UpdateSubaccounts [takerUpdate, makerUpdate] :: rest ∧
      takerUpdate.AssetUpdates = [⟨0, -25000 - 12⟩] ∧
      makerUpdate.AssetUpdates = [⟨0, 25000 - 5⟩] := by
  rcases persistMatchedOrders_quote_deltas goodKeeper aliceBobMatch 0 500 200 25000 0 with
    ⟨h, _⟩ | ⟨tu, mu, rest, hcalls, _, _, _, hta, hma⟩
  · exact absurd h (by decide)
  · exact ⟨tu, mu, rest, hcalls, hta.trans (by decide), hma.trans (by decide)⟩

/-- C3 at a concrete input: Alice buys 50 quantums from Bob. -/
theorem persistMatchedOrders_perpetual_deltas_witness :
    ∃ takerUpdate makerUpdate rest,
      (persistMatchedOrders goodKeeper aliceBobMatch 0 500 200 25000 0).calls =
        Call.UpdateSubaccounts [takerUpdate, makerUpdate] :: rest ∧
      takerUpdate.PerpetualUpdates = [⟨0, 50⟩] ∧
      makerUpdate.PerpetualUpdates = [⟨0, -50⟩] := by
  rcases persistMatchedOrders_perpetual_deltas goodKeeper aliceBobMatch 0 500 200 25000 0 with
    ⟨h, _⟩ | ⟨tu, mu, td, md, rest, hcalls, _, htp, hmp, _, htd, hmd, _⟩
  · exact absurd h (by decide)
  · have h1 : td = 50 := htd.trans (by decide)
    have h2 : md = -50 := by rw [hmd, h1]
    rw [h1] at htp
    rw [h2] at hmp
    exact ⟨tu, mu, rest, hcalls, htp, hmp⟩

/-- C4 at a concrete input: both orders of `aliceBobMatch` get the fill amount
`0 + 50` written. -/
theorem ProcessSingleMatch_fill_monotone_witness :
    aliceBobMatch.TakerOrder.GetBaseQuantums < 2 ^ 64 ∧
    aliceBobMatch.MakerOrder.GetBaseQuantums < 2 ^ 64 ∧
    (∃ height, Call.SetOrderFillAmount aliceBuy.OrderId (0 + 50) height
      ∈ (ProcessSingleMatch goodKeeper aliceBobMatch).calls) ∧
    ∀ orderId amount height,
      Call.SetOrderFillAmount orderId amount height
        ∈ (ProcessSingleMatch goodKeeper aliceBobMatch).calls →
      amount = (goodKeeper.GetOrderFillAmount orderId).2.1 + 50 := by
  have h := ProcessSingleMatch_fill_monotone goodKeeper aliceBobMatch (by decide) (by decide)
  refine ⟨by decide, by decide, ?_, ?_⟩
  · exact (h.2 _ rfl rfl).2 aliceBuy rfl
  · intro orderId amount height hmem
    obtain ⟨_, _, _, _, hamt, _⟩ := h.1 orderId amount height hmem
    exact hamt

/-- C5 at concrete inputs: a sum within the order size, one over it, and one
that a 64-bit addition would wrap to `0`. -/
theorem getUpdatedOrderFillAmount_error_iff_witness :
    getUpdatedOrderFillAmount bobSell.OrderId 100 50 50 = (100, none) ∧
    getUpdatedOrderFillAmount bobSell.OrderId 100 60 50
      = (0, some Error.ErrInvalidMsgProposedOperations) ∧
    getUpdatedOrderFillAmount bobSell.OrderId 18446744073709551615 18446744073709551615 1
      = (0, some Error.ErrInvalidMsgProposedOperations) :=
  ⟨(getUpdatedOrderFillAmount_error_iff bobSell.OrderId 100 50 50 (by decide)).2.2.1
      (by decide),
    (getUpdatedOrderFillAmount_error_iff bobSell.OrderId 100 60 50 (by decide)).2.1
      (by decide),
    (getUpdatedOrderFillAmount_error_iff bobSell.OrderId 18446744073709551615
      18446744073709551615 1 (by decide)).2.2.2 (by decide)⟩

/-- C6 as claimed fails: a fill amount of 0 is not a positive multiple of the
step 5 of an existing ClobPair, yet `ProcessSingleMatch` does not return
`ErrFillAmountNotDivisibleByStepSize`: the match succeeds and state is written. -/
theorem ProcessSingleMatch_zero_fill_accepted :
    goodKeeper.GetClobPair zeroFillMatch.MakerOrder.GetClobPairId = some btcClobPair ∧
    btcClobPair.StepBaseQuantums = 5 ∧
    zeroFillMatch.FillAmount = 0 ∧
    (ProcessSingleMatch goodKeeper zeroFillMatch).result =
      Outcome.ret ⟨true, UpdateResult.Success, UpdateResult.Success,
        some NewOffchainUpdates, none⟩ ∧
    (ProcessSingleMatch goodKeeper zeroFillMatch).calls ≠ [] := by
  decide

/-- C6, as the code has it, at a concrete input: a fill amount of 7 against the
step 5. -/
theorem ProcessSingleMatch_fill_not_divisible_witness :
    goodKeeper.GetClobPair oddFillMatch.MakerOrder.GetClobPairId = some btcClobPair ∧
    ProcessSingleMatch goodKeeper oddFillMatch = ⟨[], Outcome.ret ⟨false, UpdateResult.Success,
      UpdateResult.Success, none, some Error.ErrFillAmountNotDivisibleByStepSize⟩⟩ :=
  ⟨by decide,
    (ProcessSingleMatch_fill_not_divisible goodKeeper oddFillMatch btcClobPair (by decide)).1
      (by decide) (by decide)⟩

/-- C7 at a concrete input: the pair charges a taker fee of 500 ppm, the
liquidation pays none. -/
theorem ProcessSingleMatch_liquidation_taker_fee_witness :
    liquidationMatch.TakerOrder.IsLiquidation = true ∧
    btcClobPair.TakerFeePpm = 500 ∧
    (ProcessSingleMatch goodKeeper liquidationMatch).result
      ≠ Outcome.panic Panic.LiquidationPaysTakerFees ∧
    ∀ a f, Call.TransferFeesToFeeCollectorModule a f
        ∈ (ProcessSingleMatch goodKeeper liquidationMatch).calls → f = 5 := by
  have h := ProcessSingleMatch_liquidation_taker_fee goodKeeper liquidationMatch (by decide)
  refine ⟨by decide, by decide, h.1, ?_⟩
  intro a f hf
  rcases h.2 with hnil | ⟨c, pid, Q, D, mo, tu, mu, rest, hv, _, _, _, _, _, _, hfee⟩
  · exact absurd hnil (by decide)
  · have hc : c = btcClobPair := by
      have := hv.clobPair_found
      have h' : goodKeeper.GetClobPair liquidationMatch.MakerOrder.GetClobPairId
          = some btcClobPair := by decide
      rw [h'] at this
      exact (Option.some.inj this).symm
    subst hc
    have hQ : Q = 25000 := by
      have := hv.quote
      have h' : goodKeeper.getFillQuoteQuantums btcClobPair
          liquidationMatch.MakerOrder.GetOrderSubticks liquidationMatch.FillAmount
          = Except.ok 25000 := rfl
      rw [h'] at this
      exact (Except.ok.inj this).symm
    subst hQ
    rw [hfee a f hf]
    decide

/-- C8 at a concrete input: the liquidation needs deleveraging. -/
theorem ProcessSingleMatch_liquidation_validation_fails_witness :
    ProcessSingleMatch deleveragingKeeper liquidationMatch =
      ⟨[], Outcome.ret ⟨false, UpdateResult.Success, UpdateResult.Success, none,
        some (Error.collaborator 2)⟩⟩ :=
  ProcessSingleMatch_liquidation_validation_fails deleveragingKeeper liquidationMatch
    btcClobPair 0 25000 (Error.collaborator 2) (by decide) (by decide) (by decide) rfl
    rfl (by decide) rfl

/-- C9 at concrete inputs: the maker Bob is undercollateralized, and
`UpdateSubaccounts` itself returns an error. -/
theorem ProcessSingleMatch_update_fails_witness :
    Call.UpdateSubaccounts aliceBobUpdates
      ∈ (ProcessSingleMatch makerFailsKeeper aliceBobMatch).calls ∧
    (∃ err, ProcessSingleMatch makerFailsKeeper aliceBobMatch =
      ⟨[Call.UpdateSubaccounts aliceBobUpdates],
        Outcome.ret ⟨false, UpdateResult.Success, UpdateResult.NewlyUndercollateralized,
          none, some err⟩⟩) ∧
    ProcessSingleMatch updateErrorKeeper aliceBobMatch =
      ⟨[Call.UpdateSubaccounts aliceBobUpdates],
        Outcome.ret ⟨false, UpdateResult.UpdateCausedError, UpdateResult.UpdateCausedError,
          none, some (Error.collaborator 1)⟩⟩ :=
  ⟨by decide,
    (ProcessSingleMatch_update_fails makerFailsKeeper aliceBobMatch aliceBobUpdates
      (by decide)).1 UpdateResult.Success UpdateResult.NewlyUndercollateralized [] rfl,
    (ProcessSingleMatch_update_fails updateErrorKeeper aliceBobMatch aliceBobUpdates
      (by decide)).2 false [] (Error.collaborator 1) rfl⟩

/-- C10 as claimed fails: for the good-til-block 4294967295 and a window of 20
the `uint32` sum wraps to 19, so the order is scheduled and stored with prune
height 19, which is not `max(GoodTilBlock + ShortBlockWindow, current)`. -/
theorem setOrderFillAmountsAndPruning_wraps :
    lateOrder.IsStatefulOrder = false ∧
    (setOrderFillAmountsAndPruning goodKeeper lateOrder 5 0).1 =
      [Call.AddOrdersForPruning [lateOrder.OrderId] 19,
        Call.SetOrderFillAmount lateOrder.OrderId 5 19] ∧
    max (lateOrder.GetGoodTilBlock + goodKeeper.ShortBlockWindow) 0 = 4294967315 ∧
    (19 : Nat) ≠ max (lateOrder.GetGoodTilBlock + goodKeeper.ShortBlockWindow) 0 := by
  decide

/-- C10, as the code has it, at concrete inputs: a short-term order good til
block 12 with window 20, and a stateful order. -/
theorem setOrderFillAmountsAndPruning_prune_height_witness :
    (setOrderFillAmountsAndPruning goodKeeper aliceBuy 50 7).1 =
      [Call.AddOrdersForPruning [aliceBuy.OrderId] (max ((12 + 20) % 2 ^ 32) 7),
        Call.SetOrderFillAmount aliceBuy.OrderId 50 (max ((12 + 20) % 2 ^ 32) 7)] ∧
    (setOrderFillAmountsAndPruning goodKeeper carlStatefulBuy 50 7).1 =
      [Call.SetOrderFillAmount carlStatefulBuy.OrderId 50 4294967295] :=
  ⟨(setOrderFillAmountsAndPruning_prune_height goodKeeper aliceBuy 50 7 (by decide)).2.1 rfl,
    (setOrderFillAmountsAndPruning_prune_height goodKeeper carlStatefulBuy 50 7
      (by decide)).1 rfl⟩

/-- C11, as the code has it. A failed fee transfer is an ordinary error return,
not a panic. Whenever `ProcessSingleMatch` makes a fee transfer that fails, it
returns `success = false` with `ErrSubaccountFeeTransferFailed` and nil
off-chain updates, after exactly three calls: the subaccount updates, the
insurance fund transfer and the failed fee transfer; no fill amount is written.
`persistMatchedOrders` returns the same error with `success = false`. -/
theorem ProcessSingleMatch_fee_transfer_fails (k : Keeper) (m : MatchWithOrders)
    (assetId : Nat) (fee : Int)
    (hcall : Call.TransferFeesToFeeCollectorModule assetId fee ∈ (ProcessSingleMatch k m).calls)
    (hfail : k.TransferFeesToFeeCollectorModule assetId fee ≠ none) :
    ∃ clobPair perpetualId takerFeePpm Q D makerOrder us t mk,
      Validated k m clobPair perpetualId takerFeePpm Q D makerOrder ∧
      ProcessSingleMatch k m =
        ⟨[Call.UpdateSubaccounts us, Call.TransferInsuranceFundPayments D,
            Call.TransferFeesToFeeCollectorModule assetId fee],
          Outcome.ret ⟨false, t, mk, none, some Error.ErrSubaccountFeeTransferFailed⟩⟩ ∧
      persistMatchedOrders k m perpetualId takerFeePpm clobPair.MakerFeePpm Q D =
        ⟨[Call.UpdateSubaccounts us, Call.TransferInsuranceFundPayments D,
            Call.TransferFeesToFeeCollectorModule assetId fee],
          Outcome.ret ⟨false, t, mk, some Error.ErrSubaccountFeeTransferFailed⟩⟩ := by
  rcases ProcessSingleMatch_runs k m with ⟨hnil, _⟩ |
    ⟨c, pid, tf, Q, D, mo, hv, heq, us0, fee0, hus, hfee, hrun⟩
  · rw [hnil] at hcall
    simp at hcall
  · have hfee0 : m.TakerOrder.IsLiquidation = true → BigIntMulPpm Q tf = 0 := by
      intro hl
      rw [(hv.liquidation hl).1]
      exact BigIntMulPpm_zero Q
    rcases hrun with ⟨e, _, hR⟩ | ⟨_, _, hR⟩ | ⟨t, mk, rest, _, hR⟩ |
      ⟨t, mk, rest, hu, ⟨e, _, hR⟩ | ⟨hti, ⟨e, he⟩, hR⟩ | ⟨_, htf, off, hR⟩⟩
    · rw [hR] at hcall; simp at hcall
    · rw [hR] at hcall; simp at hcall
    · rw [hR] at hcall; simp at hcall
    · rw [hR] at hcall; simp at hcall
    · have hmem := hcall
      rw [hR] at hmem
      simp only [List.mem_cons, List.mem_singleton, reduceCtorEq, false_or,
        Call.TransferFeesToFeeCollectorModule.injEq, List.not_mem_nil, or_false] at hmem
      obtain ⟨ha, hf⟩ := hmem
      subst ha hf
      refine ⟨c, pid, tf, Q, D, mo, us0, t, mk, hv, hR, ?_⟩
      rcases persistMatchedOrders_cases k m pid tf c.MakerFeePpm Q D with
        ⟨hl, hne, _⟩ | ⟨_, ⟨e', he', _⟩ | ⟨_, hlen, _⟩ | ⟨t', mk', rest', hu', _⟩ |
          ⟨t', mk', rest', hu', ⟨e', he', _⟩ | ⟨_, _, hP⟩ | ⟨_, htf', _⟩⟩⟩
      · exact absurd (hfee0 hl) hne
      · rw [← hus, hu] at he'; simp at he'
      · rw [← hus, hu] at hlen
        simp only [List.length_cons] at hlen
        omega
      · rw [← hus, hu] at hu'; simp at hu'
      · rw [hti] at he'; simp at he'
      · rw [← hus, hu] at hu'
        simp only [Prod.mk.injEq, List.cons.injEq, true_and, and_true] at hu'
        obtain ⟨ht, hmk, _⟩ := hu'
        subst ht hmk
        rw [← hus, ← hfee] at hP
        exact hP
      · rw [← hfee, he] at htf'; simp at htf'
    · exfalso
      rw [hR] at hcall
      simp only [List.append_assoc, List.cons_append, List.nil_append, List.mem_cons,
        reduceCtorEq, false_or, Call.TransferFeesToFeeCollectorModule.injEq] at hcall
      rcases hcall with hf | hf
      · rw [hf.1, hf.2] at hfail
        exact hfail htf
      · have hW := mem_writes k m Q D (newTakerTotalFillAmount k m)
          (curTakerPruneableBlockHeight k m)
          (getUpdatedOrderFillAmount mo.OrderId mo.Quantums
            (k.GetOrderFillAmount mo.OrderId).2.1 m.FillAmount).1
          (k.GetOrderFillAmount mo.OrderId).2.2 mo
        simp only [List.append_assoc] at hW
        rcases hW _ hf with ⟨_, h1⟩ | ⟨o, _, h2⟩ | h3
        · simp at h1
        · rcases mem_setOrderFillAmountsAndPruning _ _ _ _ _ h2 with ⟨_, h'⟩ | ⟨_, h'⟩ <;>
            simp at h'
        · rcases mem_setOrderFillAmountsAndPruning _ _ _ _ _ h3 with ⟨_, h'⟩ | ⟨_, h'⟩ <;>
            simp at h'

/-- C11 as claimed fails: with a failing fee transfer `ProcessSingleMatch` does
not panic, it returns `ErrSubaccountFeeTransferFailed` to the caller after the
subaccount updates and the insurance fund transfer have been made. -/
theorem ProcessSingleMatch_fee_transfer_error_returned :
    feeTransferFailsKeeper.TransferFeesToFeeCollectorModule 0 17 = some (Error.collaborator 3) ∧
    ProcessSingleMatch feeTransferFailsKeeper aliceBobMatch =
      ⟨[Call.UpdateSubaccounts aliceBobUpdates, Call.TransferInsuranceFundPayments 0,
          Call.TransferFeesToFeeCollectorModule 0 17],
        Outcome.ret ⟨false, UpdateResult.Success, UpdateResult.Success, none,
          some Error.ErrSubaccountFeeTransferFailed⟩⟩ ∧
    (∀ reason, (ProcessSingleMatch feeTransferFailsKeeper aliceBobMatch).result
      ≠ Outcome.panic reason) := by
  refine ⟨rfl, by decide, ?_⟩
  intro reason
  have h : (ProcessSingleMatch feeTransferFailsKeeper aliceBobMatch).result =
      Outcome.ret ⟨false, UpdateResult.Success, UpdateResult.Success, none,
        some Error.ErrSubaccountFeeTransferFailed⟩ := by decide
  rw [h]
  simp

/-- C11, as the code has it, at a concrete input: Alice and Bob's match with a
failing fee transfer. -/
theorem ProcessSingleMatch_fee_transfer_fails_witness :
    Call.TransferFeesToFeeCollectorModule 0 17
      ∈ (ProcessSingleMatch feeTransferFailsKeeper aliceBobMatch).calls ∧
    ∃ us D t mk, ProcessSingleMatch feeTransferFailsKeeper aliceBobMatch =
      ⟨[Call.UpdateSubaccounts us, Call.TransferInsuranceFundPayments D,
          Call.TransferFeesToFeeCollectorModule 0 17],
        Outcome.ret ⟨false, t, mk, none, some Error.ErrSubaccountFeeTransferFailed⟩⟩ := by
  refine ⟨by decide, ?_⟩
  obtain ⟨_, _, _, _, D, _, us, t, mk, _, h, _⟩ :=
    ProcessSingleMatch_fee_transfer_fails feeTransferFailsKeeper aliceBobMatch 0 17
      (by decide) (by decide)
  exact ⟨us, D, t, mk, h⟩
theorem getFillQuoteQuantums_product_nonneg (clobPair : ClobPair) (makerSubticks fillAmount : Nat) :
    (0 : ℚ) ≤ ((makerSubticks : ℚ) * (fillAmount : ℚ)) *
      (10 : ℚ) ^ clobPair.QuantumConversionExponent := by
  have h10 : (0 : ℚ) ≤ (10 : ℚ) ^ clobPair.QuantumConversionExponent :=
    zpow_nonneg (by norm_num) _
  positivity

/-- C12, as modelled from the spec. The fill quote quantums
`round_half_up(subticks * fill_amount * 10^exponent)` are never negative, and
they are strictly positive exactly when `subticks * fill_amount * 10^exponent`
is at least `1/2`; this is the case for every positive fill amount and
positive subticks when the exponent is not negative, and a smaller product
rounds to `0`. -/
theorem getFillQuoteQuantums_pos_iff (clobPair : ClobPair) (makerSubticks fillAmount : Nat) :
    0 ≤ getFillQuoteQuantums clobPair makerSubticks fillAmount ∧
    (0 < getFillQuoteQuantums clobPair makerSubticks fillAmount ↔
      (1 / 2 : ℚ) ≤ ((makerSubticks : ℚ) * (fillAmount : ℚ)) *
        (10 : ℚ) ^ clobPair.QuantumConversionExponent) ∧
    (0 ≤ clobPair.QuantumConversionExponent → 0 < makerSubticks → 0 < fillAmount →
      0 < getFillQuoteQuantums clobPair makerSubticks fillAmount) ∧
    (((makerSubticks : ℚ) * (fillAmount : ℚ)) *
        (10 : ℚ) ^ clobPair.QuantumConversionExponent < 1 / 2 →
      getFillQuoteQuantums clobPair makerSubticks fillAmount = 0) := by
  have hx := getFillQuoteQuantums_product_nonneg clobPair makerSubticks fillAmount
  have hpos : 0 < getFillQuoteQuantums clobPair makerSubticks fillAmount ↔
      (1 / 2 : ℚ) ≤ ((makerSubticks : ℚ) * (fillAmount : ℚ)) *
        (10 : ℚ) ^ clobPair.QuantumConversionExponent := by
    unfold getFillQuoteQuantums
    rw [Int.floor_pos]
    constructor <;> intro h <;> linarith
  have hnonneg : 0 ≤ getFillQuoteQuantums clobPair makerSubticks fillAmount := by
    unfold getFillQuoteQuantums
    rw [Int.floor_nonneg]
    linarith
  refine ⟨hnonneg, hpos, ?_, ?_⟩
  · intro he hs hf
    rw [hpos]
    have h10 : (1 : ℚ) ≤ (10 : ℚ) ^ clobPair.QuantumConversionExponent :=
      one_le_zpow₀ (by norm_num) he
    have hs' : (1 : ℚ) ≤ (makerSubticks : ℚ) := by exact_mod_cast hs
    have hf' : (1 : ℚ) ≤ (fillAmount : ℚ) := by exact_mod_cast hf
    have hsf : (1 : ℚ) ≤ (makerSubticks : ℚ) * (fillAmount : ℚ) := by nlinarith
    nlinarith
  · intro hlt
    have : ¬ 0 < getFillQuoteQuantums clobPair makerSubticks fillAmount := by
      rw [hpos]
      linarith
    omega

/-- C12 as claimed fails: for the fill amount 10,000,000 and maker subticks 1, both
positive, at the quantum conversion exponent -8 the product is 1/10 and the
fill quote quantums round to 0. -/
theorem getFillQuoteQuantums_rounds_to_zero :
    btcClobPair.QuantumConversionExponent = -8 ∧
    (0 : Nat) < 10000000 ∧ (0 : Nat) < 1 ∧
    getFillQuoteQuantums btcClobPair 1 10000000 = 0 := by
  refine ⟨rfl, by decide, by decide, ?_⟩
  unfold getFillQuoteQuantums
  rw [Int.floor_eq_iff]
  have h : btcClobPair.QuantumConversionExponent = -8 := rfl
  rw [h]
  norm_num

/-- C12, as modelled from the spec, at a concrete input: exponent -8, subticks
50,000,000,000 and fill amount 50 give a positive amount. -/
theorem getFillQuoteQuantums_pos_iff_witness :
    0 < getFillQuoteQuantums btcClobPair 50000000000 50 := by
  rw [(getFillQuoteQuantums_pos_iff btcClobPair 50000000000 50).2.1]
  have h : btcClobPair.QuantumConversionExponent = -8 := rfl
  rw [h]
  norm_num
theorem toInt32_of_mem (z : Int) (h : -2 ^ 31 ≤ z ∧ z < 2 ^ 31) : toInt32 z = z := by
  unfold toInt32
  obtain ⟨h1, h2⟩ := h
  norm_num at h1 h2 ⊢
  omega

theorem toInt32_add_left (x y : Int) : toInt32 (toInt32 x + y) = toInt32 (x + y) := by
  unfold toInt32
  norm_num
  omega

/-- C19. When the exponent sum `market.Exponent - QuantumConversionExponent +
baseAtomicResolution - quoteAtomicResolution` is an `int32`, `PriceToSubticks`
returns exactly the rational `market.Price * 10^sum`, and this result `s`
satisfies `s * 10^(-baseAtomicResolution) * 10^QuantumConversionExponent =
market.Price * 10^market.Exponent * 10^(-quoteAtomicResolution)`. -/
theorem PriceToSubticks_exact (market : Prices.Market) (clobPair : ClobPair)
    (baseAtomicResolution quoteAtomicResolution : Int)
    (hsum : -2 ^ 31 ≤ market.Exponent - clobPair.QuantumConversionExponent
        + baseAtomicResolution - quoteAtomicResolution ∧
      market.Exponent - clobPair.QuantumConversionExponent
        + baseAtomicResolution - quoteAtomicResolution < 2 ^ 31) :
    PriceToSubticks market clobPair baseAtomicResolution quoteAtomicResolution =
      (market.Price : ℚ) * (10 : ℚ) ^ (market.Exponent - clobPair.QuantumConversionExponent
        + baseAtomicResolution - quoteAtomicResolution) ∧
    PriceToSubticks market clobPair baseAtomicResolution quoteAtomicResolution
        * (10 : ℚ) ^ (-baseAtomicResolution) * (10 : ℚ) ^ clobPair.QuantumConversionExponent =
      (market.Price : ℚ) * (10 : ℚ) ^ market.Exponent * (10 : ℚ) ^ (-quoteAtomicResolution) := by
  have hexp : toInt32 (toInt32 (toInt32 (market.Exponent - clobPair.QuantumConversionExponent)
      + baseAtomicResolution) - quoteAtomicResolution) =
      market.Exponent - clobPair.QuantumConversionExponent
        + baseAtomicResolution - quoteAtomicResolution := by
    rw [toInt32_add_left, sub_eq_add_neg (toInt32 _) quoteAtomicResolution, toInt32_add_left,
      ← sub_eq_add_neg]
    exact toInt32_of_mem _ hsum
  have h1 : PriceToSubticks market clobPair baseAtomicResolution quoteAtomicResolution =
      (market.Price : ℚ) * (10 : ℚ) ^ (market.Exponent - clobPair.QuantumConversionExponent
        + baseAtomicResolution - quoteAtomicResolution) := by
    unfold PriceToSubticks BigMulPow10
    simp only [hexp, Int.cast_natCast]
  refine ⟨h1, ?_⟩
  rw [h1]
  have h10 : (10 : ℚ) ≠ 0 := by norm_num
  rw [mul_assoc, mul_assoc, mul_assoc, ← zpow_add₀ h10, ← zpow_add₀ h10, ← zpow_add₀ h10]
  congr 2
  ring

/-- C19 at a concrete input: price 100 at exponent -5, quantum conversion
exponent -8, base resolution -10 and quote resolution -6 give 100 * 10^(-1). -/
theorem PriceToSubticks_exact_witness :
    PriceToSubticks Prices.scenarioMarket btcClobPair (-10) (-6) = 10 := by
  rw [(PriceToSubticks_exact Prices.scenarioMarket btcClobPair (-10) (-6) (by decide)).1]
  have hE : Prices.scenarioMarket.Exponent = -5 := rfl
  have hP : Prices.scenarioMarket.Price = 100 := rfl
  have hQ : btcClobPair.QuantumConversionExponent = -8 := rfl
  rw [hE, hP, hQ]
  norm_num

theorem BigIntMulPpm_nonneg (x : Int) (ppm : Nat) (hx : 0 ≤ x) : 0 ≤ BigIntMulPpm x ppm := by
  unfold BigIntMulPpm
  exact Int.tdiv_nonneg (mul_nonneg hx (Int.ofNat_nonneg ppm)) (by norm_num)

/-- C20. When the fill is at or better than bankruptcy (`B ≤ L`),
`GetLiquidationInsuranceFundDelta` returns `min(|L| * MaxLiquidationFeePpm /
1,000,000, |L - B|)`, the fee cap being an integer division; this is never
negative, never more than the fee cap, and `0` when `L = B`. -/
theorem GetLiquidationInsuranceFundDelta_at_or_better (L B : Int) (maxLiquidationFeePpm : Nat)
    (h : B ≤ L) :
    GetLiquidationInsuranceFundDelta L B maxLiquidationFeePpm =
      min (|L| * (maxLiquidationFeePpm : Int) / 1000000) |L - B| ∧
    0 ≤ GetLiquidationInsuranceFundDelta L B maxLiquidationFeePpm ∧
    GetLiquidationInsuranceFundDelta L B maxLiquidationFeePpm ≤
      |L| * (maxLiquidationFeePpm : Int) / 1000000 ∧
    (L = B → GetLiquidationInsuranceFundDelta L B maxLiquidationFeePpm = 0) := by
  have hcap : BigIntMulPpm |L| maxLiquidationFeePpm =
      |L| * (maxLiquidationFeePpm : Int) / 1000000 := by
    unfold BigIntMulPpm
    exact Int.tdiv_eq_ediv (mul_nonneg (abs_nonneg L) (Int.ofNat_nonneg _)) (by norm_num)
  have hcap0 : 0 ≤ |L| * (maxLiquidationFeePpm : Int) / 1000000 := by
    rw [← hcap]
    exact BigIntMulPpm_nonneg _ _ (abs_nonneg L)
  have hval : GetLiquidationInsuranceFundDelta L B maxLiquidationFeePpm =
      min (|L| * (maxLiquidationFeePpm : Int) / 1000000) |L - B| := by
    unfold GetLiquidationInsuranceFundDelta
    simp only [hcap]
    by_cases hlt : L - B > 0
    · rw [if_pos hlt]
    · have heq : L = B := by omega
      rw [if_neg hlt, if_pos heq, heq, sub_self, abs_zero]
      rw [← heq]
      exact (min_eq_right hcap0).symm
  refine ⟨hval, ?_, ?_, ?_⟩
  · rw [hval]
    exact le_min hcap0 (abs_nonneg _)
  · rw [hval]
    exact min_le_left _ _
  · intro heq
    rw [hval, heq, sub_self, abs_zero]
    rw [← heq]
    exact min_eq_right hcap0

/-- C20 at the inputs of the test: a long closed 10% above bankruptcy pays the
capped fee at 5,000 ppm and everything left over at 1,000,000 ppm; a short
closed 10% better pays the capped fee; a fill at bankruptcy pays nothing. -/
theorem GetLiquidationInsuranceFundDelta_at_or_better_witness :
    GetLiquidationInsuranceFundDelta 5610000000 5100000000 5000 = 28050000 ∧
    GetLiquidationInsuranceFundDelta 5610000000 5100000000 1000000 = 510000000 ∧
    GetLiquidationInsuranceFundDelta (-4410000000) (-4900000000) 5000 = 22050000 ∧
    GetLiquidationInsuranceFundDelta 5100000000 5100000000 5000 = 0 :=
  ⟨(GetLiquidationInsuranceFundDelta_at_or_better 5610000000 5100000000 5000
      (by decide)).1.trans (by decide),
    (GetLiquidationInsuranceFundDelta_at_or_better 5610000000 5100000000 1000000
      (by decide)).1.trans (by decide),
    (GetLiquidationInsuranceFundDelta_at_or_better (-4410000000) (-4900000000) 5000
      (by decide)).1.trans (by decide),
    (GetLiquidationInsuranceFundDelta_at_or_better 5100000000 5100000000 5000
      (by decide)).2.2.2 rfl⟩

end Clob

namespace Prices

open Clob (Outcome Panic BigIntMulPpm)

/-! ## Lemmas on the price engine -/

theorem AbsDiffUint64_eq_abs (x y : Nat) :
    ((AbsDiffUint64 x y : Nat) : Int) = |(x : Int) - (y : Int)| := by
  unfold AbsDiffUint64
  split
  · rw [abs_of_nonneg (by omega)]
    omega
  · rw [abs_of_nonpos (by omega)]
    omega

theorem BigIntMulPpm_natCast (price ppm : Nat) :
    BigIntMulPpm (price : Int) ppm = ((price * ppm / 1000000 : Nat) : Int) := by
  unfold BigIntMulPpm
  rw [Int.tdiv_eq_ediv (mul_nonneg (Int.ofNat_nonneg _) (Int.ofNat_nonneg _)) (by norm_num)]
  push_cast
  rfl

theorem getMinPriceChangeAmountForMarket_fits (market : Market)
    (h : market.Price * market.MinPriceChangePpm / 1000000 < 2 ^ 64) :
    getMinPriceChangeAmountForMarket market =
      Outcome.ret (market.Price * market.MinPriceChangePpm / 1000000) := by
  unfold getMinPriceChangeAmountForMarket
  simp only [BigIntMulPpm_natCast]
  generalize market.Price * market.MinPriceChangePpm / 1000000 = n at h
  have h1 : (0 : Int) ≤ (n : Int) := Int.ofNat_nonneg _
  have h2 : (n : Int).toNat < 2 ^ 64 := by
    rw [Int.toNat_ofNat]
    exact h
  rw [if_neg (not_not.mpr ⟨h1, h2⟩), Int.toNat_ofNat]

theorem getMinPriceChangeAmountForMarket_exceeds (market : Market)
    (h : 2 ^ 64 ≤ market.Price * market.MinPriceChangePpm / 1000000) :
    getMinPriceChangeAmountForMarket market =
      Outcome.panic Panic.MinPriceChangeAmountExceedsUint64 := by
  unfold getMinPriceChangeAmountForMarket
  simp only [BigIntMulPpm_natCast]
  generalize market.Price * market.MinPriceChangePpm / 1000000 = n at h
  have h2 : ¬ ((0 : Int) ≤ (n : Int) ∧ (n : Int).toNat < 2 ^ 64) := by
    intro hc
    have := hc.2
    rw [Int.toNat_ofNat] at this
    omega
  rw [if_pos h2]

/-! ## Claims on the price engine -/

/-- C13, as the code has it. When the minimum change amount is a `uint64`,
`isAboveRequiredMinPriceChange` returns true if and only if `|market.Price -
newPrice|` is at least the floor of `market.Price * MinPriceChangePpm /
1,000,000`, the product being rounded toward zero by `BigIntMulPpm`; otherwise
it panics. -/
theorem isAboveRequiredMinPriceChange_floor (market : Market) (newPrice : Nat) :
    (market.Price * market.MinPriceChangePpm / 1000000 < 2 ^ 64 →
      ∃ b, isAboveRequiredMinPriceChange market newPrice = Outcome.ret b ∧
        (b = true ↔
          ⌊((market.Price : ℚ) * (market.MinPriceChangePpm : ℚ)) / 1000000⌋ ≤
            |(market.Price : Int) - (newPrice : Int)|)) ∧
    (2 ^ 64 ≤ market.Price * market.MinPriceChangePpm / 1000000 →
      isAboveRequiredMinPriceChange market newPrice =
        Outcome.panic Panic.MinPriceChangeAmountExceedsUint64) := by
  constructor
  · intro h
    refine ⟨decide (AbsDiffUint64 market.Price newPrice ≥
      market.Price * market.MinPriceChangePpm / 1000000), ?_, ?_⟩
    · unfold isAboveRequiredMinPriceChange
      rw [getMinPriceChangeAmountForMarket_fits market h]
    · have hfloor : ⌊((market.Price : ℚ) * (market.MinPriceChangePpm : ℚ)) / 1000000⌋ =
          ((market.Price * market.MinPriceChangePpm / 1000000 : Nat) : Int) := by
        have := Rat.floor_natCast_div_natCast (market.Price * market.MinPriceChangePpm) 1000000
        rw [Nat.cast_mul, Nat.cast_ofNat] at this
        exact this
      rw [hfloor, ← AbsDiffUint64_eq_abs]
      simp only [ge_iff_le, decide_eq_true_eq]
      exact Iff.symm Int.ofNat_le
  · intro h
    unfold isAboveRequiredMinPriceChange
    rw [getMinPriceChangeAmountForMarket_exceeds market h]


/-- C13 as claimed fails: at price 15 with a minimum change of 100,000 ppm the
change amount is 1.5, whose ceiling is 2; the proposed price 16 differs by 1,
less than the ceiling, yet `isAboveRequiredMinPriceChange` returns true. -/
theorem isAboveRequiredMinPriceChange_not_ceil :
    isAboveRequiredMinPriceChange fractionalMarket 16 = Outcome.ret true ∧
    ⌈((fractionalMarket.Price : ℚ) * (fractionalMarket.MinPriceChangePpm : ℚ)) / 1000000⌉ = 2 ∧
    |(fractionalMarket.Price : Int) - (16 : Int)| = 1 := by
  refine ⟨by decide, ?_, by decide⟩
  have hP : fractionalMarket.Price = 15 := rfl
  have hM : fractionalMarket.MinPriceChangePpm = 100000 := rfl
  rw [hP, hM, Int.ceil_eq_iff]
  norm_num

/-- C13, as the code has it, at concrete inputs: at price 100 with a minimum
change of 100,000 ppm the gate is 10, which 110 meets and 109 does not. -/
theorem isAboveRequiredMinPriceChange_floor_witness :
    (∃ b, isAboveRequiredMinPriceChange scenarioMarket 110 = Outcome.ret b ∧
      (b = true ↔
        ⌊((scenarioMarket.Price : ℚ) * (scenarioMarket.MinPriceChangePpm : ℚ)) / 1000000⌋ ≤
          |(scenarioMarket.Price : Int) - ((110 : Nat) : Int)|)) ∧
    isAboveRequiredMinPriceChange scenarioMarket 110 = Outcome.ret true ∧
    isAboveRequiredMinPriceChange scenarioMarket 109 = Outcome.ret false :=
  ⟨(isAboveRequiredMinPriceChange_floor scenarioMarket 110).1 (by decide), by decide, by decide⟩

/-- C14. `newPriceMeetsSqrtCondition` is true if and only if `newDelta^2 *
1,000,000 <= oldDelta * tickSizePpm` over the unbounded integers; it is false
for `oldDelta = newDelta = 50` and the tick size of a market at price 200 with
a minimum change of 100,000 ppm. -/
theorem newPriceMeetsSqrtCondition_iff (oldDelta newDelta tickSizePpm : Int) :
    (newPriceMeetsSqrtCondition oldDelta newDelta tickSizePpm = true ↔
      newDelta ^ 2 * 1000000 ≤ oldDelta * tickSizePpm) ∧
    newPriceMeetsSqrtCondition 50 50 (computeTickSizePpm 200 100000) = false := by
  constructor
  · unfold newPriceMeetsSqrtCondition OneMillion
    simp only [decide_eq_true_eq, Nat.cast_ofNat, pow_two]
  · decide

/-- C15. `isTowardsIndexPrice` is true if and only if the new price lies in the
closed interval between the old price and the index price; it is true for the
old price and for the index price themselves, and whenever it is true the new
price is at most as far from the index price as the old one. -/
theorem isTowardsIndexPrice_iff (oldPrice newPrice indexPrice : Nat) :
    (isTowardsIndexPrice oldPrice newPrice indexPrice = true ↔
      min oldPrice indexPrice ≤ newPrice ∧ newPrice ≤ max oldPrice indexPrice) ∧
    isTowardsIndexPrice oldPrice oldPrice indexPrice = true ∧
    isTowardsIndexPrice oldPrice indexPrice indexPrice = true ∧
    (isTowardsIndexPrice oldPrice newPrice indexPrice = true →
      |(newPrice : Int) - (indexPrice : Int)| ≤ |(oldPrice : Int) - (indexPrice : Int)|) := by
  have hiff : ∀ o n i : Nat, isTowardsIndexPrice o n i = true ↔
      min o i ≤ n ∧ n ≤ max o i := by
    intro o n i
    unfold isTowardsIndexPrice Max Min
    simp only [Bool.and_eq_true, decide_eq_true_eq, ge_iff_le]
    split <;> split <;> omega
  refine ⟨hiff _ _ _, (hiff _ _ _).2 ?_, (hiff _ _ _).2 ?_, ?_⟩
  · omega
  · omega
  · intro h
    have h' := (hiff _ _ _).1 h
    rw [abs_le]
    rcases le_total oldPrice indexPrice with ho | ho
    · rw [abs_of_nonpos (by omega)]
      omega
    · rw [abs_of_nonneg (by omega)]
      omega

/-- C16. `isCrossingIndexPrice` is true if and only if the index price lies
strictly between the old and the new price; it is false when the index price
equals either of them, and it is symmetric in the old and the new price. -/
theorem isCrossingIndexPrice_iff (oldPrice newPrice indexPrice : Nat) :
    (isCrossingIndexPrice oldPrice newPrice indexPrice = true ↔
      min oldPrice newPrice < indexPrice ∧ indexPrice < max oldPrice newPrice) ∧
    isCrossingIndexPrice oldPrice newPrice oldPrice = false ∧
    isCrossingIndexPrice oldPrice newPrice newPrice = false ∧
    isCrossingIndexPrice oldPrice newPrice indexPrice =
      isCrossingIndexPrice newPrice oldPrice indexPrice := by
  have hiff : ∀ o n i : Nat, isCrossingIndexPrice o n i = true ↔
      min o n < i ∧ i < max o n := by
    intro o n i
    unfold isCrossingIndexPrice Max Min
    simp only [Bool.and_eq_true, decide_eq_true_eq, gt_iff_lt]
    split <;> split <;> omega
  refine ⟨hiff _ _ _, ?_, ?_, ?_⟩
  · rw [← Bool.not_eq_true, hiff]
    omega
  · rw [← Bool.not_eq_true, hiff]
    omega
  · rw [Bool.eq_iff_iff, hiff, hiff]
    omega

/-- C17. `computeTickSizePpm` is exactly `oldPrice * minPriceChangePpm`, and
`priceDeltaIsWithinOneTick` on it is true if and only if `priceDelta *
1,000,000 <= oldPrice * minPriceChangePpm`, that is, `priceDelta <= oldPrice *
minPriceChangePpm / 1,000,000` over the rationals. -/
theorem priceDeltaIsWithinOneTick_iff (oldPrice minPriceChangePpm : Nat) (priceDelta : Int) :
    computeTickSizePpm oldPrice minPriceChangePpm = (oldPrice : Int) * (minPriceChangePpm : Int) ∧
    (priceDeltaIsWithinOneTick priceDelta (computeTickSizePpm oldPrice minPriceChangePpm) = true ↔
      priceDelta * 1000000 ≤ (oldPrice : Int) * (minPriceChangePpm : Int)) ∧
    (priceDeltaIsWithinOneTick priceDelta (computeTickSizePpm oldPrice minPriceChangePpm) = true ↔
      (priceDelta : ℚ) ≤ ((oldPrice : ℚ) * (minPriceChangePpm : ℚ)) / 1000000) := by
  have h1 : priceDeltaIsWithinOneTick priceDelta (computeTickSizePpm oldPrice minPriceChangePpm)
      = true ↔ priceDelta * 1000000 ≤ (oldPrice : Int) * (minPriceChangePpm : Int) := by
    unfold priceDeltaIsWithinOneTick computeTickSizePpm OneMillion
    simp only [decide_eq_true_eq, Nat.cast_ofNat]
  refine ⟨rfl, h1, ?_⟩
  rw [h1, le_div_iff₀ (by norm_num : (0 : ℚ) < 1000000)]
  constructor
  · intro h
    exact_mod_cast h
  · intro h
    exact_mod_cast h


/-- C15 at concrete inputs: between the old price 100 and the index price 110,
105 moves toward the index and is closer to it; 111 does not. -/
theorem isTowardsIndexPrice_iff_witness :
    isTowardsIndexPrice 100 105 110 = true ∧
    |((105 : Nat) : Int) - ((110 : Nat) : Int)| ≤ |((100 : Nat) : Int) - ((110 : Nat) : Int)| ∧
    isTowardsIndexPrice 100 111 110 = false :=
  ⟨by decide, (isTowardsIndexPrice_iff 100 105 110).2.2.2 (by decide), by decide⟩

/-- C16 at concrete inputs: the index price 101 lies strictly between 100 and
110, the index price 99 does not. -/
theorem isCrossingIndexPrice_iff_witness :
    isCrossingIndexPrice 100 110 101 = true ∧ ¬ isCrossingIndexPrice 100 110 99 = true :=
  ⟨(isCrossingIndexPrice_iff 100 110 101).1.2 (by decide),
    fun h => absurd ((isCrossingIndexPrice_iff 100 110 99).1.1 h) (by decide)⟩

/-- C17 at concrete inputs: at price 100 with 100,000 ppm one tick is 10, so a
delta of 10 is within one tick and a delta of 11 is not. -/
theorem priceDeltaIsWithinOneTick_iff_witness :
    priceDeltaIsWithinOneTick 10 (computeTickSizePpm 100 100000) = true ∧
    ¬ priceDeltaIsWithinOneTick 11 (computeTickSizePpm 100 100000) = true :=
  ⟨(priceDeltaIsWithinOneTick_iff 100 100000 10).2.1.2 (by decide),
    fun h => absurd ((priceDeltaIsWithinOneTick_iff 100 100000 11).2.1.1 h) (by decide)⟩

/-- C18 as claimed fails: with the old price 100 and the index price 99, neither
110 nor 150 crosses the index price, which lies below both the old and the new
price, and the update rule rejects both. -/
theorem scenario5_not_crossing :
    isCrossingIndexPrice scenarioMarket.Price 110 99 = false ∧
    isCrossingIndexPrice scenarioMarket.Price 150 99 = false ∧
    priceUpdateAccepted scenarioMarket 99 110 = Outcome.ret false ∧
    priceUpdateAccepted scenarioMarket 99 150 = Outcome.ret false := by
  decide

/-- C18, as the code has it. For the market at price 100 with a minimum change
of 100,000 ppm the tick size in ppm is 10,000,000, both 110 and 150 pass the
min-change gate, and an old delta of 1 is within one tick. With the index price
99 the two proposals neither move toward the index nor cross it: they move
away from it and are rejected. With an index price strictly between, such as
101, each crosses the index, the old delta is again 1, and the one-tick path
accepts them. -/
theorem scenario5_update_rule :
    computeTickSizePpm scenarioMarket.Price scenarioMarket.MinPriceChangePpm = 10000000 ∧
    isAboveRequiredMinPriceChange scenarioMarket 110 = Outcome.ret true ∧
    isAboveRequiredMinPriceChange scenarioMarket 150 = Outcome.ret true ∧
    AbsDiffUint64 scenarioMarket.Price 99 = 1 ∧
    priceDeltaIsWithinOneTick 1 10000000 = true ∧
    isTowardsIndexPrice scenarioMarket.Price 110 99 = false ∧
    isTowardsIndexPrice scenarioMarket.Price 150 99 = false ∧
    isCrossingIndexPrice scenarioMarket.Price 110 99 = false ∧
    isCrossingIndexPrice scenarioMarket.Price 150 99 = false ∧
    priceUpdateAccepted scenarioMarket 99 110 = Outcome.ret false ∧
    priceUpdateAccepted scenarioMarket 99 150 = Outcome.ret false ∧
    AbsDiffUint64 scenarioMarket.Price 101 = 1 ∧
    isCrossingIndexPrice scenarioMarket.Price 110 101 = true ∧
    isCrossingIndexPrice scenarioMarket.Price 150 101 = true ∧
    priceUpdateAccepted scenarioMarket 101 110 = Outcome.ret true ∧
    priceUpdateAccepted scenarioMarket 101 150 = Outcome.ret true := by
  decide

end Prices

namespace Clob

/-! ## Claims on the liquidation helpers -/

/-- C21. When the fill is worse than bankruptcy (`L < B`, for a long closed by
a sell and for a short closed by a buy alike), `GetLiquidationInsuranceFundDelta`
returns `L - B`, which is negative, whatever the maximum liquidation fee: no
fee cap is applied. -/
theorem GetLiquidationInsuranceFundDelta_worse_than_bankruptcy (L B : Int)
    (maxLiquidationFeePpm : Nat) (h : L < B) :
    GetLiquidationInsuranceFundDelta L B maxLiquidationFeePpm = L - B ∧
    GetLiquidationInsuranceFundDelta L B maxLiquidationFeePpm < 0 := by
  have hval : GetLiquidationInsuranceFundDelta L B maxLiquidationFeePpm = L - B := by
    unfold GetLiquidationInsuranceFundDelta
    have h1 : ¬ (L - B > 0) := by omega
    have h2 : ¬ (L = B) := by omega
    simp only [h1, h2, if_false]
  refine ⟨hval, ?_⟩
  rw [hval]
  omega

/-- C21 at the inputs of the test: a long closed at 5,049,000,000 against a
bankruptcy price of 5,100,000,000 costs the fund 51,000,000, a short closed at
-4,949,000,000 against -4,900,000,000 costs it 49,000,000. -/
theorem GetLiquidationInsuranceFundDelta_worse_than_bankruptcy_witness :
    GetLiquidationInsuranceFundDelta 5049000000 5100000000 5000 = -51000000 ∧
    GetLiquidationInsuranceFundDelta (-4949000000) (-4900000000) 5000 = -49000000 :=
  ⟨(GetLiquidationInsuranceFundDelta_worse_than_bankruptcy 5049000000 5100000000 5000
      (by decide)).1.trans (by decide),
    (GetLiquidationInsuranceFundDelta_worse_than_bankruptcy (-4949000000) (-4900000000) 5000
      (by decide)).1.trans (by decide)⟩

/-- With one position, whose maintenance margin requirement is not zero,
`TNC_required` is the negated quote balance. -/
theorem tncRequired_single (o : MarginOracle) (s : Subaccount) (position : PerpetualPosition)
    (hsingle : s.PerpetualPositions = [position]) (hmargin : 0 < o.MaintenanceMargin position) :
    tncRequired o s position = ((-s.QuoteBalance : Int) : ℚ) := by
  unfold tncRequired netCollateral maintenanceMarginRequirement
  rw [hsingle]
  simp only [List.map_cons, List.map_nil, List.sum_cons, List.sum_nil, add_zero, Int.cast_add,
    Int.cast_natCast, Int.cast_neg]
  have hm : ((o.MaintenanceMargin position : Nat) : ℚ) ≠ 0 := by
    exact_mod_cast (Nat.pos_iff_ne_zero.mp hmargin)
  rw [mul_div_assoc, div_self hm]
  ring

/-- C22. For the position `P` that a subaccount has in the perpetual and a
delta of the opposite sign with `0 < |delta| <= |P|`,
`GetBankruptcyPriceInQuoteQuantums` returns the least integer that is not below
`TNC_required * |delta| / |P|` (the quotient rounded toward +infinity), and
closing the full position returns `TNC_required`, rounded up when it is not an
integer. For a subaccount with this position alone, of a maintenance margin
requirement that is not zero, `TNC_required` is the negated quote balance: the
result is the negated quote balance pro rata, rounded toward +infinity, and
closing the full position returns exactly the negated quote balance. -/
theorem GetBankruptcyPriceInQuoteQuantums_pro_rata (o : MarginOracle) (s : Subaccount)
    (perpetualId : Nat) (position : PerpetualPosition) (deltaQuantums : Int)
    (hposition : s.PerpetualPositions.find? (fun p => decide (p.PerpetualId = perpetualId)) =
      some position)
    (hdelta : deltaQuantums ≠ 0) (hsign : deltaQuantums.sign = -position.Quantums.sign)
    (hle : |deltaQuantums| ≤ |position.Quantums|) :
    ∃ b : Int,
      GetBankruptcyPriceInQuoteQuantums o s perpetualId deltaQuantums = Except.ok b ∧
      tncRequired o s position * ((|deltaQuantums| : Int) : ℚ) /
        ((|position.Quantums| : Int) : ℚ) ≤ (b : ℚ) ∧
      (b : ℚ) - 1 < tncRequired o s position * ((|deltaQuantums| : Int) : ℚ) /
        ((|position.Quantums| : Int) : ℚ) ∧
      (|deltaQuantums| = |position.Quantums| →
        b = ⌈tncRequired o s position⌉ ∧
        ∀ t : Int, tncRequired o s position = (t : ℚ) → b = t) ∧
      (s.PerpetualPositions = [position] → 0 < o.MaintenanceMargin position →
        tncRequired o s position = ((-s.QuoteBalance : Int) : ℚ) ∧
        ((-s.QuoteBalance : Int) : ℚ) * ((|deltaQuantums| : Int) : ℚ) /
          ((|position.Quantums| : Int) : ℚ) ≤ (b : ℚ) ∧
        (b : ℚ) - 1 < ((-s.QuoteBalance : Int) : ℚ) * ((|deltaQuantums| : Int) : ℚ) /
          ((|position.Quantums| : Int) : ℚ) ∧
        (|deltaQuantums| = |position.Quantums| → b = -s.QuoteBalance)) := by
  have hsd : deltaQuantums.sign ≠ 0 := by
    rw [Ne, Int.sign_eq_zero_iff_zero]
    exact hdelta
  have hP : position.Quantums ≠ 0 := by
    intro h0
    rw [h0] at hsign
    simp at hsign
    exact hdelta hsign
  have hne : deltaQuantums.sign ≠ position.Quantums.sign := by
    intro heq
    rw [hsign] at heq
    have : position.Quantums.sign = 0 := by omega
    rw [this] at hsign
    exact hsd (by simpa using hsign)
  have hcond : ¬ (deltaQuantums = 0 ∨ position.Quantums = 0 ∨
      deltaQuantums.sign = position.Quantums.sign ∨
      |position.Quantums| < |deltaQuantums|) := by
    rintro (h | h | h | h)
    · exact hdelta h
    · exact hP h
    · exact hne h
    · exact absurd hle (not_le.mpr h)
  have hq : ((|position.Quantums| : Int) : ℚ) ≠ 0 := by
    exact_mod_cast abs_ne_zero.mpr hP
  have hfull : |deltaQuantums| = |position.Quantums| →
      ⌈tncRequired o s position * ((|deltaQuantums| : Int) : ℚ) /
        ((|position.Quantums| : Int) : ℚ)⌉ = ⌈tncRequired o s position⌉ := by
    intro h
    rw [h, mul_div_assoc, div_self hq, mul_one]
  refine ⟨⌈tncRequired o s position * ((|deltaQuantums| : Int) : ℚ) /
      ((|position.Quantums| : Int) : ℚ)⌉, ?_, Int.le_ceil _, ?_, ?_, ?_⟩
  · unfold GetBankruptcyPriceInQuoteQuantums
    rw [hposition]
    simp only
    rw [if_neg hcond, Int.cast_abs, Int.cast_abs]
  · have := Int.ceil_lt_add_one
      (tncRequired o s position * ((|deltaQuantums| : Int) : ℚ) /
        ((|position.Quantums| : Int) : ℚ))
    linarith
  · intro h
    refine ⟨hfull h, ?_⟩
    intro t ht
    rw [hfull h, ht, Int.ceil_intCast]
  · intro hsingle hmargin
    have hT := tncRequired_single o s position hsingle hmargin
    refine ⟨hT, ?_, ?_, ?_⟩
    · rw [← hT]
      exact Int.le_ceil _
    · rw [← hT]
      have := Int.ceil_lt_add_one
        (tncRequired o s position * ((|deltaQuantums| : Int) : ℚ) /
          ((|position.Quantums| : Int) : ℚ))
      linarith
    · intro h
      rw [hfull h, hT, Int.ceil_intCast]

/-- C22 at the rows of the test. A quote balance of -13,000,000 and a long of
100,000,000 closed by -21,347 give 2,776 (rounded up from 2,775.11); the
mirrored short gives -2,775; a full close of the long of 0.1 BTC at a quote
balance of -4,501,000,000 gives 4,501,000,000. With a second position the
result is not the negated quote balance: at a quote balance of -490,000,000
with longs of 0.004 BTC and 0.1 ETH, closing the ETH gives 294,000,000; the
shorts at 510,000,000, and the long of BTC with the short of ETH at
110,000,000, give -306,000,000. A delta of 0, a perpetual without position, a
delta of the sign of the position and a delta larger than the position are
errors. -/
theorem GetBankruptcyPriceInQuoteQuantums_pro_rata_witness :
    GetBankruptcyPriceInQuoteQuantums btcEthMarginOracle
      (liquidationsTestSubaccount (-13000000) [⟨0, 100000000⟩]) 0 (-21347) = Except.ok 2776 ∧
    GetBankruptcyPriceInQuoteQuantums btcEthMarginOracle
      (liquidationsTestSubaccount 13000000 [⟨0, -100000000⟩]) 0 21347 = Except.ok (-2775) ∧
    GetBankruptcyPriceInQuoteQuantums btcEthMarginOracle
      (liquidationsTestSubaccount (-4501000000) [⟨0, 10000000⟩]) 0 (-10000000) =
        Except.ok 4501000000 ∧
    GetBankruptcyPriceInQuoteQuantums btcEthMarginOracle
      (liquidationsTestSubaccount (-490000000) [⟨0, 400000⟩, ⟨1, 100000000⟩]) 1 (-100000000) =
        Except.ok 294000000 ∧
    GetBankruptcyPriceInQuoteQuantums btcEthMarginOracle
      (liquidationsTestSubaccount 510000000 [⟨0, -400000⟩, ⟨1, -100000000⟩]) 1 100000000 =
        Except.ok (-306000000) ∧
    GetBankruptcyPriceInQuoteQuantums btcEthMarginOracle
      (liquidationsTestSubaccount 110000000 [⟨0, 400000⟩, ⟨1, -100000000⟩]) 1 100000000 =
        Except.ok (-306000000) ∧
    GetBankruptcyPriceInQuoteQuantums btcEthMarginOracle
      (liquidationsTestSubaccount (-4501000000) [⟨0, 100000000⟩]) 0 0 =
        Except.error Error.ErrInvalidPerpetualPositionSizeDelta ∧
    GetBankruptcyPriceInQuoteQuantums btcEthMarginOracle
      (liquidationsTestSubaccount (-4501000000) []) 0 (-10000000) =
        Except.error Error.ErrInvalidPerpetualPositionSizeDelta ∧
    GetBankruptcyPriceInQuoteQuantums btcEthMarginOracle
      (liquidationsTestSubaccount (-4501000000) [⟨0, 100000000⟩]) 0 10000000 =
        Except.error Error.ErrInvalidPerpetualPositionSizeDelta ∧
    GetBankruptcyPriceInQuoteQuantums btcEthMarginOracle
      (liquidationsTestSubaccount (-4501000000) [⟨0, 100000000⟩]) 0 (-100000001) =
        Except.error Error.ErrInvalidPerpetualPositionSizeDelta := by
  refine ⟨?_, ?_, ?_, ?_, ?_, ?_, rfl, rfl, rfl, rfl⟩
  · obtain ⟨b, hb, _, _, _, h4⟩ := GetBankruptcyPriceInQuoteQuantums_pro_rata btcEthMarginOracle
      (liquidationsTestSubaccount (-13000000) [⟨0, 100000000⟩]) 0 ⟨0, 100000000⟩ (-21347)
      rfl (by decide) (by decide) (by decide)
    obtain ⟨_, h1, h2, _⟩ := h4 rfl (by decide)
    rw [hb]
    have e1 : (|(-21347 : Int)| : Int) = 21347 := by decide
    have e2 : (|(100000000 : Int)| : Int) = 100000000 := by decide
    simp only [liquidationsTestSubaccount, e1, e2] at h1 h2
    have hb1 : (2775 : ℚ) < (b : ℚ) := by
      have : (2775 : ℚ) < ((-(-13000000) : Int) : ℚ) * ((21347 : Int) : ℚ) /
          ((100000000 : Int) : ℚ) := by norm_num
      linarith
    have hb2 : (b : ℚ) < 2777 := by
      have : ((-(-13000000) : Int) : ℚ) * ((21347 : Int) : ℚ) /
          ((100000000 : Int) : ℚ) < 2776 := by norm_num
      linarith
    have hb1' : (2775 : Int) < b := by exact_mod_cast hb1
    have hb2' : b < (2777 : Int) := by exact_mod_cast hb2
    have : b = 2776 := by omega
    rw [this]
  · obtain ⟨b, hb, _, _, _, h4⟩ := GetBankruptcyPriceInQuoteQuantums_pro_rata btcEthMarginOracle
      (liquidationsTestSubaccount 13000000 [⟨0, -100000000⟩]) 0 ⟨0, -100000000⟩ 21347
      rfl (by decide) (by decide) (by decide)
    obtain ⟨_, h1, h2, _⟩ := h4 rfl (by decide)
    rw [hb]
    have e1 : (|(21347 : Int)| : Int) = 21347 := by decide
    have e2 : (|(-100000000 : Int)| : Int) = 100000000 := by decide
    simp only [liquidationsTestSubaccount, e1, e2] at h1 h2
    have hb1 : (-2776 : ℚ) < (b : ℚ) := by
      have : (-2776 : ℚ) < ((-13000000 : Int) : ℚ) * ((21347 : Int) : ℚ) /
          ((100000000 : Int) : ℚ) := by norm_num
      linarith
    have hb2 : (b : ℚ) < -2774 := by
      have : ((-13000000 : Int) : ℚ) * ((21347 : Int) : ℚ) /
          ((100000000 : Int) : ℚ) < -2775 := by norm_num
      linarith
    have hb1' : (-2776 : Int) < b := by exact_mod_cast hb1
    have hb2' : b < (-2774 : Int) := by exact_mod_cast hb2
    have : b = -2775 := by omega
    rw [this]
  · obtain ⟨b, hb, _, _, _, h4⟩ := GetBankruptcyPriceInQuoteQuantums_pro_rata btcEthMarginOracle
      (liquidationsTestSubaccount (-4501000000) [⟨0, 10000000⟩]) 0 ⟨0, 10000000⟩ (-10000000)
      rfl (by decide) (by decide) (by decide)
    obtain ⟨_, _, _, h3⟩ := h4 rfl (by decide)
    rw [hb, h3 (by decide)]
    rfl
  · obtain ⟨b, hb, _, _, h3, _⟩ := GetBankruptcyPriceInQuoteQuantums_pro_rata btcEthMarginOracle
      (liquidationsTestSubaccount (-490000000) [⟨0, 400000⟩, ⟨1, 100000000⟩]) 1
      ⟨1, 100000000⟩ (-100000000) rfl (by decide) (by decide) (by decide)
    rw [hb, (h3 (by decide)).2 294000000 (by
      simp only [tncRequired, netCollateral, maintenanceMarginRequirement, btcEthMarginOracle,
        liquidationsTestSubaccount]
      norm_num)]
  · obtain ⟨b, hb, _, _, h3, _⟩ := GetBankruptcyPriceInQuoteQuantums_pro_rata btcEthMarginOracle
      (liquidationsTestSubaccount 510000000 [⟨0, -400000⟩, ⟨1, -100000000⟩]) 1
      ⟨1, -100000000⟩ 100000000 rfl (by decide) (by decide) (by decide)
    rw [hb, (h3 (by decide)).2 (-306000000) (by
      simp only [tncRequired, netCollateral, maintenanceMarginRequirement, btcEthMarginOracle,
        liquidationsTestSubaccount]
      norm_num)]
  · obtain ⟨b, hb, _, _, h3, _⟩ := GetBankruptcyPriceInQuoteQuantums_pro_rata btcEthMarginOracle
      (liquidationsTestSubaccount 110000000 [⟨0, 400000⟩, ⟨1, -100000000⟩]) 1
      ⟨1, -100000000⟩ 100000000 rfl (by decide) (by decide) (by decide)
    rw [hb, (h3 (by decide)).2 (-306000000) (by
      simp only [tncRequired, netCollateral, maintenanceMarginRequirement, btcEthMarginOracle,
        liquidationsTestSubaccount]
      norm_num)]

/-- C23, the claim as stated fails: a subaccount without a perpetual position
and with a quote balance of -1,000,000 has a net collateral below its
maintenance margin requirement, which is 0, and is not liquidatable. -/
theorem IsLiquidatable_no_positions_below_margin :
    netCollateral btcMarginOracle (noPositions (-1000000)) <
      maintenanceMarginRequirement btcMarginOracle (noPositions (-1000000)) ∧
    IsLiquidatable btcMarginOracle (noPositions (-1000000)) = false := by
  decide

/-- C23, amended. A subaccount with at least one perpetual position is
liquidatable if and only if its net collateral is strictly less than its
maintenance margin requirement; at the requirement or above it, it is not. -/
theorem IsLiquidatable_iff (o : MarginOracle) (s : Subaccount)
    (hpos : s.PerpetualPositions ≠ []) :
    (IsLiquidatable o s = true ↔ netCollateral o s < maintenanceMarginRequirement o s) ∧
    (maintenanceMarginRequirement o s ≤ netCollateral o s → IsLiquidatable o s = false) := by
  have hempty : s.PerpetualPositions.isEmpty = false := by
    cases hs : s.PerpetualPositions with
    | nil => exact absurd hs hpos
    | cons a l => rfl
  have hiff : IsLiquidatable o s = true ↔
      netCollateral o s < maintenanceMarginRequirement o s := by
    unfold IsLiquidatable
    rw [hempty]
    simp
  refine ⟨hiff, ?_⟩
  intro hge
  cases hl : IsLiquidatable o s with
  | false => rfl
  | true => exact absurd (hiff.mp hl) (not_lt.mpr hge)

/-- C23 at the inputs of the test: 0.1 BTC long at $50,000 with a 10%
maintenance margin requires 500,000,000; a quote balance of -4,501,000,000
leaves a net collateral of 499,000,000 and the subaccount is liquidatable; with
-4,500,000,000 it is exactly at the requirement and is not. -/
theorem IsLiquidatable_iff_witness :
    IsLiquidatable btcMarginOracle (oneTenthBtcLong (-4501000000)) = true ∧
    netCollateral btcMarginOracle (oneTenthBtcLong (-4500000000)) = 500000000 ∧
    maintenanceMarginRequirement btcMarginOracle (oneTenthBtcLong (-4500000000)) = 500000000 ∧
    IsLiquidatable btcMarginOracle (oneTenthBtcLong (-4500000000)) = false :=
  ⟨(IsLiquidatable_iff btcMarginOracle (oneTenthBtcLong (-4501000000)) (by decide)).1.mpr
      (by decide),
    by decide, by decide,
    (IsLiquidatable_iff btcMarginOracle (oneTenthBtcLong (-4500000000)) (by decide)).2
      (by decide)⟩

/-- C24. A subaccount without a perpetual position is not liquidatable,
whatever its quote balance and whatever the oracle says. -/
theorem IsLiquidatable_no_positions (o : MarginOracle) (s : Subaccount)
    (h : s.PerpetualPositions = []) : IsLiquidatable o s = false := by
  unfold IsLiquidatable
  rw [h]
  rfl

/-- C24 at the inputs of the test: no position and a quote balance of -$1, as
well as no position and a positive balance. -/
theorem IsLiquidatable_no_positions_witness :
    netCollateral btcMarginOracle (noPositions (-1000000)) = -1000000 ∧
    IsLiquidatable btcMarginOracle (noPositions (-1000000)) = false ∧
    IsLiquidatable btcMarginOracle (noPositions 1000000) = false :=
  ⟨by decide, IsLiquidatable_no_positions btcMarginOracle (noPositions (-1000000)) rfl,
    IsLiquidatable_no_positions btcMarginOracle (noPositions 1000000) rfl⟩

end Clob

namespace Clob

theorem mathMaxUint32_le_mathMaxUint64 : mathMaxUint32 ≤ mathMaxUint64 := by
  decide

/-- The cap `M - M % n` is a multiple of `n` between `n` and `M`, and no
multiple of `n` up to `M` is larger. -/
theorem largest_multiple (M n : Nat) (hn : 0 < n) (hM : n ≤ M) :
    n ∣ M - M % n ∧ n ≤ M - M % n ∧ M - M % n ≤ M ∧
    ∀ t, n ∣ t → t ≤ M → t ≤ M - M % n := by
  have hdm := Nat.div_add_mod M n
  have hcap : M - M % n = n * (M / n) := by omega
  have hq : 1 ≤ M / n := (Nat.one_le_div_iff hn).mpr hM
  refine ⟨?_, ?_, Nat.sub_le _ _, ?_⟩
  · rw [hcap]
    exact Dvd.intro _ rfl
  · rw [hcap]
    calc n = n * 1 := (Nat.mul_one n).symm
      _ ≤ n * (M / n) := Nat.mul_le_mul_left n hq
  · rintro t ⟨q, rfl⟩ ht
    rw [hcap]
    apply Nat.mul_le_mul_left
    rw [Nat.le_div_iff_mul_le hn]
    rw [Nat.mul_comm]
    exact ht

/-- C25. For every non-negative fillable price, either liquidation side and
every ClobPair whose `SubticksPerTick` is a positive `uint32`,
`ConvertFillablePriceToSubticks` returns a number of subticks that is a multiple
of `SubticksPerTick`, at least `SubticksPerTick` and at most `MaxUint64 -
MaxUint64 % SubticksPerTick`, the largest multiple of `SubticksPerTick` that
does not exceed `2^64 - 1`. -/
theorem ConvertFillablePriceToSubticks_bounds (fillablePrice : ℚ) (isLiquidatingLong : Bool)
    (clobPair : ClobPair) (hprice : 0 ≤ fillablePrice)
    (hpos : 0 < clobPair.SubticksPerTick)
    (hu32 : clobPair.SubticksPerTick ≤ mathMaxUint32) :
    ∃ subticks : Nat,
      ConvertFillablePriceToSubticks fillablePrice isLiquidatingLong clobPair
        = Outcome.ret subticks ∧
      clobPair.SubticksPerTick ∣ subticks ∧
      clobPair.SubticksPerTick ≤ subticks ∧
      subticks ≤ mathMaxUint64 - mathMaxUint64 % clobPair.SubticksPerTick ∧
      mathMaxUint64 - mathMaxUint64 % clobPair.SubticksPerTick ≤ 2 ^ 64 - 1 ∧
      ∀ t, clobPair.SubticksPerTick ∣ t → t ≤ 2 ^ 64 - 1 →
        t ≤ mathMaxUint64 - mathMaxUint64 % clobPair.SubticksPerTick := by
  have h64 : (2 : Nat) ^ 64 - 1 = mathMaxUint64 := by decide
  rw [h64]
  unfold ConvertFillablePriceToSubticks
  rw [if_neg (not_lt.mpr hprice)]
  simp only
  obtain ⟨hdvd, hge, hle, hmax⟩ := largest_multiple mathMaxUint64 clobPair.SubticksPerTick hpos
    (le_trans hu32 mathMaxUint32_le_mathMaxUint64)
  generalize mathMaxUint64 - mathMaxUint64 % clobPair.SubticksPerTick = cap at *
  generalize (if isLiquidatingLong = true then
      ⌊fillablePrice / (10 : ℚ) ^ clobPair.QuantumConversionExponent /
        (clobPair.SubticksPerTick : ℚ)⌋
    else ⌈fillablePrice / (10 : ℚ) ^ clobPair.QuantumConversionExponent /
        (clobPair.SubticksPerTick : ℚ)⌉) = ticks
  by_cases h1 : ticks.toNat * clobPair.SubticksPerTick < clobPair.SubticksPerTick
  · rw [if_pos h1]
    exact ⟨_, rfl, dvd_refl _, le_refl _, hge, hle, hmax⟩
  · rw [if_neg h1]
    by_cases h2 : cap < ticks.toNat * clobPair.SubticksPerTick
    · rw [if_pos h2]
      exact ⟨_, rfl, hdvd, hge, le_refl _, hle, hmax⟩
    · rw [if_neg h2]
      exact ⟨_, rfl, Dvd.intro_left _ rfl, not_lt.mp h1, not_lt.mp h2, hle, hmax⟩

/-- C25 at the inputs of the test, with 100 subticks per tick and a quantum
conversion exponent of 1: the prices 0 and 7 give 100 subticks, the price
10^22 gives 18,446,744,073,709,551,600. -/
theorem ConvertFillablePriceToSubticks_bounds_witness :
    (∃ subticks : Nat,
      ConvertFillablePriceToSubticks 0 true hundredSubticksClobPair = Outcome.ret subticks ∧
      100 ∣ subticks ∧ 100 ≤ subticks ∧ subticks ≤ 18446744073709551600) ∧
    ConvertFillablePriceToSubticks 0 true hundredSubticksClobPair = Outcome.ret 100 ∧
    ConvertFillablePriceToSubticks 7 true hundredSubticksClobPair = Outcome.ret 100 ∧
    ConvertFillablePriceToSubticks 10000000000000000000000 true hundredSubticksClobPair
      = Outcome.ret 18446744073709551600 := by
  refine ⟨?_, ?_, ?_, ?_⟩
  · obtain ⟨s, hs, h1, h2, h3, _⟩ := ConvertFillablePriceToSubticks_bounds 0 true
      hundredSubticksClobPair (le_refl _) (by decide) (by decide)
    exact ⟨s, hs, h1, h2, h3⟩
  · simp only [ConvertFillablePriceToSubticks, hundredSubticksClobPair]
    norm_num
  · simp only [ConvertFillablePriceToSubticks, hundredSubticksClobPair]
    norm_num
  · simp only [ConvertFillablePriceToSubticks, hundredSubticksClobPair]
    norm_num
    decide

end Clob

namespace Clob

/-- C26, the claim as stated fails: with the fund at 1,000,000, the threshold
at 750,001 and a fill that costs the fund 250,000, the resulting balance
750,000 is not negative and is below the threshold, yet the fill proceeds, as
in the test: the insurance fund delta is handed on and no deleveraging is
required. -/
theorem requiresDeleveraging_ignores_resulting_balance :
    (-250000 : Int) < 0 ∧ (0 : Int) ≤ 1000000 + -250000 ∧
    (1000000 + -250000 : Int) < ((750001 : Nat) : Int) ∧
    requiresDeleveraging 1000000 (-250000) 750001 = false ∧
    checkInsuranceFund 1000000 750001 (-250000) = Except.ok (-250000) :=
  ⟨by decide, by decide, by decide, by decide, rfl⟩

/-- C26, amended. A fill whose insurance fund delta is not negative always
proceeds; a fill with `insurance_fund_balance + delta < 0` always requires
deleveraging; a fill with a negative delta that the fund can cover requires
deleveraging if and only if the balance before the fill is below
`max_insurance_fund_quantums_for_deleveraging`. When deleveraging is required
for the delta `D` of a liquidation match that has passed the earlier
validations, `ProcessSingleMatch` returns `success = false` with
`LiquidationRequiresDeleveraging` and makes no call: the fill is not applied.
Otherwise the delta is handed on unchanged. -/
theorem requiresDeleveraging_rule (balance delta : Int) (maxForDeleveraging : Nat) :
    (0 ≤ delta → requiresDeleveraging balance delta maxForDeleveraging = false) ∧
    (balance + delta < 0 → delta < 0 →
      requiresDeleveraging balance delta maxForDeleveraging = true) ∧
    (delta < 0 → 0 ≤ balance + delta →
      (requiresDeleveraging balance delta maxForDeleveraging = true ↔
        balance < (maxForDeleveraging : Int))) ∧
    (∀ (k : Keeper) (m : MatchWithOrders) (clobPair : ClobPair) (perpetualId : Nat) (Q : Int),
      k.GetClobPair m.MakerOrder.GetClobPairId = some clobPair →
      clobPair.StepBaseQuantums ≠ 0 →
      m.FillAmount % clobPair.StepBaseQuantums = 0 →
      k.getFillQuoteQuantums clobPair m.MakerOrder.GetOrderSubticks m.FillAmount
        = Except.ok Q →
      clobPair.GetPerpetualId = Except.ok perpetualId →
      m.TakerOrder.IsLiquidation = true →
      k.validateMatchedLiquidation m.TakerOrder perpetualId m.FillAmount
        m.MakerOrder.GetOrderSubticks Q = Except.ok delta →
      (requiresDeleveraging balance delta maxForDeleveraging = true →
        ProcessSingleMatch (k.withInsuranceFund balance maxForDeleveraging) m =
          ⟨[], Outcome.ret ⟨false, UpdateResult.Success, UpdateResult.Success, none,
            some Error.LiquidationRequiresDeleveraging⟩⟩) ∧
      (requiresDeleveraging balance delta maxForDeleveraging = false →
        (k.withInsuranceFund balance maxForDeleveraging).validateMatchedLiquidation
          m.TakerOrder perpetualId m.FillAmount m.MakerOrder.GetOrderSubticks Q
          = Except.ok delta)) := by
  refine ⟨?_, ?_, ?_, ?_⟩
  · intro h
    unfold requiresDeleveraging
    rw [if_pos h]
  · intro h hneg
    unfold requiresDeleveraging
    rw [if_neg (not_le.mpr hneg), if_pos h]
  · intro hneg h
    unfold requiresDeleveraging
    rw [if_neg (not_le.mpr hneg), if_neg (not_lt.mpr h)]
    simp
  · intro k m clobPair perpetualId Q hfound hstep hdiv hquote hperp hliq hval
    have hv : ∀ b : Bool, requiresDeleveraging balance delta maxForDeleveraging = b →
        (k.withInsuranceFund balance maxForDeleveraging).validateMatchedLiquidation
          m.TakerOrder perpetualId m.FillAmount m.MakerOrder.GetOrderSubticks Q =
        if b then Except.error Error.LiquidationRequiresDeleveraging else Except.ok delta := by
      intro b hb
      show (match k.validateMatchedLiquidation m.TakerOrder perpetualId m.FillAmount
          m.MakerOrder.GetOrderSubticks Q with
        | Except.error err => Except.error err
        | Except.ok d => checkInsuranceFund balance maxForDeleveraging d) = _
      rw [hval]
      show checkInsuranceFund balance maxForDeleveraging delta = _
      unfold checkInsuranceFund
      rw [hb]
    constructor
    · intro hreq
      have hval2 := hv true hreq
      have hfound2 : (k.withInsuranceFund balance maxForDeleveraging).GetClobPair
          m.MakerOrder.GetClobPairId = some clobPair := hfound
      have hquote2 : (k.withInsuranceFund balance maxForDeleveraging).getFillQuoteQuantums
          clobPair m.MakerOrder.GetOrderSubticks m.FillAmount = Except.ok Q := hquote
      unfold ProcessSingleMatch
      simp only [hfound2, hstep, if_false, hdiv, ne_eq, not_true_eq_false, hquote2, hperp, hliq,
        if_true, hval2]
      rfl
    · intro hreq
      exact hv false hreq

/-- C26 at the inputs of the test, the threshold being 750,001: a fund of
750,000 meets a fill that costs it 750,000, which it could cover, and
deleveraging is required; the liquidation of Dave then makes no call. An empty
fund cannot cover a loss of 1,000,000 whatever the threshold. A fill that pays
the fund proceeds. -/
theorem requiresDeleveraging_rule_witness :
    requiresDeleveraging 750000 (-750000) 750001 = true ∧
    requiresDeleveraging 0 (-1000000) 0 = true ∧
    requiresDeleveraging 0 1000 750001 = false ∧
    ProcessSingleMatch (shortfallKeeper.withInsuranceFund 750000 750001) liquidationMatch =
      ⟨[], Outcome.ret ⟨false, UpdateResult.Success, UpdateResult.Success, none,
        some Error.LiquidationRequiresDeleveraging⟩⟩ ∧
    (shortfallKeeper.withInsuranceFund 1000000 750001).validateMatchedLiquidation
      liquidationMatch.TakerOrder 0 liquidationMatch.FillAmount
      liquidationMatch.MakerOrder.GetOrderSubticks 25000 = Except.ok (-750000) :=
  ⟨((requiresDeleveraging_rule 750000 (-750000) 750001).2.2.1 (by decide) (by decide)).mpr
      (by decide),
    (requiresDeleveraging_rule 0 (-1000000) 0).2.1 (by decide) (by decide),
    (requiresDeleveraging_rule 0 1000 750001).1 (by decide),
    ((requiresDeleveraging_rule 750000 (-750000) 750001).2.2.2 shortfallKeeper liquidationMatch
      btcClobPair 0 _ rfl (by decide) (by decide) rfl rfl rfl rfl).1 (by decide),
    ((requiresDeleveraging_rule 1000000 (-750000) 750001).2.2.2 shortfallKeeper liquidationMatch
      btcClobPair 0 25000 rfl (by decide) (by decide) rfl rfl rfl rfl).2 (by decide)⟩

end Clob

namespace Clob

/-! ## Liquidation info written by `ProcessSingleMatch` -/

theorem liquidationInfoAfter_append (store : LiquidationInfoStore) (xs ys : List Call) :
    liquidationInfoAfter store (xs ++ ys) =
      liquidationInfoAfter (liquidationInfoAfter store xs) ys := by
  unfold liquidationInfoAfter
  rw [List.foldl_append]

theorem liquidationInfoAfter_setOrderFillAmountsAndPruning (store : LiquidationInfoStore)
    (k : Keeper) (o : Order) (newTotal cur : Nat) :
    liquidationInfoAfter store (setOrderFillAmountsAndPruning k o newTotal cur).1 = store := by
  rw [setOrderFillAmountsAndPruning_calls]
  split <;> rfl

/-- The liquidation info after a run of `ProcessSingleMatch`: a run that does
not return `success = true` leaves it as it was; a run that does has passed the
validations with quote quantums `Q` and insurance fund delta `D`, and leaves
one update of the taker's subaccount by `Q` and `D` if the taker is a
liquidation and nothing otherwise. -/
theorem liquidationInfoAfter_ProcessSingleMatch (k : Keeper) (m : MatchWithOrders)
    (store : LiquidationInfoStore) :
    ((¬ ∃ r, (ProcessSingleMatch k m).result = Outcome.ret r ∧ r.success = true) ∧
      liquidationInfoAfter store (ProcessSingleMatch k m).calls = store) ∨
    ∃ clobPair perpetualId takerFeePpm Q D makerOrder,
      Validated k m clobPair perpetualId takerFeePpm Q D makerOrder ∧
      (∃ r, (ProcessSingleMatch k m).result = Outcome.ret r ∧ r.success = true) ∧
      liquidationInfoAfter store (ProcessSingleMatch k m).calls =
        if m.TakerOrder.IsLiquidation then
          UpdateSubaccountLiquidationInfo store m.TakerOrder.GetSubaccountId Q D
        else store := by
  rcases ProcessSingleMatch_runs k m with ⟨hnil, hres⟩ |
    ⟨c, pid, tf, Q, D, mo, hv, _, us, fee, _, _, hrun⟩
  · left
    refine ⟨?_, by rw [hnil]; rfl⟩
    rintro ⟨r, hr, hs⟩
    rcases hres with ⟨e, he⟩ | he | he
    · rw [he] at hr
      simp only [earlyReturn, Outcome.ret.injEq] at hr
      rw [← hr] at hs
      simp at hs
    · rw [he] at hr
      simp at hr
    · rw [he] at hr
      simp at hr
  · rcases hrun with ⟨e, _, hR⟩ | ⟨_, _, hR⟩ | ⟨t, mk, rest, _, hR⟩ |
      ⟨t, mk, rest, _, ⟨e, _, hR⟩ | ⟨_, _, hR⟩ | ⟨_, _, off, hR⟩⟩
    · left
      rw [hR]
      refine ⟨?_, rfl⟩
      rintro ⟨r, hr, hs⟩
      simp only [Outcome.ret.injEq] at hr
      rw [← hr] at hs
      simp at hs
    · left
      rw [hR]
      refine ⟨?_, rfl⟩
      rintro ⟨r, hr, hs⟩
      simp at hr
    · left
      rw [hR]
      refine ⟨?_, rfl⟩
      rintro ⟨r, hr, hs⟩
      simp only [Outcome.ret.injEq] at hr
      rw [← hr] at hs
      simp at hs
    · left
      rw [hR]
      refine ⟨?_, rfl⟩
      rintro ⟨r, hr, hs⟩
      simp only [Outcome.ret.injEq] at hr
      rw [← hr] at hs
      simp at hs
    · left
      rw [hR]
      refine ⟨?_, rfl⟩
      rintro ⟨r, hr, hs⟩
      simp only [Outcome.ret.injEq] at hr
      rw [← hr] at hs
      simp at hs
    · right
      refine ⟨c, pid, tf, Q, D, mo, hv, ?_, ?_⟩
      · rw [hR]
        exact ⟨_, rfl, rfl⟩
      · rw [hR]
        simp only [liquidationInfoAfter_append,
          liquidationInfoAfter_setOrderFillAmountsAndPruning]
        have htaker : ∀ s : LiquidationInfoStore, liquidationInfoAfter s
            (match m.TakerOrder with
              | MatchableOrder.order o =>
                (setOrderFillAmountsAndPruning k o (newTakerTotalFillAmount k m)
                  (curTakerPruneableBlockHeight k m)).1
              | MatchableOrder.liquidation _ => []) = s := by
          intro s
          cases m.TakerOrder with
          | order o => exact liquidationInfoAfter_setOrderFillAmountsAndPruning s k o _ _
          | liquidation l => rfl
        rw [htaker]
        cases m.TakerOrder.IsLiquidation <;> rfl

/-- C27. A run of `ProcessSingleMatch` that returns `success = true` with a
liquidation as taker has passed the validations with the fill's quote quantums
`Q` and the insurance fund delta `D`, and it adds `Q` to the
`NotionalLiquidated` of the liquidated subaccount and `max(0, -D)` to its
`QuantumsInsuranceLost`, nothing when `D` is not negative; the perpetuals
liquidated and the info of every other subaccount are unchanged. A match whose
taker is not a liquidation, and a run that does not succeed, leave every
`SubaccountLiquidationInfo` unchanged. -/
theorem ProcessSingleMatch_liquidation_info (k : Keeper) (m : MatchWithOrders)
    (store : LiquidationInfoStore) :
    (m.TakerOrder.IsLiquidation = false →
      liquidationInfoAfter store (ProcessSingleMatch k m).calls = store) ∧
    ((¬ ∃ r, (ProcessSingleMatch k m).result = Outcome.ret r ∧ r.success = true) →
      liquidationInfoAfter store (ProcessSingleMatch k m).calls = store) ∧
    (m.TakerOrder.IsLiquidation = true →
      (∃ r, (ProcessSingleMatch k m).result = Outcome.ret r ∧ r.success = true) →
      ∃ clobPair perpetualId Q D,
        k.GetClobPair m.MakerOrder.GetClobPairId = some clobPair ∧
        k.getFillQuoteQuantums clobPair m.MakerOrder.GetOrderSubticks m.FillAmount
          = Except.ok Q ∧
        k.validateMatchedLiquidation m.TakerOrder perpetualId m.FillAmount
          m.MakerOrder.GetOrderSubticks Q = Except.ok D ∧
        (liquidationInfoAfter store (ProcessSingleMatch k m).calls
            m.TakerOrder.GetSubaccountId).NotionalLiquidated =
          (store m.TakerOrder.GetSubaccountId).NotionalLiquidated + Q.toNat ∧
        (liquidationInfoAfter store (ProcessSingleMatch k m).calls
            m.TakerOrder.GetSubaccountId).QuantumsInsuranceLost =
          (store m.TakerOrder.GetSubaccountId).QuantumsInsuranceLost + (max 0 (-D)).toNat ∧
        (0 ≤ D →
          (liquidationInfoAfter store (ProcessSingleMatch k m).calls
              m.TakerOrder.GetSubaccountId).QuantumsInsuranceLost =
            (store m.TakerOrder.GetSubaccountId).QuantumsInsuranceLost) ∧
        (liquidationInfoAfter store (ProcessSingleMatch k m).calls
            m.TakerOrder.GetSubaccountId).PerpetualsLiquidated =
          (store m.TakerOrder.GetSubaccountId).PerpetualsLiquidated ∧
        ∀ id, id ≠ m.TakerOrder.GetSubaccountId →
          liquidationInfoAfter store (ProcessSingleMatch k m).calls id = store id) := by
  refine ⟨?_, ?_, ?_⟩
  · intro hliq
    rcases liquidationInfoAfter_ProcessSingleMatch k m store with ⟨_, h⟩ |
      ⟨c, pid, tf, Q, D, mo, _, _, h⟩
    · exact h
    · rw [h, hliq]
      rfl
  · intro hno
    rcases liquidationInfoAfter_ProcessSingleMatch k m store with ⟨_, h⟩ |
      ⟨c, pid, tf, Q, D, mo, _, hs, _⟩
    · exact h
    · exact absurd hs hno
  · intro hliq hs
    rcases liquidationInfoAfter_ProcessSingleMatch k m store with ⟨hno, _⟩ |
      ⟨c, pid, tf, Q, D, mo, hv, _, h⟩
    · exact absurd hs hno
    · rw [h, hliq]
      simp only [if_true]
      refine ⟨c, pid, Q, D, hv.clobPair_found, hv.quote, (hv.liquidation hliq).2, ?_, ?_, ?_,
        ?_, ?_⟩
      · simp [UpdateSubaccountLiquidationInfo]
      · simp [UpdateSubaccountLiquidationInfo]
      · intro hD
        have : (max 0 (-D)).toNat = 0 := by
          rw [max_eq_left (by omega)]
          rfl
        simp [UpdateSubaccountLiquidationInfo, this]
      · simp [UpdateSubaccountLiquidationInfo]
      · intro id hid
        simp [UpdateSubaccountLiquidationInfo, hid]

/-- C27 at concrete inputs: the liquidation of Dave for 25,000 quote quantums
with a delta of +1,000 adds 25,000 to his notional liquidated and nothing to
his insurance lost; with a delta of -750,000 it adds 750,000 to his insurance
lost; the match between Alice and Bob leaves the store as it was. -/
theorem ProcessSingleMatch_liquidation_info_witness :
    liquidationInfoAfter emptyLiquidationInfo (ProcessSingleMatch goodKeeper liquidationMatch).calls
      daveLiquidation.Liquidated = ⟨[], 25000, 0⟩ ∧
    liquidationInfoAfter emptyLiquidationInfo
      (ProcessSingleMatch shortfallKeeper liquidationMatch).calls
      daveLiquidation.Liquidated = ⟨[], 25000, 750000⟩ ∧
    liquidationInfoAfter emptyLiquidationInfo (ProcessSingleMatch goodKeeper aliceBobMatch).calls
      = emptyLiquidationInfo :=
  ⟨by decide, by decide,
    (ProcessSingleMatch_liquidation_info goodKeeper aliceBobMatch emptyLiquidationInfo).1
      (by decide)⟩

end Clob

namespace Prices

open Clob (Outcome Panic)

/-- C30. For non-negative `oldDelta`, `newDelta` and `tickSizePpm`,
`maximumAllowedPriceDelta` returns `s`, the floor of the square root of the
Euclidean quotient `x` of `oldDelta * tickSizePpm` by 1,000,000 (`s * s <= x <
(s + 1) * (s + 1)`), and `newPriceMeetsSqrtCondition` holds if and only if
`newDelta <= s`: the integer division and the integer square root lose
nothing. -/
theorem maximumAllowedPriceDelta_exact (oldDelta newDelta tickSizePpm : Int)
    (hold : 0 ≤ oldDelta) (hnew : 0 ≤ newDelta) (htick : 0 ≤ tickSizePpm) :
    ∃ s : Int,
      maximumAllowedPriceDelta oldDelta tickSizePpm = Outcome.ret s ∧
      0 ≤ s ∧
      s * s ≤ oldDelta * tickSizePpm / 1000000 ∧
      oldDelta * tickSizePpm / 1000000 < (s + 1) * (s + 1) ∧
      (newPriceMeetsSqrtCondition oldDelta newDelta tickSizePpm = true ↔ newDelta ≤ s) := by
  have hx : 0 ≤ oldDelta * tickSizePpm / 1000000 :=
    Int.ediv_nonneg (mul_nonneg hold htick) (by norm_num)
  obtain ⟨X, hX⟩ := Int.eq_ofNat_of_zero_le hx
  obtain ⟨n, rfl⟩ := Int.eq_ofNat_of_zero_le hnew
  refine ⟨((Nat.sqrt X : Nat) : Int), ?_, Int.ofNat_nonneg _, ?_, ?_, ?_⟩
  · unfold maximumAllowedPriceDelta OneMillion
    simp only [Nat.cast_ofNat]
    rw [if_neg (not_lt.mpr hx), hX, Int.toNat_ofNat]
  · rw [hX]
    exact_mod_cast Nat.sqrt_le X
  · rw [hX]
    exact_mod_cast Nat.lt_succ_sqrt X
  · unfold newPriceMeetsSqrtCondition OneMillion
    simp only [decide_eq_true_eq, Nat.cast_ofNat]
    rw [← Int.le_ediv_iff_mul_le (by norm_num : (0 : Int) < 1000000), hX]
    rw [Int.ofNat_le, Nat.le_sqrt]
    norm_cast

/-- C30 at the tick size of a market at price 200 with a minimum change of
100,000 ppm and an old delta of 50: the quotient is 1,000, the bound is 31, a
new delta of 31 meets the condition and 32 does not. -/
theorem maximumAllowedPriceDelta_exact_witness :
    computeTickSizePpm 200 100000 = 20000000 ∧
    maximumAllowedPriceDelta 50 20000000 = Outcome.ret 31 ∧
    newPriceMeetsSqrtCondition 50 31 20000000 = true ∧
    newPriceMeetsSqrtCondition 50 32 20000000 = false := by
  obtain ⟨s, hs, h0, h1, h2, _⟩ := maximumAllowedPriceDelta_exact 50 31 20000000
    (by decide) (by decide) (by decide)
  have hq : (50 : Int) * 20000000 / 1000000 = 1000 := by decide
  rw [hq] at h1 h2
  have hs31 : s = 31 := by nlinarith
  rw [hs31] at hs
  exact ⟨by decide, hs, by decide, by decide⟩

end Prices

namespace Clob

/-! ## Sorting subaccount ids -/

theorem Less_eq_false_iff (a b : SubaccountId) :
    SortedSubaccountIds.Less b a = false ↔
      (b.Owner < a.Owner ∨ (a.Owner = b.Owner ∧ a.Number ≤ b.Number)) := by
  unfold SortedSubaccountIds.Less
  by_cases h : b.Owner = a.Owner
  · simp [h]
  · simp only [ne_eq, h, not_false_eq_true, if_true, decide_eq_false_iff_not, not_lt]
    constructor
    · intro hle
      exact Or.inl (lt_of_le_of_ne hle h)
    · rintro (hlt | ⟨heq, _⟩)
      · exact le_of_lt hlt
      · exact absurd heq.symm h

theorem inOrder_total (a b : SubaccountId) :
    (b.Owner < a.Owner ∨ (a.Owner = b.Owner ∧ a.Number ≤ b.Number)) ∨
      (a.Owner < b.Owner ∨ (b.Owner = a.Owner ∧ b.Number ≤ a.Number)) := by
  rcases lt_trichotomy a.Owner b.Owner with h | h | h
  · exact Or.inr (Or.inl h)
  · rcases le_total a.Number b.Number with hn | hn
    · exact Or.inl (Or.inr ⟨h, hn⟩)
    · exact Or.inr (Or.inr ⟨h.symm, hn⟩)
  · exact Or.inl (Or.inl h)

theorem inOrder_trans (a b c : SubaccountId)
    (hab : b.Owner < a.Owner ∨ (a.Owner = b.Owner ∧ a.Number ≤ b.Number))
    (hbc : c.Owner < b.Owner ∨ (b.Owner = c.Owner ∧ b.Number ≤ c.Number)) :
    c.Owner < a.Owner ∨ (a.Owner = c.Owner ∧ a.Number ≤ c.Number) := by
  rcases hab with h1 | ⟨h1, n1⟩ <;> rcases hbc with h2 | ⟨h2, n2⟩
  · exact Or.inl (lt_trans h2 h1)
  · exact Or.inl (h2 ▸ h1)
  · exact Or.inl (h1 ▸ h2)
  · exact Or.inr ⟨h1.trans h2, le_trans n1 n2⟩

theorem inOrder_antisymm (a b : SubaccountId)
    (hab : b.Owner < a.Owner ∨ (a.Owner = b.Owner ∧ a.Number ≤ b.Number))
    (hba : a.Owner < b.Owner ∨ (b.Owner = a.Owner ∧ b.Number ≤ a.Number)) : a = b := by
  rcases hab with h1 | ⟨h1, n1⟩ <;> rcases hba with h2 | ⟨h2, n2⟩
  · exact absurd h1 (lt_asymm h2)
  · rw [h2] at h1
    exact absurd h1 (lt_irrefl _)
  · rw [h1] at h2
    exact absurd h2 (lt_irrefl _)
  · cases a
    cases b
    simp only [SubaccountId.mk.injEq]
    exact ⟨h1, le_antisymm n1 n2⟩

/-- C28. Sorting a list of subaccount ids yields a permutation of the input
(every id is kept as often as it occurs) in which every id stands before the
ids that follow it in the order (owner descending, number ascending): of two
ids with the same owner the one with the smaller number comes first. A list
that is already in this order, a single-element list among them, is returned
unchanged, and the sorted list is the only permutation of the input that is in
this order. -/
theorem SortSubaccountIds_sorted_perm (ids : List SubaccountId) :
    (SortSubaccountIds ids).Perm ids ∧
    (∀ id, (SortSubaccountIds ids).count id = ids.count id) ∧
    (SortSubaccountIds ids).Pairwise
      (fun a b => b.Owner < a.Owner ∨ (a.Owner = b.Owner ∧ a.Number ≤ b.Number)) ∧
    (SortSubaccountIds ids).Pairwise (fun a b => a.Owner = b.Owner → a.Number ≤ b.Number) ∧
    (ids.Pairwise (fun a b => b.Owner < a.Owner ∨ (a.Owner = b.Owner ∧ a.Number ≤ b.Number)) →
      SortSubaccountIds ids = ids) ∧
    (∀ id, SortSubaccountIds [id] = [id]) ∧
    (∀ l : List SubaccountId, l.Perm ids →
      l.Pairwise (fun a b => b.Owner < a.Owner ∨ (a.Owner = b.Owner ∧ a.Number ≤ b.Number)) →
      l = SortSubaccountIds ids) := by
  have hrel : (fun a b : SubaccountId => SortedSubaccountIds.Less b a = false) =
      (fun a b => b.Owner < a.Owner ∨ (a.Owner = b.Owner ∧ a.Number ≤ b.Number)) := by
    funext a b
    exact propext (Less_eq_false_iff a b)
  haveI : IsTotal SubaccountId
      (fun a b => b.Owner < a.Owner ∨ (a.Owner = b.Owner ∧ a.Number ≤ b.Number)) :=
    ⟨inOrder_total⟩
  haveI : IsTrans SubaccountId
      (fun a b => b.Owner < a.Owner ∨ (a.Owner = b.Owner ∧ a.Number ≤ b.Number)) :=
    ⟨inOrder_trans⟩
  haveI : IsAntisymm SubaccountId
      (fun a b => b.Owner < a.Owner ∨ (a.Owner = b.Owner ∧ a.Number ≤ b.Number)) :=
    ⟨inOrder_antisymm⟩
  have hperm : (SortSubaccountIds ids).Perm ids := List.perm_insertionSort _ ids
  have hsorted : (SortSubaccountIds ids).Pairwise
      (fun a b => b.Owner < a.Owner ∨ (a.Owner = b.Owner ∧ a.Number ≤ b.Number)) := by
    have := List.sorted_insertionSort
      (fun a b : SubaccountId =>
        b.Owner < a.Owner ∨ (a.Owner = b.Owner ∧ a.Number ≤ b.Number)) ids
    unfold SortSubaccountIds
    simp only [hrel]
    convert this
  refine ⟨hperm, fun id => hperm.count_eq id, hsorted, ?_, ?_, ?_, ?_⟩
  · refine hsorted.imp ?_
    rintro a b (h | ⟨_, h⟩) heq
    · rw [heq] at h
      exact absurd h (lt_irrefl _)
    · exact h
  · intro h
    exact List.eq_of_perm_of_sorted hperm hsorted h
  · intro id
    rfl
  · intro l hl hs
    exact List.eq_of_perm_of_sorted (hl.trans hperm.symm) hs hsorted

theorem Alice_lt_Bob : Alice_Num0.Owner < Bob_Num0.Owner := by
  show "Alice" < "Bob"
  rw [String.lt_iff_toList_lt]
  decide

/-- C28 at the inputs of the test: Alice and Bob are swapped, two ids of Alice
stay in ascending number order, a duplicate is kept. -/
theorem SortSubaccountIds_sorted_perm_witness :
    SortSubaccountIds [Alice_Num0, Bob_Num0] = [Bob_Num0, Alice_Num0] ∧
    SortSubaccountIds [Alice_Num0, Alice_Num1] = [Alice_Num0, Alice_Num1] ∧
    SortSubaccountIds [Alice_Num0, Alice_Num0] = [Alice_Num0, Alice_Num0] ∧
    SortSubaccountIds [Alice_Num1, Bob_Num0, Alice_Num0] = [Bob_Num0, Alice_Num0, Alice_Num1] :=
  ⟨((SortSubaccountIds_sorted_perm [Alice_Num0, Bob_Num0]).2.2.2.2.2.2 [Bob_Num0, Alice_Num0]
      (List.Perm.swap _ _ _) (List.pairwise_pair.mpr (Or.inl Alice_lt_Bob))).symm,
    (SortSubaccountIds_sorted_perm [Alice_Num0, Alice_Num1]).2.2.2.2.1
      (List.pairwise_pair.mpr (Or.inr ⟨rfl, by decide⟩)),
    (SortSubaccountIds_sorted_perm [Alice_Num0, Alice_Num0]).2.2.2.2.1
      (List.pairwise_pair.mpr (Or.inr ⟨rfl, by decide⟩)),
    ((SortSubaccountIds_sorted_perm [Alice_Num1, Bob_Num0, Alice_Num0]).2.2.2.2.2.2
      [Bob_Num0, Alice_Num0, Alice_Num1]
      (@List.perm_append_comm _ [Bob_Num0, Alice_Num0] [Alice_Num1])
      (List.Pairwise.cons
        (by
          intro b hb
          simp only [List.mem_cons, List.mem_singleton, List.not_mem_nil, or_false] at hb
          rcases hb with rfl | rfl
          · exact Or.inl Alice_lt_Bob
          · exact Or.inl Alice_lt_Bob)
        (List.pairwise_pair.mpr (Or.inr ⟨rfl, by decide⟩)))).symm⟩

end Clob

namespace Pricefeed

open Clob (Outcome Panic toInt32)

/-! ## Lemmas on varints -/

theorem Len64_loop_fuel (fuel1 : Nat) : ∀ (fuel2 x : Nat), x ≤ fuel1 → x ≤ fuel2 →
    Len64.loop fuel1 x = Len64.loop fuel2 x := by
  induction fuel1 with
  | zero =>
    intro fuel2 x h1 _
    have hx : x = 0 := by omega
    subst hx
    cases fuel2 <;> simp [Len64.loop]
  | succ n ih =>
    intro fuel2 x h1 h2
    cases fuel2 with
    | zero =>
      have hx : x = 0 := by omega
      subst hx
      simp [Len64.loop]
    | succ k =>
      simp only [Len64.loop]
      by_cases hx : x = 0
      · simp [hx]
      · rw [if_neg hx, if_neg hx]
        have hs : x >>> 1 < x := by
          rw [Nat.shiftRight_eq_div_pow]
          omega
        rw [ih k (x >>> 1) (by omega) (by omega)]

theorem Len64_zero : Len64 0 = 0 := rfl

theorem Len64_step (x : Nat) (hx : x ≠ 0) : Len64 x = Len64 (x >>> 1) + 1 := by
  unfold Len64
  obtain ⟨n, rfl⟩ : ∃ n, x = n + 1 := ⟨x - 1, by omega⟩
  have hs : (n + 1) >>> 1 ≤ n := by
    rw [Nat.shiftRight_eq_div_pow]
    omega
  rw [Len64.loop, if_neg hx, Len64_loop_fuel n _ _ hs (le_refl _)]

theorem or_one_ne_zero (x : Nat) : x ||| 1 ≠ 0 := by
  intro h
  have h0 : (x ||| 1).testBit 0 = true := by
    rw [Nat.testBit_or]
    simp
  rw [h] at h0
  simp at h0

theorem Len64_or_one (x : Nat) (hx : x ≠ 0) : Len64 (x ||| 1) = Len64 x := by
  have e : ∀ y : Nat, y >>> 1 = y / 2 := fun y => by
    rw [Nat.shiftRight_eq_div_pow, pow_one]
  rw [Len64_step _ (or_one_ne_zero x), Len64_step _ hx, e, e, Nat.or_div_two]
  simp

theorem Len64_le (k : Nat) : ∀ x, x < 2 ^ k → Len64 x ≤ k := by
  induction k with
  | zero =>
    intro x hx
    have : x = 0 := by simpa using hx
    subst this
    exact le_refl _
  | succ n ih =>
    intro x hx
    by_cases h0 : x = 0
    · subst h0
      exact Nat.zero_le _
    · rw [Len64_step x h0]
      have : x >>> 1 < 2 ^ n := by
        rw [Nat.shiftRight_eq_div_pow, pow_succ] at *
        omega
      have := ih _ this
      omega

theorem Len64_pos (x : Nat) (hx : x ≠ 0) : 1 ≤ Len64 x := by
  rw [Len64_step x hx]
  omega

theorem Len64_shift7 (x : Nat) (hx : 128 ≤ x) : Len64 x = Len64 (x / 128) + 7 := by
  have e : ∀ y : Nat, y >>> 1 = y / 2 := fun y => by
    rw [Nat.shiftRight_eq_div_pow, pow_one]
  rw [Len64_step x (by omega), e,
    Len64_step (x / 2) (by omega), e,
    Len64_step (x / 2 / 2) (by omega), e,
    Len64_step (x / 2 / 2 / 2) (by omega), e,
    Len64_step (x / 2 / 2 / 2 / 2) (by omega), e,
    Len64_step (x / 2 / 2 / 2 / 2 / 2) (by omega), e,
    Len64_step (x / 2 / 2 / 2 / 2 / 2 / 2) (by omega), e]
  have : x / 2 / 2 / 2 / 2 / 2 / 2 / 2 = x / 128 := by omega
  rw [this]

theorem varintBytes_go_fuel (fuel1 : Nat) : ∀ (fuel2 v : Nat), v ≤ fuel1 → v ≤ fuel2 →
    varintBytes.go fuel1 v = varintBytes.go fuel2 v := by
  induction fuel1 with
  | zero =>
    intro fuel2 v h1 _
    have hv : v = 0 := by omega
    subst hv
    cases fuel2 <;> simp [varintBytes.go]
  | succ n ih =>
    intro fuel2 v h1 h2
    cases fuel2 with
    | zero =>
      have hv : v = 0 := by omega
      subst hv
      simp [varintBytes.go]
    | succ k =>
      simp only [varintBytes.go]
      by_cases hv : v < 128
      · rw [if_pos hv, if_pos hv]
      · rw [if_neg hv, if_neg hv, ih k (v / 128) (by omega) (by omega)]

theorem varintBytes_lt (v : Nat) (hv : v < 128) : varintBytes v = [v] := by
  unfold varintBytes
  cases v with
  | zero => rfl
  | succ n => rw [varintBytes.go, if_pos hv]

theorem varintBytes_ge (v : Nat) (hv : 128 ≤ v) :
    varintBytes v = (v % 128 + 128) :: varintBytes (v / 128) := by
  unfold varintBytes
  obtain ⟨n, rfl⟩ : ∃ n, v = n + 1 := ⟨v - 1, by omega⟩
  rw [varintBytes.go, if_neg (by omega),
    varintBytes_go_fuel n ((n + 1) / 128) ((n + 1) / 128) (by omega) (le_refl _)]

/-- `sovPriceFeed` is the number of bytes of the varint. -/
theorem sovPriceFeed_eq_length (v : Nat) : sovPriceFeed v = (varintBytes v).length := by
  induction v using Nat.strong_induction_on with
  | _ v ih =>
    by_cases hv : v < 128
    · rw [varintBytes_lt v hv]
      unfold sovPriceFeed
      have h1 : v ||| 1 < 2 ^ 7 := Nat.or_lt_two_pow (by simpa using hv) (by norm_num)
      have h2 : v ||| 1 ≠ 0 := or_one_ne_zero v
      have := Len64_le 7 _ h1
      have := Len64_pos _ h2
      simp only [List.length_singleton]
      omega
    · have hv' : 128 ≤ v := by omega
      rw [varintBytes_ge v hv', List.length_cons, ← ih (v / 128) (by omega)]
      unfold sovPriceFeed
      rw [Len64_or_one v (by omega), Len64_or_one (v / 128) (by omega), Len64_shift7 v hv']
      omega

theorem hi_byte (v : Nat) : (v &&& 0x7f ||| 0x80) % 256 = v % 128 + 128 := by
  have h1 : v &&& 0x7f = v % 128 := Nat.and_pow_two_sub_one_eq_mod v 7
  rw [h1]
  have h2 : 2 ^ 7 * 1 + v % 128 = 2 ^ 7 * 1 ||| v % 128 :=
    Nat.mul_add_lt_is_or (Nat.mod_lt _ (by norm_num)) 1
  have h3 : v % 128 ||| 0x80 = v % 128 + 128 := by
    rw [Nat.or_comm]
    simp only [Nat.reducePow, Nat.mul_one] at h2
    omega
  rw [h3]
  omega

theorem set_append_cons (pre : List Nat) (z x : Nat) (rest : List Nat) :
    (pre ++ z :: rest).set pre.length x = pre ++ x :: rest := by
  induction pre with
  | nil => rfl
  | cons a l ih => simp [ih]

theorem encodeVarintPriceFeed_loop (fuel : Nat) : ∀ (v : Nat) (pre zs tail : List Nat),
    v ≤ fuel → zs.length = (varintBytes v).length →
    encodeVarintPriceFeed.loop fuel (pre ++ (zs ++ tail)) pre.length v =
      pre ++ (varintBytes v ++ tail) := by
  induction fuel with
  | zero =>
    intro v pre zs tail hv hz
    have : v = 0 := by omega
    subst this
    rw [varintBytes_lt 0 (by norm_num)] at hz ⊢
    obtain ⟨z, rfl⟩ := List.length_eq_one.mp hz
    simp only [encodeVarintPriceFeed.loop]
    exact set_append_cons pre z 0 tail
  | succ n ih =>
    intro v pre zs tail hv hz
    simp only [encodeVarintPriceFeed.loop]
    by_cases h : v ≥ 128
    · rw [if_pos h]
      rw [varintBytes_ge v h] at hz ⊢
      cases zs with
      | nil => simp at hz
      | cons z zs' =>
        simp only [List.length_cons, add_left_inj] at hz
        rw [hi_byte, Nat.shiftRight_eq_div_pow]
        have hset : (pre ++ (z :: zs' ++ tail)).set pre.length (v % 128 + 128) =
            (pre ++ [v % 128 + 128]) ++ (zs' ++ tail) := by
          rw [List.cons_append, set_append_cons]
          simp
        rw [hset]
        have hlen : (pre ++ [v % 128 + 128]).length = pre.length + 1 := by simp
        rw [← hlen]
        have h7 : v / 2 ^ 7 = v / 128 := rfl
        rw [h7, ih (v / 128) (pre ++ [v % 128 + 128]) zs' tail (by omega) hz]
        simp
    · rw [if_neg h]
      have hlt : v < 128 := by omega
      rw [varintBytes_lt v hlt] at hz ⊢
      obtain ⟨z, rfl⟩ := List.length_eq_one.mp hz
      have : v % 256 = v := by omega
      rw [this]
      exact set_append_cons pre z v tail

/-- `encodeVarintPriceFeed` writes the varint of `v` in front of what has been
written. -/
theorem encodeVarintPriceFeed_eq (dAtA : List Nat) (v : Nat) :
    encodeVarintPriceFeed dAtA v = varintBytes v ++ dAtA := by
  unfold encodeVarintPriceFeed
  have := encodeVarintPriceFeed_loop v v [] (List.replicate (sovPriceFeed v) 0) dAtA
    (le_refl _) (by rw [List.length_replicate, sovPriceFeed_eq_length])
  simpa using this

/-! ## Lemmas on marshalling -/

theorem ExchangePrice_MarshalToSizedBuffer_eq (codec : StdTimeCodec) (e : ExchangePrice)
    (h : e.LastUpdateTime = none) : e.MarshalToSizedBuffer codec = Except.ok e.wire := by
  unfold ExchangePrice.MarshalToSizedBuffer ExchangePrice.wire
  rw [h]
  simp only [encodeVarintPriceFeed_eq]
  by_cases h1 : e.Price = 0 <;> by_cases h2 : e.ExchangeFeedId = 0 <;> simp [h1, h2]

theorem ExchangePrice_Size_eq (codec : StdTimeCodec) (e : ExchangePrice)
    (h : e.LastUpdateTime = none) : e.Size codec = e.wire.length := by
  unfold ExchangePrice.Size ExchangePrice.wire
  rw [h]
  simp only [sovPriceFeed_eq_length]
  by_cases h1 : e.Price = 0 <;> by_cases h2 : e.ExchangeFeedId = 0 <;> simp [h1, h2] <;> omega

theorem MarketPriceUpdate_MarshalToSizedBuffer_eq (codec : StdTimeCodec) (m : MarketPriceUpdate)
    (h : ∀ e ∈ m.ExchangePrices, e.LastUpdateTime = none) :
    m.MarshalToSizedBuffer codec = Except.ok m.wire := by
  unfold MarketPriceUpdate.MarshalToSizedBuffer MarketPriceUpdate.wire
  have hfold : ∀ ps : List ExchangePrice, (∀ e ∈ ps, e.LastUpdateTime = none) →
      ps.foldr (fun e acc =>
        match acc with
        | Except.error err => Except.error err
        | Except.ok dAtA =>
          match e.MarshalToSizedBuffer codec with
          | Except.error err => Except.error err
          | Except.ok sub =>
            Except.ok (0x12 :: encodeVarintPriceFeed (sub ++ dAtA) sub.length))
        (Except.ok [] : Except WireError (List Nat)) =
      Except.ok (ps.map (fun e => 0x12 :: (varintBytes e.wire.length ++ e.wire))).flatten := by
    intro ps
    induction ps with
    | nil => intro _; rfl
    | cons a l ih =>
      intro hps
      rw [List.foldr_cons, ih (fun e he => hps e (List.mem_cons_of_mem _ he))]
      simp only [ExchangePrice_MarshalToSizedBuffer_eq codec a (hps a (List.mem_cons_self _ _)),
        encodeVarintPriceFeed_eq]
      simp
  simp only [hfold m.ExchangePrices h]
  simp only [encodeVarintPriceFeed_eq]
  by_cases h1 : m.MarketId = 0 <;> simp [h1]

theorem MarketPriceUpdate_Size_eq (codec : StdTimeCodec) (m : MarketPriceUpdate)
    (h : ∀ e ∈ m.ExchangePrices, e.LastUpdateTime = none) :
    m.Size codec = m.wire.length := by
  unfold MarketPriceUpdate.Size MarketPriceUpdate.wire
  have hfold : ∀ (ps : List ExchangePrice) (n : Nat), (∀ e ∈ ps, e.LastUpdateTime = none) →
      ps.foldl (fun n e => n + (1 + e.Size codec + sovPriceFeed (e.Size codec))) n =
      n + (ps.map (fun e => 0x12 :: (varintBytes e.wire.length ++ e.wire))).flatten.length := by
    intro ps
    induction ps with
    | nil => intro n _; rfl
    | cons a l ih =>
      intro n hps
      rw [List.foldl_cons, ih _ (fun e he => hps e (List.mem_cons_of_mem _ he)),
        ExchangePrice_Size_eq codec a (hps a (List.mem_cons_self _ _)), sovPriceFeed_eq_length]
      simp
      omega
  simp only [hfold m.ExchangePrices _ h]
  simp only [sovPriceFeed_eq_length]
  by_cases h1 : m.MarketId = 0
  · simp [h1]
  · simp [h1]
    omega

/-- `Marshal` returns the wire format of a message whose exchange prices have
no last-update time. -/
theorem MarketPriceUpdate_Marshal_eq (codec : StdTimeCodec) (m : MarketPriceUpdate)
    (h : ∀ e ∈ m.ExchangePrices, e.LastUpdateTime = none) :
    m.Marshal codec = Outcome.ret (Except.ok m.wire) := by
  unfold MarketPriceUpdate.Marshal
  rw [MarketPriceUpdate_MarshalToSizedBuffer_eq codec m h, MarketPriceUpdate_Size_eq codec m h]
  simp

/-! ## Lemmas on unmarshalling -/

theorem readVarint_cons (width shift acc iNdEx b : Nat) (rest : List Nat) (h : shift < 64) :
    readVarint width shift acc iNdEx (b :: rest) =
      if b < 0x80 then
        Except.ok (acc ||| ((b &&& 0x7F) <<< shift) % 2 ^ width, iNdEx + 1, rest)
      else
        readVarint width (shift + 7) (acc ||| ((b &&& 0x7F) <<< shift) % 2 ^ width)
          (iNdEx + 1) rest := by
  rw [readVarint, if_neg (by omega)]

theorem pow_128 (j : Nat) : 2 ^ (7 * j) = 128 ^ j := by
  rw [pow_mul]
  norm_num

theorem acc_step (width j acc c : Nat) (hacc : acc < 128 ^ j) (hc : c * 128 ^ j < 2 ^ width) :
    acc ||| (c <<< (7 * j)) % 2 ^ width = acc + c * 128 ^ j := by
  rw [Nat.shiftLeft_eq, pow_128, Nat.mod_eq_of_lt hc, Nat.or_comm]
  have := Nat.mul_add_lt_is_or (i := 7 * j) (b := acc) (by rw [pow_128]; exact hacc) c
  rw [pow_128] at this
  rw [Nat.mul_comm c, ← this]
  omega

/-- The varint loop reads back the varint of `v`: started at the `j`-th group
with the accumulator `acc`, it returns `acc + v * 128^j`. -/
theorem readVarint_varintBytes (width : Nat) (v : Nat) :
    ∀ (j acc iNdEx : Nat) (rest : List Nat),
    j ≤ 9 → v < 128 ^ (10 - j) → acc < 128 ^ j → acc + v * 128 ^ j < 2 ^ width →
    readVarint width (7 * j) acc iNdEx (varintBytes v ++ rest) =
      Except.ok (acc + v * 128 ^ j, iNdEx + (varintBytes v).length, rest) := by
  induction v using Nat.strong_induction_on with
  | _ v ih =>
    intro j acc iNdEx rest hj hv hacc hsum
    have hpos : 0 < 128 ^ j := Nat.pow_pos (by norm_num)
    by_cases hlt : v < 128
    · rw [varintBytes_lt v hlt, List.singleton_append, readVarint_cons _ _ _ _ _ _ (by omega),
        if_pos hlt]
      have hand : v &&& 0x7F = v := by
        have := Nat.and_pow_two_sub_one_eq_mod v 7
        simp only [Nat.reducePow, Nat.add_one_sub_one] at this
        rw [this]
        omega
      rw [hand, acc_step width j acc v hacc (by omega)]
      rfl
    · have hge : 128 ≤ v := by omega
      have hj8 : j ≤ 8 := by
        by_contra hcon
        have : j = 9 := by omega
        subst this
        simp at hv
        omega
      rw [varintBytes_ge v hge, List.cons_append, readVarint_cons _ _ _ _ _ _ (by omega),
        if_neg (by omega)]
      have hand : (v % 128 + 128) &&& 0x7F = v % 128 := by
        have := Nat.and_pow_two_sub_one_eq_mod (v % 128 + 128) 7
        simp only [Nat.reducePow, Nat.add_one_sub_one] at this
        rw [this]
        omega
      have hdm := Nat.div_add_mod v 128
      have hsplit : v * 128 ^ j = v % 128 * 128 ^ j + v / 128 * 128 ^ (j + 1) := by
        rw [pow_succ]
        nth_rewrite 1 [← hdm]
        ring
      have hc : v % 128 * 128 ^ j < 2 ^ width := by omega
      rw [hand, acc_step width j acc (v % 128) hacc hc]
      have hacc' : acc + v % 128 * 128 ^ j < 128 ^ (j + 1) := by
        rw [pow_succ]
        have : v % 128 < 128 := Nat.mod_lt _ (by norm_num)
        nlinarith
      have hv' : v / 128 < 128 ^ (10 - (j + 1)) := by
        have e : 10 - j = (10 - (j + 1)) + 1 := by omega
        rw [e, pow_succ] at hv
        exact Nat.div_lt_of_lt_mul (by rw [Nat.mul_comm]; exact hv)
      have h7 : 7 * j + 7 = 7 * (j + 1) := by ring
      rw [h7, ih (v / 128) (by omega) (j + 1) _ (iNdEx + 1) rest (by omega) hv' hacc'
        (by omega)]
      simp only [List.length_cons]
      congr 2
      · omega
      · congr 1
        omega

theorem readVarint_value (width v iNdEx : Nat) (rest : List Nat)
    (hv : v < 2 ^ width) (hw : width ≤ 64) :
    readVarint width 0 0 iNdEx (varintBytes v ++ rest) =
      Except.ok (v, iNdEx + (varintBytes v).length, rest) := by
  have h64 : (2 : Nat) ^ width ≤ 2 ^ 64 := Nat.pow_le_pow_right (by norm_num) hw
  have := readVarint_varintBytes width v 0 0 iNdEx rest (by omega)
    (by
      have : (2 : Nat) ^ 64 ≤ 128 ^ (10 - 0) := by norm_num
      omega)
    (by norm_num) (by simpa using hv)
  simpa using this

theorem readVarint_tag (t iNdEx : Nat) (rest : List Nat) (ht : t < 128) :
    readVarint 64 0 0 iNdEx (t :: rest) = Except.ok (t, iNdEx + 1, rest) := by
  have := readVarint_value 64 t iNdEx rest (by omega) (le_refl _)
  rw [varintBytes_lt t ht] at this
  simpa using this

theorem ExchangePrice_loop_nil (codec : StdTimeCodec) (l fuel iNdEx : Nat) (m : ExchangePrice)
    (h : iNdEx ≤ l) : ExchangePrice.Unmarshal.loop codec l fuel m iNdEx [] = Except.ok m := by
  cases fuel <;> simp [ExchangePrice.Unmarshal.loop, not_lt.mpr h]

theorem ExchangePrice_loop_field1 (codec : StdTimeCodec) (l fuel iNdEx v : Nat)
    (m : ExchangePrice) (rest : List Nat) (hv : v < 2 ^ 32) :
    ExchangePrice.Unmarshal.loop codec l (fuel + 1) m iNdEx (0x08 :: (varintBytes v ++ rest)) =
      ExchangePrice.Unmarshal.loop codec l fuel { m with ExchangeFeedId := v }
        (iNdEx + 1 + (varintBytes v).length) rest := by
  rw [ExchangePrice.Unmarshal.loop]
  simp only [readVarint_tag 0x08 iNdEx _ (by norm_num),
    readVarint_value 32 v (iNdEx + 1) rest hv (by norm_num)]
  have h1 : toInt32 ((0x08 >>> 3 : Nat) : Int) = 1 := by decide
  have h2 : 0x08 &&& 0x7 = 0 := by decide
  simp only [h1, h2]
  simp

theorem ExchangePrice_loop_field2 (codec : StdTimeCodec) (l fuel iNdEx v : Nat)
    (m : ExchangePrice) (rest : List Nat) (hv : v < 2 ^ 64) :
    ExchangePrice.Unmarshal.loop codec l (fuel + 1) m iNdEx (0x10 :: (varintBytes v ++ rest)) =
      ExchangePrice.Unmarshal.loop codec l fuel { m with Price := v }
        (iNdEx + 1 + (varintBytes v).length) rest := by
  rw [ExchangePrice.Unmarshal.loop]
  simp only [readVarint_tag 0x10 iNdEx _ (by norm_num),
    readVarint_value 64 v (iNdEx + 1) rest hv (by norm_num)]
  have h1 : toInt32 ((0x10 >>> 3 : Nat) : Int) = 2 := by decide
  have h2 : 0x10 &&& 0x7 = 0 := by decide
  simp only [h1, h2]
  simp

/-- Unmarshalling the wire format of an exchange price without a last-update
time into the zero message gives the exchange price back. -/
theorem ExchangePrice_Unmarshal_wire (codec : StdTimeCodec) (e : ExchangePrice)
    (hid : e.ExchangeFeedId < 2 ^ 32) (hprice : e.Price < 2 ^ 64)
    (htime : e.LastUpdateTime = none) :
    ExchangePrice.Unmarshal codec ⟨0, 0, none⟩ e.wire = Except.ok e := by
  obtain ⟨id, price, time⟩ := e
  simp only at hid hprice htime
  subst htime
  unfold ExchangePrice.Unmarshal ExchangePrice.wire
  simp only
  by_cases h1 : id = 0 <;> by_cases h2 : price = 0
  · subst h1 h2
    rfl
  · subst h1
    simp only [ne_eq, not_true_eq_false, if_false, h2, not_false_eq_true, if_true,
      List.nil_append, List.length_cons]
    have := ExchangePrice_loop_field2 codec ((varintBytes price).length + 1)
      (varintBytes price).length 0 price ⟨0, 0, none⟩ [] hprice
    rw [List.append_nil] at this
    rw [this, ExchangePrice_loop_nil _ _ _ _ _ (by omega)]
  · subst h2
    simp only [ne_eq, not_true_eq_false, if_false, h1, not_false_eq_true, if_true,
      List.append_nil, List.length_cons]
    have := ExchangePrice_loop_field1 codec ((varintBytes id).length + 1)
      (varintBytes id).length 0 id ⟨0, 0, none⟩ [] hid
    rw [List.append_nil] at this
    rw [this, ExchangePrice_loop_nil _ _ _ _ _ (by omega)]
  · simp only [ne_eq, h1, h2, not_false_eq_true, if_true, List.cons_append, List.length_cons,
      List.length_append]
    have hfuel : (varintBytes id).length + ((varintBytes price).length + 1) + 1 =
        ((varintBytes id).length + (varintBytes price).length + 1) + 1 := by omega
    rw [hfuel, ExchangePrice_loop_field1 codec _ _ 0 id ⟨0, 0, none⟩ _ hid]
    have hp : 0 < (varintBytes price).length := by
      by_cases hlt : price < 128
      · rw [varintBytes_lt _ hlt]
        simp
      · rw [varintBytes_ge _ (by omega)]
        simp
    obtain ⟨n, hn⟩ : ∃ n, (varintBytes id).length + (varintBytes price).length + 1 = n + 1 :=
      ⟨_, rfl⟩
    rw [hn]
    have := ExchangePrice_loop_field2 codec (n + 1 + 1) n (0 + 1 + (varintBytes id).length)
      price ⟨id, 0, none⟩ [] hprice
    rw [List.append_nil] at this
    rw [this, ExchangePrice_loop_nil _ _ _ _ _ (by omega)]

theorem MarketPriceUpdate_loop_nil (codec : StdTimeCodec) (l fuel iNdEx : Nat)
    (m : MarketPriceUpdate) (h : iNdEx ≤ l) :
    MarketPriceUpdate.Unmarshal.loop codec l fuel m iNdEx [] = Except.ok m := by
  cases fuel <;> simp [MarketPriceUpdate.Unmarshal.loop, not_lt.mpr h]

theorem MarketPriceUpdate_loop_field1 (codec : StdTimeCodec) (l fuel iNdEx v : Nat)
    (m : MarketPriceUpdate) (rest : List Nat) (hv : v < 2 ^ 32) :
    MarketPriceUpdate.Unmarshal.loop codec l (fuel + 1) m iNdEx
        (0x08 :: (varintBytes v ++ rest)) =
      MarketPriceUpdate.Unmarshal.loop codec l fuel { m with MarketId := v }
        (iNdEx + 1 + (varintBytes v).length) rest := by
  rw [MarketPriceUpdate.Unmarshal.loop]
  simp only [readVarint_tag 0x08 iNdEx _ (by norm_num),
    readVarint_value 32 v (iNdEx + 1) rest hv (by norm_num)]
  have h1 : toInt32 ((0x08 >>> 3 : Nat) : Int) = 1 := by decide
  have h2 : 0x08 &&& 0x7 = 0 := by decide
  simp only [h1, h2]
  simp

theorem MarketPriceUpdate_loop_field2 (codec : StdTimeCodec) (l fuel iNdEx : Nat)
    (m : MarketPriceUpdate) (e : ExchangePrice) (rest : List Nat)
    (hid : e.ExchangeFeedId < 2 ^ 32) (hprice : e.Price < 2 ^ 64)
    (htime : e.LastUpdateTime = none)
    (hl : iNdEx + 1 + (varintBytes e.wire.length).length + e.wire.length ≤ l)
    (hl63 : l < 2 ^ 63) :
    MarketPriceUpdate.Unmarshal.loop codec l (fuel + 1) m iNdEx
        (0x12 :: (varintBytes e.wire.length ++ e.wire) ++ rest) =
      MarketPriceUpdate.Unmarshal.loop codec l fuel
        { m with ExchangePrices := m.ExchangePrices ++ [e] }
        (iNdEx + 1 + (varintBytes e.wire.length).length + e.wire.length) rest := by
  have hlen : e.wire.length < 2 ^ 63 := by omega
  rw [List.cons_append, List.append_assoc, MarketPriceUpdate.Unmarshal.loop]
  simp only [readVarint_tag 0x12 iNdEx _ (by norm_num),
    readVarint_value 64 e.wire.length (iNdEx + 1) (e.wire ++ rest) (by omega) (by norm_num)]
  have h1 : toInt32 ((0x12 >>> 3 : Nat) : Int) = 2 := by decide
  have h2 : 0x12 &&& 0x7 = 2 := by decide
  simp only [h1, h2]
  have h3 : ¬ (9223372036854775808 ≤ e.wire.length) := by omega
  have h4 : ¬ (9223372036854775808 ≤
      iNdEx + 1 + (varintBytes e.wire.length).length + e.wire.length) := by
    omega
  have h5 : ¬ (iNdEx + 1 + (varintBytes e.wire.length).length + e.wire.length > l) := by omega
  simp [h3, h4, h5, ExchangePrice_Unmarshal_wire codec e hid hprice htime]

theorem MarketPriceUpdate_loop_prices (codec : StdTimeCodec) (l : Nat) (hl63 : l < 2 ^ 63)
    (ps : List ExchangePrice) :
    ∀ (fuel iNdEx : Nat) (m : MarketPriceUpdate),
    (∀ e ∈ ps, e.ExchangeFeedId < 2 ^ 32 ∧ e.Price < 2 ^ 64 ∧ e.LastUpdateTime = none) →
    ps.length ≤ fuel →
    iNdEx + (ps.map (fun e => 0x12 :: (varintBytes e.wire.length ++ e.wire))).flatten.length ≤ l →
    MarketPriceUpdate.Unmarshal.loop codec l fuel m iNdEx
        (ps.map (fun e => 0x12 :: (varintBytes e.wire.length ++ e.wire))).flatten =
      Except.ok { m with ExchangePrices := m.ExchangePrices ++ ps } := by
  induction ps with
  | nil =>
    intro fuel iNdEx m _ _ hl
    simp only [List.map_nil, List.flatten_nil, List.length_nil, Nat.add_zero] at hl ⊢
    rw [MarketPriceUpdate_loop_nil _ _ _ _ _ hl]
    simp
  | cons a t ih =>
    intro fuel iNdEx m hps hfuel hl
    obtain ⟨n, rfl⟩ : ∃ n, fuel = n + 1 := ⟨fuel - 1, by
      simp only [List.length_cons] at hfuel
      omega⟩
    obtain ⟨ha1, ha2, ha3⟩ := hps a (List.mem_cons_self _ _)
    simp only [List.map_cons, List.flatten_cons, List.length_append, List.length_cons] at hl ⊢
    rw [MarketPriceUpdate_loop_field2 codec l n iNdEx m a _ ha1 ha2 ha3 (by omega) hl63]
    rw [ih n _ _ (fun e he => hps e (List.mem_cons_of_mem _ he))
      (by simp only [List.length_cons] at hfuel; omega) (by omega)]
    simp

/-- Unmarshalling the wire format of a market price update into the empty
message gives the update back. -/
theorem MarketPriceUpdate_Unmarshal_wire (codec : StdTimeCodec) (m : MarketPriceUpdate)
    (hid : m.MarketId < 2 ^ 32)
    (hps : ∀ e ∈ m.ExchangePrices,
      e.ExchangeFeedId < 2 ^ 32 ∧ e.Price < 2 ^ 64 ∧ e.LastUpdateTime = none)
    (hlen : m.wire.length < 2 ^ 63) :
    MarketPriceUpdate.Unmarshal codec ⟨0, []⟩ m.wire = Except.ok m := by
  obtain ⟨id, ps⟩ := m
  simp only at hid hps
  have hcount : ps.length ≤
      (ps.map (fun e => 0x12 :: (varintBytes e.wire.length ++ e.wire))).flatten.length := by
    clear hps hlen
    induction ps with
    | nil => simp
    | cons a t ih =>
      simp only [List.map_cons, List.flatten_cons, List.length_append, List.length_cons]
      omega
  unfold MarketPriceUpdate.Unmarshal
  unfold MarketPriceUpdate.wire at hlen ⊢
  simp only at hlen ⊢
  by_cases h1 : id = 0
  · subst h1
    simp only [ne_eq, not_true_eq_false, if_false, List.nil_append] at hlen ⊢
    rw [MarketPriceUpdate_loop_prices codec _ hlen ps _ 0 ⟨0, []⟩ hps hcount (by omega)]
    simp
  · simp only [ne_eq, h1, not_false_eq_true, if_true, List.cons_append, List.length_cons,
      List.length_append] at hlen ⊢
    rw [MarketPriceUpdate_loop_field1 codec _ _ 0 id ⟨0, []⟩ _ hid]
    rw [MarketPriceUpdate_loop_prices codec _ hlen ps _ _ _ hps (by omega) (by omega)]
    simp

/-! ## Claim on the wire format -/

/-- C29. For every `MarketPriceUpdate` whose market id and exchange feed ids
are `uint32`, whose prices are `uint64`, whose exchange prices carry no
last-update time and whose encoding fits a slice, `Marshal` returns the wire
format `m.wire`: the market id as field 1 (a varint, left out when zero) and
every exchange price as a length-delimited field 2 in list order, itself the
exchange feed id as field 1 and the price as field 2; and unmarshalling these
bytes into an empty message succeeds and yields `m`: the same market id and
the same exchange prices in the same order. -/
theorem MarketPriceUpdate_roundtrip (codec : StdTimeCodec) (m : MarketPriceUpdate)
    (hid : m.MarketId < 2 ^ 32)
    (hps : ∀ e ∈ m.ExchangePrices,
      e.ExchangeFeedId < 2 ^ 32 ∧ e.Price < 2 ^ 64 ∧ e.LastUpdateTime = none)
    (hlen : m.Size codec < 2 ^ 63) :
    m.Marshal codec = Outcome.ret (Except.ok m.wire) ∧
    MarketPriceUpdate.Unmarshal codec ⟨0, []⟩ m.wire = Except.ok m := by
  have htime : ∀ e ∈ m.ExchangePrices, e.LastUpdateTime = none := fun e he => (hps e he).2.2
  refine ⟨MarketPriceUpdate_Marshal_eq codec m htime, ?_⟩
  rw [MarketPriceUpdate_Size_eq codec m htime] at hlen
  exact MarketPriceUpdate_Unmarshal_wire codec m hid hps hlen

/-- C29 at a concrete update: market 1 with the price 300 from exchange 2 and
the price 20,000,000,000 from exchange 0 is marshalled to 17 bytes, the second
exchange price without its zero feed id, and unmarshalled back. -/
theorem MarketPriceUpdate_roundtrip_witness :
    sampleUpdate.wire =
      [0x08, 1, 0x12, 5, 0x08, 2, 0x10, 172, 2, 0x12, 6, 0x10, 128, 144, 223, 192, 74] ∧
    sampleUpdate.Marshal noTimeCodec = Outcome.ret (Except.ok sampleUpdate.wire) ∧
    MarketPriceUpdate.Unmarshal noTimeCodec ⟨0, []⟩ sampleUpdate.wire = Except.ok sampleUpdate :=
  ⟨by decide,
    MarketPriceUpdate_roundtrip noTimeCodec sampleUpdate (by decide) (by decide) (by decide)⟩

end Pricefeed

namespace Prices

open Clob (Outcome Panic)

/-- C31. For non-negative deltas and a positive tick size in ppm, with
`tick_size = tickSizePpm / 1,000,000`, `new_ticks = newDelta / tick_size` and
`old_ticks = oldDelta / tick_size` over the reals, `newPriceMeetsSqrtCondition`
returns true if and only if `new_ticks <= sqrt(old_ticks)`. -/
theorem newPriceMeetsSqrtCondition_real (oldDelta newDelta tickSizePpm : Int)
    (hold : 0 ≤ oldDelta) (hnew : 0 ≤ newDelta) (htick : 0 < tickSizePpm) :
    newPriceMeetsSqrtCondition oldDelta newDelta tickSizePpm = true ↔
      (newDelta : ℝ) / ((tickSizePpm : ℝ) / 1000000) ≤
        Real.sqrt ((oldDelta : ℝ) / ((tickSizePpm : ℝ) / 1000000)) := by
  have hts : (0 : ℝ) < (tickSizePpm : ℝ) / 1000000 := by
    have : (0 : ℝ) < (tickSizePpm : ℝ) := by exact_mod_cast htick
    positivity
  have hn : (0 : ℝ) ≤ (newDelta : ℝ) := by exact_mod_cast hnew
  have ho : (0 : ℝ) ≤ (oldDelta : ℝ) := by exact_mod_cast hold
  have hcode : newPriceMeetsSqrtCondition oldDelta newDelta tickSizePpm = true ↔
      (newDelta : ℝ) * newDelta * 1000000 ≤ oldDelta * tickSizePpm := by
    unfold newPriceMeetsSqrtCondition OneMillion
    simp only [decide_eq_true_eq, Nat.cast_ofNat]
    constructor
    · intro h
      exact_mod_cast h
    · intro h
      exact_mod_cast h
  have hT : (0 : ℝ) < (tickSizePpm : ℝ) := by exact_mod_cast htick
  have hc : (0 : ℝ) < 1000000 / (tickSizePpm : ℝ) ^ 2 := by positivity
  have e1 : ((newDelta : ℝ) / ((tickSizePpm : ℝ) / 1000000)) ^ 2 =
      ((newDelta : ℝ) * newDelta * 1000000) * (1000000 / (tickSizePpm : ℝ) ^ 2) := by
    field_simp
    ring
  have e2 : (oldDelta : ℝ) / ((tickSizePpm : ℝ) / 1000000) =
      ((oldDelta : ℝ) * tickSizePpm) * (1000000 / (tickSizePpm : ℝ) ^ 2) := by
    field_simp
    ring
  have hsq : ((newDelta : ℝ) / ((tickSizePpm : ℝ) / 1000000)) ^ 2 ≤
        (oldDelta : ℝ) / ((tickSizePpm : ℝ) / 1000000) ↔
      (newDelta : ℝ) * newDelta * 1000000 ≤ oldDelta * tickSizePpm := by
    rw [e1, e2]
    exact mul_le_mul_right hc
  have ha : (0 : ℝ) ≤ (newDelta : ℝ) / ((tickSizePpm : ℝ) / 1000000) := div_nonneg hn hts.le
  have hb : (0 : ℝ) ≤ (oldDelta : ℝ) / ((tickSizePpm : ℝ) / 1000000) := div_nonneg ho hts.le
  rw [hcode, ← hsq]
  constructor
  · intro h
    calc (newDelta : ℝ) / ((tickSizePpm : ℝ) / 1000000)
        = Real.sqrt (((newDelta : ℝ) / ((tickSizePpm : ℝ) / 1000000)) ^ 2) :=
          (Real.sqrt_sq ha).symm
      _ ≤ Real.sqrt ((oldDelta : ℝ) / ((tickSizePpm : ℝ) / 1000000)) := Real.sqrt_le_sqrt h
  · intro h
    calc ((newDelta : ℝ) / ((tickSizePpm : ℝ) / 1000000)) ^ 2
        ≤ (Real.sqrt ((oldDelta : ℝ) / ((tickSizePpm : ℝ) / 1000000))) ^ 2 :=
          pow_le_pow_left₀ ha h 2
      _ = (oldDelta : ℝ) / ((tickSizePpm : ℝ) / 1000000) := Real.sq_sqrt hb

/-- C31 at an old delta of 50 and a tick size of 20 (20,000,000 ppm): the old
delta is 2.5 ticks, a new delta of 31 is 1.55 ticks and meets the condition,
so 1.55 is at most the square root of 2.5. -/
theorem newPriceMeetsSqrtCondition_real_witness :
    newPriceMeetsSqrtCondition 50 31 20000000 = true ∧
    (((31 : Int) : ℝ) / ((((20000000 : Int) : ℝ)) / 1000000) ≤
      Real.sqrt (((50 : Int) : ℝ) / (((20000000 : Int) : ℝ) / 1000000))) :=
  ⟨by decide,
    (newPriceMeetsSqrtCondition_real 50 31 20000000 (by decide) (by decide) (by decide)).mp
      (by decide)⟩

/-- C32. For a market whose `MinPriceChangePpm` is at most 1,000,000 and
whose `Price` is a `uint64`, `getMinPriceChangeAmountForMarket` does not panic
and returns a value that is at most `market.Price`; and whenever it panics on a
`uint64` price, `MinPriceChangePpm` is above 1,000,000. -/
theorem getMinPriceChangeAmountForMarket_no_panic (market : Market)
    (hprice : market.Price < 2 ^ 64) :
    (market.MinPriceChangePpm ≤ 1000000 →
      ∃ amount, getMinPriceChangeAmountForMarket market = Outcome.ret amount ∧
        amount ≤ market.Price ∧
        amount = market.Price * market.MinPriceChangePpm / 1000000) ∧
    (∀ reason, getMinPriceChangeAmountForMarket market = Outcome.panic reason →
      1000000 < market.MinPriceChangePpm) := by
  have hle : market.MinPriceChangePpm ≤ 1000000 →
      market.Price * market.MinPriceChangePpm / 1000000 ≤ market.Price := by
    intro hppm
    apply Nat.div_le_of_le_mul
    rw [Nat.mul_comm 1000000]
    exact Nat.mul_le_mul_left _ hppm
  constructor
  · intro hppm
    have hfit : market.Price * market.MinPriceChangePpm / 1000000 < 2 ^ 64 :=
      lt_of_le_of_lt (hle hppm) hprice
    exact ⟨_, getMinPriceChangeAmountForMarket_fits market hfit, hle hppm, rfl⟩
  · intro reason hpanic
    by_contra hnot
    have hppm : market.MinPriceChangePpm ≤ 1000000 := by omega
    have hfit : market.Price * market.MinPriceChangePpm / 1000000 < 2 ^ 64 :=
      lt_of_le_of_lt (hle hppm) hprice
    rw [getMinPriceChangeAmountForMarket_fits market hfit] at hpanic
    exact Outcome.noConfusion hpanic

/-- C32 at the largest `uint64` price with the largest allowed
`MinPriceChangePpm`, where the amount is the price itself, and at the scenario
market; with 2,000,000 ppm the largest price makes the function panic. -/
theorem getMinPriceChangeAmountForMarket_no_panic_witness :
    getMinPriceChangeAmountForMarket { scenarioMarket with
      Price := 18446744073709551615, MinPriceChangePpm := 1000000 }
      = Outcome.ret 18446744073709551615 ∧
    getMinPriceChangeAmountForMarket scenarioMarket = Outcome.ret 10 ∧
    getMinPriceChangeAmountForMarket { scenarioMarket with
      Price := 18446744073709551615, MinPriceChangePpm := 2000000 }
      = Outcome.panic Panic.MinPriceChangeAmountExceedsUint64 := by
  refine ⟨?_, ?_, by decide⟩
  · obtain ⟨a, ha, _, hval⟩ := (getMinPriceChangeAmountForMarket_no_panic
      { scenarioMarket with Price := 18446744073709551615, MinPriceChangePpm := 1000000 }
      (by decide)).1 (by decide)
    rw [ha, hval]
    rfl
  · obtain ⟨a, ha, _, hval⟩ := (getMinPriceChangeAmountForMarket_no_panic scenarioMarket
      (by decide)).1 (by decide)
    rw [ha, hval]
    rfl

/-- C37. `isTowardsIndexPrice` and `isCrossingIndexPrice` are never both true;
when both are false, the new price is on the side of the index where the old
price is and beyond the old price (`indexPrice <= oldPrice < newPrice` or
`newPrice < oldPrice <= indexPrice`), so it is strictly farther from the index
than the old price. -/
theorem isTowards_isCrossing_partition (oldPrice newPrice indexPrice : Nat) :
    ¬ (isTowardsIndexPrice oldPrice newPrice indexPrice = true ∧
        isCrossingIndexPrice oldPrice newPrice indexPrice = true) ∧
    (isTowardsIndexPrice oldPrice newPrice indexPrice = false →
      isCrossingIndexPrice oldPrice newPrice indexPrice = false →
      ((indexPrice ≤ oldPrice ∧ oldPrice < newPrice) ∨
        (newPrice < oldPrice ∧ oldPrice ≤ indexPrice)) ∧
      AbsDiffUint64 newPrice indexPrice > AbsDiffUint64 oldPrice indexPrice) := by
  unfold isTowardsIndexPrice isCrossingIndexPrice Max Min AbsDiffUint64
  constructor
  · simp only [Bool.and_eq_true, decide_eq_true_eq]
    split_ifs <;> omega
  · simp only [Bool.and_eq_false_iff, decide_eq_false_iff_not]
    split_ifs <;> omega

/-- C37 at the old price 100 and the index price 99: the proposals 110 and 150
are neither towards the index nor crossing it, and both are farther from it
than 100 is; the proposal 99 is towards and not crossing, the proposal 98 is
crossing and not towards. -/
theorem isTowards_isCrossing_partition_witness :
    ((99 ≤ 100 ∧ 100 < 110) ∨ (110 < 100 ∧ 100 ≤ 99)) ∧
    AbsDiffUint64 110 99 > AbsDiffUint64 100 99 ∧
    isTowardsIndexPrice 100 99 99 = true ∧ isCrossingIndexPrice 100 99 99 = false ∧
    isTowardsIndexPrice 100 98 99 = false ∧ isCrossingIndexPrice 100 98 99 = true :=
  ⟨((isTowards_isCrossing_partition 100 110 99).2 (by decide) (by decide)).1,
    ((isTowards_isCrossing_partition 100 110 99).2 (by decide) (by decide)).2,
    by decide, by decide, by decide, by decide⟩

end Prices

namespace Clob

/-! ## Claims on the results of the matching pipeline -/

/-- C38. Whenever `ProcessSingleMatch` returns, `success` is true exactly when
the error is nil: a return with an error has `success = false` and nil
off-chain updates, and a return with `success = true` has a nil error and
non-nil off-chain updates. -/
theorem ProcessSingleMatch_success_iff_nil_error (k : Keeper) (m : MatchWithOrders)
    (r : ProcessSingleMatchResult) (h : (ProcessSingleMatch k m).result = Outcome.ret r) :
    (r.success = true ↔ r.err = none) ∧
    (r.err ≠ none → r.success = false ∧ r.offchainUpdates = none) ∧
    (r.success = true → r.err = none ∧ r.offchainUpdates ≠ none) := by
  have key : (r.success = false ∧ r.offchainUpdates = none ∧ r.err ≠ none) ∨
      (r.success = true ∧ r.offchainUpdates ≠ none ∧ r.err = none) := by
    rcases ProcessSingleMatch_runs k m with ⟨_, hres⟩ |
      ⟨c, pid, tf, Q, D, mo, _, _, us, fee, _, _, hrun⟩
    · rcases hres with ⟨e, he⟩ | he | he
      · rw [he] at h
        simp only [earlyReturn, Outcome.ret.injEq] at h
        subst h
        left
        simp
      · rw [he] at h
        simp at h
      · rw [he] at h
        simp at h
    · rcases hrun with ⟨e, _, hR⟩ | ⟨_, _, hR⟩ | ⟨t, mk, rest, _, hR⟩ |
        ⟨t, mk, rest, _, ⟨e, _, hR⟩ | ⟨_, _, hR⟩ | ⟨_, _, off, hR⟩⟩
      · rw [hR] at h
        simp only [Outcome.ret.injEq] at h
        subst h
        left
        simp
      · rw [hR] at h
        simp at h
      · rw [hR] at h
        simp only [Outcome.ret.injEq] at h
        subst h
        left
        simp
      · rw [hR] at h
        simp only [Outcome.ret.injEq] at h
        subst h
        left
        simp
      · rw [hR] at h
        simp only [Outcome.ret.injEq] at h
        subst h
        left
        simp
      · rw [hR] at h
        simp only [Outcome.ret.injEq] at h
        subst h
        right
        simp
  rcases key with ⟨h1, h2, h3⟩ | ⟨h1, h2, h3⟩
  · refine ⟨?_, fun _ => ⟨h1, h2⟩, ?_⟩
    · rw [h1]
      constructor
      · intro hc
        exact absurd hc (by simp)
      · intro hc
        exact absurd hc h3
    · intro hc
      rw [h1] at hc
      exact absurd hc (by simp)
  · refine ⟨⟨fun _ => h3, fun _ => h1⟩, fun hc => absurd h3 hc, fun _ => ⟨h3, h2⟩⟩

/-- C38 at concrete inputs: the match between Alice and Bob succeeds with a nil
error and off-chain updates; when the maker fails the collateralization check,
and when the insurance fund transfer fails, the return has `success = false`,
an error and nil off-chain updates. -/
theorem ProcessSingleMatch_success_iff_nil_error_witness :
    (∃ r, (ProcessSingleMatch goodKeeper aliceBobMatch).result = Outcome.ret r ∧
      r.success = true ∧ r.err = none ∧ r.offchainUpdates ≠ none) ∧
    (∃ r, (ProcessSingleMatch makerFailsKeeper aliceBobMatch).result = Outcome.ret r ∧
      r.err ≠ none ∧ r.success = false ∧ r.offchainUpdates = none) ∧
    (∃ r, (ProcessSingleMatch insuranceTransferFailsKeeper liquidationMatch).result
        = Outcome.ret r ∧
      r.err ≠ none ∧ r.success = false ∧ r.offchainUpdates = none) := by
  refine ⟨?_, ?_, ?_⟩
  · have hr : ∃ r, (ProcessSingleMatch goodKeeper aliceBobMatch).result = Outcome.ret r ∧
        r.success = true := ⟨_, rfl, rfl⟩
    obtain ⟨r, hr, hs⟩ := hr
    have h := ProcessSingleMatch_success_iff_nil_error goodKeeper aliceBobMatch r hr
    exact ⟨r, hr, hs, (h.2.2 hs).1, (h.2.2 hs).2⟩
  · have hr : ∃ r, (ProcessSingleMatch makerFailsKeeper aliceBobMatch).result = Outcome.ret r ∧
        r.err ≠ none := ⟨_, rfl, by decide⟩
    obtain ⟨r, hr, he⟩ := hr
    have h := ProcessSingleMatch_success_iff_nil_error makerFailsKeeper aliceBobMatch r hr
    exact ⟨r, hr, he, (h.2.1 he).1, (h.2.1 he).2⟩
  · have hr : ∃ r, (ProcessSingleMatch insuranceTransferFailsKeeper liquidationMatch).result
        = Outcome.ret r ∧ r.err ≠ none := ⟨_, rfl, by decide⟩
    obtain ⟨r, hr, he⟩ := hr
    have h := ProcessSingleMatch_success_iff_nil_error insuranceTransferFailsKeeper
      liquidationMatch r hr
    exact ⟨r, hr, he, (h.2.1 he).1, (h.2.1 he).2⟩

/-- C39, the code at the failing input. The subaccount updates of the
liquidation of Dave succeed and the insurance fund transfer fails:
`persistMatchedOrders` returns the error of the transfer with `success = true`,
the flag that `UpdateSubaccounts` returned, whereas it returns `success = false`
when `UpdateSubaccounts` returns an error and when the fee transfer fails. -/
theorem persistMatchedOrders_insurance_transfer_fails :
    persistMatchedOrders insuranceTransferFailsKeeper liquidationMatch 0 0 200 25000 1000 =
      ⟨[Call.UpdateSubaccounts liquidationUpdates, Call.TransferInsuranceFundPayments 1000],
        Outcome.ret ⟨true, UpdateResult.Success, UpdateResult.Success,
          some (Error.collaborator 4)⟩⟩ ∧
    (persistMatchedOrders feeTransferFailsKeeper liquidationMatch 0 0 200 25000 1000).result =
      Outcome.ret ⟨false, UpdateResult.Success, UpdateResult.Success,
        some Error.ErrSubaccountFeeTransferFailed⟩ ∧
    (persistMatchedOrders updateErrorKeeper liquidationMatch 0 0 200 25000 1000).result =
      Outcome.ret ⟨false, UpdateResult.UpdateCausedError, UpdateResult.UpdateCausedError,
        some (Error.collaborator 1)⟩ := by
  decide

end Clob

namespace Clob

/-! ## Lemmas on `PerformOrderPreprocessing` -/

theorem statefulOrdersOf_append (xs ys : List MsgPlaceOrder) :
    statefulOrdersOf (xs ++ ys) = statefulOrdersOf xs ++ statefulOrdersOf ys := by
  simp [statefulOrdersOf]

theorem statefulWrites_append (h : Nat) (xs ys : List MsgPlaceOrder) :
    statefulWrites h (xs ++ ys) = statefulWrites h xs ++ statefulWrites h ys := by
  simp [statefulWrites, statefulOrdersOf_append]

theorem statefulOrdersOf_singleton (msg : MsgPlaceOrder) :
    statefulOrdersOf [msg] = if msg.GetOrder.IsShortTermOrder then [] else [msg.GetOrder] := by
  unfold statefulOrdersOf
  cases hs : msg.GetOrder.IsShortTermOrder <;> simp [hs]

theorem statefulWrites_singleton (h : Nat) (msg : MsgPlaceOrder) :
    statefulWrites h [msg] =
      if msg.GetOrder.IsShortTermOrder then []
      else [PreprocessingCall.SetStatefulOrderPlacement msg.GetOrder h,
        PreprocessingCall.MustAddOrderToStatefulOrdersTimeSlice
          msg.GetOrder.GetGoodTilBlockTime msg.GetOrder.OrderId] := by
  unfold statefulWrites
  rw [statefulOrdersOf_singleton]
  cases hs : msg.GetOrder.IsShortTermOrder <;> simp

theorem MustGetUnixGoodTilBlockTime_of_stateful (o : Order) (h : o.IsShortTermOrder = false) :
    o.MustGetUnixGoodTilBlockTime = Outcome.ret o.GetGoodTilBlockTime := by
  unfold Order.IsShortTermOrder at h
  unfold Order.MustGetUnixGoodTilBlockTime Order.GetGoodTilBlockTime
  cases hg : o.GoodTilOneof with
  | GoodTilBlock b =>
    rw [hg] at h
    simp at h
  | GoodTilBlockTime t => rfl

/-- One round of the loop on an order that passes validation: the calls and the
placed stateful orders then are those of the messages handled so far. -/
theorem PerformOrderPreprocessing_loop_step (k : PreprocessingKeeper) (h : Nat)
    (pre : List MsgPlaceOrder) (msg : MsgPlaceOrder) (rest : List MsgPlaceOrder)
    (hvalid : k.PerformStatefulOrderValidation (statefulWrites h pre) msg.GetOrder h = none) :
    PerformOrderPreprocessing.loop k h (msg :: rest) (statefulWrites h pre)
        (statefulOrdersOf pre) =
      PerformOrderPreprocessing.loop k h rest (statefulWrites h (pre ++ [msg]))
        (statefulOrdersOf (pre ++ [msg])) := by
  rw [PerformOrderPreprocessing.loop]
  simp only [hvalid]
  rw [statefulWrites_append, statefulOrdersOf_append, statefulWrites_singleton,
    statefulOrdersOf_singleton]
  cases hs : msg.GetOrder.IsShortTermOrder
  · simp [MustGetUnixGoodTilBlockTime_of_stateful _ hs]
  · simp

theorem PerformOrderPreprocessing_loop_valid (k : PreprocessingKeeper) (h : Nat)
    (rest : List MsgPlaceOrder) : ∀ pre : List MsgPlaceOrder,
    (∀ j msg, rest[j]? = some msg →
      k.PerformStatefulOrderValidation (statefulWrites h (pre ++ rest.take j)) msg.GetOrder h
        = none) →
    PerformOrderPreprocessing.loop k h rest (statefulWrites h pre) (statefulOrdersOf pre) =
      ⟨statefulWrites h (pre ++ rest) ++
          [PreprocessingCall.MustSetProcessProposerMatchesEvents
            ⟨statefulOrdersOf (pre ++ rest), [], h⟩],
        Outcome.ret none⟩ := by
  induction rest with
  | nil =>
    intro pre _
    rw [PerformOrderPreprocessing.loop, List.append_nil]
  | cons a t ih =>
    intro pre hv
    have h0 := hv 0 a (by simp)
    simp only [List.take_zero, List.append_nil] at h0
    rw [PerformOrderPreprocessing_loop_step k h pre a t h0, ih (pre ++ [a])]
    · simp
    · intro j msg hj
      have := hv (j + 1) msg (by simpa using hj)
      simpa using this

theorem PerformOrderPreprocessing_loop_error (k : PreprocessingKeeper) (h : Nat)
    (rest : List MsgPlaceOrder) : ∀ (pre : List MsgPlaceOrder) (i : Nat) (msg : MsgPlaceOrder)
    (err : Error), rest[i]? = some msg →
    (∀ j m, j < i → rest[j]? = some m →
      k.PerformStatefulOrderValidation (statefulWrites h (pre ++ rest.take j)) m.GetOrder h
        = none) →
    k.PerformStatefulOrderValidation (statefulWrites h (pre ++ rest.take i)) msg.GetOrder h
      = some err →
    PerformOrderPreprocessing.loop k h rest (statefulWrites h pre) (statefulOrdersOf pre) =
      ⟨statefulWrites h (pre ++ rest.take i), Outcome.ret (some err)⟩ := by
  induction rest with
  | nil =>
    intro pre i msg err hi
    simp at hi
  | cons a t ih =>
    intro pre i msg err hi hv herr
    cases i with
    | zero =>
      simp only [List.getElem?_cons_zero, Option.some.injEq] at hi
      subst hi
      simp only [List.take_zero, List.append_nil] at herr ⊢
      rw [PerformOrderPreprocessing.loop]
      simp only [herr]
    | succ n =>
      have h0 := hv 0 a (by omega) (by simp)
      simp only [List.take_zero, List.append_nil] at h0
      rw [PerformOrderPreprocessing_loop_step k h pre a t h0,
        ih (pre ++ [a]) n msg err (by simpa using hi)]
      · simp
      · intro j m hj hm
        have := hv (j + 1) m (by omega) (by simpa using hm)
        simpa using this
      · simpa using herr

theorem mem_statefulWrites (h : Nat) (placeOrders : List MsgPlaceOrder) (c : PreprocessingCall)
    (hc : c ∈ statefulWrites h placeOrders) :
    ∀ events, c ≠ PreprocessingCall.MustSetProcessProposerMatchesEvents events := by
  intro events heq
  subst heq
  unfold statefulWrites at hc
  simp only [List.mem_flatten, List.mem_map] at hc
  obtain ⟨l, ⟨o, _, rfl⟩, hl⟩ := hc
  simp at hl

/-! ## Claim on `PerformOrderPreprocessing` -/

/-- C40. With the block height a `uint32`, `PerformOrderPreprocessing`
validates the orders in list order, each in the state left by persisting the
stateful orders before it. If the order at index `i` is the first that fails
validation, its error is returned, the calls made are those that persist the
stateful orders before it, and no `ProcessProposerMatchesEvents` is recorded.
If every order validates, nil is returned, the calls persist exactly the
stateful (not short-term) orders in input order and then record, as the last
call, the events with these orders as `PlacedStatefulOrders`, no
`ExpiredStatefulOrderIds` and the block height. -/
theorem PerformOrderPreprocessing_spec (k : PreprocessingKeeper)
    (placeOrders : List MsgPlaceOrder) (blockHeight : Nat)
    (hheight : MustConvertIntegerToUint32 k.BlockHeight = Outcome.ret blockHeight) :
    (∀ (i : Nat) (msg : MsgPlaceOrder) (err : Error), placeOrders[i]? = some msg →
      (∀ j m, j < i → placeOrders[j]? = some m →
        k.PerformStatefulOrderValidation (statefulWrites blockHeight (placeOrders.take j))
          m.GetOrder blockHeight = none) →
      k.PerformStatefulOrderValidation (statefulWrites blockHeight (placeOrders.take i))
        msg.GetOrder blockHeight = some err →
      PerformOrderPreprocessing k placeOrders =
        ⟨statefulWrites blockHeight (placeOrders.take i), Outcome.ret (some err)⟩ ∧
      ∀ c ∈ (PerformOrderPreprocessing k placeOrders).calls, ∀ events,
        c ≠ PreprocessingCall.MustSetProcessProposerMatchesEvents events) ∧
    ((∀ j m, placeOrders[j]? = some m →
        k.PerformStatefulOrderValidation (statefulWrites blockHeight (placeOrders.take j))
          m.GetOrder blockHeight = none) →
      PerformOrderPreprocessing k placeOrders =
        ⟨statefulWrites blockHeight placeOrders ++
            [PreprocessingCall.MustSetProcessProposerMatchesEvents
              { PlacedStatefulOrders := statefulOrdersOf placeOrders
                ExpiredStatefulOrderIds := []
                BlockHeight := blockHeight }],
          Outcome.ret none⟩) := by
  have hrun : PerformOrderPreprocessing k placeOrders =
      PerformOrderPreprocessing.loop k blockHeight placeOrders (statefulWrites blockHeight [])
        (statefulOrdersOf []) := by
    unfold PerformOrderPreprocessing
    rw [hheight]
    rfl
  constructor
  · intro i msg err hi hv herr
    have hloop := PerformOrderPreprocessing_loop_error k blockHeight placeOrders [] i msg err hi
      (by simpa using hv) (by simpa using herr)
    rw [List.nil_append] at hloop
    rw [hrun, hloop]
    exact ⟨rfl, fun c hc => mem_statefulWrites blockHeight _ c hc⟩
  · intro hv
    have hloop := PerformOrderPreprocessing_loop_valid k blockHeight placeOrders []
      (by simpa using hv)
    rw [List.nil_append] at hloop
    rw [hrun, hloop]

/-- C40 at block height 5, with a validation that rejects an order id already
placed in the block: Alice's short-term order and the stateful orders of Carl
and Bob validate, and Carl's and Bob's orders are persisted and recorded in
this order; when Carl's order comes a second time, it is rejected once the
first copy has been persisted, and no event is recorded. -/
theorem PerformOrderPreprocessing_spec_witness :
    PerformOrderPreprocessing preprocessingKeeper [⟨carlStatefulBuy⟩, ⟨aliceBuy⟩, ⟨bobStatefulSell⟩]
      = ⟨[PreprocessingCall.SetStatefulOrderPlacement carlStatefulBuy 5,
          PreprocessingCall.MustAddOrderToStatefulOrdersTimeSlice 1700000000
            carlStatefulBuy.OrderId,
          PreprocessingCall.SetStatefulOrderPlacement bobStatefulSell 5,
          PreprocessingCall.MustAddOrderToStatefulOrdersTimeSlice 1700000000
            bobStatefulSell.OrderId,
          PreprocessingCall.MustSetProcessProposerMatchesEvents
            ⟨[carlStatefulBuy, bobStatefulSell], [], 5⟩],
        Outcome.ret none⟩ ∧
    PerformOrderPreprocessing preprocessingKeeper
        [⟨carlStatefulBuy⟩, ⟨aliceBuy⟩, ⟨carlStatefulBuy⟩, ⟨bobStatefulSell⟩]
      = ⟨[PreprocessingCall.SetStatefulOrderPlacement carlStatefulBuy 5,
          PreprocessingCall.MustAddOrderToStatefulOrdersTimeSlice 1700000000
            carlStatefulBuy.OrderId],
        Outcome.ret (some (Error.collaborator 5))⟩ := by
  constructor
  · refine ((PerformOrderPreprocessing_spec preprocessingKeeper
      [⟨carlStatefulBuy⟩, ⟨aliceBuy⟩, ⟨bobStatefulSell⟩] 5 rfl).2 ?_).trans (by decide)
    intro j m hj
    match j, hj with
    | 0, hj =>
      simp only [List.getElem?_cons_zero, Option.some.injEq] at hj
      subst hj
      decide
    | 1, hj =>
      simp only [List.getElem?_cons_succ, List.getElem?_cons_zero, Option.some.injEq] at hj
      subst hj
      decide
    | 2, hj =>
      simp only [List.getElem?_cons_succ, List.getElem?_cons_zero, Option.some.injEq] at hj
      subst hj
      decide
    | n + 3, hj => simp at hj
  · refine ((PerformOrderPreprocessing_spec preprocessingKeeper
      [⟨carlStatefulBuy⟩, ⟨aliceBuy⟩, ⟨carlStatefulBuy⟩, ⟨bobStatefulSell⟩] 5 rfl).1
      2 ⟨carlStatefulBuy⟩ (Error.collaborator 5) rfl ?_ (by decide)).1.trans (by decide)
    intro j m hlt hj
    match j, hlt, hj with
    | 0, _, hj =>
      simp only [List.getElem?_cons_zero, Option.some.injEq] at hj
      subst hj
      decide
    | 1, _, hj =>
      simp only [List.getElem?_cons_succ, List.getElem?_cons_zero, Option.some.injEq] at hj
      subst hj
      decide
    | n + 2, hlt, _ => omega

end Clob

namespace PricesTypes

open Clob (Outcome Panic toInt32)
open Pricefeed (Len64 varintBytes)

/-! ## Lemmas on the zigzag encoding -/

theorem xor_all_ones (n x : Nat) (h : x < 2 ^ n) : x ^^^ (2 ^ n - 1) = 2 ^ n - 1 - x := by
  apply Nat.eq_of_testBit_eq
  intro i
  have e : 2 ^ n - 1 - x = 2 ^ n - (x + 1) := by omega
  rw [e, Nat.testBit_two_pow_sub_succ h, Nat.testBit_xor, Nat.testBit_two_pow_sub_one]
  by_cases hi : i < n
  · simp [hi]
  · have hx : x.testBit i = false := by
      apply Nat.testBit_lt_two_pow
      exact lt_of_lt_of_le h (Nat.pow_le_pow_right (by norm_num) (by omega))
    simp [hi, hx]

theorem toUint32_ofNat (n : Nat) (h : n < 2 ^ 32) : toUint32 (n : Int) = n := by
  unfold toUint32
  omega

theorem toUint32_negSucc (k : Nat) (h : k < 2 ^ 32) :
    toUint32 (Int.negSucc k) = 2 ^ 32 - 1 - k := by
  unfold toUint32
  have := Int.negSucc_eq k
  norm_num at h ⊢
  omega

theorem toUint64_ofNat (n : Nat) (h : n < 2 ^ 64) : toUint64 (n : Int) = n := by
  unfold toUint64
  omega

theorem toUint64_negSucc (k : Nat) (h : k < 2 ^ 64) :
    toUint64 (Int.negSucc k) = 2 ^ 64 - 1 - k := by
  unfold toUint64
  have := Int.negSucc_eq k
  norm_num at h ⊢
  omega

theorem shiftRight_ofNat (n s : Nat) (h : n < 2 ^ s) : ((n : Int) >>> s) = 0 := by
  show Int.ofNat (n >>> s) = 0
  rw [Nat.shiftRight_eq_div_pow, Nat.div_eq_of_lt h]
  rfl

theorem shiftRight_negSucc (k s : Nat) (h : k < 2 ^ s) : (Int.negSucc k >>> s) = -1 := by
  show Int.negSucc (k >>> s) = -1
  rw [Nat.shiftRight_eq_div_pow, Nat.div_eq_of_lt h]
  rfl

theorem zigzag32Encode_ofNat (n : Nat) (h : n < 2 ^ 31) : zigzag32Encode (n : Int) = 2 * n := by
  unfold zigzag32Encode
  rw [shiftRight_ofNat n 31 h, toUint32_ofNat n (by omega), Nat.shiftLeft_eq]
  have : toUint32 0 = 0 := rfl
  rw [this, Nat.xor_zero]
  omega

theorem zigzag32Encode_negSucc (k : Nat) (h : k < 2 ^ 31) :
    zigzag32Encode (Int.negSucc k) = 2 * k + 1 := by
  unfold zigzag32Encode
  rw [shiftRight_negSucc k 31 h, toUint32_negSucc k (by omega), Nat.shiftLeft_eq]
  have e1 : toUint32 (-1) = 2 ^ 32 - 1 := by
    have := toUint32_negSucc 0 (by norm_num)
    simpa using this
  rw [e1, xor_all_ones 32 _ (Nat.mod_lt _ (by norm_num))]
  omega

theorem toInt32_ofNat (n : Nat) (h : n < 2 ^ 31) : toInt32 (n : Int) = n := by
  unfold toInt32
  omega

theorem zigzag32Decode_even (n : Nat) (h : n < 2 ^ 31) : zigzag32Decode (2 * n) = n := by
  unfold zigzag32Decode
  have e1 : (2 * n) >>> 1 = n := by
    rw [Nat.shiftRight_eq_div_pow, pow_one]
    omega
  have e2 : (2 * n) &&& 1 = 0 := by
    have := Nat.and_pow_two_sub_one_eq_mod (2 * n) 1
    simp only [pow_one, Nat.add_one_sub_one] at this
    rw [this]
    omega
  rw [e1, e2]
  have e3 : toUint32 (toInt32 (((0 <<< 31) % 2 ^ 32 : Nat) : Int) >>> (31 : Nat)) = 0 := by decide
  rw [e3, Nat.xor_zero]
  exact toInt32_ofNat n h

theorem zigzag32Decode_odd (k : Nat) (h : k < 2 ^ 31) :
    zigzag32Decode (2 * k + 1) = Int.negSucc k := by
  unfold zigzag32Decode
  have e1 : (2 * k + 1) >>> 1 = k := by
    rw [Nat.shiftRight_eq_div_pow, pow_one]
    omega
  have e2 : (2 * k + 1) &&& 1 = 1 := by
    have := Nat.and_pow_two_sub_one_eq_mod (2 * k + 1) 1
    simp only [pow_one, Nat.add_one_sub_one] at this
    rw [this]
    omega
  rw [e1, e2]
  have e3 : toUint32 (toInt32 (((1 <<< 31) % 2 ^ 32 : Nat) : Int) >>> (31 : Nat)) = 2 ^ 32 - 1 := by
    decide
  rw [e3, xor_all_ones 32 k (by omega)]
  unfold toInt32
  have := Int.negSucc_eq k
  norm_num at h ⊢
  omega

/-- The value written for an exponent in the range of `int32`. -/
theorem zigzag32Encode_eq (e : Int) (hlo : -2 ^ 31 ≤ e) (hhi : e < 2 ^ 31) :
    zigzag32Encode e = (if 0 ≤ e then 2 * e else -2 * e - 1).toNat := by
  cases e with
  | ofNat n =>
    have hn : n < 2 ^ 31 := by
      have : (n : Int) < 2 ^ 31 := hhi
      omega
    have : zigzag32Encode (n : Int) = 2 * n := zigzag32Encode_ofNat n hn
    show zigzag32Encode (n : Int) = (if 0 ≤ (n : Int) then 2 * (n : Int) else -2 * (n : Int) - 1).toNat
    rw [this, if_pos (by omega)]
    omega
  | negSucc k =>
    have hk : k < 2 ^ 31 := by
      have := Int.negSucc_eq k
      omega
    have := Int.negSucc_eq k
    rw [zigzag32Encode_negSucc k hk, if_neg (by omega)]
    omega

theorem zigzag32_roundtrip (e : Int) (hlo : -2 ^ 31 ≤ e) (hhi : e < 2 ^ 31) :
    zigzag32Decode (zigzag32Encode e) = e := by
  cases e with
  | ofNat n =>
    have hn : n < 2 ^ 31 := by
      have : (n : Int) < 2 ^ 31 := hhi
      omega
    show zigzag32Decode (zigzag32Encode (n : Int)) = _
    rw [zigzag32Encode_ofNat n hn, zigzag32Decode_even n hn]
    rfl
  | negSucc k =>
    have hk : k < 2 ^ 31 := by
      have := Int.negSucc_eq k
      omega
    rw [zigzag32Encode_negSucc k hk, zigzag32Decode_odd k hk]

theorem zigzag32Encode_lt (e : Int) (hlo : -2 ^ 31 ≤ e) (hhi : e < 2 ^ 31) :
    zigzag32Encode e < 2 ^ 32 := by
  rw [zigzag32Encode_eq e hlo hhi]
  split <;> omega

theorem toInt64_ofNat (n : Nat) (h : n < 2 ^ 63) : toInt64 n = n := by
  unfold toInt64
  omega

/-- The 64-bit zigzag value of the sign-extended exponent, of which `Size`
takes the length, is the 32-bit zigzag value that is written. -/
theorem sozMarket_toUint64 (e : Int) (hlo : -2 ^ 31 ≤ e) (hhi : e < 2 ^ 31) :
    sozMarket (toUint64 e) = sovMarket (zigzag32Encode e) := by
  unfold sozMarket
  cases e with
  | ofNat n =>
    have hn : n < 2 ^ 31 := by
      have : (n : Int) < 2 ^ 31 := hhi
      omega
    have h1 : toUint64 (Int.ofNat n) = n := toUint64_ofNat n (by omega)
    have h2 : zigzag32Encode (Int.ofNat n) = 2 * n := zigzag32Encode_ofNat n hn
    rw [h1, h2, toInt64_ofNat n (by omega), shiftRight_ofNat n 63 (by omega), Nat.shiftLeft_eq]
    have : toUint64 0 = 0 := rfl
    rw [this, Nat.xor_zero]
    have e : n * 2 ^ 1 % 2 ^ 64 = 2 * n := by omega
    rw [e]
  | negSucc k =>
    have hk : k < 2 ^ 31 := by
      have := Int.negSucc_eq k
      omega
    rw [toUint64_negSucc k (by omega), zigzag32Encode_negSucc k hk]
    have h3 : toInt64 (2 ^ 64 - 1 - k) = Int.negSucc k := by
      unfold toInt64
      have := Int.negSucc_eq k
      norm_num at hk ⊢
      omega
    have e1 : toUint64 (-1) = 2 ^ 64 - 1 := by
      have := toUint64_negSucc 0 (by norm_num)
      simpa using this
    rw [h3, shiftRight_negSucc k 63 (by omega), e1, Nat.shiftLeft_eq,
      xor_all_ones 64 _ (Nat.mod_lt _ (by norm_num))]
    have e : 2 ^ 64 - 1 - (2 ^ 64 - 1 - k) * 2 ^ 1 % 2 ^ 64 = 2 * k + 1 := by omega
    rw [e]

/-! ## Lemmas on marshalling -/

theorem sovMarket_eq_length (v : Nat) : sovMarket v = (varintBytes v).length :=
  Pricefeed.sovPriceFeed_eq_length v

theorem encodeVarintMarket_loop_eq (fuel : Nat) : ∀ (dAtA : List Nat) (offset v : Nat),
    encodeVarintMarket.loop fuel dAtA offset v =
      Pricefeed.encodeVarintPriceFeed.loop fuel dAtA offset v := by
  induction fuel with
  | zero => intro dAtA offset v; rfl
  | succ n ih =>
    intro dAtA offset v
    rw [encodeVarintMarket.loop, Pricefeed.encodeVarintPriceFeed.loop, ih]

theorem encodeVarintMarket_eq (dAtA : List Nat) (v : Nat) :
    encodeVarintMarket dAtA v = varintBytes v ++ dAtA := by
  rw [← Pricefeed.encodeVarintPriceFeed_eq]
  unfold encodeVarintMarket Pricefeed.encodeVarintPriceFeed
  rw [encodeVarintMarket_loop_eq]
  rfl

theorem varintBytes_length_le (v : Nat) (hv : v < 2 ^ 32) : (varintBytes v).length ≤ 5 := by
  rw [← sovMarket_eq_length]
  unfold sovMarket
  have h1 : v ||| 1 < 2 ^ 32 := Nat.or_lt_two_pow hv (by norm_num)
  have := Pricefeed.Len64_le 32 _ h1
  omega

theorem varintBytes_length_pos (v : Nat) : 1 ≤ (varintBytes v).length := by
  by_cases hv : v < 128
  · rw [Pricefeed.varintBytes_lt v hv]
    simp
  · rw [Pricefeed.varintBytes_ge v (by omega)]
    simp

theorem packVarint_eq (cap fuel : Nat) : ∀ (written : List Nat) (num : Nat),
    num ≤ fuel → written.length + (varintBytes num).length ≤ cap →
    packVarint cap fuel written num = Outcome.ret (written ++ varintBytes num) := by
  induction fuel with
  | zero =>
    intro written num hn hcap
    have : num = 0 := by omega
    subst this
    rw [Pricefeed.varintBytes_lt 0 (by norm_num)] at hcap ⊢
    simp only [List.length_singleton] at hcap
    rw [packVarint, if_pos (by omega)]
  | succ n ih =>
    intro written num hn hcap
    by_cases hlt : num < 128
    · rw [Pricefeed.varintBytes_lt num hlt] at hcap ⊢
      simp only [List.length_singleton] at hcap
      rw [packVarint, if_neg (by omega), if_pos (by omega)]
      have : num % 256 = num := Nat.mod_eq_of_lt (by omega)
      rw [this]
    · have hge : 128 ≤ num := by omega
      rw [Pricefeed.varintBytes_ge num hge] at hcap ⊢
      simp only [List.length_cons] at hcap
      rw [packVarint, if_pos hge, if_pos (by omega), Pricefeed.hi_byte,
        Nat.shiftRight_eq_div_pow, ih _ _ (by norm_num; omega)
          (by simp only [List.length_append, List.length_singleton]; norm_num; omega)]
      simp

theorem packExchanges_eq (cap : Nat) : ∀ (exchanges written : List Nat),
    written.length + (exchanges.map varintBytes).flatten.length ≤ cap →
    packExchanges cap exchanges written =
      Outcome.ret (written ++ (exchanges.map varintBytes).flatten) := by
  intro exchanges
  induction exchanges with
  | nil => intro written _; simp [packExchanges]
  | cons num rest ih =>
    intro written hcap
    simp only [List.map_cons, List.flatten_cons, List.length_append] at hcap
    rw [packExchanges, packVarint_eq cap num written num (le_refl _) (by omega)]
    simp only
    rw [ih _ (by simp only [List.length_append]; omega)]
    simp

theorem packed_length_le (exchanges : List Nat) (h : ∀ e ∈ exchanges, e < 2 ^ 32) :
    (exchanges.map varintBytes).flatten.length ≤ exchanges.length * 10 := by
  induction exchanges with
  | nil => simp
  | cons a l ih =>
    have h1 := varintBytes_length_le a (h a (List.mem_cons_self _ _))
    have h2 := ih (fun e he => h e (List.mem_cons_of_mem _ he))
    simp only [List.map_cons, List.flatten_cons, List.length_append, List.length_cons]
    omega

theorem foldl_sovMarket (exchanges : List Nat) : ∀ n : Nat,
    exchanges.foldl (fun l e => l + sovMarket e) n =
      n + (exchanges.map varintBytes).flatten.length := by
  induction exchanges with
  | nil => intro n; rfl
  | cons a l ih =>
    intro n
    rw [List.foldl_cons, ih, sovMarket_eq_length]
    simp only [List.map_cons, List.flatten_cons, List.length_append]
    omega

/-- `MarshalToSizedBuffer` writes the wire format and does not panic. -/
theorem Market_MarshalToSizedBuffer_eq (m : Market)
    (hExponent : -2 ^ 31 ≤ m.Exponent ∧ m.Exponent < 2 ^ 31)
    (hExchanges : ∀ e ∈ m.Exchanges.getD [], e < 2 ^ 32) :
    m.MarshalToSizedBuffer = Outcome.ret m.wire := by
  unfold Market.MarshalToSizedBuffer Market.wire
  simp only [encodeVarintMarket_eq]
  rw [zigzag32Encode_eq m.Exponent hExponent.1 hExponent.2]
  have hpack := packExchanges_eq ((m.Exchanges.getD []).length * 10) (m.Exchanges.getD []) []
    (by simpa using packed_length_le _ hExchanges)
  simp only [hpack, List.nil_append]
  by_cases h4 : m.Exchanges.getD [] = []
  · simp only [h4, List.length_nil, gt_iff_lt, lt_self_iff_false, if_false, ne_eq,
      not_true_eq_false, List.append_nil]
    by_cases h1 : m.Id = 0 <;> by_cases h2 : m.Pair = [] <;> by_cases h3 : m.Exponent = 0 <;>
      by_cases h5 : m.MinExchanges = 0 <;> by_cases h6 : m.MinPriceChangePpm = 0 <;>
      by_cases h7 : m.Price = 0 <;> simp [h1, h2, h3, h5, h6, h7, List.length_pos]
  · simp only [gt_iff_lt, List.length_pos.mpr h4, if_true, ne_eq, h4, not_false_eq_true]
    by_cases h1 : m.Id = 0 <;> by_cases h2 : m.Pair = [] <;> by_cases h3 : m.Exponent = 0 <;>
      by_cases h5 : m.MinExchanges = 0 <;> by_cases h6 : m.MinPriceChangePpm = 0 <;>
      by_cases h7 : m.Price = 0 <;> simp [h1, h2, h3, h5, h6, h7, List.length_pos]

/-- `Size` is the length of the wire format. -/
theorem Market_Size_eq (m : Market)
    (hExponent : -2 ^ 31 ≤ m.Exponent ∧ m.Exponent < 2 ^ 31) :
    m.Size = m.wire.length := by
  unfold Market.Size Market.wire
  rw [sozMarket_toUint64 m.Exponent hExponent.1 hExponent.2,
    zigzag32Encode_eq m.Exponent hExponent.1 hExponent.2]
  simp only [foldl_sovMarket]
  simp only [sovMarket_eq_length]
  generalize ((m.Exchanges.getD []).map varintBytes).flatten = packed
  by_cases h1 : m.Id = 0 <;> by_cases h2 : m.Pair = [] <;> by_cases h3 : m.Exponent = 0 <;>
    by_cases h4 : m.Exchanges.getD [] = [] <;> by_cases h5 : m.MinExchanges = 0 <;>
    by_cases h6 : m.MinPriceChangePpm = 0 <;> by_cases h7 : m.Price = 0 <;>
    simp [h1, h2, h3, h4, h5, h6, h7, List.length_pos] <;> omega

/-- `Marshal` returns the wire format and does not panic. -/
theorem Market_Marshal_eq (m : Market)
    (hExponent : -2 ^ 31 ≤ m.Exponent ∧ m.Exponent < 2 ^ 31)
    (hExchanges : ∀ e ∈ m.Exchanges.getD [], e < 2 ^ 32) :
    m.Marshal = Outcome.ret m.wire := by
  unfold Market.Marshal
  rw [Market_MarshalToSizedBuffer_eq m hExponent hExchanges, Market_Size_eq m hExponent]
  simp

/-! ## Lemmas on unmarshalling the wire format -/

theorem Market_readVarint_cons (width l shift acc iNdEx b : Nat) (rest : List Nat) (h : shift < 64)
    (hl : iNdEx < l) :
    readVarint width l shift acc iNdEx (b :: rest) =
      if b < 0x80 then
        Result.ok (acc ||| ((b &&& 0x7F) <<< shift) % 2 ^ width, iNdEx + 1, rest)
      else
        readVarint width l (shift + 7) (acc ||| ((b &&& 0x7F) <<< shift) % 2 ^ width)
          (iNdEx + 1) rest := by
  rw [readVarint, if_neg (by omega), if_neg (by omega)]

/-- A varint that the reader of the price feed accepts is accepted within data
of length `l` that holds it. -/
theorem readVarint_of_ok (width l : Nat) : ∀ (dAtA : List Nat) (shift acc iNdEx : Nat)
    (r : Nat × Nat × List Nat),
    Pricefeed.readVarint width shift acc iNdEx dAtA = Except.ok r →
    iNdEx + dAtA.length ≤ l →
    readVarint width l shift acc iNdEx dAtA = Result.ok r := by
  intro dAtA
  induction dAtA with
  | nil =>
    intro shift acc iNdEx r h _
    rw [Pricefeed.readVarint] at h
    split at h <;> simp at h
  | cons b rest ih =>
    intro shift acc iNdEx r h hl
    simp only [List.length_cons] at hl
    by_cases hs : shift ≥ 64
    · rw [Pricefeed.readVarint, if_pos hs] at h
      simp at h
    · rw [Pricefeed.readVarint_cons _ _ _ _ _ _ (by omega)] at h
      rw [Market_readVarint_cons _ _ _ _ _ _ _ (by omega) (by omega)]
      by_cases hb : b < 0x80
      · rw [if_pos hb] at h ⊢
        simp only [Except.ok.injEq] at h
        rw [h]
      · rw [if_neg hb] at h ⊢
        exact ih _ _ _ _ h (by omega)

theorem Market_readVarint_value (width l v iNdEx : Nat) (rest : List Nat)
    (hv : v < 2 ^ width) (hw : width ≤ 64) (hl : iNdEx + (varintBytes v).length + rest.length ≤ l) :
    readVarint width l 0 0 iNdEx (varintBytes v ++ rest) =
      Result.ok (v, iNdEx + (varintBytes v).length, rest) :=
  readVarint_of_ok width l _ 0 0 iNdEx _ (Pricefeed.readVarint_value width v iNdEx rest hv hw)
    (by simp only [List.length_append]; omega)

theorem Market_readVarint_tag (l t iNdEx : Nat) (rest : List Nat) (ht : t < 128)
    (hl : iNdEx + 1 + rest.length ≤ l) :
    readVarint 64 l 0 0 iNdEx (t :: rest) = Result.ok (t, iNdEx + 1, rest) :=
  readVarint_of_ok 64 l _ 0 0 iNdEx _ (Pricefeed.readVarint_tag t iNdEx rest ht)
    (by simp only [List.length_cons]; omega)

theorem Market_loop_nil (l fuel : Nat) (m : Market) (dAtA : List Nat) :
    Market.Unmarshal.loop l fuel m l dAtA = Result.ok m := by
  cases fuel <;> simp [Market.Unmarshal.loop]

theorem Market_loop_Id (l fuel iNdEx v : Nat) (m : Market) (rest : List Nat) (hv : v < 2 ^ 32)
    (hl : iNdEx + 1 + (varintBytes v).length + rest.length ≤ l) :
    Market.Unmarshal.loop l (fuel + 1) m iNdEx (0x08 :: (varintBytes v ++ rest)) =
      Market.Unmarshal.loop l fuel { m with Id := v } (iNdEx + 1 + (varintBytes v).length)
        rest := by
  have hpos := varintBytes_length_pos v
  rw [Market.Unmarshal.loop, if_neg (by omega)]
  simp only [Market_readVarint_tag l 0x08 iNdEx (varintBytes v ++ rest) (by norm_num)
      (by simp only [List.length_append]; omega),
    Market_readVarint_value 32 l v (iNdEx + 1) rest hv (by norm_num) (by omega)]
  have h1 : toInt32 ((0x08 >>> 3 : Nat) : Int) = 1 := by decide
  have h2 : 0x08 &&& 0x7 = 0 := by decide
  simp only [h1, h2]
  simp

theorem Market_loop_Exponent (l fuel iNdEx v : Nat) (m : Market) (rest : List Nat)
    (hv : v < 2 ^ 32) (hl : iNdEx + 1 + (varintBytes v).length + rest.length ≤ l) :
    Market.Unmarshal.loop l (fuel + 1) m iNdEx (0x18 :: (varintBytes v ++ rest)) =
      Market.Unmarshal.loop l fuel { m with Exponent := zigzag32Decode v }
        (iNdEx + 1 + (varintBytes v).length) rest := by
  have hpos := varintBytes_length_pos v
  rw [Market.Unmarshal.loop, if_neg (by omega)]
  simp only [Market_readVarint_tag l 0x18 iNdEx (varintBytes v ++ rest) (by norm_num)
      (by simp only [List.length_append]; omega),
    Market_readVarint_value 32 l v (iNdEx + 1) rest hv (by norm_num) (by omega)]
  have h1 : toInt32 ((0x18 >>> 3 : Nat) : Int) = 3 := by decide
  have h2 : 0x18 &&& 0x7 = 0 := by decide
  simp only [h1, h2]
  simp

theorem Market_loop_MinExchanges (l fuel iNdEx v : Nat) (m : Market) (rest : List Nat)
    (hv : v < 2 ^ 32) (hl : iNdEx + 1 + (varintBytes v).length + rest.length ≤ l) :
    Market.Unmarshal.loop l (fuel + 1) m iNdEx (0x28 :: (varintBytes v ++ rest)) =
      Market.Unmarshal.loop l fuel { m with MinExchanges := v }
        (iNdEx + 1 + (varintBytes v).length) rest := by
  have hpos := varintBytes_length_pos v
  rw [Market.Unmarshal.loop, if_neg (by omega)]
  simp only [Market_readVarint_tag l 0x28 iNdEx (varintBytes v ++ rest) (by norm_num)
      (by simp only [List.length_append]; omega),
    Market_readVarint_value 32 l v (iNdEx + 1) rest hv (by norm_num) (by omega)]
  have h1 : toInt32 ((0x28 >>> 3 : Nat) : Int) = 5 := by decide
  have h2 : 0x28 &&& 0x7 = 0 := by decide
  simp only [h1, h2]
  simp

theorem Market_loop_MinPriceChangePpm (l fuel iNdEx v : Nat) (m : Market) (rest : List Nat)
    (hv : v < 2 ^ 32) (hl : iNdEx + 1 + (varintBytes v).length + rest.length ≤ l) :
    Market.Unmarshal.loop l (fuel + 1) m iNdEx (0x30 :: (varintBytes v ++ rest)) =
      Market.Unmarshal.loop l fuel { m with MinPriceChangePpm := v }
        (iNdEx + 1 + (varintBytes v).length) rest := by
  have hpos := varintBytes_length_pos v
  rw [Market.Unmarshal.loop, if_neg (by omega)]
  simp only [Market_readVarint_tag l 0x30 iNdEx (varintBytes v ++ rest) (by norm_num)
      (by simp only [List.length_append]; omega),
    Market_readVarint_value 32 l v (iNdEx + 1) rest hv (by norm_num) (by omega)]
  have h1 : toInt32 ((0x30 >>> 3 : Nat) : Int) = 6 := by decide
  have h2 : 0x30 &&& 0x7 = 0 := by decide
  simp only [h1, h2]
  simp

theorem Market_loop_Price (l fuel iNdEx v : Nat) (m : Market) (rest : List Nat)
    (hv : v < 2 ^ 64) (hl : iNdEx + 1 + (varintBytes v).length + rest.length ≤ l) :
    Market.Unmarshal.loop l (fuel + 1) m iNdEx (0x38 :: (varintBytes v ++ rest)) =
      Market.Unmarshal.loop l fuel { m with Price := v }
        (iNdEx + 1 + (varintBytes v).length) rest := by
  have hpos := varintBytes_length_pos v
  rw [Market.Unmarshal.loop, if_neg (by omega)]
  simp only [Market_readVarint_tag l 0x38 iNdEx (varintBytes v ++ rest) (by norm_num)
      (by simp only [List.length_append]; omega),
    Market_readVarint_value 64 l v (iNdEx + 1) rest hv (by norm_num) (by omega)]
  have h1 : toInt32 ((0x38 >>> 3 : Nat) : Int) = 7 := by decide
  have h2 : 0x38 &&& 0x7 = 0 := by decide
  simp only [h1, h2]
  simp

theorem Market_loop_Pair (l fuel iNdEx : Nat) (m : Market) (pair rest : List Nat)
    (hl : iNdEx + 1 + (varintBytes pair.length).length + pair.length + rest.length ≤ l)
    (hl63 : l < 2 ^ 63) :
    Market.Unmarshal.loop l (fuel + 1) m iNdEx
        (0x12 :: (varintBytes pair.length ++ pair) ++ rest) =
      Market.Unmarshal.loop l fuel { m with Pair := pair }
        (iNdEx + 1 + (varintBytes pair.length).length + pair.length) rest := by
  have hlen : pair.length < 2 ^ 63 := by omega
  rw [List.cons_append, List.append_assoc, Market.Unmarshal.loop, if_neg (by omega)]
  simp only [Market_readVarint_tag l 0x12 iNdEx (varintBytes pair.length ++ (pair ++ rest)) (by norm_num)
      (by simp only [List.length_append]; omega),
    Market_readVarint_value 64 l pair.length (iNdEx + 1) (pair ++ rest) (by omega) (by norm_num)
      (by simp only [List.length_append]; omega)]
  have h1 : toInt32 ((0x12 >>> 3 : Nat) : Int) = 2 := by decide
  have h2 : 0x12 &&& 0x7 = 2 := by decide
  simp only [h1, h2]
  have h3 : ¬ (9223372036854775808 ≤ pair.length) := by omega
  have h4 : ¬ (9223372036854775808 ≤
      iNdEx + 1 + (varintBytes pair.length).length + pair.length) := by
    omega
  have h5 : ¬ (iNdEx + 1 + (varintBytes pair.length).length + pair.length > l) := by omega
  simp [h3, h4, h5, sliceFrom]

theorem unpackExchanges_eq (l postIndex : Nat) (exchanges : List Nat) :
    ∀ (fuel : Nat) (acc : List Nat) (iNdEx : Nat) (rest : List Nat),
    (∀ e ∈ exchanges, e < 2 ^ 32) →
    exchanges.length ≤ fuel →
    iNdEx + (exchanges.map varintBytes).flatten.length = postIndex →
    postIndex + rest.length ≤ l →
    unpackExchanges l postIndex fuel (some acc) iNdEx
        ((exchanges.map varintBytes).flatten ++ rest) =
      Result.ok (some (acc ++ exchanges), postIndex, rest) := by
  induction exchanges with
  | nil =>
    intro fuel acc iNdEx rest _ _ hi _
    simp only [List.map_nil, List.flatten_nil, List.length_nil, Nat.add_zero] at hi
    subst hi
    cases fuel <;> simp [unpackExchanges]
  | cons a t ih =>
    intro fuel acc iNdEx rest hb hfuel hi hl
    obtain ⟨n, rfl⟩ : ∃ n, fuel = n + 1 := ⟨fuel - 1, by
      simp only [List.length_cons] at hfuel
      omega⟩
    have hpos := varintBytes_length_pos a
    simp only [List.map_cons, List.flatten_cons, List.length_append] at hi
    simp only [List.map_cons, List.flatten_cons, List.append_assoc]
    rw [unpackExchanges, if_neg (by omega)]
    simp only [Market_readVarint_value 32 l a iNdEx ((t.map varintBytes).flatten ++ rest)
      (hb a (List.mem_cons_self _ _)) (by norm_num)
      (by simp only [List.length_append]; omega)]
    rw [appendExchange]
    simp only [Option.getD_some]
    rw [ih n _ _ rest (fun e he => hb e (List.mem_cons_of_mem _ he))
      (by simp only [List.length_cons] at hfuel; omega) (by omega) hl]
    simp

theorem varintBytes_last (v : Nat) : ∃ b ∈ varintBytes v, b < 128 := by
  induction v using Nat.strong_induction_on with
  | _ v ih =>
    by_cases hv : v < 128
    · rw [Pricefeed.varintBytes_lt v hv]
      exact ⟨v, List.mem_singleton_self _, hv⟩
    · rw [Pricefeed.varintBytes_ge v (by omega)]
      obtain ⟨b, hb, hlt⟩ := ih (v / 128) (by omega)
      exact ⟨b, List.mem_cons_of_mem _ hb, hlt⟩

theorem elementCount_ne_zero (exchanges : List Nat) (h : exchanges ≠ []) :
    (((exchanges.map varintBytes).flatten).filter (fun integer => integer < 128)).length ≠ 0 := by
  cases exchanges with
  | nil => exact absurd rfl h
  | cons a t =>
    obtain ⟨b, hb, hlt⟩ := varintBytes_last a
    have hmem : b ∈ ((a :: t).map varintBytes).flatten.filter (fun integer => integer < 128) := by
      rw [List.mem_filter]
      refine ⟨?_, by simpa using hlt⟩
      simp only [List.map_cons, List.flatten_cons, List.mem_append]
      exact Or.inl hb
    intro h0
    rw [List.length_eq_zero] at h0
    rw [h0] at hmem
    simp at hmem

theorem packed_length_pos (exchanges : List Nat) :
    exchanges.length ≤ (exchanges.map varintBytes).flatten.length := by
  induction exchanges with
  | nil => simp
  | cons a t ih =>
    have := varintBytes_length_pos a
    simp only [List.map_cons, List.flatten_cons, List.length_append, List.length_cons]
    omega

theorem Market_loop_Exchanges (l fuel iNdEx : Nat) (m : Market) (exchanges rest : List Nat)
    (hne : exchanges ≠ []) (hb : ∀ e ∈ exchanges, e < 2 ^ 32) (hm : m.Exchanges = none)
    (hl : iNdEx + 1 + (varintBytes (exchanges.map varintBytes).flatten.length).length +
      (exchanges.map varintBytes).flatten.length + rest.length ≤ l)
    (hl63 : l < 2 ^ 63) :
    Market.Unmarshal.loop l (fuel + 1) m iNdEx
        (0x22 :: (varintBytes (exchanges.map varintBytes).flatten.length ++
          (exchanges.map varintBytes).flatten) ++ rest) =
      Market.Unmarshal.loop l fuel { m with Exchanges := some exchanges }
        (iNdEx + 1 + (varintBytes (exchanges.map varintBytes).flatten.length).length +
          (exchanges.map varintBytes).flatten.length) rest := by
  have hcount := elementCount_ne_zero exchanges hne
  have hunpack := fun i => unpackExchanges_eq l
    (i + (exchanges.map varintBytes).flatten.length) exchanges
    (exchanges.map varintBytes).flatten.length [] i rest hb (packed_length_pos exchanges) rfl
  generalize (exchanges.map varintBytes).flatten = packed at hl hcount hunpack ⊢
  have hlen : packed.length < 2 ^ 63 := by omega
  rw [List.cons_append, List.append_assoc, Market.Unmarshal.loop, if_neg (by omega)]
  simp only [Market_readVarint_tag l 0x22 iNdEx (varintBytes packed.length ++ (packed ++ rest)) (by norm_num)
      (by simp only [List.length_append]; omega),
    Market_readVarint_value 64 l packed.length (iNdEx + 1) (packed ++ rest) (by omega) (by norm_num)
      (by simp only [List.length_append]; omega)]
  have h1 : toInt32 ((0x22 >>> 3 : Nat) : Int) = 4 := by decide
  have h2 : 0x22 &&& 0x7 = 2 := by decide
  simp only [h1, h2]
  have h3 : ¬ (9223372036854775808 ≤ packed.length) := by omega
  have h4 : ¬ (9223372036854775808 ≤
      iNdEx + 1 + (varintBytes packed.length).length + packed.length) := by
    omega
  have h5 : ¬ (iNdEx + 1 + (varintBytes packed.length).length + packed.length > l) := by omega
  have h6 := hunpack (iNdEx + 1 + (varintBytes packed.length).length) (by omega)
  simp [h3, h4, h5, sliceFrom, hm, hcount, h6]

theorem Market_opt_Id (l fuel v : Nat) (acc : Market) (rest : List Nat)
    (hv : v < 2 ^ 32) (hacc : acc.Id = 0)
    (hl : ((if v ≠ 0 then 0x08 :: varintBytes v else []) ++ rest).length ≤ l)
    (hfuel : ((if v ≠ 0 then 0x08 :: varintBytes v else []) ++ rest).length ≤ fuel) :
    ∃ fuel2, rest.length ≤ fuel2 ∧
      Market.Unmarshal.loop l fuel acc
          (l - ((if v ≠ 0 then 0x08 :: varintBytes v else []) ++ rest).length)
          ((if v ≠ 0 then 0x08 :: varintBytes v else []) ++ rest) =
        Market.Unmarshal.loop l fuel2 { acc with Id := v } (l - rest.length) rest := by
  by_cases h : v = 0
  · subst h
    refine ⟨fuel, by simpa using hfuel, ?_⟩
    have : { acc with Id := 0 } = acc := by
      cases acc
      simp only at hacc
      subst hacc
      rfl
    rw [this]
    simp
  · simp only [ne_eq, h, not_false_eq_true, if_true, List.cons_append, List.length_cons,
      List.length_append] at hl hfuel ⊢
    obtain ⟨n, rfl⟩ : ∃ n, fuel = n + 1 := ⟨fuel - 1, by omega⟩
    refine ⟨n, by omega, ?_⟩
    rw [Market_loop_Id l n _ v acc rest hv (by omega)]
    congr 1
    omega

theorem Market_opt_MinExchanges (l fuel v : Nat) (acc : Market) (rest : List Nat)
    (hv : v < 2 ^ 32) (hacc : acc.MinExchanges = 0)
    (hl : ((if v ≠ 0 then 0x28 :: varintBytes v else []) ++ rest).length ≤ l)
    (hfuel : ((if v ≠ 0 then 0x28 :: varintBytes v else []) ++ rest).length ≤ fuel) :
    ∃ fuel2, rest.length ≤ fuel2 ∧
      Market.Unmarshal.loop l fuel acc
          (l - ((if v ≠ 0 then 0x28 :: varintBytes v else []) ++ rest).length)
          ((if v ≠ 0 then 0x28 :: varintBytes v else []) ++ rest) =
        Market.Unmarshal.loop l fuel2 { acc with MinExchanges := v } (l - rest.length) rest := by
  by_cases h : v = 0
  · subst h
    refine ⟨fuel, by simpa using hfuel, ?_⟩
    have : { acc with MinExchanges := 0 } = acc := by
      cases acc
      simp only at hacc
      subst hacc
      rfl
    rw [this]
    simp
  · simp only [ne_eq, h, not_false_eq_true, if_true, List.cons_append, List.length_cons,
      List.length_append] at hl hfuel ⊢
    obtain ⟨n, rfl⟩ : ∃ n, fuel = n + 1 := ⟨fuel - 1, by omega⟩
    refine ⟨n, by omega, ?_⟩
    rw [Market_loop_MinExchanges l n _ v acc rest hv (by omega)]
    congr 1
    omega

theorem Market_opt_MinPriceChangePpm (l fuel v : Nat) (acc : Market) (rest : List Nat)
    (hv : v < 2 ^ 32) (hacc : acc.MinPriceChangePpm = 0)
    (hl : ((if v ≠ 0 then 0x30 :: varintBytes v else []) ++ rest).length ≤ l)
    (hfuel : ((if v ≠ 0 then 0x30 :: varintBytes v else []) ++ rest).length ≤ fuel) :
    ∃ fuel2, rest.length ≤ fuel2 ∧
      Market.Unmarshal.loop l fuel acc
          (l - ((if v ≠ 0 then 0x30 :: varintBytes v else []) ++ rest).length)
          ((if v ≠ 0 then 0x30 :: varintBytes v else []) ++ rest) =
        Market.Unmarshal.loop l fuel2 { acc with MinPriceChangePpm := v } (l - rest.length) rest := by
  by_cases h : v = 0
  · subst h
    refine ⟨fuel, by simpa using hfuel, ?_⟩
    have : { acc with MinPriceChangePpm := 0 } = acc := by
      cases acc
      simp only at hacc
      subst hacc
      rfl
    rw [this]
    simp
  · simp only [ne_eq, h, not_false_eq_true, if_true, List.cons_append, List.length_cons,
      List.length_append] at hl hfuel ⊢
    obtain ⟨n, rfl⟩ : ∃ n, fuel = n + 1 := ⟨fuel - 1, by omega⟩
    refine ⟨n, by omega, ?_⟩
    rw [Market_loop_MinPriceChangePpm l n _ v acc rest hv (by omega)]
    congr 1
    omega

theorem Market_opt_Price (l fuel v : Nat) (acc : Market) (rest : List Nat)
    (hv : v < 2 ^ 64) (hacc : acc.Price = 0)
    (hl : ((if v ≠ 0 then 0x38 :: varintBytes v else []) ++ rest).length ≤ l)
    (hfuel : ((if v ≠ 0 then 0x38 :: varintBytes v else []) ++ rest).length ≤ fuel) :
    ∃ fuel2, rest.length ≤ fuel2 ∧
      Market.Unmarshal.loop l fuel acc
          (l - ((if v ≠ 0 then 0x38 :: varintBytes v else []) ++ rest).length)
          ((if v ≠ 0 then 0x38 :: varintBytes v else []) ++ rest) =
        Market.Unmarshal.loop l fuel2 { acc with Price := v } (l - rest.length) rest := by
  by_cases h : v = 0
  · subst h
    refine ⟨fuel, by simpa using hfuel, ?_⟩
    have : { acc with Price := 0 } = acc := by
      cases acc
      simp only at hacc
      subst hacc
      rfl
    rw [this]
    simp
  · simp only [ne_eq, h, not_false_eq_true, if_true, List.cons_append, List.length_cons,
      List.length_append] at hl hfuel ⊢
    obtain ⟨n, rfl⟩ : ∃ n, fuel = n + 1 := ⟨fuel - 1, by omega⟩
    refine ⟨n, by omega, ?_⟩
    rw [Market_loop_Price l n _ v acc rest hv (by omega)]
    congr 1
    omega

theorem Market_opt_Pair (l fuel : Nat) (acc : Market) (pair rest : List Nat)
    (hacc : acc.Pair = []) (hl63 : l < 2 ^ 63)
    (hl : ((if pair ≠ [] then 0x12 :: (varintBytes pair.length ++ pair) else []) ++ rest).length
      ≤ l)
    (hfuel :
      ((if pair ≠ [] then 0x12 :: (varintBytes pair.length ++ pair) else []) ++ rest).length
        ≤ fuel) :
    ∃ fuel2, rest.length ≤ fuel2 ∧
      Market.Unmarshal.loop l fuel acc
          (l - ((if pair ≠ [] then 0x12 :: (varintBytes pair.length ++ pair) else []) ++
            rest).length)
          ((if pair ≠ [] then 0x12 :: (varintBytes pair.length ++ pair) else []) ++ rest) =
        Market.Unmarshal.loop l fuel2 { acc with Pair := pair } (l - rest.length) rest := by
  by_cases h : pair = []
  · subst h
    refine ⟨fuel, by simpa using hfuel, ?_⟩
    have : { acc with Pair := [] } = acc := by
      cases acc
      simp only at hacc
      subst hacc
      rfl
    rw [this]
    simp
  · simp only [ne_eq, h, not_false_eq_true, if_true, List.length_cons,
      List.length_append] at hl hfuel ⊢
    obtain ⟨n, rfl⟩ : ∃ n, fuel = n + 1 := ⟨fuel - 1, by omega⟩
    refine ⟨n, by omega, ?_⟩
    rw [Market_loop_Pair l n _ acc pair rest (by omega) hl63]
    congr 1
    omega

theorem Market_opt_Exponent (l fuel : Nat) (e : Int) (acc : Market) (rest : List Nat)
    (hlo : -2 ^ 31 ≤ e) (hhi : e < 2 ^ 31) (hacc : acc.Exponent = 0)
    (hl : ((if e ≠ 0 then
        0x18 :: varintBytes (if 0 ≤ e then 2 * e else -2 * e - 1).toNat else []) ++ rest).length
      ≤ l)
    (hfuel : ((if e ≠ 0 then
        0x18 :: varintBytes (if 0 ≤ e then 2 * e else -2 * e - 1).toNat else []) ++ rest).length
      ≤ fuel) :
    ∃ fuel2, rest.length ≤ fuel2 ∧
      Market.Unmarshal.loop l fuel acc
          (l - ((if e ≠ 0 then
            0x18 :: varintBytes (if 0 ≤ e then 2 * e else -2 * e - 1).toNat else []) ++
            rest).length)
          ((if e ≠ 0 then
            0x18 :: varintBytes (if 0 ≤ e then 2 * e else -2 * e - 1).toNat else []) ++ rest) =
        Market.Unmarshal.loop l fuel2 { acc with Exponent := e } (l - rest.length) rest := by
  rw [← zigzag32Encode_eq e hlo hhi] at hl hfuel ⊢
  by_cases h : e = 0
  · subst h
    refine ⟨fuel, by simpa using hfuel, ?_⟩
    have : { acc with Exponent := 0 } = acc := by
      cases acc
      simp only at hacc
      subst hacc
      rfl
    rw [this]
    simp
  · simp only [ne_eq, h, not_false_eq_true, if_true, List.cons_append, List.length_cons,
      List.length_append] at hl hfuel ⊢
    obtain ⟨n, rfl⟩ : ∃ n, fuel = n + 1 := ⟨fuel - 1, by omega⟩
    refine ⟨n, by omega, ?_⟩
    rw [Market_loop_Exponent l n _ (zigzag32Encode e) acc rest (zigzag32Encode_lt e hlo hhi)
      (by omega), zigzag32_roundtrip e hlo hhi]
    congr 1
    omega

theorem Market_opt_Exchanges (l fuel : Nat) (acc : Market) (exchanges rest : List Nat)
    (hb : ∀ e ∈ exchanges, e < 2 ^ 32) (hacc : acc.Exchanges = none) (hl63 : l < 2 ^ 63)
    (hl : ((if exchanges ≠ [] then
        0x22 :: (varintBytes (exchanges.map varintBytes).flatten.length ++
          (exchanges.map varintBytes).flatten) else []) ++ rest).length ≤ l)
    (hfuel : ((if exchanges ≠ [] then
        0x22 :: (varintBytes (exchanges.map varintBytes).flatten.length ++
          (exchanges.map varintBytes).flatten) else []) ++ rest).length ≤ fuel) :
    ∃ fuel2, rest.length ≤ fuel2 ∧
      Market.Unmarshal.loop l fuel acc
          (l - ((if exchanges ≠ [] then
            0x22 :: (varintBytes (exchanges.map varintBytes).flatten.length ++
              (exchanges.map varintBytes).flatten) else []) ++ rest).length)
          ((if exchanges ≠ [] then
            0x22 :: (varintBytes (exchanges.map varintBytes).flatten.length ++
              (exchanges.map varintBytes).flatten) else []) ++ rest) =
        Market.Unmarshal.loop l fuel2
          { acc with Exchanges := if exchanges = [] then none else some exchanges }
          (l - rest.length) rest := by
  by_cases h : exchanges = []
  · subst h
    refine ⟨fuel, by simpa using hfuel, ?_⟩
    have : { acc with Exchanges := if ([] : List Nat) = [] then none else some [] } = acc := by
      cases acc
      simp only at hacc
      subst hacc
      rfl
    rw [this]
    simp
  · simp only [ne_eq, h, not_false_eq_true, if_true, if_false, List.length_cons,
      List.length_append] at hl hfuel ⊢
    obtain ⟨n, rfl⟩ : ∃ n, fuel = n + 1 := ⟨fuel - 1, by omega⟩
    refine ⟨n, by omega, ?_⟩
    rw [Market_loop_Exchanges l n _ acc exchanges rest h hb hacc (by omega) hl63]
    congr 1
    omega

/-- Unmarshalling the wire format of a market into the empty message gives the
market back, its exchanges as the nil slice when there are none. -/
theorem Market_Unmarshal_wire (m : Market)
    (hId : m.Id < 2 ^ 32) (hExponent : -2 ^ 31 ≤ m.Exponent ∧ m.Exponent < 2 ^ 31)
    (hExchanges : ∀ e ∈ m.Exchanges.getD [], e < 2 ^ 32)
    (hMinExchanges : m.MinExchanges < 2 ^ 32)
    (hMinPriceChangePpm : m.MinPriceChangePpm < 2 ^ 32) (hPrice : m.Price < 2 ^ 64)
    (hlen : m.wire.length < 2 ^ 63) :
    Market.Unmarshal Market.empty m.wire =
      Result.ok { m with
        Exchanges := if m.Exchanges.getD [] = [] then none else m.Exchanges } := by
  unfold Market.Unmarshal
  generalize hl : m.wire.length = l at hlen
  have hstart : Market.Unmarshal.loop l l Market.empty 0 m.wire =
      Market.Unmarshal.loop l l Market.empty (l - m.wire.length) m.wire := by
    rw [hl, Nat.sub_self]
  rw [hstart]
  have hle : m.wire.length ≤ l := le_of_eq hl
  clear hstart hl
  unfold Market.wire at hle ⊢
  simp only [List.append_assoc] at hle ⊢
  have s1 := fun rest => Market_opt_Id l l m.Id Market.empty rest hId rfl
  have s2 := fun fuel rest =>
    Market_opt_Pair l fuel { Market.empty with Id := m.Id } m.Pair rest rfl hlen
  have s3 := fun fuel rest => Market_opt_Exponent l fuel m.Exponent
    { Market.empty with Id := m.Id, Pair := m.Pair } rest hExponent.1 hExponent.2 rfl
  have s4 := fun fuel rest => Market_opt_Exchanges l fuel
    { Market.empty with Id := m.Id, Pair := m.Pair, Exponent := m.Exponent }
    (m.Exchanges.getD []) rest hExchanges rfl hlen
  have s5 := fun fuel rest => Market_opt_MinExchanges l fuel m.MinExchanges
    { Market.empty with
      Id := m.Id, Pair := m.Pair, Exponent := m.Exponent,
      Exchanges := if m.Exchanges.getD [] = [] then none else some (m.Exchanges.getD []) }
    rest hMinExchanges rfl
  have s6 := fun fuel rest => Market_opt_MinPriceChangePpm l fuel m.MinPriceChangePpm
    { Market.empty with
      Id := m.Id, Pair := m.Pair, Exponent := m.Exponent,
      Exchanges := if m.Exchanges.getD [] = [] then none else some (m.Exchanges.getD []),
      MinExchanges := m.MinExchanges }
    rest hMinPriceChangePpm rfl
  have s7 := fun fuel => Market_opt_Price l fuel m.Price
    { Market.empty with
      Id := m.Id, Pair := m.Pair, Exponent := m.Exponent,
      Exchanges := if m.Exchanges.getD [] = [] then none else some (m.Exchanges.getD []),
      MinExchanges := m.MinExchanges, MinPriceChangePpm := m.MinPriceChangePpm }
    [] hPrice rfl
  generalize (if m.Id ≠ 0 then 0x08 :: varintBytes m.Id else []) = F1 at hle s1 ⊢
  generalize (if m.Pair ≠ [] then 0x12 :: (varintBytes m.Pair.length ++ m.Pair) else []) = F2
    at hle s2 ⊢
  generalize (if m.Exponent ≠ 0 then
    0x18 :: varintBytes (if 0 ≤ m.Exponent then 2 * m.Exponent else -2 * m.Exponent - 1).toNat
    else []) = F3 at hle s3 ⊢
  generalize (if m.Exchanges.getD [] ≠ [] then
    0x22 :: (varintBytes ((m.Exchanges.getD []).map varintBytes).flatten.length ++
      ((m.Exchanges.getD []).map varintBytes).flatten)
    else []) = F4 at hle s4 ⊢
  generalize (if m.MinExchanges ≠ 0 then 0x28 :: varintBytes m.MinExchanges else []) = F5
    at hle s5 ⊢
  generalize (if m.MinPriceChangePpm ≠ 0 then 0x30 :: varintBytes m.MinPriceChangePpm else [])
    = F6 at hle s6 ⊢
  generalize (if m.Price ≠ 0 then 0x38 :: varintBytes m.Price else []) = F7 at hle s7 ⊢
  simp only [List.length_append, List.append_nil, List.length_nil, Nat.sub_zero]
    at hle s1 s2 s3 s4 s5 s6 s7 ⊢
  obtain ⟨f1, hf1, e1⟩ := s1 (F2 ++ (F3 ++ (F4 ++ (F5 ++ (F6 ++ F7)))))
    (by simp only [List.length_append]; omega) (by simp only [List.length_append]; omega)
  simp only [List.length_append] at hf1 e1
  rw [e1]
  obtain ⟨f2, hf2, e2⟩ := s2 f1 (F3 ++ (F4 ++ (F5 ++ (F6 ++ F7))))
    (by simp only [List.length_append]; omega) (by simp only [List.length_append]; omega)
  simp only [List.length_append] at hf2 e2
  rw [e2]
  obtain ⟨f3, hf3, e3⟩ := s3 f2 (F4 ++ (F5 ++ (F6 ++ F7)))
    (by simp only [List.length_append]; omega) (by simp only [List.length_append]; omega)
  simp only [List.length_append] at hf3 e3
  rw [e3]
  obtain ⟨f4, hf4, e4⟩ := s4 f3 (F5 ++ (F6 ++ F7))
    (by simp only [List.length_append]; omega) (by simp only [List.length_append]; omega)
  simp only [List.length_append] at hf4 e4
  rw [e4]
  obtain ⟨f5, hf5, e5⟩ := s5 f4 (F6 ++ F7)
    (by simp only [List.length_append]; omega) (by simp only [List.length_append]; omega)
  simp only [List.length_append] at hf5 e5
  rw [e5]
  obtain ⟨f6, hf6, e6⟩ := s6 f5 F7 (by omega) (by omega)
  rw [e6]
  obtain ⟨f7, _, e7⟩ := s7 f6 (by omega) (by omega)
  rw [e7, Market_loop_nil]
  obtain ⟨id, pair, exponent, exchanges, minExchanges, ppm, price⟩ := m
  cases exchanges with
  | none => rfl
  | some xs =>
    by_cases hx : xs = []
    · simp [Market.empty, hx]
    · simp [Market.empty, hx]

/-! ## Lemmas on unmarshalling arbitrary data -/

theorem returns_ok {α : Type} (a : α) : (Result.ok a).returns = true := rfl

theorem returns_error {α : Type} (err : WireError) :
    (Result.error err : Result α).returns = true := rfl

/-- On data of length `l`, of which `dAtA` is the part from `iNdEx` on, the
varint loop reads at least one byte and stays within the data, or returns an
error. -/
theorem readVarint_settled (width l : Nat) : ∀ (dAtA : List Nat) (shift acc iNdEx : Nat),
    iNdEx + dAtA.length = l →
    (∃ v i rest, readVarint width l shift acc iNdEx dAtA = Result.ok (v, i, rest) ∧
      iNdEx < i ∧ i + rest.length = l) ∨
    (∃ err, readVarint width l shift acc iNdEx dAtA = Result.error err) := by
  intro dAtA
  induction dAtA with
  | nil =>
    intro shift acc iNdEx hinv
    simp only [List.length_nil, Nat.add_zero] at hinv
    right
    rw [readVarint]
    by_cases hs : shift ≥ 64
    · exact ⟨_, by rw [if_pos hs]⟩
    · exact ⟨_, by rw [if_neg hs, if_pos (by omega)]⟩
  | cons b rest ih =>
    intro shift acc iNdEx hinv
    simp only [List.length_cons] at hinv
    by_cases hs : shift ≥ 64
    · right
      exact ⟨_, by rw [readVarint, if_pos hs]⟩
    · rw [Market_readVarint_cons _ _ _ _ _ _ _ (by omega) (by omega)]
      by_cases hb : b < 0x80
      · left
        exact ⟨_, _, _, by rw [if_pos hb], by omega, by omega⟩
      · rw [if_neg hb]
        rcases ih (shift + 7) (acc ||| ((b &&& 0x7F) <<< shift) % 2 ^ width) (iNdEx + 1)
          (by omega) with ⟨v, i, r, h, hlt, hinv2⟩ | ⟨err, h⟩
        · left
          exact ⟨v, i, r, h, by omega, hinv2⟩
        · right
          exact ⟨err, h⟩

theorem length_drop_add (dAtA : List Nat) (iNdEx : Nat) (h : iNdEx ≤ dAtA.length) :
    iNdEx + (dAtA.drop iNdEx).length = dAtA.length := by
  rw [List.length_drop]
  omega

/-- The loop of `skipMarket` returns a larger index or an error when it is given
a round for every byte that is left. -/
theorem skipMarket_loop_settled (dAtA : List Nat) : ∀ (fuel iNdEx depth : Nat),
    dAtA.length ≤ fuel + iNdEx →
    (∃ n, skipMarket.loop dAtA dAtA.length fuel iNdEx depth = Result.ok n ∧ iNdEx < n) ∨
    (∃ err, skipMarket.loop dAtA dAtA.length fuel iNdEx depth = Result.error err) := by
  intro fuel
  induction fuel with
  | zero =>
    intro iNdEx depth hf
    right
    rw [skipMarket.loop, if_neg (by omega)]
    exact ⟨_, rfl⟩
  | succ n ih =>
    intro iNdEx depth hf
    rw [skipMarket.loop]
    by_cases hil : iNdEx < dAtA.length
    swap
    · right
      rw [if_pos hil]
      exact ⟨_, rfl⟩
    rw [if_neg (not_not.mpr hil)]
    rcases readVarint_settled 64 dAtA.length (dAtA.drop iNdEx) 0 0 iNdEx
      (length_drop_add dAtA iNdEx (by omega)) with ⟨wire, i1, rest1, hr, hlt, hinv1⟩ | ⟨err, hr⟩
    swap
    · right
      rw [hr]
      exact ⟨_, rfl⟩
    rw [hr]
    dsimp only
    have hrec : ∀ i d, iNdEx < i →
        (∃ k, (if i ≥ 2 ^ 63 then Result.error WireError.ErrInvalidLengthMarket
          else if d = 0 then Result.ok i
          else skipMarket.loop dAtA dAtA.length n i d) = Result.ok k ∧ iNdEx < k) ∨
        (∃ err, (if i ≥ 2 ^ 63 then Result.error WireError.ErrInvalidLengthMarket
          else if d = 0 then Result.ok i
          else skipMarket.loop dAtA dAtA.length n i d) = Result.error err) := by
      intro i d hi
      by_cases h63 : i ≥ 2 ^ 63
      · right
        rw [if_pos h63]
        exact ⟨_, rfl⟩
      · rw [if_neg h63]
        by_cases hd : d = 0
        · left
          rw [if_pos hd]
          exact ⟨i, rfl, hi⟩
        · rw [if_neg hd]
          rcases ih i d (by omega) with ⟨k, hk, hlt2⟩ | ⟨err, hk⟩
          · left
            exact ⟨k, hk, by omega⟩
          · right
            exact ⟨err, hk⟩
    generalize wire &&& 0x7 = wireType
    by_cases w0 : wireType = 0
    · rw [if_pos w0]
      rcases readVarint_settled 64 dAtA.length rest1 0 0 i1 hinv1 with
        ⟨v, i2, rest2, hr2, hlt2, _⟩ | ⟨err, hr2⟩
      · rw [hr2]
        exact hrec i2 depth (by omega)
      · right
        rw [hr2]
        exact ⟨_, rfl⟩
    rw [if_neg w0]
    by_cases w1 : wireType = 1
    · rw [if_pos w1]
      exact hrec (i1 + 8) depth (by omega)
    rw [if_neg w1]
    by_cases w2 : wireType = 2
    · rw [if_pos w2]
      rcases readVarint_settled 64 dAtA.length rest1 0 0 i1 hinv1 with
        ⟨v, i2, rest2, hr2, hlt2, _⟩ | ⟨err, hr2⟩
      · rw [hr2]
        dsimp only
        by_cases hv : v ≥ 2 ^ 63
        · right
          rw [if_pos hv]
          exact ⟨_, rfl⟩
        · rw [if_neg hv]
          exact hrec (i2 + v) depth (by omega)
      · right
        rw [hr2]
        exact ⟨_, rfl⟩
    rw [if_neg w2]
    by_cases w3 : wireType = 3
    · rw [if_pos w3]
      exact hrec i1 (depth + 1) (by omega)
    rw [if_neg w3]
    by_cases w4 : wireType = 4
    · rw [if_pos w4]
      by_cases hd : depth = 0
      · right
        rw [if_pos hd]
        exact ⟨_, rfl⟩
      · rw [if_neg hd]
        exact hrec i1 (depth - 1) (by omega)
    rw [if_neg w4]
    by_cases w5 : wireType = 5
    · rw [if_pos w5]
      exact hrec (i1 + 4) depth (by omega)
    rw [if_neg w5]
    right
    exact ⟨_, rfl⟩

/-- `skipMarket` returns a positive number of bytes or an error. -/
theorem skipMarket_settled (dAtA : List Nat) :
    (∃ n, skipMarket dAtA = Result.ok n ∧ 0 < n) ∨ (∃ err, skipMarket dAtA = Result.error err) :=
  skipMarket_loop_settled dAtA dAtA.length 0 0 (by omega)

/-- The loop over the packed exchanges ends within the data or returns an
error when it is given a round for every byte of the packed field. -/
theorem unpackExchanges_settled (l postIndex : Nat) :
    ∀ (fuel : Nat) (exchanges : Option (List Nat)) (iNdEx : Nat) (dAtA : List Nat),
    iNdEx + dAtA.length = l → postIndex ≤ fuel + iNdEx →
    (∃ ex i rest, unpackExchanges l postIndex fuel exchanges iNdEx dAtA = Result.ok (ex, i, rest) ∧
      iNdEx ≤ i ∧ i + rest.length = l) ∨
    (∃ err, unpackExchanges l postIndex fuel exchanges iNdEx dAtA = Result.error err) := by
  intro fuel
  induction fuel with
  | zero =>
    intro exchanges iNdEx dAtA hinv hf
    left
    rw [unpackExchanges, if_neg (by omega)]
    exact ⟨_, _, _, rfl, le_refl _, hinv⟩
  | succ n ih =>
    intro exchanges iNdEx dAtA hinv hf
    rw [unpackExchanges]
    by_cases hip : iNdEx < postIndex
    swap
    · left
      rw [if_pos hip]
      exact ⟨_, _, _, rfl, le_refl _, hinv⟩
    rw [if_neg (not_not.mpr hip)]
    rcases readVarint_settled 32 l dAtA 0 0 iNdEx hinv with
      ⟨v, i1, rest1, hr, hlt, hinv1⟩ | ⟨err, hr⟩
    · rw [hr]
      dsimp only
      rcases ih (appendExchange exchanges v) i1 rest1 hinv1 (by omega) with
        ⟨ex, i, rest, h, hle, hinv2⟩ | ⟨err, h⟩
      · left
        exact ⟨ex, i, rest, h, by omega, hinv2⟩
      · right
        exact ⟨err, h⟩
    · right
      rw [hr]
      exact ⟨_, rfl⟩

theorem sliceFrom_some (dAtA : List Nat) (n : Nat) (h : n ≤ dAtA.length) :
    sliceFrom dAtA n = some (dAtA.take n) := by
  rw [sliceFrom, if_pos h]

theorem length_drop_inv (dAtA : List Nat) (iNdEx n l : Nat) (hinv : iNdEx + dAtA.length = l)
    (h : iNdEx + n ≤ l) : iNdEx + n + (dAtA.drop n).length = l := by
  rw [List.length_drop]
  omega

/-- The loop of `Market.Unmarshal` returns a message or an error, without a
panic, when `dAtA` is the data from `iNdEx` on and the loop is given a round
for every byte that is left. -/
theorem Market_loop_settled (l : Nat) : ∀ (fuel : Nat) (m : Market) (iNdEx : Nat)
    (dAtA : List Nat), iNdEx + dAtA.length = l → l ≤ fuel + iNdEx →
    (Market.Unmarshal.loop l fuel m iNdEx dAtA).returns = true := by
  intro fuel
  induction fuel with
  | zero =>
    intro m iNdEx dAtA hinv hf
    rw [Market.Unmarshal.loop, if_neg (by omega), if_neg (by omega)]
    rfl
  | succ n ih =>
    intro m iNdEx dAtA hinv hf
    rw [Market.Unmarshal.loop]
    by_cases hil : iNdEx < l
    swap
    · rw [if_pos hil, if_neg (by omega)]
      rfl
    rw [if_neg (not_not.mpr hil)]
    dsimp only
    rcases readVarint_settled 64 l dAtA 0 0 iNdEx hinv with
      ⟨wire, i1, rest1, hr, hlt, hinv1⟩ | ⟨err, hr⟩
    swap
    · rw [hr]
      rfl
    rw [hr]
    dsimp only
    have h32 : ∀ K : Nat → Market,
        (match readVarint 32 l 0 0 i1 rest1 with
          | Result.error err => Result.error err
          | Result.panic reason => Result.panic reason
          | Result.outOfFuel => Result.outOfFuel
          | Result.ok (v, iNdEx, rest) => Market.Unmarshal.loop l n (K v) iNdEx rest).returns
          = true := by
      intro K
      rcases readVarint_settled 32 l rest1 0 0 i1 hinv1 with
        ⟨v, i2, rest2, hr2, hlt2, hinv2⟩ | ⟨err, hr2⟩
      · rw [hr2]
        exact ih _ _ _ hinv2 (by omega)
      · rw [hr2]
        rfl
    generalize toInt32 ((wire >>> 3 : Nat) : Int) = fieldNum
    generalize wire &&& 0x7 = wireType
    by_cases c4 : wireType = 4
    · rw [if_pos c4]
      rfl
    rw [if_neg c4]
    by_cases c0 : fieldNum ≤ 0
    · rw [if_pos c0]
      rfl
    rw [if_neg c0]
    by_cases f1 : fieldNum = 1
    · rw [if_pos f1]
      by_cases w : wireType ≠ 0
      · rw [if_pos w]
        rfl
      · rw [if_neg w]
        exact h32 (fun v => { m with Id := v })
    rw [if_neg f1]
    by_cases f2 : fieldNum = 2
    · rw [if_pos f2]
      by_cases w : wireType ≠ 2
      · rw [if_pos w]
        rfl
      rw [if_neg w]
      rcases readVarint_settled 64 l rest1 0 0 i1 hinv1 with
        ⟨v, i2, rest2, hr2, hlt2, hinv2⟩ | ⟨err, hr2⟩
      swap
      · rw [hr2]
        rfl
      rw [hr2]
      dsimp only
      by_cases h1 : v ≥ 2 ^ 63
      · rw [if_pos h1]
        rfl
      rw [if_neg h1]
      by_cases h2 : i2 + v ≥ 2 ^ 63
      · rw [if_pos h2]
        rfl
      rw [if_neg h2]
      by_cases h3 : i2 + v > l
      · rw [if_pos h3]
        rfl
      rw [if_neg h3, sliceFrom_some rest2 v (by omega)]
      exact ih _ _ _ (length_drop_inv rest2 i2 v l hinv2 (by omega)) (by omega)
    rw [if_neg f2]
    by_cases f3 : fieldNum = 3
    · rw [if_pos f3]
      by_cases w : wireType ≠ 0
      · rw [if_pos w]
        rfl
      · rw [if_neg w]
        exact h32 (fun v => { m with Exponent := zigzag32Decode v })
    rw [if_neg f3]
    by_cases f4 : fieldNum = 4
    · rw [if_pos f4]
      by_cases w0 : wireType = 0
      · rw [if_pos w0]
        exact h32 (fun v => { m with Exchanges := appendExchange m.Exchanges v })
      rw [if_neg w0]
      by_cases w2 : wireType = 2
      swap
      · rw [if_neg w2]
        rfl
      rw [if_pos w2]
      rcases readVarint_settled 64 l rest1 0 0 i1 hinv1 with
        ⟨v, i2, rest2, hr2, hlt2, hinv2⟩ | ⟨err, hr2⟩
      swap
      · rw [hr2]
        rfl
      rw [hr2]
      dsimp only
      by_cases h1 : v ≥ 2 ^ 63
      · rw [if_pos h1]
        rfl
      rw [if_neg h1]
      by_cases h2 : i2 + v ≥ 2 ^ 63
      · rw [if_pos h2]
        rfl
      rw [if_neg h2]
      by_cases h3 : i2 + v > l
      · rw [if_pos h3]
        rfl
      rw [if_neg h3, sliceFrom_some rest2 v (by omega)]
      dsimp only
      generalize (if (List.filter (fun integer => decide (integer < 128))
        (List.take v rest2)).length ≠ 0 ∧ (m.Exchanges.getD []).length = 0 then some []
        else m.Exchanges) = exchanges
      rcases unpackExchanges_settled l (i2 + v) v exchanges i2 rest2 hinv2 (by omega) with
        ⟨ex, i3, rest3, hr3, hle3, hinv3⟩ | ⟨err, hr3⟩
      · rw [hr3]
        exact ih _ _ _ hinv3 (by omega)
      · rw [hr3]
        rfl
    rw [if_neg f4]
    by_cases f5 : fieldNum = 5
    · rw [if_pos f5]
      by_cases w : wireType ≠ 0
      · rw [if_pos w]
        rfl
      · rw [if_neg w]
        exact h32 (fun v => { m with MinExchanges := v })
    rw [if_neg f5]
    by_cases f6 : fieldNum = 6
    · rw [if_pos f6]
      by_cases w : wireType ≠ 0
      · rw [if_pos w]
        rfl
      · rw [if_neg w]
        exact h32 (fun v => { m with MinPriceChangePpm := v })
    rw [if_neg f6]
    by_cases f7 : fieldNum = 7
    · rw [if_pos f7]
      by_cases w : wireType ≠ 0
      · rw [if_pos w]
        rfl
      · rw [if_neg w]
        rcases readVarint_settled 64 l rest1 0 0 i1 hinv1 with
          ⟨v, i2, rest2, hr2, hlt2, hinv2⟩ | ⟨err, hr2⟩
        · rw [hr2]
          exact ih _ _ _ hinv2 (by omega)
        · rw [hr2]
          rfl
    rw [if_neg f7]
    rcases skipMarket_settled dAtA with ⟨skippy, hs, hpos⟩ | ⟨err, hs⟩
    swap
    · rw [hs]
      rfl
    rw [hs]
    dsimp only
    by_cases h2 : iNdEx + skippy ≥ 2 ^ 63
    · rw [if_pos h2]
      rfl
    rw [if_neg h2]
    by_cases h3 : iNdEx + skippy > l
    · rw [if_pos h3]
      rfl
    rw [if_neg h3]
    exact ih _ _ _ (length_drop_inv dAtA iNdEx skippy l hinv (by omega)) (by omega)

/-- `Market.Unmarshal` returns a message or an error on every input. -/
theorem Market_Unmarshal_settled (m : Market) (dAtA : List Nat) :
    (Market.Unmarshal m dAtA).returns = true :=
  Market_loop_settled dAtA.length dAtA.length m 0 dAtA (by omega) (by omega)

/-! ## Lemmas on data that `Market.Unmarshal` rejects -/

/-- A varint that the data ends in, every byte of it with the continuation
bit, is an unexpected end of the data. -/
theorem readVarint_unterminated (width l : Nat) : ∀ (bs : List Nat) (shift acc iNdEx : Nat),
    (∀ b ∈ bs, 128 ≤ b) → iNdEx + bs.length = l → shift + 7 * bs.length < 64 →
    readVarint width l shift acc iNdEx bs = Result.error WireError.ErrUnexpectedEOF := by
  intro bs
  induction bs with
  | nil =>
    intro shift acc iNdEx _ hl hs
    simp only [List.length_nil, Nat.add_zero, Nat.mul_zero] at hl hs
    rw [readVarint, if_neg (by omega), if_pos (by omega)]
  | cons b rest ih =>
    intro shift acc iNdEx hb hl hs
    simp only [List.length_cons] at hl hs
    have hb1 : ¬ b < 0x80 := by
      have := hb b (List.mem_cons_self _ _)
      omega
    rw [Market_readVarint_cons _ _ _ _ _ _ _ (by omega) (by omega), if_neg hb1]
    exact ih _ _ _ (fun x hx => hb x (List.mem_cons_of_mem _ hx)) (by omega) (by omega)

theorem readVarint_shift (width l shift acc iNdEx : Nat) (dAtA : List Nat) (h : shift ≥ 64) :
    readVarint width l shift acc iNdEx dAtA = Result.error WireError.ErrIntOverflowMarket := by
  cases dAtA <;> rw [readVarint, if_pos h]

/-- A varint with so many continuation bytes that the shift reaches 64 is an
integer overflow: ten bytes when the shift starts at 0. -/
theorem readVarint_overflow (width l : Nat) : ∀ (bs : List Nat) (shift acc iNdEx : Nat)
    (rest : List Nat),
    (∀ b ∈ bs, 128 ≤ b) → iNdEx + bs.length ≤ l → 64 ≤ shift + 7 * bs.length →
    readVarint width l shift acc iNdEx (bs ++ rest) =
      Result.error WireError.ErrIntOverflowMarket := by
  intro bs
  induction bs with
  | nil =>
    intro shift acc iNdEx rest _ _ hs
    simp only [List.length_nil, Nat.mul_zero, Nat.add_zero] at hs
    exact readVarint_shift _ _ _ _ _ _ hs
  | cons b t ih =>
    intro shift acc iNdEx rest hb hl hs
    simp only [List.length_cons] at hl hs
    by_cases h64 : shift ≥ 64
    · exact readVarint_shift _ _ _ _ _ _ h64
    · have hb1 : ¬ b < 0x80 := by
        have := hb b (List.mem_cons_self _ _)
        omega
      rw [List.cons_append, Market_readVarint_cons _ _ _ _ _ _ _ (by omega) (by omega), if_neg hb1]
      exact ih _ _ _ _ (fun x hx => hb x (List.mem_cons_of_mem _ hx)) (by omega) (by omega)

theorem Market_loop_tag_error (l fuel iNdEx : Nat) (m : Market) (dAtA : List Nat)
    (err : WireError) (hi : iNdEx < l)
    (hr : readVarint 64 l 0 0 iNdEx dAtA = Result.error err) :
    Market.Unmarshal.loop l (fuel + 1) m iNdEx dAtA = Result.error err := by
  rw [Market.Unmarshal.loop, if_neg (by omega)]
  dsimp only
  rw [hr]

/-- An error of the varint of a field of wire type 0 is the error of the
loop. The tags are those of the fields 1, 3, 4 (not packed), 5, 6 and 7. -/
theorem Market_loop_value_error (l fuel iNdEx t width : Nat) (m : Market) (rest : List Nat)
    (err : WireError)
    (ht : (t, width) ∈ [(0x08, 32), (0x18, 32), (0x20, 32), (0x28, 32), (0x30, 32), (0x38, 64)])
    (hl : iNdEx + 1 + rest.length ≤ l)
    (hr : readVarint width l 0 0 (iNdEx + 1) rest = Result.error err) :
    Market.Unmarshal.loop l (fuel + 1) m iNdEx (t :: rest) = Result.error err := by
  have ht128 : t < 128 := by
    simp only [List.mem_cons, Prod.mk.injEq, List.mem_singleton, List.not_mem_nil,
      or_false] at ht
    omega
  rw [Market.Unmarshal.loop, if_neg (by omega)]
  dsimp only
  rw [Market_readVarint_tag l t iNdEx rest ht128 hl]
  dsimp only
  simp only [List.mem_cons, Prod.mk.injEq, List.mem_singleton, List.not_mem_nil,
    or_false] at ht
  rcases ht with ⟨rfl, rfl⟩ | ⟨rfl, rfl⟩ | ⟨rfl, rfl⟩ | ⟨rfl, rfl⟩ | ⟨rfl, rfl⟩ | ⟨rfl, rfl⟩
  · have h1 : toInt32 ((0x08 >>> 3 : Nat) : Int) = 1 := by decide
    have h2 : 0x08 &&& 0x7 = 0 := by decide
    simp only [h1, h2, hr]
    simp
  · have h1 : toInt32 ((0x18 >>> 3 : Nat) : Int) = 3 := by decide
    have h2 : 0x18 &&& 0x7 = 0 := by decide
    simp only [h1, h2, hr]
    simp
  · have h1 : toInt32 ((0x20 >>> 3 : Nat) : Int) = 4 := by decide
    have h2 : 0x20 &&& 0x7 = 0 := by decide
    simp only [h1, h2, hr]
    simp
  · have h1 : toInt32 ((0x28 >>> 3 : Nat) : Int) = 5 := by decide
    have h2 : 0x28 &&& 0x7 = 0 := by decide
    simp only [h1, h2, hr]
    simp
  · have h1 : toInt32 ((0x30 >>> 3 : Nat) : Int) = 6 := by decide
    have h2 : 0x30 &&& 0x7 = 0 := by decide
    simp only [h1, h2, hr]
    simp
  · have h1 : toInt32 ((0x38 >>> 3 : Nat) : Int) = 7 := by decide
    have h2 : 0x38 &&& 0x7 = 0 := by decide
    simp only [h1, h2, hr]
    simp

/-- A buffer that ends inside the varint of a tag is rejected. -/
theorem Market_Unmarshal_tag_unterminated (m : Market) (bs : List Nat) (hne : bs ≠ [])
    (hb : ∀ b ∈ bs, 128 ≤ b) (hlen : bs.length < 10) :
    Market.Unmarshal m bs = Result.error WireError.ErrUnexpectedEOF := by
  unfold Market.Unmarshal
  obtain ⟨n, hn⟩ : ∃ n, bs.length = n + 1 :=
    ⟨bs.length - 1, by have := List.length_pos.mpr hne; omega⟩
  rw [hn]
  exact Market_loop_tag_error (n + 1) n 0 m bs _ (by omega)
    (readVarint_unterminated 64 (n + 1) bs 0 0 0 hb (by omega) (by omega))

/-- A buffer that ends inside the varint of a value is rejected. -/
theorem Market_Unmarshal_value_unterminated (m : Market) (t width : Nat) (bs : List Nat)
    (ht : (t, width) ∈ [(0x08, 32), (0x18, 32), (0x20, 32), (0x28, 32), (0x30, 32), (0x38, 64)])
    (hb : ∀ b ∈ bs, 128 ≤ b) (hlen : bs.length < 10) :
    Market.Unmarshal m (t :: bs) = Result.error WireError.ErrUnexpectedEOF := by
  unfold Market.Unmarshal
  simp only [List.length_cons]
  exact Market_loop_value_error (bs.length + 1) bs.length 0 t width m bs _ ht (by omega)
    (readVarint_unterminated width (bs.length + 1) bs 0 0 (0 + 1) hb (by omega) (by omega))

/-- A tag whose varint has more than ten bytes is rejected. -/
theorem Market_Unmarshal_tag_overflow (m : Market) (bs rest : List Nat)
    (hb : ∀ b ∈ bs, 128 ≤ b) (hlen : bs.length = 10) :
    Market.Unmarshal m (bs ++ rest) = Result.error WireError.ErrIntOverflowMarket := by
  unfold Market.Unmarshal
  obtain ⟨n, hn⟩ : ∃ n, (bs ++ rest).length = n + 1 :=
    ⟨(bs ++ rest).length - 1, by simp only [List.length_append]; omega⟩
  rw [hn]
  exact Market_loop_tag_error (n + 1) n 0 m _ _ (by omega)
    (readVarint_overflow 64 (n + 1) bs 0 0 0 rest hb
      (by simp only [List.length_append] at hn; omega) (by omega))

/-- A value whose varint has more than ten bytes is rejected. -/
theorem Market_Unmarshal_value_overflow (m : Market) (t width : Nat) (bs rest : List Nat)
    (ht : (t, width) ∈ [(0x08, 32), (0x18, 32), (0x20, 32), (0x28, 32), (0x30, 32), (0x38, 64)])
    (hb : ∀ b ∈ bs, 128 ≤ b) (hlen : bs.length = 10) :
    Market.Unmarshal m (t :: (bs ++ rest)) = Result.error WireError.ErrIntOverflowMarket := by
  unfold Market.Unmarshal
  simp only [List.length_cons]
  exact Market_loop_value_error ((bs ++ rest).length + 1) (bs ++ rest).length 0 t width m
    (bs ++ rest) _ ht (by omega)
    (readVarint_overflow width ((bs ++ rest).length + 1) bs 0 0 (0 + 1) rest hb
      (by simp only [List.length_append]; omega) (by omega))

/-- A length-delimited field, the pair or the packed exchanges, whose declared
length runs past the end of the data is rejected. -/
theorem Market_Unmarshal_length_past_end (m : Market) (t n : Nat) (body : List Nat)
    (ht : t = 0x12 ∨ t = 0x22) (hn : n < 2 ^ 64) (hbody : body.length < n) :
    Market.Unmarshal m (t :: (varintBytes n ++ body)) =
      Result.error
        (if 2 ^ 63 ≤ n ∨ 2 ^ 63 ≤ 1 + (varintBytes n).length + n then
          WireError.ErrInvalidLengthMarket
        else WireError.ErrUnexpectedEOF) := by
  unfold Market.Unmarshal
  simp only [List.length_cons, List.length_append]
  rw [Market.Unmarshal.loop, if_neg (by omega)]
  dsimp only
  have ht128 : t < 128 := by omega
  rw [Market_readVarint_tag _ t 0 (varintBytes n ++ body) ht128
    (by simp only [List.length_append]; omega)]
  dsimp only
  rw [Market_readVarint_value 64 _ n (0 + 1) body hn (le_refl _) (by omega)]
  rcases ht with rfl | rfl
  · have h1 : toInt32 ((0x12 >>> 3 : Nat) : Int) = 2 := by decide
    have h2 : 0x12 &&& 0x7 = 2 := by decide
    simp only [h1, h2]
    by_cases c1 : 9223372036854775808 ≤ n
    · simp [c1]
    · by_cases c2 : 9223372036854775808 ≤ 1 + (varintBytes n).length + n
      · have c3 : 9223372036854775808 ≤ 0 + 1 + (varintBytes n).length + n := by omega
        simp [c1, c2, c3]
      · have c3 : ¬ 9223372036854775808 ≤ 0 + 1 + (varintBytes n).length + n := by omega
        have c4 : (varintBytes n).length + body.length + 1 < 1 + (varintBytes n).length + n := by
          omega
        simp [c1, c2, c4]
  · have h1 : toInt32 ((0x22 >>> 3 : Nat) : Int) = 4 := by decide
    have h2 : 0x22 &&& 0x7 = 2 := by decide
    simp only [h1, h2]
    by_cases c1 : 9223372036854775808 ≤ n
    · simp [c1]
    · by_cases c2 : 9223372036854775808 ≤ 1 + (varintBytes n).length + n
      · have c3 : 9223372036854775808 ≤ 0 + 1 + (varintBytes n).length + n := by omega
        simp [c1, c2, c3]
      · have c3 : ¬ 9223372036854775808 ≤ 0 + 1 + (varintBytes n).length + n := by omega
        have c4 : (varintBytes n).length + body.length + 1 < 1 + (varintBytes n).length + n := by
          omega
        simp [c1, c2, c4]

/-- A tag with the field number 0 is rejected. -/
theorem Market_Unmarshal_field_zero (m : Market) (t : Nat) (rest : List Nat) (ht : t < 8) :
    Market.Unmarshal m (t :: rest) =
      Result.error
        (if t = 4 then WireError.WiretypeEndGroupForNonGroup else WireError.IllegalTag) := by
  unfold Market.Unmarshal
  simp only [List.length_cons]
  rw [Market.Unmarshal.loop, if_neg (by omega)]
  dsimp only
  rw [Market_readVarint_tag _ t 0 rest (by omega) (by omega)]
  dsimp only
  have h1 : toInt32 ((t >>> 3 : Nat) : Int) = 0 := by
    rw [Nat.shiftRight_eq_div_pow, Nat.div_eq_of_lt (by omega)]
    rfl
  have h2 : t &&& 0x7 = t := by
    have := Nat.and_pow_two_sub_one_eq_mod t 3
    simp only [Nat.reducePow, Nat.add_one_sub_one] at this
    rw [this]
    omega
  rw [h1, h2]
  by_cases h4 : t = 4
  · rw [if_pos h4, if_pos h4]
  · rw [if_neg h4, if_neg h4, if_pos (le_refl _)]

/-- A tag with the end-group wire type is rejected, whatever its field
number. -/
theorem Market_Unmarshal_end_group (m : Market) (fieldNum : Nat) (rest : List Nat)
    (hf : 8 * fieldNum + 4 < 2 ^ 64) :
    Market.Unmarshal m (varintBytes (8 * fieldNum + 4) ++ rest) =
      Result.error WireError.WiretypeEndGroupForNonGroup := by
  unfold Market.Unmarshal
  have hpos := varintBytes_length_pos (8 * fieldNum + 4)
  obtain ⟨n, hn⟩ : ∃ n, (varintBytes (8 * fieldNum + 4) ++ rest).length = n + 1 :=
    ⟨(varintBytes (8 * fieldNum + 4) ++ rest).length - 1, by
      simp only [List.length_append]; omega⟩
  rw [hn, Market.Unmarshal.loop, if_neg (by omega)]
  dsimp only
  rw [Market_readVarint_value 64 _ (8 * fieldNum + 4) 0 rest hf (le_refl _)
    (by simp only [List.length_append] at hn; omega)]
  dsimp only
  have h2 : (8 * fieldNum + 4) &&& 0x7 = 4 := by
    have := Nat.and_pow_two_sub_one_eq_mod (8 * fieldNum + 4) 3
    simp only [Nat.reducePow, Nat.add_one_sub_one] at this
    rw [this]
    omega
  rw [h2, if_pos rfl]

/-! ## Wire format of `Market`: round trip, size, zigzag and totality -/

/-- C33: protobuf round trip of `Market`. For every market whose fields are in
the range of their Go types and whose encoding has a length that fits an
`int`, `Marshal` returns bytes, without a panic, and `Unmarshal` of these bytes
into the empty message returns, with a nil error, the market itself, field by
field, the exchanges as the nil slice when there are none. The bytes are the
wire format, in which a field with its zero value is left out, and the zero
market encodes to the empty byte string. -/
theorem Market_roundtrip (m : Market)
    (hId : m.Id < 2 ^ 32) (hExponent : -2 ^ 31 ≤ m.Exponent ∧ m.Exponent < 2 ^ 31)
    (hExchanges : ∀ e ∈ m.Exchanges.getD [], e < 2 ^ 32)
    (hMinExchanges : m.MinExchanges < 2 ^ 32)
    (hMinPriceChangePpm : m.MinPriceChangePpm < 2 ^ 32) (hPrice : m.Price < 2 ^ 64)
    (hSize : m.Size < 2 ^ 63) :
    (∃ bytes, m.Marshal = Outcome.ret bytes ∧ bytes = m.wire ∧
      Market.Unmarshal Market.empty bytes =
        Result.ok { m with
          Exchanges := if m.Exchanges.getD [] = [] then none else m.Exchanges }) ∧
    Market.empty.Marshal = Outcome.ret [] := by
  refine ⟨⟨m.wire, Market_Marshal_eq m hExponent hExchanges, rfl, ?_⟩, rfl⟩
  rw [Market_Size_eq m hExponent] at hSize
  exact Market_Unmarshal_wire m hId hExponent hExchanges hMinExchanges hMinPriceChangePpm
    hPrice hSize

theorem Market_roundtrip_witness :
    (∃ bytes, btcUsdMarket.Marshal = Outcome.ret bytes ∧ bytes = btcUsdMarket.wire ∧
      Market.Unmarshal Market.empty bytes =
        Result.ok { btcUsdMarket with
          Exchanges :=
            if btcUsdMarket.Exchanges.getD [] = [] then none else btcUsdMarket.Exchanges }) ∧
    Market.empty.Marshal = Outcome.ret [] :=
  Market_roundtrip btcUsdMarket (by decide) (by decide) (by decide) (by decide) (by decide)
    (by decide) (by decide)

/-- C34: size and marshalling of `Market`. For every market whose exponent is
an `int32` and whose exchanges are `uint32`, `MarshalToSizedBuffer` writes,
without a panic, exactly `Size()` bytes: the wire format, in which the fields
stand in ascending order of their numbers. `Marshal`, which gives it a buffer
of `Size()` bytes, returns these bytes. For the exponent `Size` takes the
length of the 64-bit zigzag value of the sign-extended exponent, which is the
length of the 32-bit zigzag value that is written, also when the exponent is
negative. -/
theorem Market_Size_Marshal (m : Market)
    (hExponent : -2 ^ 31 ≤ m.Exponent ∧ m.Exponent < 2 ^ 31)
    (hExchanges : ∀ e ∈ m.Exchanges.getD [], e < 2 ^ 32) :
    (∃ written, m.MarshalToSizedBuffer = Outcome.ret written ∧ written.length = m.Size ∧
      written = m.wire ∧ m.Marshal = Outcome.ret written) ∧
    sozMarket (toUint64 m.Exponent) = sovMarket (zigzag32Encode m.Exponent) :=
  ⟨⟨m.wire, Market_MarshalToSizedBuffer_eq m hExponent hExchanges,
    (Market_Size_eq m hExponent).symm, rfl, Market_Marshal_eq m hExponent hExchanges⟩,
    sozMarket_toUint64 m.Exponent hExponent.1 hExponent.2⟩

theorem Market_Size_Marshal_witness :
    (∃ written, btcUsdMarket.MarshalToSizedBuffer = Outcome.ret written ∧
      written.length = btcUsdMarket.Size ∧
      written = btcUsdMarket.wire ∧ btcUsdMarket.Marshal = Outcome.ret written) ∧
    sozMarket (toUint64 btcUsdMarket.Exponent) =
      sovMarket (zigzag32Encode btcUsdMarket.Exponent) :=
  Market_Size_Marshal btcUsdMarket (by decide) (by decide)

/-- C35: the exponent is encoded as zigzag32. For every `int32` `e` the value
`(uint32(e) << 1) ^ uint32(e >> 31)` that `MarshalToSizedBuffer` writes is `2e`
when `e >= 0` and `-2e - 1` when `e < 0`, the value `(uint32(v) >> 1) ^
uint32(((v & 1) << 31) >> 31)` that `Unmarshal` stores for it is `e`, and a
market with this exponent alone is marshalled to the tag `0x18` and the varint
of the zigzag value, from which the exponent is unmarshalled. -/
theorem zigzag32_spec (e : Int) (hlo : -2 ^ 31 ≤ e) (hhi : e < 2 ^ 31) :
    ((zigzag32Encode e : Nat) : Int) = (if 0 ≤ e then 2 * e else -2 * e - 1) ∧
    zigzag32Decode (zigzag32Encode e) = e ∧
    Market.Marshal { Market.empty with Exponent := e } =
      Outcome.ret (if e = 0 then [] else 0x18 :: varintBytes (zigzag32Encode e)) ∧
    Market.Unmarshal Market.empty (0x18 :: varintBytes (zigzag32Encode e)) =
      Result.ok { Market.empty with Exponent := e } := by
  refine ⟨?_, zigzag32_roundtrip e hlo hhi, ?_, ?_⟩
  · rw [zigzag32Encode_eq e hlo hhi]
    split <;> omega
  · rw [Market_Marshal_eq _ ⟨hlo, hhi⟩ (by simp [Market.empty])]
    simp only [Market.wire, Market.empty]
    rw [← zigzag32Encode_eq e hlo hhi]
    by_cases h : e = 0 <;> simp [h]
  · unfold Market.Unmarshal
    have h := Market_loop_Exponent ((varintBytes (zigzag32Encode e)).length + 1)
      (varintBytes (zigzag32Encode e)).length 0 (zigzag32Encode e) Market.empty []
      (zigzag32Encode_lt e hlo hhi) (by simp only [List.length_nil]; omega)
    simp only [List.append_nil, zigzag32_roundtrip e hlo hhi] at h
    simp only [List.length_cons]
    rw [h]
    have e1 : 0 + 1 + (varintBytes (zigzag32Encode e)).length =
        (varintBytes (zigzag32Encode e)).length + 1 := by omega
    rw [e1, Market_loop_nil]

theorem zigzag32_spec_witness :
    ((zigzag32Encode (-5) : Nat) : Int) = (if (0 : Int) ≤ -5 then 2 * -5 else -2 * -5 - 1) ∧
    zigzag32Decode (zigzag32Encode (-5)) = -5 ∧
    Market.Marshal { Market.empty with Exponent := -5 } =
      Outcome.ret (if (-5 : Int) = 0 then [] else 0x18 :: varintBytes (zigzag32Encode (-5))) ∧
    Market.Unmarshal Market.empty (0x18 :: varintBytes (zigzag32Encode (-5))) =
      Result.ok { Market.empty with Exponent := -5 } :=
  zigzag32_spec (-5) (by decide) (by decide)

/-- C36: `Market.Unmarshal` is total. On every input, into every message, it
returns a message or an error when its loop is given one round for every byte
of the input, and does not index outside the input. It rejects a buffer that
ends inside the varint of a tag or of a value, a pair or packed exchanges whose
declared length runs past the end of the input, a tag or a value whose varint
has more than ten bytes, a tag with the field number 0 and a tag with the
end-group wire type. -/
theorem Market_Unmarshal_total (m : Market) :
    (∀ dAtA : List Nat,
      (∃ r, Market.Unmarshal m dAtA = Result.ok r) ∨
      (∃ err, Market.Unmarshal m dAtA = Result.error err)) ∧
    (∀ bs : List Nat, bs ≠ [] → (∀ b ∈ bs, 128 ≤ b) → bs.length < 10 →
      Market.Unmarshal m bs = Result.error WireError.ErrUnexpectedEOF) ∧
    (∀ (t width : Nat) (bs : List Nat),
      (t, width) ∈ [(0x08, 32), (0x18, 32), (0x20, 32), (0x28, 32), (0x30, 32), (0x38, 64)] →
      (∀ b ∈ bs, 128 ≤ b) → bs.length < 10 →
      Market.Unmarshal m (t :: bs) = Result.error WireError.ErrUnexpectedEOF) ∧
    (∀ (t n : Nat) (body : List Nat), t = 0x12 ∨ t = 0x22 → n < 2 ^ 64 → body.length < n →
      Market.Unmarshal m (t :: (varintBytes n ++ body)) =
        Result.error
          (if 2 ^ 63 ≤ n ∨ 2 ^ 63 ≤ 1 + (varintBytes n).length + n then
            WireError.ErrInvalidLengthMarket
          else WireError.ErrUnexpectedEOF)) ∧
    (∀ bs rest : List Nat, (∀ b ∈ bs, 128 ≤ b) → bs.length = 10 →
      Market.Unmarshal m (bs ++ rest) = Result.error WireError.ErrIntOverflowMarket) ∧
    (∀ (t width : Nat) (bs rest : List Nat),
      (t, width) ∈ [(0x08, 32), (0x18, 32), (0x20, 32), (0x28, 32), (0x30, 32), (0x38, 64)] →
      (∀ b ∈ bs, 128 ≤ b) → bs.length = 10 →
      Market.Unmarshal m (t :: (bs ++ rest)) = Result.error WireError.ErrIntOverflowMarket) ∧
    (∀ (t : Nat) (rest : List Nat), t < 8 →
      Market.Unmarshal m (t :: rest) =
        Result.error
          (if t = 4 then WireError.WiretypeEndGroupForNonGroup else WireError.IllegalTag)) ∧
    (∀ (fieldNum : Nat) (rest : List Nat), 8 * fieldNum + 4 < 2 ^ 64 →
      Market.Unmarshal m (varintBytes (8 * fieldNum + 4) ++ rest) =
        Result.error WireError.WiretypeEndGroupForNonGroup) := by
  refine ⟨?_, Market_Unmarshal_tag_unterminated m,
    fun t width bs => Market_Unmarshal_value_unterminated m t width bs,
    fun t n body => Market_Unmarshal_length_past_end m t n body,
    Market_Unmarshal_tag_overflow m,
    fun t width bs rest => Market_Unmarshal_value_overflow m t width bs rest,
    Market_Unmarshal_field_zero m, Market_Unmarshal_end_group m⟩
  intro dAtA
  have h := Market_Unmarshal_settled m dAtA
  cases hr : Market.Unmarshal m dAtA with
  | ok r => exact Or.inl ⟨r, rfl⟩
  | error err => exact Or.inr ⟨err, rfl⟩
  | panic reason =>
    rw [hr] at h
    exact absurd h (by simp [Result.returns])
  | outOfFuel =>
    rw [hr] at h
    exact absurd h (by simp [Result.returns])

theorem Market_Unmarshal_total_witness :
    Market.Unmarshal Market.empty [0x80, 0x80] = Result.error WireError.ErrUnexpectedEOF ∧
    Market.Unmarshal Market.empty [0x38, 0xff] = Result.error WireError.ErrUnexpectedEOF ∧
    Market.Unmarshal Market.empty (0x12 :: (varintBytes 5 ++ [66, 84])) =
      Result.error
        (if 2 ^ 63 ≤ 5 ∨ 2 ^ 63 ≤ 1 + (varintBytes 5).length + 5 then
          WireError.ErrInvalidLengthMarket
        else WireError.ErrUnexpectedEOF) ∧
    Market.Unmarshal Market.empty
        ([0x80, 0x80, 0x80, 0x80, 0x80, 0x80, 0x80, 0x80, 0x80, 0x80] ++ [0x01]) =
      Result.error WireError.ErrIntOverflowMarket ∧
    Market.Unmarshal Market.empty
        (0x38 :: ([0xff, 0xff, 0xff, 0xff, 0xff, 0xff, 0xff, 0xff, 0xff, 0xff] ++ [0x01])) =
      Result.error WireError.ErrIntOverflowMarket ∧
    Market.Unmarshal Market.empty (0x00 :: [0x01]) =
      Result.error
        (if 0 = 4 then WireError.WiretypeEndGroupForNonGroup else WireError.IllegalTag) ∧
    Market.Unmarshal Market.empty (varintBytes (8 * 1 + 4) ++ []) =
      Result.error WireError.WiretypeEndGroupForNonGroup :=
  ⟨(Market_Unmarshal_total Market.empty).2.1 [0x80, 0x80] (by decide) (by decide) (by decide),
    (Market_Unmarshal_total Market.empty).2.2.1 0x38 64 [0xff] (by decide) (by decide)
      (by decide),
    (Market_Unmarshal_total Market.empty).2.2.2.1 0x12 5 [66, 84] (Or.inl rfl) (by decide)
      (by decide),
    (Market_Unmarshal_total Market.empty).2.2.2.2.1
      [0x80, 0x80, 0x80, 0x80, 0x80, 0x80, 0x80, 0x80, 0x80, 0x80] [0x01] (by decide)
      (by decide),
    (Market_Unmarshal_total Market.empty).2.2.2.2.2.1 0x38 64
      [0xff, 0xff, 0xff, 0xff, 0xff, 0xff, 0xff, 0xff, 0xff, 0xff] [0x01] (by decide) (by decide)
      (by decide),
    (Market_Unmarshal_total Market.empty).2.2.2.2.2.2.1 0x00 [0x01] (by decide),
    (Market_Unmarshal_total Market.empty).2.2.2.2.2.2.2 1 [] (by decide)⟩

end PricesTypes
